import Mathlib

/-!
# Spatial-hash broad phase (`util/muda/pba/collision/spatial_hash.h`)

A shallow embedding of the sphere broad phase of muda and of the properties its
specification states about it.

Modelling conventions.

* `float` values are exact rationals (`ℚ`); the C++ conversion `float → int` is truncation
  toward zero.  Every concrete input used below is a small dyadic number on which the
  single-precision operations of the source are exact, except the division by the cell size,
  whose quotient is only truncated and lies well inside an integer interval; so the evaluations
  agree with the source.  There is no infinity or NaN: a quotient by `0` is `0`.  Where a
  property depends on the rounding itself (`cell` against the floor of the exact quotient), the
  rounding is a parameter of the definition (`cellRounded`), with `roundSingle` for IEEE 754.
* `int`, `u32` and array indices are unbounded `Int`/`Nat` wherever the source does not rely
  on wrap-around; the two places where it does (`(u32)ijk % 2` and the `u32 → int` store of
  an object id) are spelled out.
* A device buffer is its allocation (a list) together with `m_size` and `m_capacity`; what a new
  allocation holds is a parameter (`Memory`).  The `int` arrays hold keys (which the sort reads as
  unsigned), counts and offsets and are lists of `Nat`.  A `parallel_for` whose tasks write
  disjoint locations is the sequential loop over its indices.
* The headers `collide.h`, `muda/encode/morton.h` and the CUB wrappers are not part of the
  source tree.  The two overlap predicates and the hash functor are parameters
  (`collide`, `SpatialHashConfig.hash_func`); sort, run-length-encode, scan and max-reduce are
  modelled by their list semantics.
-/

namespace muda

/-! ## Geometry -/

/-- Counterpart of `Eigen::Vector3f`. -/
structure vec3 where
  x : ℚ
  y : ℚ
  z : ℚ
deriving DecidableEq

/-- Counterpart of `Eigen::Vector3i`. -/
structure ivec3 where
  i : Int
  j : Int
  k : Int
deriving DecidableEq

/-- Bounding sphere: centre `o`, radius `r`. -/
structure sphere where
  o : vec3
  r : ℚ
deriving DecidableEq

/-- Axis-aligned box given by its two corners. -/
structure AABB where
  min : vec3
  max : vec3
deriving DecidableEq

/-- The two overloads of `collide::detect` used by the broad phase.  Their header is not in the
source tree, so they are parameters of the model. -/
structure collide where
  detect : sphere → sphere → Bool
  detectAABB : sphere → AABB → Bool

/-- Componentwise sum of two integer vectors. -/
def ivec3.add (a b : ivec3) : ivec3 := ⟨a.i + b.i, a.j + b.j, a.k + b.k⟩

/-- Componentwise sum of two vectors. -/
def vec3.add (a b : vec3) : vec3 := ⟨a.x + b.x, a.y + b.y, a.z + b.z⟩

/-- The cast `(u32)n` of a signed 32-bit value. -/
def u32 (n : Int) : Nat := (n % 4294967296).toNat

/-- The store of a `u32` into an `int` (two's complement reinterpretation). -/
def u32ToInt (n : Nat) : Int := if n % 4294967296 < 2147483648 then (n % 4294967296 : Nat) else (n % 4294967296 : Nat) - 4294967296

/-- The conversion `float → int`: truncation toward zero. -/
def floatToInt (q : ℚ) : Int := Int.tdiv q.num q.den

/-! ## Cell records -/

/-- One cell-object record.  `pass`, `home`, `overlap` are the bit fields of `ctlbit`. -/
structure SpatialPartitionCell where
  pass : Nat
  home : Nat
  overlap : Nat
  cid : Nat
  oid : Nat
  ijk : ivec3
deriving DecidableEq

namespace SpatialPartitionCell

/-- The value `u32(-1)` used for `cid` and `oid` of an unused slot. -/
def invalid : Nat := 4294967295

/-- `SpatialPartitionCell(u32 cid, u32 oid)`.  The source leaves `ctlbit.pass` uninitialised;
it is `0` here and is overwritten by `setAsHome`/`setAsPhantom` on every record that is used. -/
def Cell (cid oid : Nat) : SpatialPartitionCell :=
  { pass := 0, home := 0, overlap := 0, cid := cid, oid := oid, ijk := ⟨-1, -1, -1⟩ }

/-- `isPhantom`. -/
def isPhantom (c : SpatialPartitionCell) : Bool := c.home != c.pass

/-- `isHome`. -/
def isHome (c : SpatialPartitionCell) : Bool := c.home == c.pass

/-- `passType`: the parity signature of a cell coordinate. -/
def passType (ijk : ivec3) : Nat :=
  ((u32 ijk.i % 2) <<< 2) ||| ((u32 ijk.j % 2) <<< 1) ||| ((u32 ijk.k % 2) <<< 0)

/-- `setAsPhantom`. -/
def setAsPhantom (c : SpatialPartitionCell) (home_ijk cell_ijk : ivec3) : SpatialPartitionCell :=
  { c with pass := passType cell_ijk, home := passType home_ijk }

/-- `setAsHome`. -/
def setAsHome (c : SpatialPartitionCell) (ijk : ivec3) : SpatialPartitionCell :=
  { c with home := passType ijk, pass := passType ijk,
           overlap := c.overlap ||| (1 <<< passType ijk) }

/-- `setOverlap`. -/
def setOverlap (c : SpatialPartitionCell) (ijk : ivec3) : SpatialPartitionCell :=
  { c with overlap := c.overlap ||| (1 <<< passType ijk) }

/-- `allowIgnore`, with the two-iteration loop over `{&l, &r}` unrolled. -/
def allowIgnore (l r : SpatialPartitionCell) : Bool :=
  if l.isPhantom && r.isPhantom then true
  else
    let pass := l.pass
    let common_overlap := l.overlap &&& r.overlap
    if decide (l.home < pass) && (common_overlap &&& (1 <<< l.home) != 0) then true
    else if decide (r.home < pass) && (common_overlap &&& (1 <<< r.home) != 0) then true
    else false

end SpatialPartitionCell

open SpatialPartitionCell

/-! ## Hash configuration -/

/-- `SpatialHashConfig<Hash>`; the functor `Hash` (default `morton`, header absent) is the field
`hash_func`, returning the unsigned 32-bit hash of a cell coordinate. -/
structure SpatialHashConfig where
  hash_func : ivec3 → Nat
  cellSize : ℚ
  coordMin : vec3

namespace SpatialHashConfig

/-- `hashCell(const ivec3&)`. -/
def hashCell (sh : SpatialHashConfig) (ijk : ivec3) : Nat := sh.hash_func ijk % 0x40000000

/-- `cell`, in exact arithmetic; `cellRounded` below makes the rounding of its two
single-precision operations and the range of the conversion to `int` explicit. -/
def cell (sh : SpatialHashConfig) (xyz : vec3) : ivec3 :=
  ⟨floatToInt ((xyz.x - sh.coordMin.x) / sh.cellSize),
   floatToInt ((xyz.y - sh.coordMin.y) / sh.cellSize),
   floatToInt ((xyz.z - sh.coordMin.z) / sh.cellSize)⟩

/-- `coord`: the minimum corner of a cell. -/
def coord (sh : SpatialHashConfig) (ijk : ivec3) : vec3 :=
  ⟨ijk.i * sh.cellSize + sh.coordMin.x,
   ijk.j * sh.cellSize + sh.coordMin.y,
   ijk.k * sh.cellSize + sh.coordMin.z⟩

/-- `cellCenterCoord`. -/
def cellCenterCoord (sh : SpatialHashConfig) (ijk : ivec3) : vec3 :=
  ⟨((ijk.i : ℚ) + 1 / 2) * sh.cellSize + sh.coordMin.x,
   ((ijk.j : ℚ) + 1 / 2) * sh.cellSize + sh.coordMin.y,
   ((ijk.k : ℚ) + 1 / 2) * sh.cellSize + sh.coordMin.z⟩

end SpatialHashConfig

/-- `CollisionPair`: the two object ids. -/
structure CollisionPair where
  id0 : Int
  id1 : Int
deriving DecidableEq

/-! ## Device buffers (`muda/buffer/device_buffer.inl`) -/

/-- `DeviceBuffer<T>`: `m_data` is the allocation (what `data()` points to), of which the first
`m_size` elements are the logical contents. -/
structure DeviceBuffer (α : Type) where
  m_data : List α
  m_size : Nat
  m_capacity : Nat

namespace DeviceBuffer

/-- A default-constructed buffer: null data, size and capacity zero. -/
def empty {α : Type} : DeviceBuffer α := ⟨[], 0, 0⟩

/-- The logical contents: the first `m_size` elements of the allocation. -/
def toList {α : Type} (b : DeviceBuffer α) : List α := b.m_data.take b.m_size

/-- `mem.alloc`: a new block of `n` elements whose contents are whatever `junk` says. -/
def alloc {α : Type} (junk : Nat → α) (n : Nat) : List α := (List.range n).map junk

/-- `mem.set(ptr + off, len, 0)`: elements `off .. off + len - 1` become the all-zero value. -/
def memset {α : Type} (zero : α) (data : List α) (off len : Nat) : List α :=
  data.take off ++ List.replicate len zero ++ data.drop (off + len)

/-- `mem.copy(ptr, src, n)`: the first `n` elements of `dst` are overwritten by those of `src`. -/
def memcpy {α : Type} (dst src : List α) (n : Nat) : List α :=
  src.take n ++ dst.drop n

/-- `resize(new_size, buf_op::ignore)`: the overload with a buffer operation, at the operation
`ignore` (the `default` branch of each `switch`). -/
def resizeIgnore {α : Type} (junk : Nat → α) (b : DeviceBuffer α) (new_size : Nat) :
    DeviceBuffer α :=
  if new_size ≤ b.m_size then { b with m_size := new_size }
  else if new_size ≤ b.m_capacity then { b with m_size := new_size }
  else { m_data := alloc junk new_size, m_size := new_size, m_capacity := new_size }

/-- `resize(new_size)`: the one-argument overload. -/
def resize {α : Type} (junk : Nat → α) (zero : α) (b : DeviceBuffer α) (new_size : Nat) :
    DeviceBuffer α :=
  let old_size := b.m_size
  if new_size ≤ b.m_size then { b with m_size := new_size }
  else if new_size ≤ b.m_capacity then
    { b with m_data := memset zero b.m_data old_size (new_size - old_size), m_size := new_size }
  else
    let ptr := alloc junk new_size
    let ptr := if b.m_data.isEmpty then ptr else memcpy ptr b.m_data old_size
    let ptr := memset zero ptr old_size (new_size - old_size)
    { m_data := ptr, m_size := new_size, m_capacity := new_size }

/-- A raw write of `vals` through `data()`, starting at element 0. -/
def store {α : Type} (b : DeviceBuffer α) (vals : List α) : DeviceBuffer α :=
  { b with m_data := vals ++ b.m_data.drop vals.length }

end DeviceBuffer

/-! ## The parallel primitives -/

/-- `DeviceRadixSort::SortPairs`: a stable sort of the (key, value) pairs by ascending unsigned
key. -/
def SortPairs {α : Type} (keys : List Nat) (values : List α) : List (Nat × α) :=
  List.insertionSort (fun a b => a.1 ≤ b.1) (keys.zip values)

/-- `DeviceRunLengthEncode::Encode`: the runs of equal consecutive keys, each with its
length. -/
def Encode : List Nat → List (Nat × Nat)
  | [] => []
  | k :: ks =>
    match Encode ks with
    | [] => [(k, 1)]
    | (k', c) :: rest => if k = k' then (k, c + 1) :: rest else (k, 1) :: (k', c) :: rest

/-- The running sums `acc, acc + a₀, acc + a₀ + a₁, …`, one per input element. -/
def exclusiveSumFrom {α : Type} [Add α] (acc : α) : List α → List α
  | [] => []
  | a :: as => acc :: exclusiveSumFrom (acc + a) as

/-- `DeviceScan::ExclusiveSum`. -/
def ExclusiveSum {α : Type} [Add α] [Zero α] (l : List α) : List α := exclusiveSumFrom 0 l

/-- The lowest finite `float`, the value `DeviceReduce::Max` returns on no items. -/
def floatLowest : ℚ := -340282346638528859811704183484516925440

/-- `DeviceReduce::Max`. -/
def Max (l : List ℚ) : ℚ := l.foldl max floatLowest

/-! ## The field and its stages -/

/-- What freshly allocated device memory holds, per element type.  The source never initialises
it, so it is a parameter. -/
structure Memory where
  cells : Nat → SpatialPartitionCell
  ints : Nat → Nat
  pairs : Nat → CollisionPair

/-- `details::SpatialPartitionField<Hash>`. -/
structure SpatialPartitionField where
  spheres : List sphere
  cellArrayValue : DeviceBuffer SpatialPartitionCell
  cellArrayValueSorted : DeviceBuffer SpatialPartitionCell
  cellArrayKey : DeviceBuffer Nat
  cellArrayKeySorted : DeviceBuffer Nat
  uniqueKey : DeviceBuffer Nat
  uniqueKeyCount : Nat
  validCellCount : Int
  objCountInCell : DeviceBuffer Nat
  objCountInCellPrefixSum : DeviceBuffer Nat
  collisionPairCount : DeviceBuffer Nat
  collisionPairPrefixSum : DeviceBuffer Nat
  spatialHashConfig : SpatialHashConfig

/-- `dense1D<sphere>::operator()`; an index outside the view is undefined in the source and
reads a fixed sphere here. -/
def sphereAt (spheres : List sphere) (i : Nat) : sphere := spheres.getD i ⟨⟨0, 0, 0⟩, 0⟩

/-- The viewer read `cellArrayValueSorted(i)`; an index outside the allocation is undefined in
the source and reads an unused-slot record here. -/
def cellAt (data : List SpatialPartitionCell) (i : Nat) : SpatialPartitionCell :=
  data.getD i (Cell invalid invalid)

/-- The array `cells[7]` of the fill kernel. -/
def neighbourCells (ijk dxyz : ivec3) : List ivec3 :=
  [ijk.add ⟨dxyz.i, 0, 0⟩, ijk.add ⟨0, dxyz.j, 0⟩, ijk.add ⟨0, 0, dxyz.k⟩,
   ijk.add ⟨0, dxyz.j, dxyz.k⟩, ijk.add ⟨dxyz.i, 0, dxyz.k⟩, ijk.add ⟨dxyz.i, dxyz.j, 0⟩,
   ijk.add dxyz]

/-- The state carried through the neighbour loop of the fill kernel: the home record and the
phantom records written so far to slots `1 .. idx - 1`. -/
structure FillState where
  homeCell : SpatialPartitionCell
  phantoms : List SpatialPartitionCell

/-- The phantom record of the neighbour loop for the cell `c`: `Cell phantom(hash, objectId)`,
`setAsPhantom(ijk, c)`, `phantom.ijk = c`, `phantom.ctlbit.overlap = overlap`. -/
def phantomRecord (sh : SpatialHashConfig) (ijk : ivec3) (objectId : Nat) (c : ivec3)
    (overlap : Nat) : SpatialPartitionCell :=
  { (Cell (sh.hashCell c) objectId).setAsPhantom ijk c with ijk := c, overlap := overlap }

/-- One iteration of the neighbour loop `for(int i = 0; i < 7; ++i)`. -/
def fillStep (sh : SpatialHashConfig) (cd : collide) (proxySphere : sphere) (ijk : ivec3)
    (objectId : Nat) (st : FillState) (c : ivec3) : FillState :=
  let min := sh.coord c
  let max := min.add ⟨sh.cellSize, sh.cellSize, sh.cellSize⟩
  if cd.detectAABB proxySphere ⟨min, max⟩ then
    let homeCell := st.homeCell.setOverlap c
    let phantom := phantomRecord sh ijk objectId c homeCell.overlap
    ⟨homeCell, st.phantoms ++ [phantom]⟩
  else st

/-- The body of the fill kernel for object `i`: the eight records of row `i`. -/
def fillObject (sh : SpatialHashConfig) (cd : collide) (i : Nat) (s : sphere) :
    List SpatialPartitionCell :=
  let proxySphere : sphere := { s with r := s.r * (3 / 2) }
  let o := s.o
  let ijk := sh.cell o
  let hash := sh.hashCell ijk
  let objectId := i
  let homeCell : SpatialPartitionCell := { (Cell hash objectId).setAsHome ijk with ijk := ijk }
  let xyz := sh.cellCenterCoord ijk
  let dxyz : ivec3 :=
    ⟨if o.x > xyz.x then 1 else -1, if o.y > xyz.y then 1 else -1, if o.z > xyz.z then 1 else -1⟩
  let st := (neighbourCells ijk dxyz).foldl (fillStep sh cd proxySphere ijk objectId)
    ⟨homeCell, []⟩
  st.homeCell :: st.phantoms ++ List.replicate (7 - st.phantoms.length) (Cell invalid invalid)

/-- The `parallel_for` of the fill stage over the objects: the rows `i = 0 .. size - 1` of the
`size × 8` view, one after the other. -/
def fillRows (sh : SpatialHashConfig) (cd : collide) (spheres : List sphere) :
    List SpatialPartitionCell :=
  (List.range spheres.length).flatMap (fun i => fillObject sh cd i (sphereAt spheres i))

/-- The index pairs `(i, j)`, `i < j < size`, in the order the doubly nested loop of both passes
visits them; `body` is run at each of them. -/
def forEachPair {σ : Type} (size : Nat) (body : σ → Nat → Nat → σ) (init : σ) : σ :=
  (List.range size).foldl
    (fun s i => (List.range' (i + 1) (size - (i + 1))).foldl (fun s j => body s i j) s) init

/-- The test of both passes on the records at `offset + i` and `offset + j`. -/
def acceptPair (cd : collide) (spheres : List sphere) (sorted : List SpatialPartitionCell)
    (offset i j : Nat) : Bool :=
  let cell0 := cellAt sorted (offset + i)
  let oid0 := cell0.oid
  let cell1 := cellAt sorted (offset + j)
  let oid1 := cell1.oid
  !allowIgnore cell0 cell1 && cd.detect (sphereAt spheres oid0) (sphereAt spheres oid1)

/-- The collision pair built by pass B from the records at `offset + i` and `offset + j`. -/
def pairOf (sorted : List SpatialPartitionCell) (offset i j : Nat) : CollisionPair :=
  ⟨u32ToInt (cellAt sorted (offset + i)).oid, u32ToInt (cellAt sorted (offset + j)).oid⟩

namespace SpatialPartitionField

/-- A default-constructed field: empty buffers, `cellSize = 0`. -/
def fresh (hash_func : ivec3 → Nat) : SpatialPartitionField :=
  { spheres := [], cellArrayValue := .empty, cellArrayValueSorted := .empty,
    cellArrayKey := .empty, cellArrayKeySorted := .empty, uniqueKey := .empty,
    uniqueKeyCount := 0, validCellCount := 0, objCountInCell := .empty,
    objCountInCellPrefixSum := .empty, collisionPairCount := .empty,
    collisionPairPrefixSum := .empty,
    spatialHashConfig := { hash_func := hash_func, cellSize := 0, coordMin := ⟨0, 0, 0⟩ } }

/-- `configSpatialHash`. -/
def configSpatialHash (f : SpatialPartitionField) (coordMin : vec3) : SpatialPartitionField :=
  { f with spatialHashConfig := { f.spatialHashConfig with coordMin := coordMin } }

/-- `setCellSize`. -/
def setCellSize (f : SpatialPartitionField) (cellSize : ℚ) : SpatialPartitionField :=
  { f with spatialHashConfig := { f.spatialHashConfig with cellSize := cellSize } }

/-- `beginCalculateCellSize`. -/
def beginCalculateCellSize (f : SpatialPartitionField) : SpatialPartitionField :=
  let allRadius := f.spheres.map (fun s => s.r)
  let r := Max allRadius
  { f with spatialHashConfig := { f.spatialHashConfig with cellSize := r * (3 / 2) * (3 / 2) } }

/-- `beginFillHashCells`. -/
def beginFillHashCells (cd : collide) (mem : Memory) (f : SpatialPartitionField) :
    SpatialPartitionField :=
  let size := f.spheres.length
  let count := 8 * size
  let f : SpatialPartitionField :=
    if f.cellArrayValue.m_size < count then
      { f with
        cellArrayValue := f.cellArrayValue.resizeIgnore mem.cells count
        cellArrayKey := f.cellArrayKey.resizeIgnore mem.ints count
        cellArrayValueSorted := f.cellArrayValueSorted.resizeIgnore mem.cells count
        cellArrayKeySorted := f.cellArrayKeySorted.resizeIgnore mem.ints count
        uniqueKey := f.uniqueKey.resizeIgnore mem.ints count
        objCountInCell := f.objCountInCell.resizeIgnore mem.ints count
        objCountInCellPrefixSum := f.objCountInCellPrefixSum.resizeIgnore mem.ints count
        collisionPairCount := f.collisionPairCount.resizeIgnore mem.ints count
        collisionPairPrefixSum := f.collisionPairPrefixSum.resizeIgnore mem.ints count }
    else f
  let rows := fillRows f.spatialHashConfig cd f.spheres
  { f with
    cellArrayValue := f.cellArrayValue.store rows
    cellArrayKey := f.cellArrayKey.store (rows.map (fun c => c.cid)) }

/-- `beginSortHashCells`. -/
def beginSortHashCells (f : SpatialPartitionField) : SpatialPartitionField :=
  let n := f.spheres.length * 8
  let sorted := SortPairs (f.cellArrayKey.m_data.take n) (f.cellArrayValue.m_data.take n)
  { f with
    cellArrayKeySorted := f.cellArrayKeySorted.store (sorted.map Prod.fst)
    cellArrayValueSorted := f.cellArrayValueSorted.store (sorted.map Prod.snd) }

/-- `beginCountCollisionPerCell`. -/
def beginCountCollisionPerCell (mem : Memory) (f : SpatialPartitionField) :
    SpatialPartitionField :=
  let count := f.spheres.length * 8
  let runs := Encode (f.cellArrayKeySorted.m_data.take count)
  let f : SpatialPartitionField :=
    { f with
      uniqueKey := f.uniqueKey.store (runs.map Prod.fst)
      objCountInCell := f.objCountInCell.store (runs.map Prod.snd)
      uniqueKeyCount := runs.length }
  let h_uniqueKeyCount := f.uniqueKeyCount
  let f : SpatialPartitionField :=
    { f with
      uniqueKey := f.uniqueKey.resize mem.ints 0 h_uniqueKeyCount
      objCountInCell := f.objCountInCell.resize mem.ints 0 h_uniqueKeyCount
      objCountInCellPrefixSum := f.objCountInCellPrefixSum.resize mem.ints 0 h_uniqueKeyCount
      collisionPairCount := f.collisionPairCount.resize mem.ints 0 h_uniqueKeyCount
      collisionPairPrefixSum := f.collisionPairPrefixSum.resize mem.ints 0 h_uniqueKeyCount }
  let f : SpatialPartitionField := { f with validCellCount := (h_uniqueKeyCount : Int) - 1 }
  { f with
    objCountInCellPrefixSum :=
      f.objCountInCellPrefixSum.store (ExclusiveSum (f.objCountInCell.m_data.take h_uniqueKeyCount)) }

/-- `beginSetupSpatialDataStructure`. -/
def beginSetupSpatialDataStructure (cd : collide) (mem : Memory) (f : SpatialPartitionField)
    (boundingSphereList : List sphere) : SpatialPartitionField :=
  let f : SpatialPartitionField := { f with spheres := boundingSphereList }
  let f := if f.spatialHashConfig.cellSize ≤ 0 then f.beginCalculateCellSize else f
  let f := f.beginFillHashCells cd mem
  let f := f.beginSortHashCells
  f.beginCountCollisionPerCell mem

/-- The kernel of pass A for one bucket: the number of accepted pairs. -/
def countPairsInCell (cd : collide) (f : SpatialPartitionField) (cell : Nat) : Nat :=
  let size := f.objCountInCell.m_data.getD cell 0
  let offset := f.objCountInCellPrefixSum.m_data.getD cell 0
  forEachPair size
    (fun pairCount i j =>
      if acceptPair cd f.spheres f.cellArrayValueSorted.m_data offset i j then pairCount + 1
      else pairCount)
    0

/-- The kernel of pass B for one bucket: the accepted pairs are written to `collisionPairs` at
`pairOffset + index`.  The state is the output array and `index`. -/
def writePairsInCell (cd : collide) (f : SpatialPartitionField)
    (collisionPairs : List CollisionPair) (cell : Nat) : List CollisionPair :=
  let size := f.objCountInCell.m_data.getD cell 0
  let offset := f.objCountInCellPrefixSum.m_data.getD cell 0
  let pairOffset := f.collisionPairPrefixSum.m_data.getD cell 0
  (forEachPair size
    (fun (st : List CollisionPair × Nat) i j =>
      if acceptPair cd f.spheres f.cellArrayValueSorted.m_data offset i j then
        (st.1.set (pairOffset + st.2) (pairOf f.cellArrayValueSorted.m_data offset i j), st.2 + 1)
      else st)
    (collisionPairs, 0)).1

/-- The host read-back `memory.copy(&sum, data() + lastOffset, ...)`: defined only when the
address lies inside the allocation. -/
def readBack (data : List Nat) (lastOffset : Int) : Option Nat :=
  if lastOffset < 0 then none else data.get? lastOffset.toNat

/-- Pass A of `beginCreateCollisionPairList`: bucket `cell < validCellCount` writes its number
of accepted pairs to `collisionPairCount(cell)`. -/
def countPass (cd : collide) (f : SpatialPartitionField) : SpatialPartitionField :=
  { f with
    collisionPairCount :=
      { f.collisionPairCount with
        m_data := (List.range f.validCellCount.toNat).foldl
          (fun data cell => data.set cell (countPairsInCell cd f cell))
          f.collisionPairCount.m_data } }

/-- The scan between the passes: `ExclusiveSum` of `uniqueKeyCount` items of
`collisionPairCount` into `collisionPairPrefixSum`. -/
def scanPairCount (f : SpatialPartitionField) : SpatialPartitionField :=
  { f with
    collisionPairPrefixSum :=
      f.collisionPairPrefixSum.store
        (ExclusiveSum (f.collisionPairCount.m_data.take f.uniqueKeyCount)) }

/-- Pass B of `beginCreateCollisionPairList`: bucket `cell < validCellCount` writes its accepted
pairs into the output array. -/
def writePass (cd : collide) (f : SpatialPartitionField)
    (collisionPairs : DeviceBuffer CollisionPair) : DeviceBuffer CollisionPair :=
  { collisionPairs with
    m_data := (List.range f.validCellCount.toNat).foldl
      (fun data cell => writePairsInCell cd f data cell) collisionPairs.m_data }

/-- `beginCreateCollisionPairList`: pass A, the scan, the read-back of the total, the resize of
the output and pass B; `none` when the read-back of the total is out of range. -/
def beginCreateCollisionPairList (cd : collide) (mem : Memory) (f : SpatialPartitionField)
    (collisionPairs : DeviceBuffer CollisionPair) :
    Option (SpatialPartitionField × DeviceBuffer CollisionPair) :=
  let lastOffset : Int := (f.uniqueKeyCount : Int) - 1
  let f := f.countPass cd
  let f := f.scanPairCount
  match readBack f.collisionPairPrefixSum.m_data lastOffset with
  | none => none
  | some sum =>
    let totalCollisionPairCount := sum
    let collisionPairs := collisionPairs.resize mem.pairs ⟨0, 0⟩ totalCollisionPairCount
    some (f, f.writePass cd collisionPairs)

end SpatialPartitionField

/-- The usage of the header comment: a launcher on `field`, an optional `setCellSize`,
`configSpatialHash`, `beginSetupSpatialDataStructure` and `beginCreateCollisionPairList` into the
buffer `res`.  The result is the field after the run and the output buffer. -/
def SpatialPartitionLauncher (cd : collide) (mem : Memory) (field : SpatialPartitionField)
    (cellSize : Option ℚ) (coordMin : vec3) (spheres : List sphere)
    (res : DeviceBuffer CollisionPair) :
    Option (SpatialPartitionField × DeviceBuffer CollisionPair) :=
  let field := match cellSize with
    | some c => field.setCellSize c
    | none => field
  let field := field.configSpatialHash coordMin
  let field := field.beginSetupSpatialDataStructure cd mem spheres
  field.beginCreateCollisionPairList cd mem res

/-- The pair list a run on a default-constructed field and an empty result buffer produces. -/
def collisionPairsOf (cd : collide) (mem : Memory) (hash_func : ivec3 → Nat)
    (cellSize : Option ℚ) (coordMin : vec3) (spheres : List sphere) :
    Option (List CollisionPair) :=
  (SpatialPartitionLauncher cd mem (SpatialPartitionField.fresh hash_func) cellSize coordMin
    spheres DeviceBuffer.empty).map (fun r => r.2.toList)

/-! ## Concrete collaborators used to evaluate the model -/

/-- Squared distance of two points. -/
def sqDist (a b : vec3) : ℚ := (a.x - b.x) ^ 2 + (a.y - b.y) ^ 2 + (a.z - b.z) ^ 2

/-- The value `v` clamped to `[lo, hi]`. -/
def clamp (v lo hi : ℚ) : ℚ := max lo (min v hi)

/-- Modelled from the spec: `collide.h` is absent; the "sphere-sphere and sphere-AABB overlap
predicates: pure boolean functions" are the usual closed tests (distance of the centres against
the sum of the radii, distance of the centre to the box against the radius). -/
def exactCollide : collide where
  detect a b := decide (sqDist a.o b.o ≤ (a.r + b.r) ^ 2)
  detectAABB s b := decide (sqDist s.o
    ⟨clamp s.o.x b.min.x b.max.x, clamp s.o.y b.min.y b.max.y, clamp s.o.z b.min.z b.max.z⟩
      ≤ s.r ^ 2)

/-- The bits of `v` spread out: bit `t < n` of `v` becomes bit `3 * t` of the result. -/
def spreadBits : Nat → Nat → Nat
  | 0, _ => 0
  | n + 1, v => v % 2 + 8 * spreadBits n (v / 2)

/-- Modelled from the spec: the header of the default hash functor `morton` is absent; an
"order-sensitive integer hash of the three coordinates", here the 30-bit Morton code that
interleaves the low ten bits of the three coordinates read as unsigned values. -/
def morton (c : ivec3) : Nat :=
  spreadBits 10 (u32 c.i) + 2 * spreadBits 10 (u32 c.j) + 4 * spreadBits 10 (u32 c.k)

/-- A choice of contents for newly allocated memory, used in the evaluations. -/
def someMemory : Memory :=
  { cells := fun _ => Cell 7 7, ints := fun n => 1000 + n, pairs := fun _ => ⟨-5, -5⟩ }

/-! ## Notions used to state the properties -/

/-- The index pairs `(i, j)`, `i < j < size`, in the order `forEachPair` visits them. -/
def pairIndices (size : Nat) : List (Nat × Nat) :=
  (List.range size).flatMap (fun i => (List.range' (i + 1) (size - (i + 1))).map (fun j => (i, j)))

/-- The pairs a bucket contributes: the accepted index pairs, in loop order. -/
def acceptedPairs (cd : collide) (spheres : List sphere) (sorted : List SpatialPartitionCell)
    (offset size : Nat) : List CollisionPair :=
  ((pairIndices size).filter (fun p => acceptPair cd spheres sorted offset p.1 p.2)).map
    (fun p => pairOf sorted offset p.1 p.2)

/-- The sphere-AABB test the fill kernel makes for the neighbour cell `c`: the proxy sphere
against the box `[coord c, coord c + cellSize]`. -/
def proxyOverlaps (sh : SpatialHashConfig) (cd : collide) (proxySphere : sphere) (c : ivec3) :
    Bool :=
  cd.detectAABB proxySphere
    ⟨sh.coord c, (sh.coord c).add ⟨sh.cellSize, sh.cellSize, sh.cellSize⟩⟩

/-- The vector `dxyz` of the fill kernel: `+1` on the axes where the centre lies strictly beyond
the centre of its home cell, `-1` on the others. -/
def octant (sh : SpatialHashConfig) (s : sphere) : ivec3 :=
  let xyz := sh.cellCenterCoord (sh.cell s.o)
  ⟨if s.o.x > xyz.x then 1 else -1, if s.o.y > xyz.y then 1 else -1,
   if s.o.z > xyz.z then 1 else -1⟩

/-- The record `r` is not an unused slot. -/
def IsUsed (r : SpatialPartitionCell) : Prop := r.cid ≠ invalid

instance (r : SpatialPartitionCell) : Decidable (IsUsed r) :=
  inferInstanceAs (Decidable (r.cid ≠ invalid))

/-- The record `r` is one of the used records (home or phantom) that the fill kernel writes for
object `n` of `spheres`. -/
def IsRecordOf (sh : SpatialHashConfig) (cd : collide) (spheres : List sphere) (n : Nat)
    (r : SpatialPartitionCell) : Prop :=
  n < spheres.length ∧ r ∈ fillObject sh cd n (sphereAt spheres n) ∧ IsUsed r

/-- The home cell of object `n`: the cell of its centre. -/
def homeCellOf (sh : SpatialHashConfig) (spheres : List sphere) (n : Nat) : ivec3 :=
  sh.cell (sphereAt spheres n).o

/-- The hash configuration a run on a default-constructed field uses: the cell size given to
`setCellSize` if one was given and it is positive, the computed one otherwise. -/
def runConfig (hash_func : ivec3 → Nat) (cellSize : Option ℚ) (coordMin : vec3)
    (spheres : List sphere) : SpatialHashConfig :=
  { hash_func := hash_func
    cellSize :=
      if cellSize.getD 0 ≤ 0 then Max (spheres.map (fun s => s.r)) * (3 / 2) * (3 / 2)
      else cellSize.getD 0
    coordMin := coordMin }

/-- The (key, record) pairs after the sort stage. -/
def sortedRows (sh : SpatialHashConfig) (cd : collide) (spheres : List sphere) :
    List (Nat × SpatialPartitionCell) :=
  SortPairs ((fillRows sh cd spheres).map (fun c => c.cid)) (fillRows sh cd spheres)

/-- The records after the sort stage. -/
def sortedCells (sh : SpatialHashConfig) (cd : collide) (spheres : List sphere) :
    List SpatialPartitionCell :=
  (sortedRows sh cd spheres).map Prod.snd

/-- The buckets after the count stage: every unique key with the number of its records. -/
def bucketRuns (sh : SpatialHashConfig) (cd : collide) (spheres : List sphere) :
    List (Nat × Nat) :=
  Encode ((sortedRows sh cd spheres).map Prod.fst)

/-- The offset of bucket `b` in the sorted array: the number of records in the buckets before
it. -/
def bucketOffset (sh : SpatialHashConfig) (cd : collide) (spheres : List sphere) (b : Nat) :
    Nat :=
  (((bucketRuns sh cd spheres).map Prod.snd).take b).sum

/-- The number of records of bucket `b`. -/
def bucketCount (sh : SpatialHashConfig) (cd : collide) (spheres : List sphere) (b : Nat) :
    Nat :=
  ((bucketRuns sh cd spheres).map Prod.snd).getD b 0

/-- The field on which a run starts: default-constructed, then the optional `setCellSize` and
`configSpatialHash`. -/
def configured (hash_func : ivec3 → Nat) (cellSize : Option ℚ) (coordMin : vec3) :
    SpatialPartitionField :=
  (match cellSize with
    | some c => (SpatialPartitionField.fresh hash_func).setCellSize c
    | none => SpatialPartitionField.fresh hash_func).configSpatialHash coordMin

/-- The pairs bucket `b` contributes in a run on a default-constructed field. -/
def bucketPairs (sh : SpatialHashConfig) (cd : collide) (spheres : List sphere) (b : Nat) :
    List CollisionPair :=
  acceptedPairs cd spheres (sortedCells sh cd spheres) (bucketOffset sh cd spheres b)
    (bucketCount sh cd spheres b)

/-- The hash keeps cells of different parity signature in different buckets: two cells with the
same bucket id have the same pass type.  A hash that interleaves the coordinate bits, such as
`morton`, has this property. -/
def ParityRespecting (hash_func : ivec3 → Nat) : Prop :=
  ∀ c c' : ivec3, hash_func c % 0x40000000 = hash_func c' % 0x40000000 → passType c = passType c'

/-- Object `n` has a used record in the cell `c`. -/
def HasRecordIn (sh : SpatialHashConfig) (cd : collide) (spheres : List sphere) (n : Nat)
    (c : ivec3) : Prop :=
  ∃ r, IsRecordOf sh cd spheres n r ∧ r.ijk = c

/-- At least one of the `8 * N` slots written by the fill stage is an unused slot. -/
def SomeSlotUnused (sh : SpatialHashConfig) (cd : collide) (spheres : List sphere) : Prop :=
  ∃ r ∈ fillRows sh cd spheres, r.cid = invalid

/-- The pair of objects `a`, `b` is not ignorable in the cell `c`: both have a used record
there and `allowIgnore` is false on the two records. -/
def NotIgnoredIn (sh : SpatialHashConfig) (cd : collide) (spheres : List sphere) (a b : Nat)
    (c : ivec3) : Prop :=
  ∃ ra rb, IsRecordOf sh cd spheres a ra ∧ IsRecordOf sh cd spheres b rb ∧ ra.ijk = c ∧
    rb.ijk = c ∧ allowIgnore ra rb = false

/-- The field after `beginSetupSpatialDataStructure` of a run on a default-constructed
field. -/
def setupOf (cd : collide) (mem : Memory) (hash_func : ivec3 → Nat) (cellSize : Option ℚ)
    (coordMin : vec3) (spheres : List sphere) : SpatialPartitionField :=
  (configured hash_func cellSize coordMin).beginSetupSpatialDataStructure cd mem spheres

/-! ## Inputs used in the evaluations

All with radius 4, origin `(0, 0, 0)` and the computed cell size `4 * 1.5 * 1.5 = 9`. -/

/-- Two overlapping spheres in the home cell `(1, 1, 1)`, both on the side of its corner
`(9, 9, 9)`; they share the home cell and six neighbour cells. -/
def pairSameOctant : List sphere := [⟨⟨13, 13, 13⟩, 4⟩, ⟨⟨12, 12, 12⟩, 4⟩]

/-- Two overlapping spheres on a line parallel to the x axis, centres 6 apart, with home cells
`(2, 1, 1)` and `(3, 1, 1)`. -/
def pairInLine : List sphere := [⟨⟨26, 13, 13⟩, 4⟩, ⟨⟨32, 13, 13⟩, 4⟩]

/-- Two overlapping spheres with the diagonally adjacent home cells `(1, 1, 1)` and
`(2, 2, 1)`. -/
def pairDiagonal : List sphere :=
  [⟨⟨35 / 2, 13, 53 / 4⟩, 4⟩, ⟨⟨91 / 4, 37 / 2, 53 / 4⟩, 4⟩]

/-- Two spheres that do not overlap, with home cells `(1, 1, 1)` and `(3, 1, 1)`, whose proxy
spheres both reach the cell `(2, 1, 1)` between them. -/
def pairApart : List sphere := [⟨⟨17, 13, 13⟩, 4⟩, ⟨⟨28, 13, 13⟩, 4⟩]

/-- Two overlapping spheres next to the corner `(9, 9, 9)` of their home cell `(1, 1, 1)`; the
proxy sphere of each overlaps all seven neighbour cells. -/
def pairAtCorner : List sphere := [⟨⟨19 / 2, 19 / 2, 19 / 2⟩, 4⟩, ⟨⟨10, 10, 10⟩, 4⟩]

/-! ## Runs on a reused field and further inputs -/

/-- The input of the scenario of the specification: three spheres of radius 1 centred at
`(0, 0, 0)`, `(0.5, 0, 0)` and `(10, 10, 10)`. -/
def threeSpheres : List sphere :=
  [⟨⟨0, 0, 0⟩, 1⟩, ⟨⟨1 / 2, 0, 0⟩, 1⟩, ⟨⟨10, 10, 10⟩, 1⟩]

/-- Two overlapping spheres of radius 1 in the middle of the cell `(1, 1, 1)` of a grid of cell
size 9: their proxy spheres reach no neighbour cell, so each has its home record only. -/
def pairInMiddle : List sphere := [⟨⟨13, 13, 13⟩, 1⟩, ⟨⟨14, 14, 14⟩, 1⟩]

/-- Successive runs with one field object and one result buffer, as an application does frame
after frame: the usage sequence, with the same cell-size setting and origin every time, first on
a default-constructed field and an empty result buffer with the first list, then on the field
and the buffer the previous run left with the next list.  The result is the field and the
result buffer after the last run. -/
def successiveRuns (cd : collide) (mem : Memory) (hash_func : ivec3 → Nat) (cellSize : Option ℚ)
    (coordMin : vec3) (lists : List (List sphere)) :
    Option (SpatialPartitionField × DeviceBuffer CollisionPair) :=
  lists.foldl
    (fun st spheres =>
      match st with
      | none => none
      | some r => SpatialPartitionLauncher cd mem r.1 cellSize coordMin spheres r.2)
    (some (SpatialPartitionField.fresh hash_func, DeviceBuffer.empty))

/-- The pair list of the last of the successive runs on `lists`. -/
def reusedPairsOf (cd : collide) (mem : Memory) (hash_func : ivec3 → Nat) (cellSize : Option ℚ)
    (coordMin : vec3) (lists : List (List sphere)) : Option (List CollisionPair) :=
  (successiveRuns cd mem hash_func cellSize coordMin lists).map (fun r => r.2.toList)

/-- The field after `beginSetupSpatialDataStructure` of a run on `second` with the field a run
on `first` left behind. -/
def reusedSetupOf (cd : collide) (mem : Memory) (hash_func : ivec3 → Nat) (cellSize : Option ℚ)
    (coordMin : vec3) (first second : List sphere) : Option SpatialPartitionField :=
  (successiveRuns cd mem hash_func cellSize coordMin [first]).map
    (fun r =>
      ((match cellSize with
        | some c => r.1.setCellSize c
        | none => r.1).configSpatialHash coordMin).beginSetupSpatialDataStructure cd mem second)

/-- The allocation of the buffer holds `m_capacity` elements, of which the first `m_size` are in
use: the state every sequence of `resize` calls leaves a buffer in. -/
def DeviceBuffer.WellFormed {α : Type} (b : DeviceBuffer α) : Prop :=
  b.m_data.length = b.m_capacity ∧ b.m_size ≤ b.m_capacity

/-! ## Further parts of the sources -/

namespace CollisionPair

/-- `operator<` of `CollisionPair`. -/
def operatorLt (l r : CollisionPair) : Bool :=
  decide (l.id0 < r.id0) || (decide (l.id0 = r.id0) && decide (l.id1 < r.id1))

/-- `operator==` of `CollisionPair`. -/
def operatorEq (l r : CollisionPair) : Bool :=
  decide (l.id0 = r.id0) && decide (l.id1 = r.id1)

end CollisionPair

/-- The viewer `csr<T>` (`muda/viewer/csr.h`): the three arrays it points to and its
dimensions. -/
structure csr (α : Type) where
  rowPtr : List Int
  colIdx : List Int
  values : List α
  rows : Int
  cols : Int
  nnz : Int

namespace csr

/-- The read `p[i]` through a raw pointer with an `int` index: defined only inside the array. -/
def readAt {β : Type} (p : List β) (i : Int) : Option β :=
  if i < 0 then none else p.get? i.toNat

/-- The loop `for(int i = rowPtr_[row]; i < rowPtr_[row + 1]; i++)` of `operator()`, with `n`
iterations left at index `i`: the value at the first index whose column is `col`, and `0` when
the loop runs out. -/
def scanRow {α : Type} [Zero α] (m : csr α) (col : Int) : Nat → Int → Option α
  | 0, _ => some 0
  | n + 1, i =>
    match readAt m.colIdx i with
    | none => none
    | some c => if c = col then readAt m.values i else scanRow m col n (i + 1)

/-- `operator()(int row, int col)`; `checkRange` only reports in debug builds and is left
out. -/
def operatorCall {α : Type} [Zero α] (m : csr α) (row col : Int) : Option α :=
  match readAt m.rowPtr row, readAt m.rowPtr (row + 1) with
  | some lo, some hi => scanRow m col (hi - lo).toNat lo
  | _, _ => none

end csr

/-- The writes `collisionPairs(pairOffset + index) = p` of the kernel of pass B for one bucket,
in the order they happen, each with its position and its value.  The loop is the one of
`writePairsInCell`; the state is the list of writes so far and `index`. -/
def writesInCell (cd : collide) (f : SpatialPartitionField) (cell : Nat) :
    List (Nat × CollisionPair) :=
  let size := f.objCountInCell.m_data.getD cell 0
  let offset := f.objCountInCellPrefixSum.m_data.getD cell 0
  let pairOffset := f.collisionPairPrefixSum.m_data.getD cell 0
  (forEachPair size
    (fun (st : List (Nat × CollisionPair) × Nat) i j =>
      if acceptPair cd f.spheres f.cellArrayValueSorted.m_data offset i j then
        (st.1 ++ [(pairOffset + st.2, pairOf f.cellArrayValueSorted.m_data offset i j)], st.2 + 1)
      else st)
    ([], 0)).1

/-- The capacities of the nine per-slot arrays of the field, in the order `cellArrayValue`,
`cellArrayKey`, `cellArrayValueSorted`, `cellArrayKeySorted`, `uniqueKey`, `objCountInCell`,
`objCountInCellPrefixSum`, `collisionPairCount`, `collisionPairPrefixSum`. -/
def perSlotCapacities (f : SpatialPartitionField) : List Nat :=
  [f.cellArrayValue.m_capacity, f.cellArrayKey.m_capacity, f.cellArrayValueSorted.m_capacity,
   f.cellArrayKeySorted.m_capacity, f.uniqueKey.m_capacity, f.objCountInCell.m_capacity,
   f.objCountInCellPrefixSum.m_capacity, f.collisionPairCount.m_capacity,
   f.collisionPairPrefixSum.m_capacity]

/-- The logical sizes of the nine per-slot arrays, in the order of `perSlotCapacities`. -/
def perSlotSizes (f : SpatialPartitionField) : List Nat :=
  [f.cellArrayValue.m_size, f.cellArrayKey.m_size, f.cellArrayValueSorted.m_size,
   f.cellArrayKeySorted.m_size, f.uniqueKey.m_size, f.objCountInCell.m_size,
   f.objCountInCellPrefixSum.m_size, f.collisionPairCount.m_size,
   f.collisionPairPrefixSum.m_size]

/-- Every per-slot array has its logical size within its capacity, and a capacity of at least
the logical size of `cellArrayValue` (the nine arrays are grown together). -/
def SlotsConsistent (f : SpatialPartitionField) : Prop :=
  List.Forall₂ (fun s c => s ≤ c) (perSlotSizes f) (perSlotCapacities f) ∧
    ∀ c ∈ perSlotCapacities f, f.cellArrayValue.m_size ≤ c

/-- The field after the fill stage of a run of the usage sequence on the field `f`. -/
def filledField (cd : collide) (mem : Memory) (f : SpatialPartitionField) (cellSize : Option ℚ)
    (coordMin : vec3) (spheres : List sphere) : SpatialPartitionField :=
  SpatialPartitionField.beginFillHashCells cd mem
    (if ((match cellSize with
          | some c => f.setCellSize c
          | none => f).configSpatialHash coordMin).spatialHashConfig.cellSize ≤ 0 then
        ({ (match cellSize with
            | some c => f.setCellSize c
            | none => f).configSpatialHash coordMin with spheres := spheres } :
          SpatialPartitionField).beginCalculateCellSize
      else { (match cellSize with
            | some c => f.setCellSize c
            | none => f).configSpatialHash coordMin with spheres := spheres })

/-! ## The other overloads of `resize` and `shrink_to_fit` -/

/-- Modelled from the spec: the header that declares the enumeration `BufferOperation`
(`buf_op`) is absent.  These are the enumerators the sources name; every `switch` on the
operation has a `default` branch, which is the branch `ignore` takes. -/
inductive BufferOperation where
  | keep
  | set
  | keep_set
  | ignore
deriving DecidableEq

namespace DeviceBuffer

/-- `resize(new_size, mem_op, setbyte)`; `byteValue` is the element all of whose bytes are
`setbyte`. -/
def resizeOp {α : Type} (junk : Nat → α) (byteValue : α) (b : DeviceBuffer α) (new_size : Nat)
    (mem_op : BufferOperation) : DeviceBuffer α :=
  let old_size := b.m_size
  if new_size ≤ b.m_size then
    match mem_op with
    | .set => { b with m_data := memset byteValue b.m_data 0 new_size, m_size := new_size }
    | _ => { b with m_size := new_size }
  else if new_size ≤ b.m_capacity then
    match mem_op with
    | .set => { b with m_data := memset byteValue b.m_data 0 new_size, m_size := new_size }
    | .keep_set =>
      { b with
        m_data := memset byteValue b.m_data old_size (new_size - old_size), m_size := new_size }
    | _ => { b with m_size := new_size }
  else
    let ptr := alloc junk new_size
    let ptr :=
      match mem_op with
      | .keep => memcpy ptr b.m_data old_size
      | .set => memset byteValue ptr 0 new_size
      | .keep_set =>
        memset byteValue (if b.m_data.isEmpty then ptr else memcpy ptr b.m_data old_size)
          old_size (new_size - old_size)
      | .ignore => ptr
    { m_data := ptr, m_size := new_size, m_capacity := new_size }

/-- `resize(new_size, value, blockDim)`: the buffer is resized without keeping its contents and
a `ParallelFor` writes `value` to the elements `0 .. new_size - 1`. -/
def resizeValue {α : Type} (junk : Nat → α) (b : DeviceBuffer α) (new_size : Nat) (value : α) :
    DeviceBuffer α :=
  let b : DeviceBuffer α :=
    if new_size ≤ b.m_capacity then { b with m_size := new_size }
    else { m_data := alloc junk new_size, m_size := new_size, m_capacity := new_size }
  { b with m_data := (List.range new_size).foldl (fun d i => d.set i value) b.m_data }

/-- `shrink_to_fit`. -/
def shrink_to_fit {α : Type} (junk : Nat → α) (b : DeviceBuffer α) : DeviceBuffer α :=
  if b.m_size < b.m_capacity then
    { m_data := memcpy (alloc junk b.m_size) b.m_data b.m_size, m_size := b.m_size,
      m_capacity := b.m_size }
  else b

end DeviceBuffer

/-- Two overlapping spheres with the adjacent home cells `(2, 1, 1)` and `(3, 1, 1)`, each on the
side of the face between the two cells: each has a phantom record in the home cell of the
other. -/
def pairAcross : List sphere := [⟨⟨26, 13, 13⟩, 4⟩, ⟨⟨28, 13, 13⟩, 4⟩]

/-! ## Single-precision arithmetic in `cell` -/

/-- The significand `m` with `2^23 ≤ m < 2^24` and the exponent `e` such that `a * 2^e0` is
`m * 2^e`, for `a > 0`; `n` bounds the number of doublings and halvings. -/
def normalize : Nat → ℚ → Int → ℚ × Int
  | 0, a, e => (a, e)
  | n + 1, a, e =>
    if a < 8388608 then normalize n (a * 2) (e - 1)
    else if 16777216 ≤ a then normalize n (a / 2) (e + 1)
    else (a, e)

/-- The integer nearest to `m ≥ 0`, a tie going to the even one. -/
def roundHalfEven (m : ℚ) : Int :=
  let f : Int := m.num / m.den
  let r : ℚ := m - f
  if r < 1 / 2 then f else if 1 / 2 < r then f + 1 else if f % 2 = 0 then f else f + 1

/-- The power `2^e` for an integer exponent. -/
def pow2 (e : Int) : ℚ := if 0 ≤ e then (2 ^ e.toNat : ℚ) else 1 / (2 ^ (-e).toNat : ℚ)

/-- The `float` that a single-precision operation returns for the exact result `q` (IEEE 754
binary32, round to nearest, ties to even: 24 significant bits).  Results outside the normal
range (overflow to infinity, subnormal numbers) are not modelled: they are rounded to 24 bits
as well. -/
def roundSingle (q : ℚ) : ℚ :=
  if q = 0 then 0
  else
    let a : ℚ := if q < 0 then -q else q
    let me := normalize 400 a 0
    (if q < 0 then -1 else 1) * (roundHalfEven me.1 : ℚ) * pow2 me.2

/-- The conversion `float → int` of C++: truncation toward zero, defined only when the
truncated value is an `int`. -/
def floatToIntChecked (q : ℚ) : Option Int :=
  if -2147483649 < q ∧ q < 2147483648 then some (floatToInt q) else none

namespace SpatialHashConfig

/-- `cell`, with the single-precision arithmetic made explicit: `fl` gives the `float` an
operation returns for its exact result (`roundSingle` for IEEE arithmetic), the subtraction and
the division are each rounded, and the conversion to `int` is defined only in the range of
`int`.  The definition `cell` is the case in which no operation rounds. -/
def cellRounded (fl : ℚ → ℚ) (sh : SpatialHashConfig) (xyz : vec3) : Option ivec3 :=
  match floatToIntChecked (fl (fl (xyz.x - sh.coordMin.x) / sh.cellSize)),
    floatToIntChecked (fl (fl (xyz.y - sh.coordMin.y) / sh.cellSize)),
    floatToIntChecked (fl (fl (xyz.z - sh.coordMin.z) / sh.cellSize)) with
  | some i, some j, some k => some ⟨i, j, k⟩
  | _, _, _ => none

end SpatialHashConfig

/-! ## Properties of the ownership predicate -/

/-- The test `common_overlap & (1 << h)` of `allowIgnore` reads bit `h`. -/
theorem and_shift_ne_zero (x h : Nat) : (x &&& (1 <<< h) != 0) = x.testBit h := by
  rw [Nat.one_shiftLeft, Nat.and_two_pow]
  cases x.testBit h <;> simp

theorem allowIgnore_true_iff (a b : SpatialPartitionCell) :
    allowIgnore a b = true ↔
      ((a.home ≠ a.pass ∧ b.home ≠ b.pass) ∨
        (a.home < a.pass ∧ (a.overlap &&& b.overlap).testBit a.home = true) ∨
        (b.home < a.pass ∧ (a.overlap &&& b.overlap).testBit b.home = true)) := by
  unfold allowIgnore isPhantom
  simp only [and_shift_ne_zero]
  by_cases h1 : a.home = a.pass <;> by_cases h2 : b.home = b.pass <;>
    by_cases h3 : a.home < a.pass <;> by_cases h4 : b.home < a.pass <;>
    cases h5 : (a.overlap &&& b.overlap).testBit a.home <;>
    cases h6 : (a.overlap &&& b.overlap).testBit b.home <;>
    simp_all

theorem allowIgnore_comm {a b : SpatialPartitionCell} (hp : a.pass = b.pass) :
    allowIgnore a b = allowIgnore b a := by
  rw [Bool.eq_iff_iff, allowIgnore_true_iff, allowIgnore_true_iff, ← hp, Nat.land_comm b.overlap]
  tauto

/-! ## The loop skeleton and the primitives -/

theorem foldl_flatMap_eq {α β σ : Type} (f : σ → β → σ) (g : α → List β) (l : List α) (init : σ) :
    (l.flatMap g).foldl f init = l.foldl (fun s a => (g a).foldl f s) init := by
  induction l generalizing init with
  | nil => rfl
  | cons a l ih => simp [List.flatMap_cons, List.foldl_append, ih]

theorem forEachPair_eq_foldl {σ : Type} (size : Nat) (body : σ → Nat → Nat → σ) (init : σ) :
    forEachPair size body init = (pairIndices size).foldl (fun s p => body s p.1 p.2) init := by
  unfold forEachPair pairIndices
  rw [foldl_flatMap_eq]
  congr 1
  funext s i
  rw [List.foldl_map]

theorem foldl_count_eq {α : Type} (p : α → Bool) (l : List α) (c : Nat) :
    l.foldl (fun n a => if p a then n + 1 else n) c = c + (l.filter p).length := by
  induction l generalizing c with
  | nil => simp
  | cons a l ih =>
    simp only [List.foldl_cons, List.filter_cons]
    by_cases h : p a = true
    · simp [h, ih]; omega
    · simp [h, ih]

theorem foldl_write_eq {α β : Type} (p : α → Bool) (mk : α → β) (off : Nat) (l : List α)
    (a : List β) (k : Nat) (h : off + k + (l.filter p).length ≤ a.length) :
    l.foldl (fun (st : List β × Nat) x => if p x then (st.1.set (off + st.2) (mk x), st.2 + 1) else st)
        (a, k) =
      (a.take (off + k) ++ (l.filter p).map mk ++ a.drop (off + k + (l.filter p).length),
        k + (l.filter p).length) := by
  induction l generalizing a k with
  | nil => simp
  | cons x l ih =>
    simp only [List.foldl_cons, List.filter_cons]
    simp only [List.filter_cons] at h
    by_cases hx : p x = true
    · simp only [hx, if_true, List.length_cons] at h ⊢
      rw [ih]
      · have hlen : off + k < a.length := by omega
        simp only [List.map_cons, Prod.mk.injEq]
        refine ⟨?_, by omega⟩
        rw [List.set_eq_take_append_cons_drop]
        simp only [hlen, if_true]
        have e1 : List.take (off + (k + 1)) (List.take (off + k) a ++ mk x :: List.drop (off + k + 1) a)
            = List.take (off + k) a ++ [mk x] := by
          rw [List.take_append_eq_append_take]
          simp [List.length_take, Nat.min_eq_left (Nat.le_of_lt hlen)]
          have : off + (k + 1) - (off + k) = 1 := by omega
          rw [this]; simp
        have e2 : List.drop (off + (k + 1) + (List.filter p l).length)
            (List.take (off + k) a ++ mk x :: List.drop (off + k + 1) a)
            = List.drop (off + k + ((List.filter p l).length + 1)) a := by
          rw [List.drop_append_eq_append_drop]
          simp [List.length_take, Nat.min_eq_left (Nat.le_of_lt hlen)]
          have h1 : off + (k + 1) + (List.filter p l).length - (off + k)
              = (List.filter p l).length + 1 := by omega
          rw [h1, List.drop_succ_cons, List.drop_drop]
          have h2 : List.take (off + k) a = [] ∨ True := Or.inr trivial
          have h3 : List.drop (off + (k + 1) + (List.filter p l).length) (List.take (off + k) a) = [] := by
            apply List.drop_eq_nil_of_le
            simp [List.length_take]; omega
          rw [h3]; simp
          congr 1; omega
        rw [e1, e2]; simp
      · simp [List.length_set]; omega
    · simp only [hx, Bool.false_eq_true, if_false] at h ⊢
      exact ih a k h

/-! ## The fill kernel -/

theorem testBit_setBit (x p q : Nat) :
    (x ||| (1 <<< p)).testBit q = (x.testBit q || decide (p = q)) := by
  rw [Nat.testBit_or, Nat.one_shiftLeft, Nat.testBit_two_pow]

theorem u32_mod_two (n : Int) : u32 n % 2 = (n % 2).toNat := by
  unfold u32
  omega

theorem passType_eq (c : ivec3) :
    passType c = 4 * (c.i % 2).toNat + 2 * (c.j % 2).toNat + (c.k % 2).toNat := by
  unfold passType
  rw [u32_mod_two, u32_mod_two, u32_mod_two]
  rcases Int.emod_two_eq c.i with h1 | h1 <;> rcases Int.emod_two_eq c.j with h2 | h2 <;>
    rcases Int.emod_two_eq c.k with h3 | h3 <;> rw [h1, h2, h3] <;> decide

theorem passType_lt (c : ivec3) : passType c < 8 := by
  rw [passType_eq]
  omega

theorem passType_inj {c c' : ivec3} (h : passType c = passType c') :
    c.i % 2 = c'.i % 2 ∧ c.j % 2 = c'.j % 2 ∧ c.k % 2 = c'.k % 2 := by
  rw [passType_eq, passType_eq] at h
  omega

theorem phantomRecord_fields (sh : SpatialHashConfig) (ijk : ivec3) (oid : Nat) (c : ivec3)
    (ov : Nat) :
    (phantomRecord sh ijk oid c ov).ijk = c ∧ (phantomRecord sh ijk oid c ov).pass = passType c ∧
      (phantomRecord sh ijk oid c ov).home = passType ijk ∧
      (phantomRecord sh ijk oid c ov).cid = sh.hashCell c ∧
      (phantomRecord sh ijk oid c ov).oid = oid ∧ (phantomRecord sh ijk oid c ov).overlap = ov :=
  ⟨rfl, rfl, rfl, rfl, rfl, rfl⟩

/-- What the neighbour loop does to the state, for any list of cells. -/
theorem fillStep_foldl (sh : SpatialHashConfig) (cd : collide) (proxy : sphere) (ijk : ivec3)
    (oid : Nat) (cs : List ivec3) (st : FillState) :
    ((cs.foldl (fillStep sh cd proxy ijk oid) st).homeCell.pass = st.homeCell.pass ∧
      (cs.foldl (fillStep sh cd proxy ijk oid) st).homeCell.home = st.homeCell.home ∧
      (cs.foldl (fillStep sh cd proxy ijk oid) st).homeCell.cid = st.homeCell.cid ∧
      (cs.foldl (fillStep sh cd proxy ijk oid) st).homeCell.oid = st.homeCell.oid ∧
      (cs.foldl (fillStep sh cd proxy ijk oid) st).homeCell.ijk = st.homeCell.ijk) ∧
    (∀ q, (cs.foldl (fillStep sh cd proxy ijk oid) st).homeCell.overlap.testBit q = true ↔
      (st.homeCell.overlap.testBit q = true ∨
        ∃ c ∈ cs, proxyOverlaps sh cd proxy c = true ∧ passType c = q)) ∧
    ∃ new, (cs.foldl (fillStep sh cd proxy ijk oid) st).phantoms = st.phantoms ++ new ∧
      new.map (fun r => r.ijk) = cs.filter (proxyOverlaps sh cd proxy) ∧
      ∀ r ∈ new, r.pass = passType r.ijk ∧ r.home = passType ijk ∧ r.cid = sh.hashCell r.ijk ∧
        r.oid = oid ∧ (∀ q, st.homeCell.overlap.testBit q = true → r.overlap.testBit q = true) ∧
        r.overlap.testBit r.pass = true ∧
        (∀ q, r.overlap.testBit q = true →
          (cs.foldl (fillStep sh cd proxy ijk oid) st).homeCell.overlap.testBit q = true) := by
  induction cs generalizing st with
  | nil =>
    refine ⟨⟨rfl, rfl, rfl, rfl, rfl⟩, ?_, [], by simp, by simp, by simp⟩
    intro q
    simp
  | cons c cs ih =>
    simp only [List.foldl_cons]
    by_cases hc : proxyOverlaps sh cd proxy c = true
    · have hstep : fillStep sh cd proxy ijk oid st c =
          ⟨st.homeCell.setOverlap c, st.phantoms ++
            [phantomRecord sh ijk oid c (st.homeCell.setOverlap c).overlap]⟩ := by
        unfold fillStep
        unfold proxyOverlaps at hc
        simp only [hc, if_true]
      rw [hstep]
      obtain ⟨hf, hbits, new, hnew, hmap, hrec⟩ := ih
        ⟨st.homeCell.setOverlap c, st.phantoms ++
            [phantomRecord sh ijk oid c (st.homeCell.setOverlap c).overlap]⟩
      refine ⟨hf, ?_, ?_⟩
      · intro q
        rw [hbits q]
        simp only [setOverlap, testBit_setBit, Bool.or_eq_true, decide_eq_true_eq,
          List.mem_cons, exists_eq_or_imp]
        constructor
        · rintro ((h | h) | h)
          · exact Or.inl h
          · exact Or.inr (Or.inl ⟨hc, h⟩)
          · exact Or.inr (Or.inr h)
        · rintro (h | ⟨-, h⟩ | h)
          · exact Or.inl (Or.inl h)
          · exact Or.inl (Or.inr h)
          · exact Or.inr h
      · refine ⟨phantomRecord sh ijk oid c (st.homeCell.setOverlap c).overlap :: new, ?_, ?_, ?_⟩
        · rw [hnew]; simp
        · simp [List.filter_cons, hc, hmap, (phantomRecord_fields sh ijk oid c _).1]
        · intro r hr
          rcases List.mem_cons.1 hr with rfl | hr
          · obtain ⟨e1, e2, e3, e4, e5, e6⟩ :=
              phantomRecord_fields sh ijk oid c (st.homeCell.setOverlap c).overlap
            refine ⟨by rw [e1, e2], e3, by rw [e1, e4], e5, ?_, ?_, ?_⟩
            · intro q hq
              rw [e6]
              simp [setOverlap, testBit_setBit, hq]
            · rw [e6, e2]
              simp [setOverlap, testBit_setBit]
            · intro q hq
              rw [hbits q]
              rw [e6] at hq
              exact Or.inl hq
          · obtain ⟨h1, h2, h3, h4, h5, h6, h7⟩ := hrec r hr
            refine ⟨h1, h2, h3, h4, ?_, h6, h7⟩
            intro q hq
            apply h5
            simp [setOverlap, testBit_setBit, hq]
    · have hstep : fillStep sh cd proxy ijk oid st c = st := by
        unfold fillStep
        unfold proxyOverlaps at hc
        simp only [hc, Bool.false_eq_true, if_false]
      rw [hstep]
      obtain ⟨hf, hbits, new, hnew, hmap, hrec⟩ := ih st
      refine ⟨hf, ?_, new, hnew, ?_, hrec⟩
      · intro q
        rw [hbits q]
        simp only [List.mem_cons, exists_eq_or_imp]
        constructor
        · rintro (h | h)
          · exact Or.inl h
          · exact Or.inr (Or.inr h)
        · rintro (h | ⟨h, -⟩ | h)
          · exact Or.inl h
          · exact absurd h hc
          · exact Or.inr h
      · simp [List.filter_cons, hc, hmap]

theorem octant_cases (sh : SpatialHashConfig) (s : sphere) :
    ((octant sh s).i = 1 ∨ (octant sh s).i = -1) ∧ ((octant sh s).j = 1 ∨ (octant sh s).j = -1) ∧
      ((octant sh s).k = 1 ∨ (octant sh s).k = -1) := by
  unfold octant
  refine ⟨?_, ?_, ?_⟩ <;> dsimp only <;> split <;> simp

theorem neighbourCells_passType_ne {ijk d c : ivec3} (hi : d.i = 1 ∨ d.i = -1)
    (hj : d.j = 1 ∨ d.j = -1) (hk : d.k = 1 ∨ d.k = -1) (hc : c ∈ neighbourCells ijk d) :
    passType c ≠ passType ijk := by
  intro h
  have hp := passType_inj h
  simp only [neighbourCells, List.mem_cons, List.mem_singleton, List.not_mem_nil, or_false] at hc
  rcases hc with rfl | rfl | rfl | rfl | rfl | rfl | rfl <;> simp only [ivec3.add] at hp <;> omega

theorem neighbourCells_passType_inj {ijk d c c' : ivec3} (hi : d.i = 1 ∨ d.i = -1)
    (hj : d.j = 1 ∨ d.j = -1) (hk : d.k = 1 ∨ d.k = -1) (hc : c ∈ neighbourCells ijk d)
    (hc' : c' ∈ neighbourCells ijk d) (h : passType c = passType c') : c = c' := by
  have hp := passType_inj h
  simp only [neighbourCells, List.mem_cons, List.mem_singleton, List.not_mem_nil, or_false]
    at hc hc'
  rcases hc with rfl | rfl | rfl | rfl | rfl | rfl | rfl <;>
    rcases hc' with rfl | rfl | rfl | rfl | rfl | rfl | rfl <;>
    simp only [ivec3.add] at hp ⊢ <;> first | rfl | (exfalso; omega)

theorem neighbourCells_nodup {ijk d : ivec3} (hi : d.i = 1 ∨ d.i = -1)
    (hj : d.j = 1 ∨ d.j = -1) (hk : d.k = 1 ∨ d.k = -1) : (neighbourCells ijk d).Nodup := by
  rcases d with ⟨di, dj, dk⟩
  simp only at hi hj hk
  rcases hi with rfl | rfl <;> rcases hj with rfl | rfl <;> rcases hk with rfl | rfl <;>
    simp [neighbourCells, ivec3.add]

theorem hashCell_lt (sh : SpatialHashConfig) (c : ivec3) : sh.hashCell c < 1073741824 := by
  unfold SpatialHashConfig.hashCell
  exact Nat.mod_lt _ (by decide)

theorem hashCell_ne_invalid (sh : SpatialHashConfig) (c : ivec3) : sh.hashCell c ≠ invalid := by
  have := hashCell_lt sh c
  unfold invalid
  omega

/-- The shape of a row written by the fill kernel: the home record, the phantom records of the
neighbour cells the proxy sphere overlaps (in the order of `cells[7]`), then unused slots. -/
theorem fillObject_spec (sh : SpatialHashConfig) (cd : collide) (n : Nat) (s : sphere) :
    ∃ home phantoms,
      fillObject sh cd n s =
        home :: phantoms ++ List.replicate (7 - phantoms.length) (Cell invalid invalid) ∧
      (home.ijk = sh.cell s.o ∧ home.pass = passType (sh.cell s.o) ∧
        home.home = passType (sh.cell s.o) ∧ home.cid = sh.hashCell (sh.cell s.o) ∧
        home.oid = n) ∧
      (∀ q, home.overlap.testBit q = true ↔
        (passType (sh.cell s.o) = q ∨
          ∃ c ∈ neighbourCells (sh.cell s.o) (octant sh s),
            proxyOverlaps sh cd ⟨s.o, s.r * (3 / 2)⟩ c = true ∧ passType c = q)) ∧
      phantoms.map (fun r => r.ijk) =
        (neighbourCells (sh.cell s.o) (octant sh s)).filter
          (proxyOverlaps sh cd ⟨s.o, s.r * (3 / 2)⟩) ∧
      ∀ r ∈ phantoms, r.pass = passType r.ijk ∧ r.home = passType (sh.cell s.o) ∧
        r.cid = sh.hashCell r.ijk ∧ r.oid = n ∧ r.overlap.testBit r.home = true ∧
        r.overlap.testBit r.pass = true ∧
        ∀ q, r.overlap.testBit q = true → home.overlap.testBit q = true := by
  have hfill : fillObject sh cd n s =
      ((neighbourCells (sh.cell s.o) (octant sh s)).foldl
        (fillStep sh cd ⟨s.o, s.r * (3 / 2)⟩ (sh.cell s.o) n)
        ⟨{ (Cell (sh.hashCell (sh.cell s.o)) n).setAsHome (sh.cell s.o) with
            ijk := sh.cell s.o }, []⟩).homeCell ::
      ((neighbourCells (sh.cell s.o) (octant sh s)).foldl
        (fillStep sh cd ⟨s.o, s.r * (3 / 2)⟩ (sh.cell s.o) n)
        ⟨{ (Cell (sh.hashCell (sh.cell s.o)) n).setAsHome (sh.cell s.o) with
            ijk := sh.cell s.o }, []⟩).phantoms ++
      List.replicate (7 - ((neighbourCells (sh.cell s.o) (octant sh s)).foldl
        (fillStep sh cd ⟨s.o, s.r * (3 / 2)⟩ (sh.cell s.o) n)
        ⟨{ (Cell (sh.hashCell (sh.cell s.o)) n).setAsHome (sh.cell s.o) with
            ijk := sh.cell s.o }, []⟩).phantoms.length) (Cell invalid invalid) := rfl
  obtain ⟨⟨h1, h2, h3, h4, h5⟩, hbits, new, hnew, hmap, hrec⟩ :=
    fillStep_foldl sh cd ⟨s.o, s.r * (3 / 2)⟩ (sh.cell s.o) n
      (neighbourCells (sh.cell s.o) (octant sh s))
      ⟨{ (Cell (sh.hashCell (sh.cell s.o)) n).setAsHome (sh.cell s.o) with ijk := sh.cell s.o }, []⟩
  have hb : ∀ q, (({ (Cell (sh.hashCell (sh.cell s.o)) n).setAsHome (sh.cell s.o) with
      ijk := sh.cell s.o } : SpatialPartitionCell).overlap.testBit q = true) ↔
      passType (sh.cell s.o) = q := by
    intro q
    show (0 ||| (1 <<< passType (sh.cell s.o))).testBit q = true ↔ _
    rw [testBit_setBit]
    simp
  rw [hfill]
  generalize (neighbourCells (sh.cell s.o) (octant sh s)).foldl
        (fillStep sh cd ⟨s.o, s.r * (3 / 2)⟩ (sh.cell s.o) n)
        ⟨{ (Cell (sh.hashCell (sh.cell s.o)) n).setAsHome (sh.cell s.o) with
            ijk := sh.cell s.o }, []⟩ = st at *
  refine ⟨st.homeCell, st.phantoms, rfl, ⟨h5, h1, h2, h3, h4⟩, ?_, ?_, ?_⟩
  · intro q
    rw [hbits q, hb q]
  · rw [hnew, List.nil_append]
    exact hmap
  · intro r hr
    rw [hnew, List.nil_append] at hr
    obtain ⟨e1, e2, e3, e4, e5, e6, e7⟩ := hrec r hr
    refine ⟨e1, e2, e3, e4, ?_, e6, e7⟩
    apply e5
    rw [e2]
    exact (hb _).2 rfl

/-- A used record of a row is the home record or one of the phantom records. -/
theorem used_mem_row {home r : SpatialPartitionCell} {phantoms : List SpatialPartitionCell}
    {k : Nat} (hr : r ∈ home :: phantoms ++ List.replicate k (Cell invalid invalid))
    (hu : IsUsed r) : r = home ∨ r ∈ phantoms := by
  rcases List.mem_cons.1 hr with h | h
  · exact Or.inl h
  · rcases List.mem_append.1 h with h | h
    · exact Or.inr h
    · rw [List.mem_replicate] at h
      exact absurd (by rw [h.2]; rfl) hu

theorem record_basic {sh : SpatialHashConfig} {cd : collide} {spheres : List sphere} {n : Nat}
    {r : SpatialPartitionCell} (h : IsRecordOf sh cd spheres n r) :
    r.oid = n ∧ r.pass = passType r.ijk ∧ r.home = passType (homeCellOf sh spheres n) ∧
      r.cid = sh.hashCell r.ijk ∧ r.overlap.testBit r.home = true ∧
      r.overlap.testBit r.pass = true ∧ (r.pass = r.home → r.ijk = homeCellOf sh spheres n) := by
  obtain ⟨-, hr, hu⟩ := h
  obtain ⟨home, phantoms, hrow, ⟨a1, a2, a3, a4, a5⟩, hbits, hmap, hph⟩ :=
    fillObject_spec sh cd n (sphereAt spheres n)
  rw [hrow] at hr
  rcases used_mem_row hr hu with rfl | hr
  · refine ⟨a5, by rw [a2, a1], a3, by rw [a4, a1], ?_, ?_, fun _ => a1⟩
    · rw [a3]; exact (hbits _).2 (Or.inl rfl)
    · rw [a2]; exact (hbits _).2 (Or.inl rfl)
  · obtain ⟨e1, e2, e3, e4, e5, e6, -⟩ := hph r hr
    refine ⟨e4, e1, e2, e3, e5, e6, ?_⟩
    intro hp
    exfalso
    have hmem : r.ijk ∈ (neighbourCells (sh.cell (sphereAt spheres n).o)
        (octant sh (sphereAt spheres n))).filter
          (proxyOverlaps sh cd ⟨(sphereAt spheres n).o, (sphereAt spheres n).r * (3 / 2)⟩) := by
      rw [← hmap]
      exact List.mem_map_of_mem _ hr
    obtain ⟨o1, o2, o3⟩ := octant_cases sh (sphereAt spheres n)
    refine neighbourCells_passType_ne o1 o2 o3 (List.mem_filter.1 hmem).1 ?_
    rw [← e1, hp, e2]

theorem record_pass_inj {sh : SpatialHashConfig} {cd : collide} {spheres : List sphere} {n : Nat}
    {r r' : SpatialPartitionCell} (h : IsRecordOf sh cd spheres n r)
    (h' : IsRecordOf sh cd spheres n r') (hp : r.pass = r'.pass) : r = r' := by
  obtain ⟨-, hr, hu⟩ := h
  obtain ⟨-, hr', hu'⟩ := h'
  obtain ⟨home, phantoms, hrow, ⟨a1, a2, a3, a4, a5⟩, hbits, hmap, hph⟩ :=
    fillObject_spec sh cd n (sphereAt spheres n)
  rw [hrow] at hr hr'
  obtain ⟨o1, o2, o3⟩ := octant_cases sh (sphereAt spheres n)
  have hcell : ∀ x ∈ phantoms, x.ijk ∈ neighbourCells (sh.cell (sphereAt spheres n).o)
      (octant sh (sphereAt spheres n)) := by
    intro x hx
    have hmem : x.ijk ∈ (neighbourCells (sh.cell (sphereAt spheres n).o)
        (octant sh (sphereAt spheres n))).filter
          (proxyOverlaps sh cd ⟨(sphereAt spheres n).o, (sphereAt spheres n).r * (3 / 2)⟩) := by
      rw [← hmap]
      exact List.mem_map_of_mem _ hx
    exact (List.mem_filter.1 hmem).1
  have hnd : (phantoms.map (fun r => r.ijk)).Nodup := by
    rw [hmap]
    exact (neighbourCells_nodup o1 o2 o3).filter _
  rcases used_mem_row hr hu with e | g <;> rcases used_mem_row hr' hu' with e' | g'
  · rw [e, e']
  · exfalso
    refine neighbourCells_passType_ne o1 o2 o3 (hcell _ g') ?_
    rw [← (hph _ g').1, ← hp, e, a2]
  · exfalso
    refine neighbourCells_passType_ne o1 o2 o3 (hcell _ g) ?_
    rw [← (hph _ g).1, hp, e', a2]
  · have hijk : r.ijk = r'.ijk := by
      apply neighbourCells_passType_inj o1 o2 o3 (hcell _ g) (hcell _ g')
      rw [← (hph _ g).1, ← (hph _ g').1, hp]
    exact List.inj_on_of_nodup_map hnd g g' hijk

theorem home_record_mask {sh : SpatialHashConfig} {cd : collide} {spheres : List sphere} {n : Nat}
    {r r' : SpatialPartitionCell} (h : IsRecordOf sh cd spheres n r) (hh : r.pass = r.home)
    (h' : IsRecordOf sh cd spheres n r') : r.overlap.testBit r'.pass = true := by
  have hb := record_basic h
  have hb' := record_basic h'
  obtain ⟨-, hr, hu⟩ := h
  obtain ⟨-, hr', hu'⟩ := h'
  obtain ⟨home, phantoms, hrow, ⟨a1, a2, a3, a4, a5⟩, hbits, hmap, hph⟩ :=
    fillObject_spec sh cd n (sphereAt spheres n)
  rw [hrow] at hr hr'
  obtain ⟨o1, o2, o3⟩ := octant_cases sh (sphereAt spheres n)
  have hhome : r = home := by
    rcases used_mem_row hr hu with rfl | hr
    · rfl
    · exfalso
      have hmem : r.ijk ∈ (neighbourCells (sh.cell (sphereAt spheres n).o)
          (octant sh (sphereAt spheres n))).filter
            (proxyOverlaps sh cd ⟨(sphereAt spheres n).o, (sphereAt spheres n).r * (3 / 2)⟩) := by
        rw [← hmap]
        exact List.mem_map_of_mem _ hr
      refine neighbourCells_passType_ne o1 o2 o3 (List.mem_filter.1 hmem).1 ?_
      rw [← (hph _ hr).1, hh, (hph _ hr).2.1]
  subst hhome
  rcases used_mem_row hr' hu' with rfl | hr'
  · exact hb.2.2.2.2.2.1
  · have hmem : r'.ijk ∈ (neighbourCells (sh.cell (sphereAt spheres n).o)
        (octant sh (sphereAt spheres n))).filter
          (proxyOverlaps sh cd ⟨(sphereAt spheres n).o, (sphereAt spheres n).r * (3 / 2)⟩) := by
      rw [← hmap]
      exact List.mem_map_of_mem _ hr'
    rw [hbits]
    exact Or.inr ⟨r'.ijk, (List.mem_filter.1 hmem).1, (List.mem_filter.1 hmem).2,
      ((hph _ hr').1).symm⟩

theorem home_record_exists (sh : SpatialHashConfig) (cd : collide) {spheres : List sphere}
    {n : Nat} (hn : n < spheres.length) :
    ∃ r, IsRecordOf sh cd spheres n r ∧ r.ijk = homeCellOf sh spheres n ∧ r.pass = r.home := by
  obtain ⟨home, phantoms, hrow, ⟨a1, a2, a3, a4, a5⟩, -, -, -⟩ :=
    fillObject_spec sh cd n (sphereAt spheres n)
  refine ⟨home, ⟨hn, ?_, ?_⟩, a1, by rw [a2, a3]⟩
  · rw [hrow]
    exact List.mem_cons_self _ _
  · unfold IsUsed
    rw [a4]
    exact hashCell_ne_invalid _ _

/-! ## Ownership of a pair -/

theorem allowIgnore_false_elim {x y : SpatialPartitionCell} (h : allowIgnore x y = false) :
    (x.home = x.pass ∨ y.home = y.pass) ∧
      ¬ (x.home < x.pass ∧ x.overlap.testBit x.home = true ∧ y.overlap.testBit x.home = true) ∧
      ¬ (y.home < x.pass ∧ x.overlap.testBit y.home = true ∧ y.overlap.testBit y.home = true) := by
  have h' : ¬ (allowIgnore x y = true) := by simp [h]
  rw [allowIgnore_true_iff] at h'
  simp only [Nat.testBit_and, Bool.and_eq_true] at h'
  refine ⟨?_, ?_, ?_⟩
  · by_contra hc
    push_neg at hc
    exact h' (Or.inl hc)
  · intro hc
    exact h' (Or.inr (Or.inl hc))
  · intro hc
    exact h' (Or.inr (Or.inr hc))

/-- Two objects are reported from at most one pass type: if their records are not ignorable in
a bucket of pass type `rA.pass` and in a bucket of pass type `rA'.pass`, the two pass types
agree. -/
theorem owner_pass_unique {sh : SpatialHashConfig} {cd : collide} {spheres : List sphere}
    {A B : Nat} {rA rB rA' rB' : SpatialPartitionCell}
    (hA : IsRecordOf sh cd spheres A rA) (hB : IsRecordOf sh cd spheres B rB)
    (hA' : IsRecordOf sh cd spheres A rA') (hB' : IsRecordOf sh cd spheres B rB')
    (hp : rA.pass = rB.pass) (hp' : rA'.pass = rB'.pass)
    (h : allowIgnore rA rB = false) (h' : allowIgnore rA' rB' = false) :
    rA.pass = rA'.pass := by
  obtain ⟨-, -, a3, -, a5, a6, -⟩ := record_basic hA
  obtain ⟨-, -, b3, -, b5, b6, -⟩ := record_basic hB
  obtain ⟨-, -, a3', -, a5', a6', -⟩ := record_basic hA'
  obtain ⟨-, -, b3', -, b5', b6', -⟩ := record_basic hB'
  obtain ⟨n1, n2, n3⟩ := allowIgnore_false_elim h
  obtain ⟨n1', n2', n3'⟩ := allowIgnore_false_elim h'
  have eA : rA.home = rA'.home := by rw [a3, a3']
  have eB : rB.home = rB'.home := by rw [b3, b3']
  by_contra hne
  rcases n1 with g | g <;> rcases n1' with g' | g'
  · omega
  · -- `rA` is the home record of `A`, `rB'` the home record of `B`
    have m1 := home_record_mask hA g.symm hA'
    have m2 := home_record_mask hB' g'.symm hB
    have e1 : rA'.pass = rB.home := by omega
    have e2 : rB.pass = rA'.home := by omega
    rw [e1] at m1
    rw [e2] at m2
    have l1 : ¬ rB.home < rA.pass := fun hl => n3 ⟨hl, m1, b5⟩
    have l2 : ¬ rA'.home < rA'.pass := fun hl => n2' ⟨hl, a5', m2⟩
    omega
  · -- `rB` is the home record of `B`, `rA'` the home record of `A`
    have m1 := home_record_mask hB g.symm hB'
    have m2 := home_record_mask hA' g'.symm hA
    have e1 : rB'.pass = rA.home := by omega
    have e2 : rA.pass = rB'.home := by omega
    rw [e1] at m1
    rw [e2] at m2
    have l1 : ¬ rA.home < rA.pass := fun hl => n2 ⟨hl, a5, m1⟩
    have l2 : ¬ rB'.home < rA'.pass := fun hl => n3' ⟨hl, m2, b5'⟩
    omega
  · omega

/-! ## Sort, run-length encoding and scan -/

theorem Encode_flatten (ks : List Nat) :
    (Encode ks).flatMap (fun p => List.replicate p.2 p.1) = ks := by
  induction ks with
  | nil => rfl
  | cons k ks ih =>
    cases h : Encode ks with
    | nil =>
      rw [h] at ih
      simp only [Encode, h]
      simp at ih
      simp [← ih]
    | cons p rest =>
      obtain ⟨k', c⟩ := p
      rw [h] at ih
      simp only [Encode, h]
      by_cases hk : k = k'
      · subst hk
        simp only [if_true, List.flatMap_cons, List.replicate_succ, List.cons_append]
        rw [← ih]
        simp [List.flatMap_cons]
      · simp only [hk, if_false, List.flatMap_cons]
        rw [← ih]
        simp [List.flatMap_cons]

theorem Encode_pos (ks : List Nat) : ∀ p ∈ Encode ks, 0 < p.2 := by
  induction ks with
  | nil => simp [Encode]
  | cons k ks ih =>
    cases h : Encode ks with
    | nil => simp [Encode, h]
    | cons p rest =>
      obtain ⟨k', c⟩ := p
      rw [h] at ih
      simp only [Encode, h]
      by_cases hk : k = k'
      · simp only [hk, if_true]
        intro q hq
        rcases List.mem_cons.1 hq with rfl | hq
        · exact Nat.succ_pos _
        · exact ih q (List.mem_cons_of_mem _ hq)
      · simp only [hk, if_false]
        intro q hq
        rcases List.mem_cons.1 hq with rfl | hq
        · exact Nat.one_pos
        · exact ih q hq

theorem Encode_key_mem (ks : List Nat) : ∀ p ∈ Encode ks, p.1 ∈ ks := by
  intro p hp
  have h := Encode_flatten ks
  have hpos := Encode_pos ks p hp
  rw [← h, List.mem_flatMap]
  refine ⟨p, hp, ?_⟩
  rw [List.mem_replicate]
  exact ⟨by omega, rfl⟩

theorem Encode_mem_key (ks : List Nat) : ∀ k ∈ ks, ∃ p ∈ Encode ks, p.1 = k := by
  intro k hk
  rw [← Encode_flatten ks, List.mem_flatMap] at hk
  obtain ⟨p, hp, hk⟩ := hk
  exact ⟨p, hp, (List.mem_replicate.1 hk).2.symm⟩

theorem Encode_sorted (ks : List Nat) (hs : ks.Sorted (· ≤ ·)) :
    ((Encode ks).map Prod.fst).Sorted (· < ·) := by
  induction ks with
  | nil => simp [Encode]
  | cons k ks ih =>
    have hs' := List.sorted_cons.1 hs
    have ih' := ih hs'.2
    cases h : Encode ks with
    | nil => simp [Encode, h]
    | cons p rest =>
      obtain ⟨k', c⟩ := p
      rw [h] at ih'
      have hmem : k' ∈ ks := Encode_key_mem ks (k', c) (by rw [h]; exact List.mem_cons_self _ _)
      simp only [Encode, h]
      by_cases hk : k = k'
      · subst hk
        simpa using ih'
      · simp only [hk, if_false, List.map_cons]
        have hlt : k < k' := lt_of_le_of_ne (hs'.1 k' hmem) hk
        refine List.sorted_cons.2 ⟨?_, ih'⟩
        intro b hb
        rcases List.mem_cons.1 hb with rfl | hb
        · exact hlt
        · have := (List.sorted_cons.1 ih').1 b hb
          exact lt_trans hlt this

theorem Encode_length_le (ks : List Nat) : (Encode ks).length ≤ ks.length := by
  induction ks with
  | nil => simp [Encode]
  | cons k ks ih =>
    cases h : Encode ks with
    | nil => simp [Encode, h]
    | cons p rest =>
      obtain ⟨k', c⟩ := p
      rw [h] at ih
      simp only [Encode, h]
      by_cases hk : k = k'
      · simp only [hk, if_true, List.length_cons] at ih ⊢
        omega
      · simp only [hk, if_false, List.length_cons] at ih ⊢
        omega

theorem Encode_ne_nil {ks : List Nat} (h : ks ≠ []) : Encode ks ≠ [] := by
  intro he
  have := Encode_flatten ks
  rw [he] at this
  exact h this.symm

theorem exclusiveSumFrom_length (acc : Nat) (l : List Nat) :
    (exclusiveSumFrom acc l).length = l.length := by
  induction l generalizing acc with
  | nil => rfl
  | cons a l ih => simp [exclusiveSumFrom, ih]

theorem exclusiveSumFrom_getElem? (acc : Nat) (l : List Nat) (i : Nat) (hi : i < l.length) :
    (exclusiveSumFrom acc l)[i]? = some (acc + (l.take i).sum) := by
  induction l generalizing acc i with
  | nil => simp at hi
  | cons a l ih =>
    cases i with
    | zero => simp [exclusiveSumFrom]
    | succ i =>
      simp only [exclusiveSumFrom, List.getElem?_cons_succ, List.take_succ_cons, List.sum_cons]
      rw [ih (acc + a) i (by simpa using hi)]
      simp [Nat.add_assoc]

theorem ExclusiveSum_length (l : List Nat) : (ExclusiveSum l).length = l.length :=
  exclusiveSumFrom_length 0 l

theorem ExclusiveSum_getElem? (l : List Nat) (i : Nat) (hi : i < l.length) :
    (ExclusiveSum l)[i]? = some ((l.take i).sum) := by
  unfold ExclusiveSum
  rw [exclusiveSumFrom_getElem? 0 l i hi]
  simp

theorem SortPairs_perm {α : Type} (keys : List Nat) (values : List α) :
    (SortPairs keys values).Perm (keys.zip values) :=
  List.perm_insertionSort _ _

theorem SortPairs_sorted {α : Type} (keys : List Nat) (values : List α) :
    ((SortPairs keys values).map Prod.fst).Sorted (· ≤ ·) := by
  haveI : IsTotal (Nat × α) (fun a b => a.1 ≤ b.1) := ⟨fun a b => Nat.le_total a.1 b.1⟩
  haveI : IsTrans (Nat × α) (fun a b => a.1 ≤ b.1) := ⟨fun a b c h1 h2 => Nat.le_trans h1 h2⟩
  have h := List.sorted_insertionSort (fun a b : Nat × α => a.1 ≤ b.1) (keys.zip values)
  unfold SortPairs
  unfold List.Sorted at h ⊢
  rw [List.pairwise_map]
  exact h

/-! ## Buckets as slices of the sorted array -/

theorem chunk_key (R : List (Nat × Nat)) (b i k c : Nat) (hb : R[b]? = some (k, c))
    (hi : i < c) :
    (R.flatMap (fun p => List.replicate p.2 p.1))[((R.map Prod.snd).take b).sum + i]? = some k := by
  induction R generalizing b with
  | nil => simp at hb
  | cons p R ih =>
    cases b with
    | zero =>
      simp only [List.getElem?_cons_zero, Option.some.injEq] at hb
      subst hb
      simp only [List.take_zero, List.sum_nil, Nat.zero_add, List.flatMap_cons]
      rw [List.getElem?_append_left (by simpa using hi)]
      simp [List.getElem?_replicate, hi]
    | succ b =>
      simp only [List.getElem?_cons_succ] at hb
      simp only [List.map_cons, List.take_succ_cons, List.sum_cons, List.flatMap_cons]
      rw [List.getElem?_append_right (by simp; omega)]
      have : p.2 + ((R.map Prod.snd).take b).sum + i - (List.replicate p.2 p.1).length
          = ((R.map Prod.snd).take b).sum + i := by simp; omega
      rw [this]
      exact ih b hb

theorem chunk_decomp (R : List (Nat × Nat)) (p : Nat)
    (hp : p < (R.flatMap (fun p => List.replicate p.2 p.1)).length) :
    ∃ b k c i, R[b]? = some (k, c) ∧ i < c ∧ p = ((R.map Prod.snd).take b).sum + i := by
  induction R generalizing p with
  | nil => simp at hp
  | cons q R ih =>
    simp only [List.flatMap_cons, List.length_append, List.length_replicate] at hp
    by_cases h : p < q.2
    · exact ⟨0, q.1, q.2, p, by simp, h, by simp⟩
    · obtain ⟨b, k, c, i, hb, hi, he⟩ := ih (p - q.2) (by omega)
      refine ⟨b + 1, k, c, i, by simpa using hb, hi, ?_⟩
      simp only [List.map_cons, List.take_succ_cons, List.sum_cons]
      omega

theorem chunk_bound (R : List (Nat × Nat)) (b i k c : Nat) (hb : R[b]? = some (k, c))
    (hi : i < c) :
    ((R.map Prod.snd).take b).sum + i < (R.flatMap (fun p => List.replicate p.2 p.1)).length := by
  have h := chunk_key R b i k c hb hi
  by_contra hn
  rw [List.getElem?_eq_none (by omega)] at h
  exact Option.noConfusion h

theorem offsets_strictMono (R : List (Nat × Nat)) (hpos : ∀ p ∈ R, 0 < p.2) (b b' k c : Nat)
    (hb : R[b]? = some (k, c)) (hlt : b < b') :
    ((R.map Prod.snd).take b).sum + c ≤ ((R.map Prod.snd).take b').sum := by
  induction R generalizing b b' with
  | nil => simp at hb
  | cons q R ih =>
    cases b' with
    | zero => omega
    | succ b' =>
      cases b with
      | zero =>
        simp only [List.getElem?_cons_zero, Option.some.injEq] at hb
        subst hb
        simp
      | succ b =>
        simp only [List.getElem?_cons_succ] at hb
        simp only [List.map_cons, List.take_succ_cons, List.sum_cons]
        have := ih (fun p hp => hpos p (List.mem_cons_of_mem _ hp)) b b' hb (by omega)
        omega

/-! ## A run on a default-constructed field -/

theorem fillObject_length (sh : SpatialHashConfig) (cd : collide) (n : Nat) (s : sphere) :
    (fillObject sh cd n s).length = 8 := by
  obtain ⟨home, phantoms, hrow, -, -, hmap, -⟩ := fillObject_spec sh cd n s
  have h1 : phantoms.length ≤ 7 := by
    have h := congrArg List.length hmap
    rw [List.length_map] at h
    rw [h]
    refine le_trans (List.length_filter_le _ _) ?_
    simp [neighbourCells]
  rw [hrow]
  simp only [List.length_cons, List.length_append, List.length_replicate]
  omega

theorem fillRows_length (sh : SpatialHashConfig) (cd : collide) (spheres : List sphere) :
    (fillRows sh cd spheres).length = 8 * spheres.length := by
  unfold fillRows
  generalize spheres.length = n
  induction n with
  | zero => simp
  | succ n ih =>
    rw [List.range_succ, List.flatMap_append, List.length_append, ih]
    simp [fillObject_length]
    omega

theorem sortedRows_length (sh : SpatialHashConfig) (cd : collide) (spheres : List sphere) :
    (sortedRows sh cd spheres).length = 8 * spheres.length := by
  unfold sortedRows
  rw [(SortPairs_perm _ _).length_eq]
  simp [fillRows_length]

theorem bucketRuns_length_le (sh : SpatialHashConfig) (cd : collide) (spheres : List sphere) :
    (bucketRuns sh cd spheres).length ≤ 8 * spheres.length := by
  unfold bucketRuns
  refine le_trans (Encode_length_le _) ?_
  simp [sortedRows_length]

theorem configured_config (hash_func : ivec3 → Nat) (cellSize : Option ℚ) (coordMin : vec3) :
    (configured hash_func cellSize coordMin).spatialHashConfig =
      { hash_func := hash_func, cellSize := cellSize.getD 0, coordMin := coordMin } := by
  cases cellSize <;> rfl

theorem alloc_length {α : Type} (junk : Nat → α) (n : Nat) :
    (DeviceBuffer.alloc junk n).length = n := by
  simp [DeviceBuffer.alloc]

/-- The field on which the fill stage of a run on a default-constructed field starts. -/
theorem prepared_eq (hash_func : ivec3 → Nat) (cellSize : Option ℚ) (coordMin : vec3)
    (spheres : List sphere) :
    (if ({ configured hash_func cellSize coordMin with spheres := spheres } :
          SpatialPartitionField).spatialHashConfig.cellSize ≤ 0 then
        ({ configured hash_func cellSize coordMin with spheres := spheres } :
          SpatialPartitionField).beginCalculateCellSize
      else { configured hash_func cellSize coordMin with spheres := spheres }) =
      { SpatialPartitionField.fresh hash_func with
        spheres := spheres
        spatialHashConfig := runConfig hash_func cellSize coordMin spheres } := by
  cases cellSize with
  | none =>
    simp [configured, SpatialPartitionField.fresh, SpatialPartitionField.configSpatialHash,
      SpatialPartitionField.beginCalculateCellSize, runConfig]
  | some c =>
    by_cases hc : c ≤ 0
    · simp [configured, SpatialPartitionField.fresh, SpatialPartitionField.configSpatialHash,
        SpatialPartitionField.setCellSize,
        SpatialPartitionField.beginCalculateCellSize, runConfig, hc]
    · simp [configured, SpatialPartitionField.fresh, SpatialPartitionField.configSpatialHash,
        SpatialPartitionField.setCellSize,
        SpatialPartitionField.beginCalculateCellSize, runConfig, hc]

theorem fill_fresh (cd : collide) (mem : Memory) (hash_func : ivec3 → Nat)
    (sh : SpatialHashConfig) (spheres : List sphere) :
    SpatialPartitionField.beginFillHashCells cd mem
      { SpatialPartitionField.fresh hash_func with spheres := spheres, spatialHashConfig := sh } =
    { spheres := spheres
      cellArrayValue := ⟨fillRows sh cd spheres, 8 * spheres.length, 8 * spheres.length⟩
      cellArrayValueSorted := ⟨DeviceBuffer.alloc mem.cells (8 * spheres.length), 8 * spheres.length, 8 * spheres.length⟩
      cellArrayKey := ⟨(fillRows sh cd spheres).map (fun c => c.cid), 8 * spheres.length, 8 * spheres.length⟩
      cellArrayKeySorted := ⟨DeviceBuffer.alloc mem.ints (8 * spheres.length), 8 * spheres.length, 8 * spheres.length⟩
      uniqueKey := ⟨DeviceBuffer.alloc mem.ints (8 * spheres.length), 8 * spheres.length, 8 * spheres.length⟩
      uniqueKeyCount := 0
      validCellCount := 0
      objCountInCell := ⟨DeviceBuffer.alloc mem.ints (8 * spheres.length), 8 * spheres.length, 8 * spheres.length⟩
      objCountInCellPrefixSum := ⟨DeviceBuffer.alloc mem.ints (8 * spheres.length), 8 * spheres.length, 8 * spheres.length⟩
      collisionPairCount := ⟨DeviceBuffer.alloc mem.ints (8 * spheres.length), 8 * spheres.length, 8 * spheres.length⟩
      collisionPairPrefixSum := ⟨DeviceBuffer.alloc mem.ints (8 * spheres.length), 8 * spheres.length, 8 * spheres.length⟩
      spatialHashConfig := sh } := by
  have hlen := fillRows_length sh cd spheres
  by_cases hN : 0 < 8 * spheres.length
  · have h1 : ¬ 8 * spheres.length ≤ 0 := by omega
    simp only [SpatialPartitionField.beginFillHashCells, SpatialPartitionField.fresh,
      DeviceBuffer.empty, hN, if_true, DeviceBuffer.resizeIgnore, h1, if_false,
      DeviceBuffer.store]
    simp only [List.length_map, hlen]
    simp [List.drop_eq_nil_of_le, alloc_length]
  · have h0 : spheres.length = 0 := by omega
    have hs : spheres = [] := List.length_eq_zero.1 h0
    subst hs
    simp [SpatialPartitionField.beginFillHashCells, SpatialPartitionField.fresh,
      DeviceBuffer.empty, DeviceBuffer.store, DeviceBuffer.alloc, fillRows]

/-- The state of the field after `beginSetupSpatialDataStructure` on a default-constructed
field. -/
theorem setup_fresh (cd : collide) (mem : Memory) (hash_func : ivec3 → Nat)
    (cellSize : Option ℚ) (coordMin : vec3) (spheres : List sphere) :
    ((configured hash_func cellSize coordMin).beginSetupSpatialDataStructure cd mem
        spheres).spheres = spheres ∧
    ((configured hash_func cellSize coordMin).beginSetupSpatialDataStructure cd mem
        spheres).cellArrayValueSorted.m_data =
      sortedCells (runConfig hash_func cellSize coordMin spheres) cd spheres ∧
    ((configured hash_func cellSize coordMin).beginSetupSpatialDataStructure cd mem
        spheres).objCountInCell.m_data =
      (bucketRuns (runConfig hash_func cellSize coordMin spheres) cd spheres).map Prod.snd ++
        (DeviceBuffer.alloc mem.ints (8 * spheres.length)).drop
          (bucketRuns (runConfig hash_func cellSize coordMin spheres) cd spheres).length ∧
    ((configured hash_func cellSize coordMin).beginSetupSpatialDataStructure cd mem
        spheres).objCountInCellPrefixSum.m_data =
      ExclusiveSum ((bucketRuns (runConfig hash_func cellSize coordMin spheres) cd spheres).map
          Prod.snd) ++
        (DeviceBuffer.alloc mem.ints (8 * spheres.length)).drop
          (bucketRuns (runConfig hash_func cellSize coordMin spheres) cd spheres).length ∧
    ((configured hash_func cellSize coordMin).beginSetupSpatialDataStructure cd mem
        spheres).collisionPairCount.m_data = DeviceBuffer.alloc mem.ints (8 * spheres.length) ∧
    ((configured hash_func cellSize coordMin).beginSetupSpatialDataStructure cd mem
        spheres).collisionPairPrefixSum.m_data = DeviceBuffer.alloc mem.ints (8 * spheres.length) ∧
    ((configured hash_func cellSize coordMin).beginSetupSpatialDataStructure cd mem
        spheres).uniqueKeyCount =
      (bucketRuns (runConfig hash_func cellSize coordMin spheres) cd spheres).length ∧
    ((configured hash_func cellSize coordMin).beginSetupSpatialDataStructure cd mem
        spheres).validCellCount =
      ((bucketRuns (runConfig hash_func cellSize coordMin spheres) cd spheres).length : Int) - 1 := by
  have hrows := fillRows_length (runConfig hash_func cellSize coordMin spheres) cd spheres
  have hsorted := sortedRows_length (runConfig hash_func cellSize coordMin spheres) cd spheres
  have hruns := bucketRuns_length_le (runConfig hash_func cellSize coordMin spheres) cd spheres
  have hcomm : spheres.length * 8 = 8 * spheres.length := Nat.mul_comm _ _
  have hstep : (configured hash_func cellSize coordMin).beginSetupSpatialDataStructure cd mem
      spheres =
      SpatialPartitionField.beginCountCollisionPerCell mem
        (SpatialPartitionField.beginSortHashCells
          (SpatialPartitionField.beginFillHashCells cd mem
            { SpatialPartitionField.fresh hash_func with
              spheres := spheres
              spatialHashConfig := runConfig hash_func cellSize coordMin spheres })) := by
    have hp := prepared_eq hash_func cellSize coordMin spheres
    show SpatialPartitionField.beginCountCollisionPerCell mem
        (SpatialPartitionField.beginSortHashCells
          (SpatialPartitionField.beginFillHashCells cd mem
            (if ({ configured hash_func cellSize coordMin with spheres := spheres } :
                SpatialPartitionField).spatialHashConfig.cellSize ≤ 0 then
              ({ configured hash_func cellSize coordMin with spheres := spheres } :
                SpatialPartitionField).beginCalculateCellSize
            else { configured hash_func cellSize coordMin with spheres := spheres }))) = _
    rw [hp]
  rw [hstep]
  have e := fill_fresh cd mem hash_func (runConfig hash_func cellSize coordMin spheres) spheres
  generalize SpatialPartitionField.beginFillHashCells cd mem
      { SpatialPartitionField.fresh hash_func with
        spheres := spheres
        spatialHashConfig := runConfig hash_func cellSize coordMin spheres } = F at e ⊢
  have f1 : F.spheres = spheres := by rw [e]
  have f2 : F.cellArrayKey.m_data =
      (fillRows (runConfig hash_func cellSize coordMin spheres) cd spheres).map (fun c => c.cid) := by
    rw [e]
  have f3 : F.cellArrayValue.m_data =
      fillRows (runConfig hash_func cellSize coordMin spheres) cd spheres := by rw [e]
  have f4 : F.cellArrayKeySorted.m_data = DeviceBuffer.alloc mem.ints (8 * spheres.length) := by
    rw [e]
  have f5 : F.cellArrayValueSorted.m_data = DeviceBuffer.alloc mem.cells (8 * spheres.length) := by
    rw [e]
  have f6 : F.objCountInCell = ⟨DeviceBuffer.alloc mem.ints (8 * spheres.length),
      8 * spheres.length, 8 * spheres.length⟩ := by rw [e]
  have f7 : F.objCountInCellPrefixSum = ⟨DeviceBuffer.alloc mem.ints (8 * spheres.length),
      8 * spheres.length, 8 * spheres.length⟩ := by rw [e]
  have f8 : F.collisionPairCount = ⟨DeviceBuffer.alloc mem.ints (8 * spheres.length),
      8 * spheres.length, 8 * spheres.length⟩ := by rw [e]
  have f9 : F.collisionPairPrefixSum = ⟨DeviceBuffer.alloc mem.ints (8 * spheres.length),
      8 * spheres.length, 8 * spheres.length⟩ := by rw [e]
  clear e
  have hs2 : (SortPairs ((fillRows (runConfig hash_func cellSize coordMin spheres) cd
      spheres).map (fun c => c.cid))
      (fillRows (runConfig hash_func cellSize coordMin spheres) cd spheres)).length
      = 8 * spheres.length := hsorted
  have hk : (SpatialPartitionField.beginSortHashCells F).cellArrayKeySorted.m_data
      = (sortedRows (runConfig hash_func cellSize coordMin spheres) cd spheres).map Prod.fst := by
    simp only [SpatialPartitionField.beginSortHashCells, DeviceBuffer.store, hcomm, f1, f2, f3, f4]
    rw [List.take_of_length_le (by simp [hrows]), List.take_of_length_le (by simp [hrows])]
    rw [List.drop_eq_nil_of_le (by simp [alloc_length, hs2])]
    simp [sortedRows]
  have hv : (SpatialPartitionField.beginSortHashCells F).cellArrayValueSorted.m_data
      = sortedCells (runConfig hash_func cellSize coordMin spheres) cd spheres := by
    simp only [SpatialPartitionField.beginSortHashCells, DeviceBuffer.store, hcomm, f1, f2, f3, f5]
    rw [List.take_of_length_le (by simp [hrows]), List.take_of_length_le (by simp [hrows])]
    rw [List.drop_eq_nil_of_le (by simp [alloc_length, hs2])]
    simp [sortedRows, sortedCells]
  have hruns' : (Encode ((sortedRows (runConfig hash_func cellSize coordMin spheres) cd
      spheres).map Prod.fst)).length ≤ 8 * spheres.length := hruns
  have hdata : ∀ g : SpatialPartitionField, g.spheres = spheres →
      g.cellArrayKeySorted.m_data =
        (sortedRows (runConfig hash_func cellSize coordMin spheres) cd spheres).map Prod.fst →
      g.objCountInCell = ⟨DeviceBuffer.alloc mem.ints (8 * spheres.length), 8 * spheres.length,
        8 * spheres.length⟩ →
      g.objCountInCellPrefixSum = ⟨DeviceBuffer.alloc mem.ints (8 * spheres.length),
        8 * spheres.length, 8 * spheres.length⟩ →
      g.collisionPairCount = ⟨DeviceBuffer.alloc mem.ints (8 * spheres.length),
        8 * spheres.length, 8 * spheres.length⟩ →
      g.collisionPairPrefixSum = ⟨DeviceBuffer.alloc mem.ints (8 * spheres.length),
        8 * spheres.length, 8 * spheres.length⟩ →
      (SpatialPartitionField.beginCountCollisionPerCell mem g).objCountInCell.m_data =
        (bucketRuns (runConfig hash_func cellSize coordMin spheres) cd spheres).map Prod.snd ++
          (DeviceBuffer.alloc mem.ints (8 * spheres.length)).drop
            (bucketRuns (runConfig hash_func cellSize coordMin spheres) cd spheres).length ∧
      (SpatialPartitionField.beginCountCollisionPerCell mem g).objCountInCellPrefixSum.m_data =
        ExclusiveSum ((bucketRuns (runConfig hash_func cellSize coordMin spheres) cd
            spheres).map Prod.snd) ++
          (DeviceBuffer.alloc mem.ints (8 * spheres.length)).drop
            (bucketRuns (runConfig hash_func cellSize coordMin spheres) cd spheres).length ∧
      (SpatialPartitionField.beginCountCollisionPerCell mem g).collisionPairCount.m_data =
        DeviceBuffer.alloc mem.ints (8 * spheres.length) ∧
      (SpatialPartitionField.beginCountCollisionPerCell mem g).collisionPairPrefixSum.m_data =
        DeviceBuffer.alloc mem.ints (8 * spheres.length) ∧
      (SpatialPartitionField.beginCountCollisionPerCell mem g).uniqueKeyCount =
        (bucketRuns (runConfig hash_func cellSize coordMin spheres) cd spheres).length ∧
      (SpatialPartitionField.beginCountCollisionPerCell mem g).validCellCount =
        ((bucketRuns (runConfig hash_func cellSize coordMin spheres) cd spheres).length : Int)
          - 1 := by
    intro g h1 h2 h3 h4 h5 h6
    have htake : List.take (spheres.length * 8)
        ((sortedRows (runConfig hash_func cellSize coordMin spheres) cd spheres).map Prod.fst)
        = (sortedRows (runConfig hash_func cellSize coordMin spheres) cd spheres).map Prod.fst :=
      List.take_of_length_le (by simp [hsorted]; omega)
    simp only [SpatialPartitionField.beginCountCollisionPerCell, DeviceBuffer.store,
      DeviceBuffer.resize, h1, h2, h3, h4, h5, h6, htake, List.length_map, hruns', if_true,
      bucketRuns]
    refine ⟨trivial, ?_, trivial, trivial, trivial, trivial⟩
    have ht : List.take (Encode ((sortedRows (runConfig hash_func cellSize coordMin spheres) cd
          spheres).map Prod.fst)).length
        ((Encode ((sortedRows (runConfig hash_func cellSize coordMin spheres) cd
          spheres).map Prod.fst)).map Prod.snd ++
          List.drop (Encode ((sortedRows (runConfig hash_func cellSize coordMin spheres) cd
            spheres).map Prod.fst)).length (DeviceBuffer.alloc mem.ints (8 * spheres.length)))
        = (Encode ((sortedRows (runConfig hash_func cellSize coordMin spheres) cd
          spheres).map Prod.fst)).map Prod.snd := by
      rw [List.take_append_of_le_length (by simp), List.take_of_length_le (by simp)]
    rw [ht, ExclusiveSum_length, List.length_map]
  exact ⟨f1, hv, hdata (SpatialPartitionField.beginSortHashCells F) f1 hk f6 f7 f8 f9⟩

/-! ## The two passes -/

theorem pairIndices_mem (size i j : Nat) : (i, j) ∈ pairIndices size ↔ i < j ∧ j < size := by
  unfold pairIndices
  simp only [List.mem_flatMap, List.mem_range, List.mem_map, List.mem_range'_1, Prod.mk.injEq]
  constructor
  · rintro ⟨a, ha, b, hb, rfl, rfl⟩
    omega
  · rintro ⟨h1, h2⟩
    exact ⟨i, by omega, j, by omega, rfl, rfl⟩

theorem pairIndices_nodup (size : Nat) : (pairIndices size).Nodup := by
  unfold pairIndices
  rw [List.nodup_flatMap]
  refine ⟨?_, ?_⟩
  · intro i _
    exact (List.nodup_range' _ _).map (fun a b h => (Prod.mk.inj h).2)
  · refine List.Pairwise.imp ?_ (List.nodup_range size)
    intro a b hab
    simp only [Function.onFun, List.Disjoint, List.mem_map]
    rintro x ⟨j, -, rfl⟩ ⟨j', -, h⟩
    exact hab (Prod.mk.inj h).1.symm

theorem countPairsInCell_eq (cd : collide) (f : SpatialPartitionField) (cell : Nat) :
    SpatialPartitionField.countPairsInCell cd f cell =
      (acceptedPairs cd f.spheres f.cellArrayValueSorted.m_data
        (f.objCountInCellPrefixSum.m_data.getD cell 0)
        (f.objCountInCell.m_data.getD cell 0)).length := by
  unfold SpatialPartitionField.countPairsInCell acceptedPairs
  simp only [forEachPair_eq_foldl, List.length_map]
  rw [foldl_count_eq (fun p : Nat × Nat => acceptPair cd f.spheres f.cellArrayValueSorted.m_data
    (f.objCountInCellPrefixSum.m_data.getD cell 0) p.1 p.2)]
  simp

theorem writePairsInCell_eq (cd : collide) (f : SpatialPartitionField) (d : List CollisionPair)
    (cell : Nat)
    (h : f.collisionPairPrefixSum.m_data.getD cell 0 +
      (acceptedPairs cd f.spheres f.cellArrayValueSorted.m_data
        (f.objCountInCellPrefixSum.m_data.getD cell 0)
        (f.objCountInCell.m_data.getD cell 0)).length ≤ d.length) :
    SpatialPartitionField.writePairsInCell cd f d cell =
      d.take (f.collisionPairPrefixSum.m_data.getD cell 0) ++
        acceptedPairs cd f.spheres f.cellArrayValueSorted.m_data
          (f.objCountInCellPrefixSum.m_data.getD cell 0) (f.objCountInCell.m_data.getD cell 0) ++
        d.drop (f.collisionPairPrefixSum.m_data.getD cell 0 +
          (acceptedPairs cd f.spheres f.cellArrayValueSorted.m_data
            (f.objCountInCellPrefixSum.m_data.getD cell 0)
            (f.objCountInCell.m_data.getD cell 0)).length) := by
  unfold SpatialPartitionField.writePairsInCell
  unfold acceptedPairs at h ⊢
  simp only [forEachPair_eq_foldl, List.length_map] at h ⊢
  rw [foldl_write_eq (fun p : Nat × Nat => acceptPair cd f.spheres f.cellArrayValueSorted.m_data
      (f.objCountInCellPrefixSum.m_data.getD cell 0) p.1 p.2)
    (fun p : Nat × Nat => pairOf f.cellArrayValueSorted.m_data
      (f.objCountInCellPrefixSum.m_data.getD cell 0) p.1 p.2)
    (f.collisionPairPrefixSum.m_data.getD cell 0) _ d 0 (by simpa using h)]
  simp

theorem foldl_set_range {α : Type} (g : Nat → α) (n : Nat) (d : List α) (h : n ≤ d.length) :
    (List.range n).foldl (fun data c => data.set c (g c)) d = (List.range n).map g ++ d.drop n := by
  induction n with
  | zero => simp
  | succ n ih =>
    rw [List.range_succ, List.foldl_append, ih (by omega)]
    simp only [List.foldl_cons, List.foldl_nil, List.map_append, List.map_cons, List.map_nil]
    rw [List.set_append_right _ _ (by simp)]
    simp only [List.length_map, List.length_range, Nat.sub_self]
    rw [List.drop_eq_getElem_cons (by omega : n < d.length), List.set_cons_zero]
    simp

theorem foldl_write_cells {β : Type} (W : List β → Nat → List β) (V : Nat → List β)
    (P : Nat → Nat) (n : Nat) (a : List β)
    (hP : ∀ b, P b = ((List.range b).map (fun c => (V c).length)).sum)
    (hW : ∀ b, b < n → ∀ d : List β, P b + (V b).length ≤ d.length →
      W d b = d.take (P b) ++ V b ++ d.drop (P b + (V b).length))
    (hlen : P n ≤ a.length) :
    (List.range n).foldl W a = (List.range n).flatMap V ++ a.drop (P n) := by
  induction n with
  | zero =>
    have : P 0 = 0 := by rw [hP]; simp
    simp [this]
  | succ n ih =>
    have hPs : P (n + 1) = P n + (V n).length := by
      rw [hP (n + 1), hP n, List.range_succ]
      simp
    rw [List.range_succ, List.foldl_append, ih (fun b hb => hW b (by omega)) (by omega)]
    simp only [List.foldl_cons, List.foldl_nil, List.flatMap_append, List.flatMap_cons,
      List.flatMap_nil, List.append_nil]
    have hl : ((List.range n).flatMap V).length = P n := by
      rw [hP n, List.length_flatMap]
      rfl
    rw [hW n (by omega) _ (by simp [hl]; omega)]
    rw [List.take_append_of_le_length (by omega), List.take_of_length_le (by omega)]
    rw [List.drop_append_eq_append_drop, List.drop_eq_nil_of_le (by omega : _ ≤ _)]
    simp only [List.nil_append, List.drop_drop, hl, hPs]
    congr 2
    omega

theorem getD_append_left' {α : Type} (l l' : List α) (d : α) (i : Nat) (h : i < l.length) :
    (l ++ l').getD i d = l.getD i d := by
  rw [List.getD_eq_getElem?_getD, List.getD_eq_getElem?_getD, List.getElem?_append_left h]

theorem resize_empty_pairs (junk : Nat → CollisionPair) (n : Nat) :
    ((DeviceBuffer.empty : DeviceBuffer CollisionPair).resize junk ⟨0, 0⟩ n).m_data =
        List.replicate n ⟨0, 0⟩ ∧
      ((DeviceBuffer.empty : DeviceBuffer CollisionPair).resize junk ⟨0, 0⟩ n).m_size = n := by
  by_cases h : n ≤ 0
  · have : n = 0 := by omega
    subst this
    simp [DeviceBuffer.resize, DeviceBuffer.empty]
  · simp [DeviceBuffer.resize, DeviceBuffer.empty, h, DeviceBuffer.memset, DeviceBuffer.alloc]

/-- The output of `beginCreateCollisionPairList` on a field whose count stage left `m` buckets
with counts `C` in a sorted array `V`. -/
theorem create_spec (cd : collide) (mem : Memory) (f : SpatialPartitionField)
    (C rest1 rest2 : List Nat)
    (h1 : f.objCountInCell.m_data = C ++ rest1)
    (h2 : f.objCountInCellPrefixSum.m_data = ExclusiveSum C ++ rest2)
    (h3 : C.length ≤ f.collisionPairCount.m_data.length)
    (h4 : f.uniqueKeyCount = C.length)
    (h5 : f.validCellCount = (C.length : Int) - 1) :
    (f.beginCreateCollisionPairList cd mem DeviceBuffer.empty).map (fun r => r.2.toList) =
      if C.length = 0 then none
      else some ((List.range (C.length - 1)).flatMap (fun b =>
        acceptedPairs cd f.spheres f.cellArrayValueSorted.m_data ((C.take b).sum) (C.getD b 0))) := by
  by_cases hm : C.length = 0
  · -- no bucket: the read-back is at index `-1`
    simp only [hm, if_true]
    unfold SpatialPartitionField.beginCreateCollisionPairList
    simp only [h4, hm]
    simp [SpatialPartitionField.readBack]
  · simp only [hm, if_false]
    have hv : f.validCellCount.toNat = C.length - 1 := by rw [h5]; omega
    -- what the kernels read for a bucket `b < m`
    have hsize : ∀ b, b < C.length → f.objCountInCell.m_data.getD b 0 = C.getD b 0 := by
      intro b hb
      rw [h1, getD_append_left' _ _ _ _ hb]
    have hoff : ∀ b, b < C.length → f.objCountInCellPrefixSum.m_data.getD b 0 = (C.take b).sum := by
      intro b hb
      rw [h2, getD_append_left' _ _ _ _ (by rw [ExclusiveSum_length]; exact hb),
        List.getD_eq_getElem?_getD, ExclusiveSum_getElem? C b hb]
      rfl
    -- pass A
    have hA : (f.countPass cd).collisionPairCount.m_data =
        (List.range (C.length - 1)).map (fun b =>
          (acceptedPairs cd f.spheres f.cellArrayValueSorted.m_data ((C.take b).sum)
            (C.getD b 0)).length) ++ f.collisionPairCount.m_data.drop (C.length - 1) := by
      unfold SpatialPartitionField.countPass
      simp only [hv]
      rw [foldl_set_range _ _ _ (by omega)]
      congr 1
      apply List.map_congr_left
      intro b hb
      rw [List.mem_range] at hb
      rw [countPairsInCell_eq, hsize b (by omega), hoff b (by omega)]
    have hAlen : C.length ≤ (f.countPass cd).collisionPairCount.m_data.length := by
      rw [hA]
      simp
      omega
    -- the scan
    have hE : ∀ b, b < C.length →
        (f.countPass cd).scanPairCount.collisionPairPrefixSum.m_data.getD b 0 =
          ((List.range b).map (fun c =>
            (acceptedPairs cd f.spheres f.cellArrayValueSorted.m_data ((C.take c).sum)
              (C.getD c 0)).length)).sum := by
      intro b hb
      have hu : (f.countPass cd).uniqueKeyCount = C.length := h4
      unfold SpatialPartitionField.scanPairCount
      simp only [DeviceBuffer.store, hu]
      have hl : (List.take C.length (f.countPass cd).collisionPairCount.m_data).length
          = C.length := by
        rw [List.length_take]
        omega
      rw [getD_append_left' _ _ _ _ (by rw [ExclusiveSum_length, hl]; exact hb),
        List.getD_eq_getElem?_getD, ExclusiveSum_getElem? _ b (by rw [hl]; exact hb)]
      simp only [Option.getD_some]
      rw [List.take_take, Nat.min_eq_left (by omega), hA,
        List.take_append_of_le_length (by simp; omega), ← List.map_take, List.take_range,
        Nat.min_eq_left (by omega)]
    have hrb : SpatialPartitionField.readBack
        (f.countPass cd).scanPairCount.collisionPairPrefixSum.m_data ((C.length : Int) - 1) =
        some (((List.range (C.length - 1)).map (fun c =>
            (acceptedPairs cd f.spheres f.cellArrayValueSorted.m_data ((C.take c).sum)
              (C.getD c 0)).length)).sum) := by
      have hx := hE (C.length - 1) (by omega)
      unfold SpatialPartitionField.readBack
      have hneg : ¬ ((C.length : Int) - 1 < 0) := by omega
      have hidx : ((C.length : Int) - 1).toNat = C.length - 1 := by omega
      simp only [hneg, if_false, hidx]
      rw [List.getD_eq_getElem?_getD] at hx
      rw [List.get?_eq_getElem?]
      cases hg : ((f.countPass cd).scanPairCount.collisionPairPrefixSum.m_data)[C.length - 1]? with
      | none =>
        exfalso
        rw [List.getElem?_eq_none_iff] at hg
        unfold SpatialPartitionField.scanPairCount at hg
        simp only [DeviceBuffer.store, List.length_append, ExclusiveSum_length,
          List.length_take] at hg
        have : (f.countPass cd).uniqueKeyCount = C.length := h4
        omega
      | some v =>
        rw [hg] at hx
        simp only [Option.getD_some] at hx
        rw [hx]
    -- the resize of the output and pass B
    obtain ⟨hr1, hr2⟩ := resize_empty_pairs mem.pairs
      (((List.range (C.length - 1)).map (fun c =>
        (acceptedPairs cd f.spheres f.cellArrayValueSorted.m_data ((C.take c).sum)
          (C.getD c 0)).length)).sum)
    have hB := foldl_write_cells
      (fun data cell => SpatialPartitionField.writePairsInCell cd (f.countPass cd).scanPairCount
        data cell)
      (fun b => acceptedPairs cd f.spheres f.cellArrayValueSorted.m_data ((C.take b).sum)
        (C.getD b 0))
      (fun b => ((List.range b).map (fun c =>
        (acceptedPairs cd f.spheres f.cellArrayValueSorted.m_data ((C.take c).sum)
          (C.getD c 0)).length)).sum)
      (C.length - 1)
      (List.replicate (((List.range (C.length - 1)).map (fun c =>
        (acceptedPairs cd f.spheres f.cellArrayValueSorted.m_data ((C.take c).sum)
          (C.getD c 0)).length)).sum) (⟨0, 0⟩ : CollisionPair))
      (fun _ => rfl)
      (by
        intro b hb d hd
        have e1 : (f.countPass cd).scanPairCount.spheres = f.spheres := rfl
        have e2 : (f.countPass cd).scanPairCount.cellArrayValueSorted = f.cellArrayValueSorted :=
          rfl
        have e3 : (f.countPass cd).scanPairCount.objCountInCell = f.objCountInCell := rfl
        have e4 : (f.countPass cd).scanPairCount.objCountInCellPrefixSum =
          f.objCountInCellPrefixSum := rfl
        have hw := writePairsInCell_eq cd (f.countPass cd).scanPairCount d b
        rw [e1, e2, e3, e4, hsize b (by omega), hoff b (by omega), hE b (by omega)] at hw
        exact hw hd)
      (by simp)
    unfold SpatialPartitionField.beginCreateCollisionPairList
    simp only [h4, hrb, Option.map_some, Option.some.injEq]
    unfold SpatialPartitionField.writePass DeviceBuffer.toList
    have hv2 : (f.countPass cd).scanPairCount.validCellCount.toNat = C.length - 1 := hv
    simp only [hv2, hr1, hr2]
    rw [hB]
    simp only [List.drop_replicate, Nat.sub_self, List.replicate_zero, List.append_nil,
      Option.map_some', Option.some.injEq]
    apply List.take_of_length_le
    rw [List.length_flatMap]
    exact le_of_eq rfl

/-- The pair list of a run on a default-constructed field: no result when there is no bucket,
otherwise the accepted pairs of all buckets but the last, bucket after bucket. -/
theorem collisionPairsOf_eq (cd : collide) (mem : Memory) (hash_func : ivec3 → Nat)
    (cellSize : Option ℚ) (coordMin : vec3) (spheres : List sphere) :
    collisionPairsOf cd mem hash_func cellSize coordMin spheres =
      if (bucketRuns (runConfig hash_func cellSize coordMin spheres) cd spheres).length = 0 then
        none
      else some ((List.range
          ((bucketRuns (runConfig hash_func cellSize coordMin spheres) cd spheres).length - 1)).flatMap
          (bucketPairs (runConfig hash_func cellSize coordMin spheres) cd spheres)) := by
  obtain ⟨s1, s2, s3, s4, s5, -, s7, s8⟩ :=
    setup_fresh cd mem hash_func cellSize coordMin spheres
  have hle := bucketRuns_length_le (runConfig hash_func cellSize coordMin spheres) cd spheres
  have h := create_spec cd mem
    ((configured hash_func cellSize coordMin).beginSetupSpatialDataStructure cd mem spheres)
    ((bucketRuns (runConfig hash_func cellSize coordMin spheres) cd spheres).map Prod.snd)
    _ _ s3 s4
    (by rw [s5, alloc_length, List.length_map]; exact hle)
    (by rw [s7, List.length_map]) (by rw [s8, List.length_map])
  rw [s1, s2, List.length_map] at h
  exact h

theorem bucketRuns_ne_nil (sh : SpatialHashConfig) (cd : collide) {spheres : List sphere}
    (h : spheres ≠ []) : (bucketRuns sh cd spheres).length ≠ 0 := by
  intro h0
  have h1 : bucketRuns sh cd spheres = [] := List.length_eq_zero.1 h0
  unfold bucketRuns at h1
  have h2 := Encode_flatten ((sortedRows sh cd spheres).map Prod.fst)
  rw [h1] at h2
  have h3 := congrArg List.length h2
  simp only [List.flatMap_nil, List.length_nil, List.length_map, sortedRows_length] at h3
  have : spheres.length ≠ 0 := fun hl => h (List.length_eq_zero.1 hl)
  omega

/-! ## The records of a bucket -/

theorem zip_map_self {α β : Type} (f : α → β) (l : List α) :
    (l.map f).zip l = l.map (fun a => (f a, a)) := by
  induction l with
  | nil => rfl
  | cons a l ih => simp [ih]

theorem sortedRows_perm (sh : SpatialHashConfig) (cd : collide) (spheres : List sphere) :
    (sortedRows sh cd spheres).Perm ((fillRows sh cd spheres).map (fun a => (a.cid, a))) := by
  unfold sortedRows
  rw [← zip_map_self]
  exact SortPairs_perm _ _

theorem sortedCells_perm (sh : SpatialHashConfig) (cd : collide) (spheres : List sphere) :
    (sortedCells sh cd spheres).Perm (fillRows sh cd spheres) := by
  unfold sortedCells
  have h := (sortedRows_perm sh cd spheres).map Prod.snd
  rw [List.map_map] at h
  have e : (fillRows sh cd spheres).map (Prod.snd ∘ fun a => (a.cid, a)) = fillRows sh cd spheres := by
    simp [Function.comp_def]
  rw [e] at h
  exact h

theorem sortedRows_keys (sh : SpatialHashConfig) (cd : collide) (spheres : List sphere) :
    (sortedRows sh cd spheres).map Prod.fst = (sortedCells sh cd spheres).map (fun c => c.cid) := by
  unfold sortedCells
  rw [List.map_map]
  apply List.map_congr_left
  intro x hx
  have hx' := (sortedRows_perm sh cd spheres).mem_iff.1 hx
  rw [List.mem_map] at hx'
  obtain ⟨a, -, rfl⟩ := hx'
  rfl

theorem sortedCells_length (sh : SpatialHashConfig) (cd : collide) (spheres : List sphere) :
    (sortedCells sh cd spheres).length = 8 * spheres.length := by
  unfold sortedCells
  rw [List.length_map, sortedRows_length]

/-- A used record of the fill stage belongs to the object whose row holds it. -/
theorem fillRows_used {sh : SpatialHashConfig} {cd : collide} {spheres : List sphere}
    {r : SpatialPartitionCell} (hr : r ∈ fillRows sh cd spheres) (hu : IsUsed r) :
    ∃ n, IsRecordOf sh cd spheres n r := by
  unfold fillRows at hr
  rw [List.mem_flatMap] at hr
  obtain ⟨n, hn, hr⟩ := hr
  exact ⟨n, List.mem_range.1 hn, hr, hu⟩

theorem IsRecordOf.mem_fillRows {sh : SpatialHashConfig} {cd : collide} {spheres : List sphere}
    {n : Nat} {r : SpatialPartitionCell} (h : IsRecordOf sh cd spheres n r) :
    r ∈ fillRows sh cd spheres := by
  unfold fillRows
  rw [List.mem_flatMap]
  exact ⟨n, List.mem_range.2 h.1, h.2.1⟩

/-- Every key written by the fill stage is a bucket id below `2^30` or the key `0xFFFFFFFF` of
an unused slot. -/
theorem fillRows_cid_le {sh : SpatialHashConfig} {cd : collide} {spheres : List sphere}
    {r : SpatialPartitionCell} (hr : r ∈ fillRows sh cd spheres) : r.cid ≤ invalid := by
  by_cases hu : r.cid = invalid
  · exact le_of_eq hu
  · obtain ⟨n, hn⟩ := fillRows_used hr hu
    have := (record_basic hn).2.2.2.1
    rw [this]
    have := hashCell_lt sh r.ijk
    unfold invalid
    omega

/-- The record at position `offset_b + i` of bucket `b`, for `i < count_b`, lies inside the
sorted array and carries the key of the bucket. -/
theorem bucket_record (sh : SpatialHashConfig) (cd : collide) (spheres : List sphere)
    (b i k c : Nat) (hb : (bucketRuns sh cd spheres)[b]? = some (k, c)) (hi : i < c) :
    bucketOffset sh cd spheres b + i < (sortedCells sh cd spheres).length ∧
      (cellAt (sortedCells sh cd spheres) (bucketOffset sh cd spheres b + i)) ∈
        sortedCells sh cd spheres ∧
      (cellAt (sortedCells sh cd spheres) (bucketOffset sh cd spheres b + i)).cid = k := by
  have hflat : (bucketRuns sh cd spheres).flatMap (fun p => List.replicate p.2 p.1) =
      (sortedCells sh cd spheres).map (fun c => c.cid) := by
    unfold bucketRuns
    rw [Encode_flatten, sortedRows_keys]
  have hkey := chunk_key (bucketRuns sh cd spheres) b i k c hb hi
  have hbound := chunk_bound (bucketRuns sh cd spheres) b i k c hb hi
  rw [hflat] at hkey hbound
  rw [List.length_map] at hbound
  have hlt : bucketOffset sh cd spheres b + i < (sortedCells sh cd spheres).length := hbound
  have hcell : cellAt (sortedCells sh cd spheres) (bucketOffset sh cd spheres b + i) =
      (sortedCells sh cd spheres)[bucketOffset sh cd spheres b + i] := by
    unfold cellAt
    rw [List.getD_eq_getElem _ _ hlt]
  refine ⟨hlt, ?_, ?_⟩
  · rw [hcell]
    exact List.getElem_mem _
  · rw [hcell]
    have hk2 : ((sortedCells sh cd spheres).map (fun c => c.cid))[bucketOffset sh cd spheres b + i]?
        = some k := hkey
    rw [List.getElem?_map, List.getElem?_eq_getElem hlt] at hk2
    simpa using hk2

theorem bucketRuns_sorted (sh : SpatialHashConfig) (cd : collide) (spheres : List sphere) :
    ((bucketRuns sh cd spheres).map Prod.fst).Sorted (· < ·) := by
  unfold bucketRuns
  apply Encode_sorted
  unfold sortedRows
  exact SortPairs_sorted _ _

theorem bucketRuns_key_mem {sh : SpatialHashConfig} {cd : collide} {spheres : List sphere}
    {p : Nat × Nat} (hp : p ∈ bucketRuns sh cd spheres) :
    ∃ r ∈ fillRows sh cd spheres, r.cid = p.1 := by
  unfold bucketRuns at hp
  have h := Encode_key_mem _ p hp
  rw [sortedRows_keys, List.mem_map] at h
  obtain ⟨r, hr, he⟩ := h
  exact ⟨r, (sortedCells_perm sh cd spheres).mem_iff.1 hr, he⟩

theorem bucketRuns_key_lt (sh : SpatialHashConfig) (cd : collide) (spheres : List sphere)
    (b b' k c k' c' : Nat) (hb : (bucketRuns sh cd spheres)[b]? = some (k, c))
    (hb' : (bucketRuns sh cd spheres)[b']? = some (k', c')) (hlt : b < b') : k < k' := by
  have hs := bucketRuns_sorted sh cd spheres
  unfold List.Sorted at hs
  rw [List.pairwise_iff_getElem] at hs
  obtain ⟨h1, e1⟩ := List.getElem?_eq_some_iff.1 hb
  obtain ⟨h2, e2⟩ := List.getElem?_eq_some_iff.1 hb'
  have := hs b b' (by simpa using h1) (by simpa using h2) hlt
  simp only [List.getElem_map, e1, e2] at this
  exact this

/-- The key of every bucket but the last is a real bucket id: it is not the key `0xFFFFFFFF`
of the unused slots. -/
theorem valid_bucket_key (sh : SpatialHashConfig) (cd : collide) (spheres : List sphere)
    (b k c : Nat) (hb : (bucketRuns sh cd spheres)[b]? = some (k, c))
    (hv : b + 1 < (bucketRuns sh cd spheres).length) : k ≠ invalid := by
  obtain ⟨kl, hl⟩ : ∃ kl, (bucketRuns sh cd spheres)[(bucketRuns sh cd spheres).length - 1]? =
      some kl := by
    cases hg : (bucketRuns sh cd spheres)[(bucketRuns sh cd spheres).length - 1]? with
    | none =>
      rw [List.getElem?_eq_none_iff] at hg
      omega
    | some v => exact ⟨v, rfl⟩
  have hlt := bucketRuns_key_lt sh cd spheres b _ k c kl.1 kl.2 hb hl (by omega)
  have hmem : kl ∈ bucketRuns sh cd spheres := by
    obtain ⟨h1, e1⟩ := List.getElem?_eq_some_iff.1 hl
    rw [← e1]
    exact List.getElem_mem _
  obtain ⟨r, hr, he⟩ := bucketRuns_key_mem hmem
  have := fillRows_cid_le hr
  omega

theorem bucketRuns_getElem? (sh : SpatialHashConfig) (cd : collide) (spheres : List sphere)
    (b : Nat) (hb : b < (bucketRuns sh cd spheres).length) :
    ∃ k, (bucketRuns sh cd spheres)[b]? = some (k, bucketCount sh cd spheres b) := by
  refine ⟨((bucketRuns sh cd spheres)[b]).1, ?_⟩
  rw [List.getElem?_eq_getElem hb]
  unfold bucketCount
  rw [List.getD_eq_getElem _ _ (by simpa using hb)]
  simp

/-- Every record the two passes read (bucket `b < validCellCount`, position `i < count_b`) lies
inside the sorted array and is a used record of some object. -/
theorem valid_bucket_record (sh : SpatialHashConfig) (cd : collide) (spheres : List sphere)
    (b i : Nat) (hv : b + 1 < (bucketRuns sh cd spheres).length)
    (hi : i < bucketCount sh cd spheres b) :
    bucketOffset sh cd spheres b + i < (sortedCells sh cd spheres).length ∧
      ∃ n, IsRecordOf sh cd spheres n
        (cellAt (sortedCells sh cd spheres) (bucketOffset sh cd spheres b + i)) := by
  obtain ⟨k, hk⟩ := bucketRuns_getElem? sh cd spheres b (by omega)
  obtain ⟨h1, h2, h3⟩ := bucket_record sh cd spheres b i k _ hk hi
  refine ⟨h1, ?_⟩
  apply fillRows_used ((sortedCells_perm sh cd spheres).mem_iff.1 h2)
  unfold IsUsed
  rw [h3]
  exact valid_bucket_key sh cd spheres b k _ hk hv

/-! ## Records of one bucket, positions in the sorted array -/

theorem morton_parityRespecting : ParityRespecting morton := by
  intro c c' h
  rw [passType_eq, passType_eq]
  unfold morton at h
  have e : ∀ v, spreadBits 10 v = v % 2 + 8 * spreadBits 9 (v / 2) := fun v => rfl
  rw [e, e, e, e, e, e] at h
  have h1 := u32_mod_two c.i
  have h2 := u32_mod_two c.j
  have h3 := u32_mod_two c.k
  have h1' := u32_mod_two c'.i
  have h2' := u32_mod_two c'.j
  have h3' := u32_mod_two c'.k
  omega

/-- Under a parity-respecting hash the records of one bucket have one pass type. -/
theorem same_bucket_pass {sh : SpatialHashConfig} {cd : collide} {spheres : List sphere}
    (hp : ParityRespecting sh.hash_func) {n n' : Nat} {r r' : SpatialPartitionCell}
    (h : IsRecordOf sh cd spheres n r) (h' : IsRecordOf sh cd spheres n' r')
    (hc : r.cid = r'.cid) : r.pass = r'.pass := by
  obtain ⟨-, a2, -, a4, -⟩ := record_basic h
  obtain ⟨-, b2, -, b4, -⟩ := record_basic h'
  rw [a2, b2]
  apply hp
  have : sh.hashCell r.ijk = sh.hashCell r'.ijk := by rw [← a4, ← b4, hc]
  exact this

theorem index_unique_of_count_le_one {α : Type} [DecidableEq α] (l : List α) (r : α)
    (h : l.count r ≤ 1) (x y : Nat) (hx : l[x]? = some r) (hy : l[y]? = some r) : x = y := by
  induction l generalizing x y with
  | nil => simp at hx
  | cons a l ih =>
    cases x with
    | zero =>
      cases y with
      | zero => rfl
      | succ y =>
        exfalso
        simp only [List.getElem?_cons_zero, Option.some.injEq] at hx
        simp only [List.getElem?_cons_succ] at hy
        subst hx
        have hm : a ∈ l := by
          obtain ⟨h1, e1⟩ := List.getElem?_eq_some_iff.1 hy
          rw [← e1]
          exact List.getElem_mem _
        have := List.count_pos_iff.2 hm
        rw [List.count_cons_self] at h
        omega
    | succ x =>
      cases y with
      | zero =>
        exfalso
        simp only [List.getElem?_cons_zero, Option.some.injEq] at hy
        simp only [List.getElem?_cons_succ] at hx
        subst hy
        have hm : a ∈ l := by
          obtain ⟨h1, e1⟩ := List.getElem?_eq_some_iff.1 hx
          rw [← e1]
          exact List.getElem_mem _
        have := List.count_pos_iff.2 hm
        rw [List.count_cons_self] at h
        omega
      | succ y =>
        simp only [List.getElem?_cons_succ] at hx hy
        have hc : l.count r ≤ 1 := le_trans (List.count_le_count_cons _ _ _) h
        rw [ih hc x y hx hy]

theorem fillObject_count (sh : SpatialHashConfig) (cd : collide) (n : Nat) (s : sphere)
    (r : SpatialPartitionCell) (hu : IsUsed r) : (fillObject sh cd n s).count r ≤ 1 := by
  obtain ⟨home, phantoms, hrow, ⟨a1, a2, a3, a4, a5⟩, hbits, hmap, hph⟩ :=
    fillObject_spec sh cd n s
  obtain ⟨o1, o2, o3⟩ := octant_cases sh s
  have hnd : (phantoms.map (fun r => r.ijk)).Nodup := by
    rw [hmap]
    exact (neighbourCells_nodup o1 o2 o3).filter _
  have hnd2 : (home :: phantoms).Nodup := by
    refine List.nodup_cons.2 ⟨?_, hnd.of_map _⟩
    intro hm
    have hmem : home.ijk ∈ (neighbourCells (sh.cell s.o) (octant sh s)).filter
        (proxyOverlaps sh cd ⟨s.o, s.r * (3 / 2)⟩) := by
      rw [← hmap]
      exact List.mem_map_of_mem _ hm
    refine neighbourCells_passType_ne o1 o2 o3 (List.mem_filter.1 hmem).1 ?_
    rw [a1]
  rw [hrow]
  show ((home :: phantoms) ++
    List.replicate (7 - phantoms.length) (Cell invalid invalid)).count r ≤ 1
  rw [List.count_append]
  have h1 : (home :: phantoms).count r ≤ 1 := List.nodup_iff_count_le_one.1 hnd2 r
  have h2 : (List.replicate (7 - phantoms.length) (Cell invalid invalid)).count r = 0 := by
    rw [List.count_eq_zero]
    intro hm
    rw [List.mem_replicate] at hm
    exact hu (by rw [hm.2]; rfl)
  omega

theorem fillRows_count (sh : SpatialHashConfig) (cd : collide) (spheres : List sphere)
    (r : SpatialPartitionCell) (hu : IsUsed r) : (fillRows sh cd spheres).count r ≤ 1 := by
  unfold fillRows
  have key : ∀ m, ((List.range m).flatMap (fun i => fillObject sh cd i (sphereAt spheres i))).count r
      ≤ 1 ∧ (r.oid < m ∨
        ((List.range m).flatMap (fun i => fillObject sh cd i (sphereAt spheres i))).count r = 0) := by
    intro m
    induction m with
    | zero => simp
    | succ m ih =>
      rw [List.range_succ, List.flatMap_append, List.count_append]
      simp only [List.flatMap_cons, List.flatMap_nil, List.append_nil]
      by_cases hm : r ∈ fillObject sh cd m (sphereAt spheres m)
      · -- `r` is a record of object `m`, so `r.oid = m` and no earlier row holds it
        obtain ⟨home, phantoms, hrow, ⟨a1, a2, a3, a4, a5⟩, -, -, hph⟩ :=
          fillObject_spec sh cd m (sphereAt spheres m)
        have hoid : r.oid = m := by
          rw [hrow] at hm
          rcases used_mem_row hm hu with e | g
          · rw [e, a5]
          · exact (hph r g).2.2.2.1
        have h0 : ((List.range m).flatMap
            (fun i => fillObject sh cd i (sphereAt spheres i))).count r = 0 := by
          rcases ih.2 with hlt | h0
          · omega
          · exact h0
        have := fillObject_count sh cd m (sphereAt spheres m) r hu
        exact ⟨by omega, Or.inl (by omega)⟩
      · have h0 : (fillObject sh cd m (sphereAt spheres m)).count r = 0 :=
          List.count_eq_zero.2 hm
        rw [h0]
        refine ⟨by simpa using ih.1, ?_⟩
        rcases ih.2 with hlt | hz
        · exact Or.inl (by omega)
        · exact Or.inr (by simpa using hz)
  exact (key spheres.length).1

theorem sortedCells_count (sh : SpatialHashConfig) (cd : collide) (spheres : List sphere)
    (r : SpatialPartitionCell) (hu : IsUsed r) : (sortedCells sh cd spheres).count r ≤ 1 := by
  rw [(sortedCells_perm sh cd spheres).count_eq]
  exact fillRows_count sh cd spheres r hu

/-- Two positions of the sorted array that hold the same used record coincide. -/
theorem sortedCells_pos_unique (sh : SpatialHashConfig) (cd : collide) (spheres : List sphere)
    (x y : Nat) (hx : x < (sortedCells sh cd spheres).length)
    (hy : y < (sortedCells sh cd spheres).length)
    (hu : IsUsed (cellAt (sortedCells sh cd spheres) x))
    (he : cellAt (sortedCells sh cd spheres) x = cellAt (sortedCells sh cd spheres) y) : x = y := by
  apply index_unique_of_count_le_one _ _ (sortedCells_count sh cd spheres _ hu)
  · unfold cellAt
    rw [List.getD_eq_getElem _ _ hx, List.getElem?_eq_getElem hx]
  · rw [he]
    unfold cellAt
    rw [List.getD_eq_getElem _ _ hy, List.getElem?_eq_getElem hy]

/-! ## The entries of the output -/

/-- Membership in the output of a run on a default-constructed field. -/
theorem mem_collisionPairs {cd : collide} {mem : Memory} {hash_func : ivec3 → Nat}
    {cellSize : Option ℚ} {coordMin : vec3} {spheres : List sphere} {out : List CollisionPair}
    (h : collisionPairsOf cd mem hash_func cellSize coordMin spheres = some out)
    (p : CollisionPair) :
    p ∈ out ↔ ∃ b i j,
      b + 1 < (bucketRuns (runConfig hash_func cellSize coordMin spheres) cd spheres).length ∧
      i < j ∧ j < bucketCount (runConfig hash_func cellSize coordMin spheres) cd spheres b ∧
      acceptPair cd spheres (sortedCells (runConfig hash_func cellSize coordMin spheres) cd spheres)
        (bucketOffset (runConfig hash_func cellSize coordMin spheres) cd spheres b) i j = true ∧
      p = pairOf (sortedCells (runConfig hash_func cellSize coordMin spheres) cd spheres)
        (bucketOffset (runConfig hash_func cellSize coordMin spheres) cd spheres b) i j := by
  rw [collisionPairsOf_eq] at h
  split at h
  · exact Option.noConfusion h
  · simp only [Option.some.injEq] at h
    rw [← h]
    simp only [List.mem_flatMap, List.mem_range, bucketPairs, acceptedPairs, List.mem_map,
      List.mem_filter, Prod.exists, pairIndices_mem]
    constructor
    · rintro ⟨b, hb, i, j, ⟨⟨h1, h2⟩, h3⟩, rfl⟩
      exact ⟨b, i, j, by omega, h1, h2, h3, rfl⟩
    · rintro ⟨b, i, j, hb, h1, h2, h3, rfl⟩
      exact ⟨b, by omega, i, j, ⟨⟨h1, h2⟩, h3⟩, rfl⟩

/-- What an accepted pair of a bucket `b < validCellCount` consists of: two used records with
the key of the bucket, not ignorable, whose spheres pass the exact test. -/
theorem accepted_records {sh : SpatialHashConfig} {cd : collide} {spheres : List sphere}
    {b i j : Nat} (hb : b + 1 < (bucketRuns sh cd spheres).length) (hij : i < j)
    (hj : j < bucketCount sh cd spheres b)
    (hacc : acceptPair cd spheres (sortedCells sh cd spheres) (bucketOffset sh cd spheres b) i j
      = true) :
    ∃ nA nB,
      IsRecordOf sh cd spheres nA
        (cellAt (sortedCells sh cd spheres) (bucketOffset sh cd spheres b + i)) ∧
      IsRecordOf sh cd spheres nB
        (cellAt (sortedCells sh cd spheres) (bucketOffset sh cd spheres b + j)) ∧
      (cellAt (sortedCells sh cd spheres) (bucketOffset sh cd spheres b + i)).cid =
        (cellAt (sortedCells sh cd spheres) (bucketOffset sh cd spheres b + j)).cid ∧
      allowIgnore (cellAt (sortedCells sh cd spheres) (bucketOffset sh cd spheres b + i))
        (cellAt (sortedCells sh cd spheres) (bucketOffset sh cd spheres b + j)) = false ∧
      cd.detect (sphereAt spheres nA) (sphereAt spheres nB) = true ∧
      pairOf (sortedCells sh cd spheres) (bucketOffset sh cd spheres b) i j =
        ⟨u32ToInt nA, u32ToInt nB⟩ := by
  obtain ⟨-, nA, hA⟩ := valid_bucket_record sh cd spheres b i hb (by omega)
  obtain ⟨-, nB, hB⟩ := valid_bucket_record sh cd spheres b j hb hj
  obtain ⟨k, hk⟩ := bucketRuns_getElem? sh cd spheres b (by omega)
  obtain ⟨-, -, c1⟩ := bucket_record sh cd spheres b i k _ hk (by omega)
  obtain ⟨-, -, c2⟩ := bucket_record sh cd spheres b j k _ hk hj
  have oA := (record_basic hA).1
  have oB := (record_basic hB).1
  unfold acceptPair at hacc
  simp only [Bool.and_eq_true, Bool.not_eq_true'] at hacc
  rw [oA, oB] at hacc
  refine ⟨nA, nB, hA, hB, by rw [c1, c2], hacc.1, hacc.2, ?_⟩
  unfold pairOf
  rw [oA, oB]

theorem u32ToInt_of_lt {n : Nat} (h : n < 2147483648) : u32ToInt n = (n : Int) := by
  unfold u32ToInt
  have : n % 4294967296 = n := Nat.mod_eq_of_lt (by omega)
  rw [this]
  simp [h]

/-- Under a parity-respecting hash the two records of an accepted pair belong to different
objects. -/
theorem accepted_distinct {sh : SpatialHashConfig} {cd : collide} {spheres : List sphere}
    (hp : ParityRespecting sh.hash_func) {b i j nA nB : Nat}
    (hb : b + 1 < (bucketRuns sh cd spheres).length) (hij : i < j)
    (hj : j < bucketCount sh cd spheres b)
    (hA : IsRecordOf sh cd spheres nA
      (cellAt (sortedCells sh cd spheres) (bucketOffset sh cd spheres b + i)))
    (hB : IsRecordOf sh cd spheres nB
      (cellAt (sortedCells sh cd spheres) (bucketOffset sh cd spheres b + j)))
    (hc : (cellAt (sortedCells sh cd spheres) (bucketOffset sh cd spheres b + i)).cid =
      (cellAt (sortedCells sh cd spheres) (bucketOffset sh cd spheres b + j)).cid) :
    nA ≠ nB := by
  intro he
  subst he
  have hpass := same_bucket_pass hp hA hB hc
  have heq := record_pass_inj hA hB hpass
  obtain ⟨h1, -⟩ := valid_bucket_record sh cd spheres b i hb (by omega)
  obtain ⟨h2, -⟩ := valid_bucket_record sh cd spheres b j hb hj
  have := sortedCells_pos_unique sh cd spheres _ _ h1 h2 hA.2.2 heq
  omega

/-- Soundness of the output of a run: every entry is a pair of two different valid object
indices whose spheres pass the exact test. -/
theorem output_entry_sound {cd : collide} {mem : Memory} {hash_func : ivec3 → Nat}
    {cellSize : Option ℚ} {coordMin : vec3} {spheres : List sphere} {out : List CollisionPair}
    (hp : ParityRespecting hash_func) (hN : 8 * spheres.length < 2147483648)
    (h : collisionPairsOf cd mem hash_func cellSize coordMin spheres = some out)
    {p : CollisionPair} (hmem : p ∈ out) :
    ∃ a b : Nat, p = ⟨(a : Int), (b : Int)⟩ ∧ a < spheres.length ∧ b < spheres.length ∧ a ≠ b ∧
      cd.detect (sphereAt spheres a) (sphereAt spheres b) = true := by
  obtain ⟨b, i, j, hb, hij, hj, hacc, rfl⟩ := (mem_collisionPairs h p).1 hmem
  obtain ⟨nA, nB, hA, hB, hc, -, hd, hpair⟩ := accepted_records hb hij hj hacc
  have hne := @accepted_distinct (runConfig hash_func cellSize coordMin spheres) _ _ hp
    _ _ _ _ _ hb hij hj hA hB hc
  have lA : nA < spheres.length := hA.1
  have lB : nB < spheres.length := hB.1
  refine ⟨nA, nB, ?_, lA, lB, hne, hd⟩
  rw [hpair, u32ToInt_of_lt (by omega), u32ToInt_of_lt (by omega)]

theorem bucketOffset_le (sh : SpatialHashConfig) (cd : collide) (spheres : List sphere)
    (b b' : Nat) (hb : b < (bucketRuns sh cd spheres).length) (hlt : b < b') :
    bucketOffset sh cd spheres b + bucketCount sh cd spheres b ≤ bucketOffset sh cd spheres b' := by
  obtain ⟨k, hk⟩ := bucketRuns_getElem? sh cd spheres b hb
  exact offsets_strictMono _ (fun p hp => Encode_pos _ p hp) b b' k _ hk hlt

/-- A position of the sorted array lies in one bucket only. -/
theorem bucket_pos_inj (sh : SpatialHashConfig) (cd : collide) (spheres : List sphere)
    (b i b' i' : Nat) (hb : b < (bucketRuns sh cd spheres).length)
    (hb' : b' < (bucketRuns sh cd spheres).length) (hi : i < bucketCount sh cd spheres b)
    (hi' : i' < bucketCount sh cd spheres b')
    (h : bucketOffset sh cd spheres b + i = bucketOffset sh cd spheres b' + i') :
    b = b' ∧ i = i' := by
  rcases Nat.lt_trichotomy b b' with hlt | heq | hgt
  · have := bucketOffset_le sh cd spheres b b' hb hlt
    omega
  · subst heq
    exact ⟨rfl, by omega⟩
  · have := bucketOffset_le sh cd spheres b' b hb' hgt
    omega

/-- Under a parity-respecting hash, two accepted pairs with the same two objects are the same
pair of the same bucket. -/
theorem accepted_unique {sh : SpatialHashConfig} {cd : collide} {spheres : List sphere}
    (hp : ParityRespecting sh.hash_func) {b i j b' i' j' : Nat}
    (hb : b + 1 < (bucketRuns sh cd spheres).length) (hij : i < j)
    (hj : j < bucketCount sh cd spheres b)
    (hacc : acceptPair cd spheres (sortedCells sh cd spheres) (bucketOffset sh cd spheres b) i j
      = true)
    (hb' : b' + 1 < (bucketRuns sh cd spheres).length) (hij' : i' < j')
    (hj' : j' < bucketCount sh cd spheres b')
    (hacc' : acceptPair cd spheres (sortedCells sh cd spheres) (bucketOffset sh cd spheres b')
      i' j' = true)
    (hsame :
      ((cellAt (sortedCells sh cd spheres) (bucketOffset sh cd spheres b + i)).oid =
          (cellAt (sortedCells sh cd spheres) (bucketOffset sh cd spheres b' + i')).oid ∧
        (cellAt (sortedCells sh cd spheres) (bucketOffset sh cd spheres b + j)).oid =
          (cellAt (sortedCells sh cd spheres) (bucketOffset sh cd spheres b' + j')).oid) ∨
      ((cellAt (sortedCells sh cd spheres) (bucketOffset sh cd spheres b + i)).oid =
          (cellAt (sortedCells sh cd spheres) (bucketOffset sh cd spheres b' + j')).oid ∧
        (cellAt (sortedCells sh cd spheres) (bucketOffset sh cd spheres b + j)).oid =
          (cellAt (sortedCells sh cd spheres) (bucketOffset sh cd spheres b' + i')).oid)) :
    b = b' ∧ i = i' ∧ j = j' := by
  obtain ⟨nA, nB, hA, hB, hc, hig, -, -⟩ := accepted_records hb hij hj hacc
  obtain ⟨nA', nB', hA', hB', hc', hig', -, -⟩ := accepted_records hb' hij' hj' hacc'
  obtain ⟨p1, -⟩ := valid_bucket_record sh cd spheres b i hb (by omega)
  obtain ⟨p2, -⟩ := valid_bucket_record sh cd spheres b j hb hj
  obtain ⟨p1', -⟩ := valid_bucket_record sh cd spheres b' i' hb' (by omega)
  obtain ⟨p2', -⟩ := valid_bucket_record sh cd spheres b' j' hb' hj'
  have oA := (record_basic hA).1
  have oB := (record_basic hB).1
  have oA' := (record_basic hA').1
  have oB' := (record_basic hB').1
  have hpass := same_bucket_pass hp hA hB hc
  have hpass' := same_bucket_pass hp hA' hB' hc'
  rcases hsame with ⟨e1, e2⟩ | ⟨e1, e2⟩
  · -- the same objects in the same order
    have eA : nA = nA' := by rw [← oA, ← oA', e1]
    have eB : nB = nB' := by rw [← oB, ← oB', e2]
    subst eA eB
    have hq := owner_pass_unique hA hB hA' hB' hpass hpass' hig hig'
    have r1 := record_pass_inj hA hA' hq
    have r2 := record_pass_inj hB hB' (by rw [← hpass, hq, hpass'])
    have x1 := sortedCells_pos_unique sh cd spheres _ _ p1 p1' hA.2.2 r1
    have x2 := sortedCells_pos_unique sh cd spheres _ _ p2 p2' hB.2.2 r2
    obtain ⟨g1, g2⟩ := bucket_pos_inj sh cd spheres b i b' i' (by omega) (by omega) (by omega)
      (by omega) x1
    subst g1
    exact ⟨rfl, g2, by omega⟩
  · -- the same objects in the opposite order: impossible
    exfalso
    have eA : nA = nB' := by rw [← oA, ← oB', e1]
    have eB : nB = nA' := by rw [← oB, ← oA', e2]
    subst eA eB
    have hig'' : allowIgnore
        (cellAt (sortedCells sh cd spheres) (bucketOffset sh cd spheres b' + j'))
        (cellAt (sortedCells sh cd spheres) (bucketOffset sh cd spheres b' + i')) = false := by
      rw [allowIgnore_comm hpass'.symm]
      exact hig'
    have hq := owner_pass_unique hA hB hB' hA' hpass hpass'.symm hig hig''
    have r1 := record_pass_inj hA hB' hq
    have r2 := record_pass_inj hB hA' (by rw [← hpass, hq, ← hpass'])
    have x1 := sortedCells_pos_unique sh cd spheres _ _ p1 p2' hA.2.2 r1
    have x2 := sortedCells_pos_unique sh cd spheres _ _ p2 p1' hB.2.2 r2
    obtain ⟨g1, g2⟩ := bucket_pos_inj sh cd spheres b i b' j' (by omega) (by omega) (by omega)
      hj' x1
    subst g1
    omega

theorem accepted_unique_ids {sh : SpatialHashConfig} {cd : collide} {spheres : List sphere}
    (hp : ParityRespecting sh.hash_func) (hN : 8 * spheres.length < 2147483648)
    {b i j b' i' j' : Nat}
    (hb : b + 1 < (bucketRuns sh cd spheres).length) (hij : i < j)
    (hj : j < bucketCount sh cd spheres b)
    (hacc : acceptPair cd spheres (sortedCells sh cd spheres) (bucketOffset sh cd spheres b) i j
      = true)
    (hb' : b' + 1 < (bucketRuns sh cd spheres).length) (hij' : i' < j')
    (hj' : j' < bucketCount sh cd spheres b')
    (hacc' : acceptPair cd spheres (sortedCells sh cd spheres) (bucketOffset sh cd spheres b')
      i' j' = true)
    (hsame :
      ((pairOf (sortedCells sh cd spheres) (bucketOffset sh cd spheres b) i j).id0 =
          (pairOf (sortedCells sh cd spheres) (bucketOffset sh cd spheres b') i' j').id0 ∧
        (pairOf (sortedCells sh cd spheres) (bucketOffset sh cd spheres b) i j).id1 =
          (pairOf (sortedCells sh cd spheres) (bucketOffset sh cd spheres b') i' j').id1) ∨
      ((pairOf (sortedCells sh cd spheres) (bucketOffset sh cd spheres b) i j).id0 =
          (pairOf (sortedCells sh cd spheres) (bucketOffset sh cd spheres b') i' j').id1 ∧
        (pairOf (sortedCells sh cd spheres) (bucketOffset sh cd spheres b) i j).id1 =
          (pairOf (sortedCells sh cd spheres) (bucketOffset sh cd spheres b') i' j').id0)) :
    b = b' ∧ i = i' ∧ j = j' := by
  obtain ⟨nA, nB, hA, hB, -, -, -, -⟩ := accepted_records hb hij hj hacc
  obtain ⟨nA', nB', hA', hB', -, -, -, -⟩ := accepted_records hb' hij' hj' hacc'
  have oA := (record_basic hA).1
  have oB := (record_basic hB).1
  have oA' := (record_basic hA').1
  have oB' := (record_basic hB').1
  have lA : nA < spheres.length := hA.1
  have lB : nB < spheres.length := hB.1
  have lA' : nA' < spheres.length := hA'.1
  have lB' : nB' < spheres.length := hB'.1
  apply accepted_unique hp hb hij hj hacc hb' hij' hj' hacc'
  unfold pairOf at hsame
  simp only [oA, oB, oA', oB'] at hsame ⊢
  rw [u32ToInt_of_lt (by omega), u32ToInt_of_lt (by omega), u32ToInt_of_lt (by omega),
    u32ToInt_of_lt (by omega)] at hsame
  omega

/-- Under a parity-respecting hash no unordered pair of object ids occurs twice in the output
of a run. -/
theorem output_nodup {cd : collide} {mem : Memory} {hash_func : ivec3 → Nat}
    {cellSize : Option ℚ} {coordMin : vec3} {spheres : List sphere} {out : List CollisionPair}
    (hp : ParityRespecting hash_func) (hN : 8 * spheres.length < 2147483648)
    (h : collisionPairsOf cd mem hash_func cellSize coordMin spheres = some out) :
    (out.map (fun p => s(p.id0, p.id1))).Nodup := by
  rw [collisionPairsOf_eq] at h
  split at h
  · exact Option.noConfusion h
  · simp only [Option.some.injEq] at h
    rw [← h, List.map_flatMap, List.nodup_flatMap]
    refine ⟨?_, ?_⟩
    · intro b hb
      rw [List.mem_range] at hb
      unfold bucketPairs acceptedPairs
      rw [List.map_map]
      refine List.Nodup.map_on ?_ ((pairIndices_nodup _).filter _)
      rintro ⟨i, j⟩ hx ⟨i', j'⟩ hy he
      rw [List.mem_filter, pairIndices_mem] at hx hy
      simp only [Function.comp_apply, Sym2.eq_iff] at he
      obtain ⟨-, g1, g2⟩ := @accepted_unique_ids
        (runConfig hash_func cellSize coordMin spheres) _ _ hp hN _ _ _ _ _ _ (by omega)
        hx.1.1 hx.1.2 hx.2 (by omega) hy.1.1 hy.1.2 hy.2 he
      rw [g1, g2]
    · refine (List.nodup_range _).pairwise_of_forall_ne ?_
      intro b hb b' hb' hne
      rw [List.mem_range] at hb hb'
      simp only [Function.onFun, List.Disjoint]
      intro q hq hq'
      unfold bucketPairs acceptedPairs at hq hq'
      rw [List.map_map, List.mem_map] at hq hq'
      obtain ⟨⟨i, j⟩, hx, rfl⟩ := hq
      obtain ⟨⟨i', j'⟩, hy, he⟩ := hq'
      rw [List.mem_filter, pairIndices_mem] at hx hy
      simp only [Function.comp_apply, Sym2.eq_iff] at he
      obtain ⟨g, -, -⟩ := @accepted_unique_ids
        (runConfig hash_func cellSize coordMin spheres) _ _ hp hN _ _ _ _ _ _ (by omega)
        hy.1.1 hy.1.2 hy.2 (by omega) hx.1.1 hx.1.2 hx.2 he
      exact hne g.symm

/-! ## Which bucket reports a pair -/

/-- When each of two objects has a record in the home cell of the other, the pair is not
ignorable in at least one of the two home cells. -/
theorem owner_exists {sh : SpatialHashConfig} {cd : collide} {spheres : List sphere} {A B : Nat}
    {hA rBA hB rAB : SpatialPartitionCell}
    (h1 : IsRecordOf sh cd spheres A hA) (h1h : hA.pass = hA.home)
    (h2 : IsRecordOf sh cd spheres B rBA) (h2p : rBA.pass = hA.pass)
    (h3 : IsRecordOf sh cd spheres B hB) (h3h : hB.pass = hB.home)
    (h4 : IsRecordOf sh cd spheres A rAB) (h4p : rAB.pass = hB.pass) :
    allowIgnore hA rBA = false ∨ allowIgnore rAB hB = false := by
  have eA : rAB.home = hA.home := by rw [(record_basic h4).2.2.1, (record_basic h1).2.2.1]
  have eB : rBA.home = hB.home := by rw [(record_basic h2).2.2.1, (record_basic h3).2.2.1]
  by_contra hc
  push_neg at hc
  obtain ⟨c1, c2⟩ := hc
  simp only [Bool.not_eq_false] at c1 c2
  rw [allowIgnore_true_iff] at c1 c2
  have l1 : rBA.home < hA.pass := by
    rcases c1 with ⟨g, -⟩ | ⟨g, -⟩ | ⟨g, -⟩
    · exact absurd h1h.symm g
    · omega
    · exact g
  have l2 : rAB.home < rAB.pass := by
    rcases c2 with ⟨-, g⟩ | ⟨g, -⟩ | ⟨g, -⟩
    · exact absurd h3h.symm g
    · exact g
    · omega
  omega

theorem used_record_position {sh : SpatialHashConfig} {cd : collide} {spheres : List sphere}
    {n : Nat} {r : SpatialPartitionCell} (h : IsRecordOf sh cd spheres n r) :
    ∃ b i, b < (bucketRuns sh cd spheres).length ∧ i < bucketCount sh cd spheres b ∧
      cellAt (sortedCells sh cd spheres) (bucketOffset sh cd spheres b + i) = r ∧
      (bucketRuns sh cd spheres)[b]? = some (r.cid, bucketCount sh cd spheres b) := by
  have hm : r ∈ sortedCells sh cd spheres :=
    (sortedCells_perm sh cd spheres).mem_iff.2 h.mem_fillRows
  obtain ⟨p, hp, he⟩ := List.mem_iff_getElem.1 hm
  have hflat : (bucketRuns sh cd spheres).flatMap (fun p => List.replicate p.2 p.1) =
      (sortedCells sh cd spheres).map (fun c => c.cid) := by
    unfold bucketRuns
    rw [Encode_flatten, sortedRows_keys]
  obtain ⟨b, k, c, i, hb, hi, hpe⟩ := chunk_decomp (bucketRuns sh cd spheres) p
    (by rw [hflat, List.length_map]; exact hp)
  have hblt : b < (bucketRuns sh cd spheres).length := by
    obtain ⟨hl, -⟩ := List.getElem?_eq_some_iff.1 hb
    exact hl
  obtain ⟨k', hk'⟩ := bucketRuns_getElem? sh cd spheres b hblt
  have hkc : (k, c) = (k', bucketCount sh cd spheres b) := by
    rw [hb] at hk'
    exact Option.some.inj hk'
  obtain ⟨rfl, rfl⟩ := Prod.mk.inj hkc
  obtain ⟨-, -, hcid⟩ := bucket_record sh cd spheres b i k _ hb hi
  have hcell : cellAt (sortedCells sh cd spheres) (bucketOffset sh cd spheres b + i) = r := by
    have hpe' : p = bucketOffset sh cd spheres b + i := hpe
    rw [← hpe']
    unfold cellAt
    rw [List.getD_eq_getElem _ _ hp, he]
  refine ⟨b, i, hblt, hi, hcell, ?_⟩
  rw [hcell] at hcid
  rw [hcid]
  exact hb

theorem same_key_same_bucket (sh : SpatialHashConfig) (cd : collide) (spheres : List sphere)
    (b b' k c c' : Nat) (hb : (bucketRuns sh cd spheres)[b]? = some (k, c))
    (hb' : (bucketRuns sh cd spheres)[b']? = some (k, c')) : b = b' := by
  rcases Nat.lt_trichotomy b b' with hlt | heq | hgt
  · have := bucketRuns_key_lt sh cd spheres b b' k c k c' hb hb' hlt
    omega
  · exact heq
  · have := bucketRuns_key_lt sh cd spheres b' b k c' k c hb' hb hgt
    omega

/-- When some slot is unused, the last bucket is the bucket of the unused slots, so every
bucket with a real key is one of the first `validCellCount` buckets. -/
theorem used_bucket_valid {sh : SpatialHashConfig} {cd : collide} {spheres : List sphere}
    (hs : SomeSlotUnused sh cd spheres) (b k c : Nat)
    (hb : (bucketRuns sh cd spheres)[b]? = some (k, c)) (hk : k ≠ invalid) :
    b + 1 < (bucketRuns sh cd spheres).length := by
  obtain ⟨r, hr, hinv⟩ := hs
  have hm : r ∈ sortedCells sh cd spheres := (sortedCells_perm sh cd spheres).mem_iff.2 hr
  have hkey : invalid ∈ (sortedRows sh cd spheres).map Prod.fst := by
    rw [sortedRows_keys, List.mem_map]
    exact ⟨r, hm, hinv⟩
  obtain ⟨p, hp, hp1⟩ := Encode_mem_key _ invalid hkey
  have hp' : p ∈ bucketRuns sh cd spheres := hp
  clear hp
  obtain ⟨b0, hb0, he0⟩ := List.mem_iff_getElem.1 hp'
  have hb0' : (bucketRuns sh cd spheres)[b0]? = some (invalid, p.2) := by
    have : (bucketRuns sh cd spheres)[b0]? = some p := by
      rw [List.getElem?_eq_getElem hb0]
      exact congrArg some he0
    rw [this, ← hp1]
  obtain ⟨hblt, heb⟩ := List.getElem?_eq_some_iff.1 hb
  have hkle : k ≤ invalid := by
    have hmem : (k, c) ∈ bucketRuns sh cd spheres := by
      rw [← heb]
      exact List.getElem_mem _
    obtain ⟨r', hr', he'⟩ := bucketRuns_key_mem hmem
    have := fillRows_cid_le hr'
    simp only at he'
    omega
  have hb0lt : b0 < (bucketRuns sh cd spheres).length := hb0
  rcases Nat.lt_trichotomy b b0 with hlt | heq | hgt
  · omega
  · subst heq
    rw [hb] at hb0'
    have := (Prod.mk.inj (Option.some.inj hb0')).1
    exact absurd this hk
  · have := bucketRuns_key_lt sh cd spheres b0 b invalid p.2 k c hb0' hb hgt
    omega

/-- Two records of different objects that share a real bucket and are not ignorable there are
reported, in the order in which the sorted array holds them, when some slot is unused and the
exact test succeeds. -/
theorem not_ignored_reported {cd : collide} {mem : Memory} {hash_func : ivec3 → Nat}
    {cellSize : Option ℚ} {coordMin : vec3} {spheres : List sphere} {out : List CollisionPair}
    (hN : 8 * spheres.length < 2147483648)
    (hs : SomeSlotUnused (runConfig hash_func cellSize coordMin spheres) cd spheres)
    (h : collisionPairsOf cd mem hash_func cellSize coordMin spheres = some out)
    {A B : Nat} {x y : SpatialPartitionCell}
    (hx : IsRecordOf (runConfig hash_func cellSize coordMin spheres) cd spheres A x)
    (hy : IsRecordOf (runConfig hash_func cellSize coordMin spheres) cd spheres B y)
    (hAB : A ≠ B) (hc : x.cid = y.cid) (hpass : x.pass = y.pass)
    (hig : allowIgnore x y = false)
    (hd : cd.detect (sphereAt spheres A) (sphereAt spheres B) = true)
    (hd' : cd.detect (sphereAt spheres B) (sphereAt spheres A) = true) :
    (⟨(A : Int), (B : Int)⟩ : CollisionPair) ∈ out ∨ (⟨(B : Int), (A : Int)⟩ : CollisionPair) ∈ out := by
  obtain ⟨b, i, hb, hi, hcx, hbx⟩ := used_record_position hx
  obtain ⟨b', i', hb', hi', hcy, hby⟩ := used_record_position hy
  rw [← hc] at hby
  have hbb := same_key_same_bucket _ cd spheres b b' _ _ _ hbx hby
  subst hbb
  have hvalid := used_bucket_valid hs b _ _ hbx hx.2.2
  have oA := (record_basic hx).1
  have oB := (record_basic hy).1
  have lA : A < spheres.length := hx.1
  have lB : B < spheres.length := hy.1
  have hne : i ≠ i' := by
    intro he
    subst he
    rw [hcx] at hcy
    rw [hcy] at oA
    omega
  rcases Nat.lt_or_gt_of_ne hne with hlt | hgt
  · left
    rw [mem_collisionPairs h]
    refine ⟨b, i, i', hvalid, hlt, hi', ?_, ?_⟩
    · unfold acceptPair
      simp only [hcx, hcy, hig, oA, oB, hd, Bool.not_false, Bool.and_self]
    · unfold pairOf
      rw [hcx, hcy, oA, oB, u32ToInt_of_lt (by omega), u32ToInt_of_lt (by omega)]
  · right
    rw [mem_collisionPairs h]
    refine ⟨b, i', i, hvalid, hgt, hi, ?_, ?_⟩
    · unfold acceptPair
      have hig' : allowIgnore y x = false := by
        rw [allowIgnore_comm hpass.symm]
        exact hig
      simp only [hcx, hcy, hig', oA, oB, hd', Bool.not_false, Bool.and_self]
    · unfold pairOf
      rw [hcx, hcy, oA, oB, u32ToInt_of_lt (by omega), u32ToInt_of_lt (by omega)]

/-- Completeness of a run for the pairs the design covers: two different objects with records
in each other's home cell, whose spheres pass the exact test, are reported when some slot is
unused. -/
theorem mutual_pair_reported {cd : collide} {mem : Memory} {hash_func : ivec3 → Nat}
    {cellSize : Option ℚ} {coordMin : vec3} {spheres : List sphere} {out : List CollisionPair}
    (hN : 8 * spheres.length < 2147483648)
    (hs : SomeSlotUnused (runConfig hash_func cellSize coordMin spheres) cd spheres)
    (h : collisionPairsOf cd mem hash_func cellSize coordMin spheres = some out)
    {A B : Nat} (hA : A < spheres.length) (hB : B < spheres.length) (hAB : A ≠ B)
    (hBA : HasRecordIn (runConfig hash_func cellSize coordMin spheres) cd spheres B
      (homeCellOf (runConfig hash_func cellSize coordMin spheres) spheres A))
    (hAB' : HasRecordIn (runConfig hash_func cellSize coordMin spheres) cd spheres A
      (homeCellOf (runConfig hash_func cellSize coordMin spheres) spheres B))
    (hd : cd.detect (sphereAt spheres A) (sphereAt spheres B) = true)
    (hd' : cd.detect (sphereAt spheres B) (sphereAt spheres A) = true) :
    (⟨(A : Int), (B : Int)⟩ : CollisionPair) ∈ out ∨ (⟨(B : Int), (A : Int)⟩ : CollisionPair) ∈ out := by
  obtain ⟨homeA, h1, h1c, h1h⟩ := home_record_exists (runConfig hash_func cellSize coordMin spheres)
    cd hA
  obtain ⟨homeB, h3, h3c, h3h⟩ := home_record_exists (runConfig hash_func cellSize coordMin spheres)
    cd hB
  obtain ⟨rBA, h2, h2c⟩ := hBA
  obtain ⟨rAB, h4, h4c⟩ := hAB'
  have p1 := (record_basic h1).2.1
  have p2 := (record_basic h2).2.1
  have p3 := (record_basic h3).2.1
  have p4 := (record_basic h4).2.1
  have c1 := (record_basic h1).2.2.2.1
  have c2 := (record_basic h2).2.2.2.1
  have c3 := (record_basic h3).2.2.2.1
  have c4 := (record_basic h4).2.2.2.1
  have h2p : rBA.pass = homeA.pass := by rw [p1, p2, h2c, h1c]
  have h4p : rAB.pass = homeB.pass := by rw [p3, p4, h4c, h3c]
  rcases owner_exists h1 h1h h2 h2p h3 h3h h4 h4p with hig | hig
  · exact not_ignored_reported hN hs h h1 h2 hAB (by rw [c1, c2, h2c, h1c]) h2p.symm hig hd hd'
  · exact not_ignored_reported hN hs h h4 h3 hAB (by rw [c3, c4, h4c, h3c]) h4p hig hd hd'

/-! ## Ownership at the level of cells -/

theorem record_ijk_inj {sh : SpatialHashConfig} {cd : collide} {spheres : List sphere} {n : Nat}
    {r r' : SpatialPartitionCell} (h : IsRecordOf sh cd spheres n r)
    (h' : IsRecordOf sh cd spheres n r') (he : r.ijk = r'.ijk) : r = r' := by
  apply record_pass_inj h h'
  rw [(record_basic h).2.1, (record_basic h').2.1, he]

/-- At most one cell owns a pair of objects. -/
theorem notIgnoredIn_unique {sh : SpatialHashConfig} {cd : collide} {spheres : List sphere}
    {a b : Nat} {c c' : ivec3} (h : NotIgnoredIn sh cd spheres a b c)
    (h' : NotIgnoredIn sh cd spheres a b c') : c = c' := by
  obtain ⟨ra, rb, ha, hb, ea, eb, hig⟩ := h
  obtain ⟨ra', rb', ha', hb', ea', eb', hig'⟩ := h'
  have p1 := (record_basic ha).2.1
  have p2 := (record_basic hb).2.1
  have p1' := (record_basic ha').2.1
  have p2' := (record_basic hb').2.1
  have hq := owner_pass_unique ha hb ha' hb' (by rw [p1, p2, ea, eb]) (by rw [p1', p2', ea', eb'])
    hig hig'
  have := record_pass_inj ha ha' hq
  rw [← ea, ← ea', this]

/-- When each of two objects has a record in the home cell of the other, one of the two home
cells owns the pair. -/
theorem notIgnoredIn_exists {sh : SpatialHashConfig} {cd : collide} {spheres : List sphere}
    {a b : Nat} (ha : a < spheres.length) (hb : b < spheres.length)
    (hba : HasRecordIn sh cd spheres b (homeCellOf sh spheres a))
    (hab : HasRecordIn sh cd spheres a (homeCellOf sh spheres b)) :
    ∃ c, NotIgnoredIn sh cd spheres a b c := by
  obtain ⟨homeA, h1, h1c, h1h⟩ := home_record_exists sh cd ha
  obtain ⟨homeB, h3, h3c, h3h⟩ := home_record_exists sh cd hb
  obtain ⟨rBA, h2, h2c⟩ := hba
  obtain ⟨rAB, h4, h4c⟩ := hab
  have p1 := (record_basic h1).2.1
  have p2 := (record_basic h2).2.1
  have p3 := (record_basic h3).2.1
  have p4 := (record_basic h4).2.1
  have h2p : rBA.pass = homeA.pass := by rw [p1, p2, h2c, h1c]
  have h4p : rAB.pass = homeB.pass := by rw [p3, p4, h4c, h3c]
  rcases owner_exists h1 h1h h2 h2p h3 h3h h4 h4p with hig | hig
  · exact ⟨_, homeA, rBA, h1, h2, h1c, h2c, hig⟩
  · exact ⟨_, rAB, homeB, h4, h3, h4c, h3c, hig⟩

/-- An ignored pair is owned by another cell when each of the two objects has a record in the
home cell of the other. -/
theorem ignored_has_owner {sh : SpatialHashConfig} {cd : collide} {spheres : List sphere}
    {a b : Nat} (ha : a < spheres.length) (hb : b < spheres.length)
    (hba : HasRecordIn sh cd spheres b (homeCellOf sh spheres a))
    (hab : HasRecordIn sh cd spheres a (homeCellOf sh spheres b))
    {ra rb : SpatialPartitionCell} (hra : IsRecordOf sh cd spheres a ra)
    (hrb : IsRecordOf sh cd spheres b rb) (hc : ra.ijk = rb.ijk)
    (hig : allowIgnore ra rb = true) :
    ∃ c, c ≠ ra.ijk ∧ NotIgnoredIn sh cd spheres a b c := by
  obtain ⟨c, hown⟩ := notIgnoredIn_exists ha hb hba hab
  refine ⟨c, ?_, hown⟩
  intro he
  obtain ⟨ra', rb', ha', hb', ea, eb, hig'⟩ := hown
  have e1 : ra' = ra := record_ijk_inj ha' hra (by rw [ea, he])
  have e2 : rb' = rb := record_ijk_inj hb' hrb (by rw [eb, he, hc])
  rw [e1, e2, hig] at hig'
  exact Bool.noConfusion hig'

/-! ## The cell size a run uses -/

theorem fill_config (cd : collide) (mem : Memory) (g : SpatialPartitionField) :
    (g.beginFillHashCells cd mem).spatialHashConfig = g.spatialHashConfig := by
  unfold SpatialPartitionField.beginFillHashCells
  by_cases h : g.cellArrayValue.m_size < 8 * g.spheres.length <;> simp only [h, if_true, if_false]

theorem fill_spheres (cd : collide) (mem : Memory) (g : SpatialPartitionField) :
    (g.beginFillHashCells cd mem).spheres = g.spheres := by
  unfold SpatialPartitionField.beginFillHashCells
  by_cases h : g.cellArrayValue.m_size < 8 * g.spheres.length <;> simp only [h, if_true, if_false]

/-- The fill stage writes the records of all objects at the start of `cellArrayValue`. -/
theorem fill_rows (cd : collide) (mem : Memory) (g : SpatialPartitionField) :
    (g.beginFillHashCells cd mem).cellArrayValue.m_data.take (8 * g.spheres.length) =
      fillRows g.spatialHashConfig cd g.spheres := by
  unfold SpatialPartitionField.beginFillHashCells
  by_cases h : g.cellArrayValue.m_size < 8 * g.spheres.length <;>
    simp only [h, if_true, if_false, DeviceBuffer.store] <;>
    rw [List.take_append_of_le_length (by rw [fillRows_length]),
      List.take_of_length_le (by rw [fillRows_length])]

theorem sort_config (g : SpatialPartitionField) :
    g.beginSortHashCells.spatialHashConfig = g.spatialHashConfig := rfl

theorem sort_cellArrayValue (g : SpatialPartitionField) :
    g.beginSortHashCells.cellArrayValue = g.cellArrayValue := rfl

theorem count_config (mem : Memory) (g : SpatialPartitionField) :
    (g.beginCountCollisionPerCell mem).spatialHashConfig = g.spatialHashConfig := rfl

theorem count_cellArrayValue (mem : Memory) (g : SpatialPartitionField) :
    (g.beginCountCollisionPerCell mem).cellArrayValue = g.cellArrayValue := rfl

/-- The field on which the fill stage of `beginSetupSpatialDataStructure` starts. -/
theorem setup_stages (cd : collide) (mem : Memory) (f : SpatialPartitionField)
    (spheres : List sphere) :
    f.beginSetupSpatialDataStructure cd mem spheres =
      SpatialPartitionField.beginCountCollisionPerCell mem
        (SpatialPartitionField.beginSortHashCells
          (SpatialPartitionField.beginFillHashCells cd mem
            (if f.spatialHashConfig.cellSize ≤ 0 then
              ({ f with spheres := spheres } : SpatialPartitionField).beginCalculateCellSize
            else { f with spheres := spheres }))) := rfl

/-- The hash configuration with which `beginSetupSpatialDataStructure` fills the cells: the one
of the field when its cell size is positive, otherwise the one with the computed cell size. -/
theorem setup_config (cd : collide) (mem : Memory) (f : SpatialPartitionField)
    (spheres : List sphere) :
    (f.beginSetupSpatialDataStructure cd mem spheres).spatialHashConfig =
      if f.spatialHashConfig.cellSize ≤ 0 then
        { f.spatialHashConfig with
          cellSize := Max (spheres.map (fun s => s.r)) * (3 / 2) * (3 / 2) }
      else f.spatialHashConfig := by
  rw [setup_stages, count_config, sort_config, fill_config]
  by_cases h : f.spatialHashConfig.cellSize ≤ 0
  · simp only [h, if_true]
    rfl
  · simp only [h, if_false]

/-- The records the fill stage of `beginSetupSpatialDataStructure` writes are those of the
configuration of `setup_config`. -/
theorem setup_rows (cd : collide) (mem : Memory) (f : SpatialPartitionField)
    (spheres : List sphere) :
    (f.beginSetupSpatialDataStructure cd mem spheres).cellArrayValue.m_data.take
        (8 * spheres.length) =
      fillRows (f.beginSetupSpatialDataStructure cd mem spheres).spatialHashConfig cd spheres := by
  rw [setup_stages, count_config, sort_config, fill_config, count_cellArrayValue,
    sort_cellArrayValue]
  have h := fill_rows cd mem (if f.spatialHashConfig.cellSize ≤ 0 then
      ({ f with spheres := spheres } : SpatialPartitionField).beginCalculateCellSize
    else { f with spheres := spheres })
  have hs : (if f.spatialHashConfig.cellSize ≤ 0 then
      ({ f with spheres := spheres } : SpatialPartitionField).beginCalculateCellSize
    else { f with spheres := spheres }).spheres = spheres := by
    by_cases h : f.spatialHashConfig.cellSize ≤ 0
    · simp only [h, if_true]
      rfl
    · simp only [h, if_false]
  rw [hs] at h
  exact h

theorem foldl_max_of_le (l : List ℚ) (a : ℚ) (h : ∀ x ∈ l, x ≤ a) : l.foldl max a = a := by
  induction l with
  | nil => rfl
  | cons x l ih =>
    rw [List.foldl_cons, max_eq_left (h x (List.mem_cons_self _ _))]
    exact ih (fun y hy => h y (List.mem_cons_of_mem _ hy))

theorem foldl_max_eq (l : List ℚ) (init a : ℚ) (hmem : a ∈ l) (hmax : ∀ x ∈ l, x ≤ a)
    (hinit : init ≤ a) : l.foldl max init = a := by
  induction l generalizing init with
  | nil => exact absurd hmem (List.not_mem_nil _)
  | cons x l ih =>
    rw [List.foldl_cons]
    rcases List.mem_cons.1 hmem with e | hl
    · subst e
      rw [max_eq_right hinit]
      exact foldl_max_of_le l a (fun y hy => hmax y (List.mem_cons_of_mem _ hy))
    · exact ih _ hl (fun y hy => hmax y (List.mem_cons_of_mem _ hy))
        (max_le hinit (hmax x (List.mem_cons_self _ _)))

/-- `Max` returns the largest radius when one of the radii is positive. -/
theorem Max_eq (l : List ℚ) (a : ℚ) (hmem : a ∈ l) (hmax : ∀ x ∈ l, x ≤ a) (hpos : 0 < a) :
    Max l = a := by
  unfold Max
  apply foldl_max_eq l _ a hmem hmax
  unfold floatLowest
  linarith

/-! ## The conversion to a cell coordinate -/

theorem floatToInt_of_nonneg {q : ℚ} (h : 0 ≤ q) : floatToInt q = ⌊q⌋ := by
  unfold floatToInt
  rw [Rat.floor_def, Int.tdiv_eq_ediv (Rat.num_nonneg.2 h) (by exact_mod_cast Nat.zero_le _)]

theorem floatToInt_neg (q : ℚ) : floatToInt (-q) = -floatToInt q := by
  unfold floatToInt
  rw [Rat.neg_num, Rat.neg_den, Int.neg_tdiv]

theorem floatToInt_of_nonpos {q : ℚ} (h : q ≤ 0) : floatToInt q = ⌈q⌉ := by
  have h1 := floatToInt_neg (-q)
  rw [neg_neg] at h1
  rw [h1, floatToInt_of_nonneg (by linarith), Int.floor_neg, neg_neg]
/-! ## Runs on a field that was used before -/

theorem resize_m_size {α : Type} (junk : Nat → α) (zero : α) (b : DeviceBuffer α) (n : Nat) :
    (b.resize junk zero n).m_size = n := by
  unfold DeviceBuffer.resize
  by_cases h1 : n ≤ b.m_size <;> by_cases h2 : n ≤ b.m_capacity <;> simp [h1, h2]

theorem resize_wellFormed {α : Type} (junk : Nat → α) (zero : α) (b : DeviceBuffer α) (n : Nat)
    (hb : b.WellFormed) : (b.resize junk zero n).WellFormed := by
  obtain ⟨h1, h2⟩ := hb
  unfold DeviceBuffer.resize DeviceBuffer.WellFormed
  by_cases c1 : n ≤ b.m_size
  · simp only [c1, if_true]
    exact ⟨h1, by omega⟩
  · by_cases c2 : n ≤ b.m_capacity
    · simp only [c1, c2, if_true, if_false, DeviceBuffer.memset, List.length_append,
        List.length_take, List.length_replicate, List.length_drop]
      refine ⟨?_, trivial⟩
      rw [h1, Nat.min_eq_left h2]
      omega
    · simp only [c1, c2, if_false, DeviceBuffer.memset, DeviceBuffer.memcpy, List.length_append,
        List.length_take, List.length_replicate, List.length_drop]
      refine ⟨?_, Nat.le_refl _⟩
      by_cases c3 : b.m_data.isEmpty = true
      · simp only [c3, if_true, alloc_length]
        rw [Nat.min_eq_left (by omega)]
        omega
      · have c4 : b.m_data.isEmpty = false := by simpa using c3
        simp only [c4, List.length_append, List.length_take, List.length_drop, alloc_length, h1,
          Nat.min_eq_left h2]
        simp only [Bool.false_eq_true, if_false, List.length_append, List.length_take,
          List.length_drop, alloc_length, h1, Nat.min_eq_left h2]
        rw [Nat.min_eq_left (by omega)]
        omega

theorem wellFormed_empty {α : Type} : (DeviceBuffer.empty : DeviceBuffer α).WellFormed :=
  ⟨rfl, Nat.le_refl _⟩
/-- The output of `beginCreateCollisionPairList` into an arbitrary result buffer, on a field
whose count stage left `m > 0` buckets with counts `C` in a sorted array `V`. -/
theorem create_spec_buf (cd : collide) (mem : Memory) (f : SpatialPartitionField)
    (C rest1 rest2 : List Nat) (res : DeviceBuffer CollisionPair)
    (h1 : f.objCountInCell.m_data = C ++ rest1)
    (h2 : f.objCountInCellPrefixSum.m_data = ExclusiveSum C ++ rest2)
    (h3 : C.length ≤ f.collisionPairCount.m_data.length)
    (h4 : f.uniqueKeyCount = C.length)
    (h5 : f.validCellCount = (C.length : Int) - 1)
    (hres : res.WellFormed) (hm : C.length ≠ 0) :
    ∃ out, f.beginCreateCollisionPairList cd mem res = some ((f.countPass cd).scanPairCount, out) ∧
      out.WellFormed ∧
      out.toList = (List.range (C.length - 1)).flatMap (fun b =>
        acceptedPairs cd f.spheres f.cellArrayValueSorted.m_data ((C.take b).sum) (C.getD b 0)) := by
  have hv : f.validCellCount.toNat = C.length - 1 := by rw [h5]; omega
  have hsize : ∀ b, b < C.length → f.objCountInCell.m_data.getD b 0 = C.getD b 0 := by
    intro b hb
    rw [h1, getD_append_left' _ _ _ _ hb]
  have hoff : ∀ b, b < C.length → f.objCountInCellPrefixSum.m_data.getD b 0 = (C.take b).sum := by
    intro b hb
    rw [h2, getD_append_left' _ _ _ _ (by rw [ExclusiveSum_length]; exact hb),
      List.getD_eq_getElem?_getD, ExclusiveSum_getElem? C b hb]
    rfl
  have hA : (f.countPass cd).collisionPairCount.m_data =
      (List.range (C.length - 1)).map (fun b =>
        (acceptedPairs cd f.spheres f.cellArrayValueSorted.m_data ((C.take b).sum)
          (C.getD b 0)).length) ++ f.collisionPairCount.m_data.drop (C.length - 1) := by
    unfold SpatialPartitionField.countPass
    simp only [hv]
    rw [foldl_set_range _ _ _ (by omega)]
    congr 1
    apply List.map_congr_left
    intro b hb
    rw [List.mem_range] at hb
    rw [countPairsInCell_eq, hsize b (by omega), hoff b (by omega)]
  have hAlen : C.length ≤ (f.countPass cd).collisionPairCount.m_data.length := by
    rw [hA]
    simp
    omega
  have hE : ∀ b, b < C.length →
      (f.countPass cd).scanPairCount.collisionPairPrefixSum.m_data.getD b 0 =
        ((List.range b).map (fun c =>
          (acceptedPairs cd f.spheres f.cellArrayValueSorted.m_data ((C.take c).sum)
            (C.getD c 0)).length)).sum := by
    intro b hb
    have hu : (f.countPass cd).uniqueKeyCount = C.length := h4
    unfold SpatialPartitionField.scanPairCount
    simp only [DeviceBuffer.store, hu]
    have hl : (List.take C.length (f.countPass cd).collisionPairCount.m_data).length
        = C.length := by
      rw [List.length_take]
      omega
    rw [getD_append_left' _ _ _ _ (by rw [ExclusiveSum_length, hl]; exact hb),
      List.getD_eq_getElem?_getD, ExclusiveSum_getElem? _ b (by rw [hl]; exact hb)]
    simp only [Option.getD_some]
    rw [List.take_take, Nat.min_eq_left (by omega), hA,
      List.take_append_of_le_length (by simp; omega), ← List.map_take, List.take_range,
      Nat.min_eq_left (by omega)]
  have hrb : SpatialPartitionField.readBack
      (f.countPass cd).scanPairCount.collisionPairPrefixSum.m_data ((C.length : Int) - 1) =
      some (((List.range (C.length - 1)).map (fun c =>
          (acceptedPairs cd f.spheres f.cellArrayValueSorted.m_data ((C.take c).sum)
            (C.getD c 0)).length)).sum) := by
    have hx := hE (C.length - 1) (by omega)
    unfold SpatialPartitionField.readBack
    have hneg : ¬ ((C.length : Int) - 1 < 0) := by omega
    have hidx : ((C.length : Int) - 1).toNat = C.length - 1 := by omega
    simp only [hneg, if_false, hidx]
    rw [List.getD_eq_getElem?_getD] at hx
    rw [List.get?_eq_getElem?]
    cases hg : ((f.countPass cd).scanPairCount.collisionPairPrefixSum.m_data)[C.length - 1]? with
    | none =>
      exfalso
      rw [List.getElem?_eq_none_iff] at hg
      unfold SpatialPartitionField.scanPairCount at hg
      simp only [DeviceBuffer.store, List.length_append, ExclusiveSum_length,
        List.length_take] at hg
      have : (f.countPass cd).uniqueKeyCount = C.length := h4
      omega
    | some v =>
      rw [hg] at hx
      simp only [Option.getD_some] at hx
      rw [hx]
  -- the resize of the output and pass B
  have hw := resize_wellFormed mem.pairs ⟨0, 0⟩ res
    (((List.range (C.length - 1)).map (fun c =>
      (acceptedPairs cd f.spheres f.cellArrayValueSorted.m_data ((C.take c).sum)
        (C.getD c 0)).length)).sum) hres
  have hs := resize_m_size mem.pairs ⟨0, 0⟩ res
    (((List.range (C.length - 1)).map (fun c =>
      (acceptedPairs cd f.spheres f.cellArrayValueSorted.m_data ((C.take c).sum)
        (C.getD c 0)).length)).sum)
  generalize hR : res.resize mem.pairs ⟨0, 0⟩
    (((List.range (C.length - 1)).map (fun c =>
      (acceptedPairs cd f.spheres f.cellArrayValueSorted.m_data ((C.take c).sum)
        (C.getD c 0)).length)).sum) = R at hw hs
  have hB := foldl_write_cells
    (fun data cell => SpatialPartitionField.writePairsInCell cd (f.countPass cd).scanPairCount
      data cell)
    (fun b => acceptedPairs cd f.spheres f.cellArrayValueSorted.m_data ((C.take b).sum)
      (C.getD b 0))
    (fun b => ((List.range b).map (fun c =>
      (acceptedPairs cd f.spheres f.cellArrayValueSorted.m_data ((C.take c).sum)
        (C.getD c 0)).length)).sum)
    (C.length - 1)
    R.m_data
    (fun _ => rfl)
    (by
      intro b hb d hd
      have e1 : (f.countPass cd).scanPairCount.spheres = f.spheres := rfl
      have e2 : (f.countPass cd).scanPairCount.cellArrayValueSorted = f.cellArrayValueSorted :=
        rfl
      have e3 : (f.countPass cd).scanPairCount.objCountInCell = f.objCountInCell := rfl
      have e4 : (f.countPass cd).scanPairCount.objCountInCellPrefixSum =
        f.objCountInCellPrefixSum := rfl
      have hw := writePairsInCell_eq cd (f.countPass cd).scanPairCount d b
      rw [e1, e2, e3, e4, hsize b (by omega), hoff b (by omega), hE b (by omega)] at hw
      exact hw hd)
    (by
      have := hw.1
      have := hw.2
      simp only
      omega)
  have hflat : ((List.range (C.length - 1)).flatMap (fun b =>
      acceptedPairs cd f.spheres f.cellArrayValueSorted.m_data ((C.take b).sum)
        (C.getD b 0))).length = R.m_size := by
    rw [List.length_flatMap, hs]
    rfl
  have hv2 : (f.countPass cd).scanPairCount.validCellCount.toNat = C.length - 1 := hv
  refine ⟨(f.countPass cd).scanPairCount.writePass cd R, ?_, ?_, ?_⟩
  · unfold SpatialPartitionField.beginCreateCollisionPairList
    simp only [h4, hrb, hR]
  · unfold SpatialPartitionField.writePass DeviceBuffer.WellFormed
    simp only [hv2]
    rw [hB]
    refine ⟨?_, hw.2⟩
    have := hw.1
    have := hw.2
    simp only [List.length_append, List.length_drop, hflat, ← hs]
    omega
  · unfold SpatialPartitionField.writePass DeviceBuffer.toList
    simp only [hv2]
    rw [hB, List.take_append_of_le_length (by rw [hflat]), List.take_of_length_le (by rw [hflat])]

/-- The fill stage on a field whose `cellArrayValue` is large enough: no buffer is resized. -/
theorem fill_keep (cd : collide) (mem : Memory) (g : SpatialPartitionField)
    (h : ¬ g.cellArrayValue.m_size < 8 * g.spheres.length) :
    g.beginFillHashCells cd mem =
      { g with
        cellArrayValue := g.cellArrayValue.store (fillRows g.spatialHashConfig cd g.spheres)
        cellArrayKey := g.cellArrayKey.store
          ((fillRows g.spatialHashConfig cd g.spheres).map (fun c => c.cid)) } := by
  unfold SpatialPartitionField.beginFillHashCells
  simp only [h, if_false]

/-- The sort stage, given the keys and records the fill stage wrote. -/
theorem sort_spec (g : SpatialPartitionField) (rows : List SpatialPartitionCell)
    (hk : g.cellArrayKey.m_data.take (g.spheres.length * 8) = rows.map (fun c => c.cid))
    (hv : g.cellArrayValue.m_data.take (g.spheres.length * 8) = rows) :
    g.beginSortHashCells.cellArrayKeySorted.m_data =
        (SortPairs (rows.map (fun c => c.cid)) rows).map Prod.fst ++
          g.cellArrayKeySorted.m_data.drop (SortPairs (rows.map (fun c => c.cid)) rows).length ∧
      g.beginSortHashCells.cellArrayValueSorted.m_data =
        (SortPairs (rows.map (fun c => c.cid)) rows).map Prod.snd ++
          g.cellArrayValueSorted.m_data.drop (SortPairs (rows.map (fun c => c.cid)) rows).length := by
  unfold SpatialPartitionField.beginSortHashCells
  simp only [hk, hv, DeviceBuffer.store, List.length_map, and_self]

/-- The logical sizes the count stage leaves: every per-bucket array has `uniqueKeyCount`
elements. -/
theorem count_sizes (mem : Memory) (g : SpatialPartitionField) :
    (g.beginCountCollisionPerCell mem).uniqueKey.m_size =
        (g.beginCountCollisionPerCell mem).uniqueKeyCount ∧
      (g.beginCountCollisionPerCell mem).objCountInCell.m_size =
        (g.beginCountCollisionPerCell mem).uniqueKeyCount ∧
      (g.beginCountCollisionPerCell mem).objCountInCellPrefixSum.m_size =
        (g.beginCountCollisionPerCell mem).uniqueKeyCount ∧
      (g.beginCountCollisionPerCell mem).collisionPairCount.m_size =
        (g.beginCountCollisionPerCell mem).uniqueKeyCount ∧
      (g.beginCountCollisionPerCell mem).collisionPairPrefixSum.m_size =
        (g.beginCountCollisionPerCell mem).uniqueKeyCount := by
  unfold SpatialPartitionField.beginCountCollisionPerCell
  simp only [DeviceBuffer.store, resize_m_size, and_self]

/-- The count stage on a field whose per-bucket arrays have at least as many elements as there
are buckets: nothing is regrown. -/
theorem count_spec (mem : Memory) (g : SpatialPartitionField) (K : List Nat)
    (hK : g.cellArrayKeySorted.m_data.take (g.spheres.length * 8) = K)
    (h1 : (Encode K).length ≤ g.objCountInCell.m_size)
    (h2 : (Encode K).length ≤ g.objCountInCellPrefixSum.m_size)
    (h3 : (Encode K).length ≤ g.collisionPairCount.m_size) :
    (g.beginCountCollisionPerCell mem).objCountInCell.m_data =
        (Encode K).map Prod.snd ++ g.objCountInCell.m_data.drop (Encode K).length ∧
      (g.beginCountCollisionPerCell mem).objCountInCellPrefixSum.m_data =
        ExclusiveSum ((Encode K).map Prod.snd) ++
          g.objCountInCellPrefixSum.m_data.drop (Encode K).length ∧
      (g.beginCountCollisionPerCell mem).collisionPairCount.m_data =
        g.collisionPairCount.m_data ∧
      (g.beginCountCollisionPerCell mem).uniqueKeyCount = (Encode K).length ∧
      (g.beginCountCollisionPerCell mem).validCellCount = ((Encode K).length : Int) - 1 := by
  unfold SpatialPartitionField.beginCountCollisionPerCell
  simp only [hK, DeviceBuffer.store, DeviceBuffer.resize, List.length_map, h1, h2, h3, if_true,
    ExclusiveSum_length, and_true, true_and]
  rw [List.take_append_of_le_length (by simp), List.take_of_length_le (by simp)]
  simp [ExclusiveSum_length]

/-- The fill, sort and count stages on a field whose buffers already have the sizes a run on
the same list needs: the state they leave is the one a default-constructed field reaches. -/
theorem stages_sized (cd : collide) (mem : Memory) (g : SpatialPartitionField)
    (hsz : ¬ g.cellArrayValue.m_size < 8 * g.spheres.length)
    (hvs : g.cellArrayValueSorted.m_data.length ≤ 8 * g.spheres.length)
    (h1 : (bucketRuns g.spatialHashConfig cd g.spheres).length ≤ g.objCountInCell.m_size)
    (h2 : (bucketRuns g.spatialHashConfig cd g.spheres).length ≤ g.objCountInCellPrefixSum.m_size)
    (h3 : (bucketRuns g.spatialHashConfig cd g.spheres).length ≤ g.collisionPairCount.m_size)
    (h4 : (bucketRuns g.spatialHashConfig cd g.spheres).length ≤
      g.collisionPairCount.m_data.length) :
    ∃ rest1 rest2,
      ((g.beginFillHashCells cd mem).beginSortHashCells.beginCountCollisionPerCell mem).spheres =
          g.spheres ∧
        ((g.beginFillHashCells cd mem).beginSortHashCells.beginCountCollisionPerCell
          mem).cellArrayValueSorted.m_data = sortedCells g.spatialHashConfig cd g.spheres ∧
        ((g.beginFillHashCells cd mem).beginSortHashCells.beginCountCollisionPerCell
          mem).objCountInCell.m_data =
          (bucketRuns g.spatialHashConfig cd g.spheres).map Prod.snd ++ rest1 ∧
        ((g.beginFillHashCells cd mem).beginSortHashCells.beginCountCollisionPerCell
          mem).objCountInCellPrefixSum.m_data =
          ExclusiveSum ((bucketRuns g.spatialHashConfig cd g.spheres).map Prod.snd) ++ rest2 ∧
        (bucketRuns g.spatialHashConfig cd g.spheres).length ≤
          ((g.beginFillHashCells cd mem).beginSortHashCells.beginCountCollisionPerCell
            mem).collisionPairCount.m_data.length ∧
        ((g.beginFillHashCells cd mem).beginSortHashCells.beginCountCollisionPerCell
          mem).uniqueKeyCount = (bucketRuns g.spatialHashConfig cd g.spheres).length ∧
        ((g.beginFillHashCells cd mem).beginSortHashCells.beginCountCollisionPerCell
          mem).validCellCount =
          ((bucketRuns g.spatialHashConfig cd g.spheres).length : Int) - 1 := by
  have hrows := fillRows_length g.spatialHashConfig cd g.spheres
  have hsorted := sortedRows_length g.spatialHashConfig cd g.spheres
  have hcomm : g.spheres.length * 8 = 8 * g.spheres.length := Nat.mul_comm _ _
  rw [fill_keep cd mem g hsz]
  generalize hF : ({ g with
      cellArrayValue := g.cellArrayValue.store (fillRows g.spatialHashConfig cd g.spheres)
      cellArrayKey := g.cellArrayKey.store
        ((fillRows g.spatialHashConfig cd g.spheres).map (fun c => c.cid)) } :
      SpatialPartitionField) = F
  have f1 : F.spheres = g.spheres := by rw [← hF]
  have f2 : F.cellArrayKey.m_data.take (F.spheres.length * 8) =
      (fillRows g.spatialHashConfig cd g.spheres).map (fun c => c.cid) := by
    rw [← hF]
    simp only [DeviceBuffer.store]
    rw [List.take_append_of_le_length (by simp [hrows, hcomm]),
      List.take_of_length_le (by simp [hrows, hcomm])]
  have f3 : F.cellArrayValue.m_data.take (F.spheres.length * 8) =
      fillRows g.spatialHashConfig cd g.spheres := by
    rw [← hF]
    simp only [DeviceBuffer.store]
    rw [List.take_append_of_le_length (by simp [hrows, hcomm]),
      List.take_of_length_le (by simp [hrows, hcomm])]
  have f4 : F.cellArrayValueSorted = g.cellArrayValueSorted := by rw [← hF]
  have f5 : F.objCountInCell = g.objCountInCell := by rw [← hF]
  have f6 : F.objCountInCellPrefixSum = g.objCountInCellPrefixSum := by rw [← hF]
  have f7 : F.collisionPairCount = g.collisionPairCount := by rw [← hF]
  clear hF
  obtain ⟨sk, sv⟩ := sort_spec F _ f2 f3
  have t1 : F.beginSortHashCells.spheres = g.spheres := f1
  have t5 : F.beginSortHashCells.objCountInCell = g.objCountInCell := f5
  have t6 : F.beginSortHashCells.objCountInCellPrefixSum = g.objCountInCellPrefixSum := f6
  have t7 : F.beginSortHashCells.collisionPairCount = g.collisionPairCount := f7
  have hs2 : (SortPairs ((fillRows g.spatialHashConfig cd g.spheres).map (fun c => c.cid))
      (fillRows g.spatialHashConfig cd g.spheres)).length = 8 * g.spheres.length := hsorted
  have hK : F.beginSortHashCells.cellArrayKeySorted.m_data.take
      (F.beginSortHashCells.spheres.length * 8) =
      (sortedRows g.spatialHashConfig cd g.spheres).map Prod.fst := by
    rw [sk, t1, List.take_append_of_le_length (by simp [hs2, hcomm]),
      List.take_of_length_le (by simp [hs2, hcomm])]
    rfl
  have hV : F.beginSortHashCells.cellArrayValueSorted.m_data =
      sortedCells g.spatialHashConfig cd g.spheres := by
    rw [sv, f4, List.drop_eq_nil_of_le (by rw [hs2]; exact hvs), List.append_nil]
    rfl
  generalize F.beginSortHashCells = T at t1 t5 t6 t7 hK hV
  have hE : Encode ((sortedRows g.spatialHashConfig cd g.spheres).map Prod.fst) =
      bucketRuns g.spatialHashConfig cd g.spheres := rfl
  obtain ⟨c1, c2, c3, c4, c5⟩ := count_spec mem T _ hK (by rw [hE, t5]; exact h1)
    (by rw [hE, t6]; exact h2) (by rw [hE, t7]; exact h3)
  rw [hE] at c1 c2 c4 c5
  refine ⟨_, _, t1, hV, c1, c2, ?_, c4, c5⟩
  rw [c3, t7]
  exact h4

/-- The pair list `beginCreateCollisionPairList` writes into a result buffer `res`, on a field in
the state the setup of a run on `spheres` leaves. -/
theorem create_of_setup (cd : collide) (mem : Memory) (S : SpatialPartitionField)
    (sh : SpatialHashConfig) (spheres : List sphere) (res : DeviceBuffer CollisionPair)
    (rest1 rest2 : List Nat) (hres : res.WellFormed)
    (hne : (bucketRuns sh cd spheres).length ≠ 0)
    (e1 : S.spheres = spheres)
    (e2 : S.cellArrayValueSorted.m_data = sortedCells sh cd spheres)
    (e3 : S.objCountInCell.m_data = (bucketRuns sh cd spheres).map Prod.snd ++ rest1)
    (e4 : S.objCountInCellPrefixSum.m_data =
      ExclusiveSum ((bucketRuns sh cd spheres).map Prod.snd) ++ rest2)
    (e5 : (bucketRuns sh cd spheres).length ≤ S.collisionPairCount.m_data.length)
    (e6 : S.uniqueKeyCount = (bucketRuns sh cd spheres).length)
    (e7 : S.validCellCount = ((bucketRuns sh cd spheres).length : Int) - 1) :
    ∃ out, S.beginCreateCollisionPairList cd mem res =
        some ((S.countPass cd).scanPairCount, out) ∧
      out.WellFormed ∧
      out.toList =
        (List.range ((bucketRuns sh cd spheres).length - 1)).flatMap
          (bucketPairs sh cd spheres) := by
  obtain ⟨out, h1, h2, h3⟩ := create_spec_buf cd mem S
    ((bucketRuns sh cd spheres).map Prod.snd) rest1 rest2 res e3 e4
    (by rw [List.length_map]; exact e5) (by rw [e6, List.length_map])
    (by rw [e7, List.length_map]) hres (by rw [List.length_map]; exact hne)
  rw [e1, e2, List.length_map] at h3
  exact ⟨out, h1, h2, h3⟩

theorem foldl_set_length {α : Type} (g : Nat → α) (n : Nat) (d : List α) :
    ((List.range n).foldl (fun data c => data.set c (g c)) d).length = d.length := by
  induction n with
  | zero => rfl
  | succ n ih =>
    rw [List.range_succ, List.foldl_append]
    simp [ih]

/-- The configuration of a default-constructed field after its setup. -/
theorem setupOf_config (cd : collide) (mem : Memory) (hash_func : ivec3 → Nat)
    (cellSize : Option ℚ) (coordMin : vec3) (spheres : List sphere) :
    (setupOf cd mem hash_func cellSize coordMin spheres).spatialHashConfig =
      runConfig hash_func cellSize coordMin spheres := by
  unfold setupOf
  rw [setup_config, configured_config]
  unfold runConfig
  by_cases h : cellSize.getD 0 ≤ 0 <;> simp only [h, if_true, if_false]

/-- The logical sizes a default-constructed field has after its setup. -/
theorem setupOf_sizes (cd : collide) (mem : Memory) (hash_func : ivec3 → Nat)
    (cellSize : Option ℚ) (coordMin : vec3) (spheres : List sphere) :
    (setupOf cd mem hash_func cellSize coordMin spheres).cellArrayValue.m_size =
        8 * spheres.length ∧
      (setupOf cd mem hash_func cellSize coordMin spheres).objCountInCell.m_size =
        (bucketRuns (runConfig hash_func cellSize coordMin spheres) cd spheres).length ∧
      (setupOf cd mem hash_func cellSize coordMin spheres).objCountInCellPrefixSum.m_size =
        (bucketRuns (runConfig hash_func cellSize coordMin spheres) cd spheres).length ∧
      (setupOf cd mem hash_func cellSize coordMin spheres).collisionPairCount.m_size =
        (bucketRuns (runConfig hash_func cellSize coordMin spheres) cd spheres).length := by
  obtain ⟨-, -, -, -, -, -, s7, -⟩ := setup_fresh cd mem hash_func cellSize coordMin spheres
  have hsz : (setupOf cd mem hash_func cellSize coordMin spheres).cellArrayValue.m_size =
      8 * spheres.length := by
    unfold setupOf
    rw [setup_stages, count_cellArrayValue, sort_cellArrayValue]
    have hp := prepared_eq hash_func cellSize coordMin spheres
    rw [hp, fill_fresh]
  obtain ⟨-, c2, c3, c4, -⟩ := count_sizes mem
    (SpatialPartitionField.beginSortHashCells
      (SpatialPartitionField.beginFillHashCells cd mem
        (if (configured hash_func cellSize coordMin).spatialHashConfig.cellSize ≤ 0 then
          ({ configured hash_func cellSize coordMin with spheres := spheres } :
            SpatialPartitionField).beginCalculateCellSize
        else { configured hash_func cellSize coordMin with spheres := spheres })))
  rw [← setup_stages] at c2 c3 c4
  refine ⟨hsz, ?_, ?_, ?_⟩
  · exact c2.trans s7
  · exact c3.trans s7
  · exact c4.trans s7

/-- A run on a default-constructed field with a non-empty list, into an arbitrary result
buffer: the field it leaves and the pair list. -/
theorem run_fresh (cd : collide) (mem : Memory) (hash_func : ivec3 → Nat)
    (cellSize : Option ℚ) (coordMin : vec3) (spheres : List sphere)
    (res : DeviceBuffer CollisionPair) (hres : res.WellFormed)
    (hne : (bucketRuns (runConfig hash_func cellSize coordMin spheres) cd spheres).length ≠ 0) :
    ∃ out, SpatialPartitionLauncher cd mem (SpatialPartitionField.fresh hash_func) cellSize
        coordMin spheres res =
        some (((setupOf cd mem hash_func cellSize coordMin spheres).countPass cd).scanPairCount,
          out) ∧
      out.WellFormed ∧
      out.toList =
        (List.range
          ((bucketRuns (runConfig hash_func cellSize coordMin spheres) cd spheres).length -
            1)).flatMap (bucketPairs (runConfig hash_func cellSize coordMin spheres) cd spheres) := by
  obtain ⟨s1, s2, s3, s4, s5, -, s7, s8⟩ :=
    setup_fresh cd mem hash_func cellSize coordMin spheres
  have hle := bucketRuns_length_le (runConfig hash_func cellSize coordMin spheres) cd spheres
  exact create_of_setup cd mem (setupOf cd mem hash_func cellSize coordMin spheres)
    (runConfig hash_func cellSize coordMin spheres) spheres res _ _ hres hne s1 s2 s3 s4
    (by unfold setupOf; rw [s5, alloc_length]; exact hle) s7 s8

/-- The field on which the fill stage starts when the usage sequence is applied, with the same
cell-size setting and origin, to a field that already has the configuration of the run. -/
theorem prepared_reused (f : SpatialPartitionField) (hash_func : ivec3 → Nat)
    (cellSize : Option ℚ) (coordMin : vec3) (spheres : List sphere)
    (hcfg : f.spatialHashConfig = runConfig hash_func cellSize coordMin spheres) :
    (if ((match cellSize with
          | some c => f.setCellSize c
          | none => f).configSpatialHash coordMin).spatialHashConfig.cellSize ≤ 0 then
        ({ (match cellSize with
            | some c => f.setCellSize c
            | none => f).configSpatialHash coordMin with spheres := spheres } :
          SpatialPartitionField).beginCalculateCellSize
      else { (match cellSize with
            | some c => f.setCellSize c
            | none => f).configSpatialHash coordMin with spheres := spheres }) =
      { f with spheres := spheres } := by
  have hf : f = { f with spatialHashConfig := runConfig hash_func cellSize coordMin spheres } := by
    rw [← hcfg]
  rw [hf]
  cases cellSize with
  | none =>
    by_cases hc : Max (spheres.map (fun s => s.r)) * (3 / 2) * (3 / 2) ≤ 0
    · simp [SpatialPartitionField.configSpatialHash,
        SpatialPartitionField.beginCalculateCellSize, runConfig, hc]
    · simp [SpatialPartitionField.configSpatialHash,
        SpatialPartitionField.beginCalculateCellSize, runConfig, hc]
  | some c =>
    by_cases hc : c ≤ 0
    · simp [SpatialPartitionField.configSpatialHash, SpatialPartitionField.setCellSize,
        SpatialPartitionField.beginCalculateCellSize, runConfig, hc]
    · simp [SpatialPartitionField.configSpatialHash, SpatialPartitionField.setCellSize,
        SpatialPartitionField.beginCalculateCellSize, runConfig, hc]

/-- The fill, sort and count stages followed by `beginCreateCollisionPairList`, on a field whose
buffers already have the sizes a run on `spheres` needs. -/
theorem run_of_sized (cd : collide) (mem : Memory) (g : SpatialPartitionField)
    (sh : SpatialHashConfig) (spheres : List sphere) (res : DeviceBuffer CollisionPair)
    (hres : res.WellFormed) (hs : g.spheres = spheres) (hc : g.spatialHashConfig = sh)
    (hne : (bucketRuns sh cd spheres).length ≠ 0)
    (hsz : ¬ g.cellArrayValue.m_size < 8 * spheres.length)
    (hvs : g.cellArrayValueSorted.m_data.length ≤ 8 * spheres.length)
    (h1 : (bucketRuns sh cd spheres).length ≤ g.objCountInCell.m_size)
    (h2 : (bucketRuns sh cd spheres).length ≤ g.objCountInCellPrefixSum.m_size)
    (h3 : (bucketRuns sh cd spheres).length ≤ g.collisionPairCount.m_size)
    (h4 : (bucketRuns sh cd spheres).length ≤ g.collisionPairCount.m_data.length) :
    ∃ r, ((g.beginFillHashCells cd mem).beginSortHashCells.beginCountCollisionPerCell
        mem).beginCreateCollisionPairList cd mem res = some r ∧
      r.2.WellFormed ∧
      r.2.toList =
        (List.range ((bucketRuns sh cd spheres).length - 1)).flatMap
          (bucketPairs sh cd spheres) := by
  subst hs
  subst hc
  obtain ⟨rest1, rest2, e1, e2, e3, e4, e5, e6, e7⟩ :=
    stages_sized cd mem g hsz hvs h1 h2 h3 h4
  obtain ⟨out, ho, hw, hl⟩ := create_of_setup cd mem _ g.spatialHashConfig g.spheres res rest1
    rest2 hres hne e1 e2 e3 e4 e5 e6 e7
  exact ⟨_, ho, hw, hl⟩

/-- What `beginCreateCollisionPairList` leaves of the field: only the contents of the two
pair-count arrays change. -/
theorem created_field (cd : collide) (f : SpatialPartitionField) :
    (f.countPass cd).scanPairCount.spatialHashConfig = f.spatialHashConfig ∧
      (f.countPass cd).scanPairCount.cellArrayValue = f.cellArrayValue ∧
      (f.countPass cd).scanPairCount.cellArrayValueSorted = f.cellArrayValueSorted ∧
      (f.countPass cd).scanPairCount.objCountInCell = f.objCountInCell ∧
      (f.countPass cd).scanPairCount.objCountInCellPrefixSum = f.objCountInCellPrefixSum ∧
      (f.countPass cd).scanPairCount.collisionPairCount.m_size = f.collisionPairCount.m_size ∧
      (f.countPass cd).scanPairCount.collisionPairCount.m_data.length =
        f.collisionPairCount.m_data.length := by
  refine ⟨rfl, rfl, rfl, rfl, rfl, rfl, ?_⟩
  show (f.countPass cd).collisionPairCount.m_data.length = _
  unfold SpatialPartitionField.countPass
  simp only
  rw [foldl_set_length]

/-- The usage sequence as the composition of its stages. -/
theorem launcher_stages (cd : collide) (mem : Memory) (f : SpatialPartitionField)
    (cellSize : Option ℚ) (coordMin : vec3) (spheres : List sphere)
    (res : DeviceBuffer CollisionPair) :
    SpatialPartitionLauncher cd mem f cellSize coordMin spheres res =
      SpatialPartitionField.beginCreateCollisionPairList cd mem
        (SpatialPartitionField.beginCountCollisionPerCell mem
          (SpatialPartitionField.beginSortHashCells
            (SpatialPartitionField.beginFillHashCells cd mem
              (if ((match cellSize with
                    | some c => f.setCellSize c
                    | none => f).configSpatialHash coordMin).spatialHashConfig.cellSize ≤ 0 then
                  ({ (match cellSize with
                      | some c => f.setCellSize c
                      | none => f).configSpatialHash coordMin with spheres := spheres } :
                    SpatialPartitionField).beginCalculateCellSize
                else { (match cellSize with
                      | some c => f.setCellSize c
                      | none => f).configSpatialHash coordMin with spheres := spheres })))) res :=
  rfl

/-- The usage sequence on a field `f1` that has the configuration and the buffer sizes of a run
on `spheres`, with the same cell-size setting and origin. -/
theorem run_on_sized (cd : collide) (mem : Memory) (f1 : SpatialPartitionField)
    (hash_func : ivec3 → Nat) (cellSize : Option ℚ) (coordMin : vec3) (spheres : List sphere)
    (res : DeviceBuffer CollisionPair) (hres : res.WellFormed)
    (hcfg : f1.spatialHashConfig = runConfig hash_func cellSize coordMin spheres)
    (hne : (bucketRuns (runConfig hash_func cellSize coordMin spheres) cd spheres).length ≠ 0)
    (hsz : f1.cellArrayValue.m_size = 8 * spheres.length)
    (hvs : f1.cellArrayValueSorted.m_data.length ≤ 8 * spheres.length)
    (h1 : f1.objCountInCell.m_size =
      (bucketRuns (runConfig hash_func cellSize coordMin spheres) cd spheres).length)
    (h2 : f1.objCountInCellPrefixSum.m_size =
      (bucketRuns (runConfig hash_func cellSize coordMin spheres) cd spheres).length)
    (h3 : f1.collisionPairCount.m_size =
      (bucketRuns (runConfig hash_func cellSize coordMin spheres) cd spheres).length)
    (h4 : (bucketRuns (runConfig hash_func cellSize coordMin spheres) cd spheres).length ≤
      f1.collisionPairCount.m_data.length) :
    ∃ r, SpatialPartitionLauncher cd mem f1 cellSize coordMin spheres res = some r ∧
      r.2.WellFormed ∧
      r.2.toList =
        (List.range
          ((bucketRuns (runConfig hash_func cellSize coordMin spheres) cd spheres).length -
            1)).flatMap (bucketPairs (runConfig hash_func cellSize coordMin spheres) cd spheres) := by
  have hp := prepared_reused f1 hash_func cellSize coordMin spheres hcfg
  rw [launcher_stages, hp]
  exact run_of_sized cd mem { f1 with spheres := spheres }
    (runConfig hash_func cellSize coordMin spheres) spheres res hres
    rfl hcfg hne (by show ¬ f1.cellArrayValue.m_size < _; omega) hvs
    (by show _ ≤ f1.objCountInCell.m_size; omega)
    (by show _ ≤ f1.objCountInCellPrefixSum.m_size; omega)
    (by show _ ≤ f1.collisionPairCount.m_size; omega)
    h4

/-- A run with the same list, cell-size setting and origin on the field a run on a
default-constructed field left behind, into an arbitrary result buffer. -/
theorem run_reused (cd : collide) (mem mem2 : Memory) (hash_func : ivec3 → Nat)
    (cellSize : Option ℚ) (coordMin : vec3) (spheres : List sphere)
    (res : DeviceBuffer CollisionPair) (hres : res.WellFormed)
    (hne : (bucketRuns (runConfig hash_func cellSize coordMin spheres) cd spheres).length ≠ 0) :
    ∃ r, SpatialPartitionLauncher cd mem2
        ((setupOf cd mem hash_func cellSize coordMin spheres).countPass cd).scanPairCount
        cellSize coordMin spheres res = some r ∧
      r.2.WellFormed ∧
      r.2.toList =
        (List.range
          ((bucketRuns (runConfig hash_func cellSize coordMin spheres) cd spheres).length -
            1)).flatMap (bucketPairs (runConfig hash_func cellSize coordMin spheres) cd spheres) := by
  obtain ⟨-, s2, -, -, s5, -, -, -⟩ := setup_fresh cd mem hash_func cellSize coordMin spheres
  obtain ⟨z1, z2, z3, z4⟩ := setupOf_sizes cd mem hash_func cellSize coordMin spheres
  have z0 := setupOf_config cd mem hash_func cellSize coordMin spheres
  have hle := bucketRuns_length_le (runConfig hash_func cellSize coordMin spheres) cd spheres
  have s2b : (setupOf cd mem hash_func cellSize coordMin spheres).cellArrayValueSorted.m_data =
      sortedCells (runConfig hash_func cellSize coordMin spheres) cd spheres := s2
  have s5b : (setupOf cd mem hash_func cellSize coordMin spheres).collisionPairCount.m_data =
      DeviceBuffer.alloc mem.ints (8 * spheres.length) := s5
  obtain ⟨c0, c1, c2, c3, c4, c5, c6⟩ :=
    created_field cd (setupOf cd mem hash_func cellSize coordMin spheres)
  generalize setupOf cd mem hash_func cellSize coordMin spheres = S at *
  generalize (S.countPass cd).scanPairCount = f1 at *
  apply run_on_sized cd mem2 f1 hash_func cellSize coordMin spheres res hres
  · rw [c0, z0]
  · exact hne
  · rw [c1, z1]
  · rw [c2, s2b, sortedCells_length]
  · rw [c3, z2]
  · rw [c4, z3]
  · rw [c5, z4]
  · rw [c6, s5b, alloc_length]
    exact hle

/-! ## The CSR viewer -/

theorem readAt_some {β : Type} (p : List β) (i : Int) (h0 : 0 ≤ i) (h1 : i < p.length) :
    ∃ x, csr.readAt p i = some x := by
  unfold csr.readAt
  rw [if_neg (by omega), List.get?_eq_getElem?]
  have : i.toNat < p.length := by omega
  exact ⟨p[i.toNat], List.getElem?_eq_getElem this⟩

/-- The row scan of `operator()`: it returns the value at the first index of the row whose
column is `col`, or `0` when the row has no such index. -/
theorem scanRow_spec {α : Type} [Zero α] (m : csr α) (col : Int) (n : Nat) (i : Int)
    (h0 : 0 ≤ i) (hc : i + n ≤ m.colIdx.length) (hv : i + n ≤ m.values.length) :
    ∃ v, csr.scanRow m col n i = some v ∧
      ((∃ j, i ≤ j ∧ j < i + n ∧ csr.readAt m.colIdx j = some col ∧
          csr.readAt m.values j = some v ∧
          ∀ k, i ≤ k → k < j → csr.readAt m.colIdx k ≠ some col) ∨
        ((∀ j, i ≤ j → j < i + n → csr.readAt m.colIdx j ≠ some col) ∧ v = 0)) := by
  induction n generalizing i with
  | zero =>
    refine ⟨0, rfl, Or.inr ⟨?_, rfl⟩⟩
    intro j h1 h2
    simp at h2
    omega
  | succ n ih =>
    obtain ⟨c, hcr⟩ := readAt_some m.colIdx i h0 (by push_cast at hc; omega)
    by_cases hcc : c = col
    · obtain ⟨x, hx⟩ := readAt_some m.values i h0 (by push_cast at hv; omega)
      refine ⟨x, ?_, Or.inl ⟨i, le_refl _, by push_cast; omega, by rw [hcr, hcc], hx, ?_⟩⟩
      · simp only [csr.scanRow, hcr, hcc, if_true, hx]
      · intro k h1 h2
        omega
    · obtain ⟨v, hs, hcase⟩ := ih (i + 1) (by omega) (by push_cast at hc ⊢; omega)
        (by push_cast at hv ⊢; omega)
      refine ⟨v, ?_, ?_⟩
      · simp only [csr.scanRow, hcr, hcc, if_false, hs]
      · rcases hcase with ⟨j, j1, j2, j3, j4, j5⟩ | ⟨hno, hz⟩
        · refine Or.inl ⟨j, by omega, by push_cast; omega, j3, j4, ?_⟩
          intro k k1 k2
          by_cases hk : k = i
          · rw [hk, hcr]
            intro h
            exact hcc (Option.some.inj h)
          · exact j5 k (by omega) k2
        · refine Or.inr ⟨?_, hz⟩
          intro j j1 j2
          by_cases hj : j = i
          · rw [hj, hcr]
            intro h
            exact hcc (Option.some.inj h)
          · exact hno j (by omega) (by push_cast at j2; omega)

/-! ## The slots of an object -/

theorem flatMap_chunk_getElem? {α : Type} (f : Nat → List α) (k : Nat)
    (hlen : ∀ i, (f i).length = k) (n i s : Nat) (hi : i < n) (hs : s < k) :
    ((List.range n).flatMap f)[k * i + s]? = (f i)[s]? := by
  have hl : ∀ m, ((List.range m).flatMap f).length = k * m := by
    intro m
    induction m with
    | zero => simp
    | succ m ih =>
      rw [List.range_succ, List.flatMap_append, List.length_append, ih]
      simp [hlen, Nat.mul_succ]
  induction n with
  | zero => omega
  | succ n ih =>
    rw [List.range_succ, List.flatMap_append]
    by_cases h : i < n
    · rw [List.getElem?_append_left (by
        rw [hl]
        calc k * i + s < k * i + k := by omega
          _ = k * (i + 1) := by rw [Nat.mul_succ]
          _ ≤ k * n := Nat.mul_le_mul_left k h)]
      exact ih h
    · have he : i = n := by omega
      subst he
      rw [List.getElem?_append_right (by rw [hl]; omega), hl]
      simp

/-- Slot `(i, s)` of the `size × 8` view of the records is slot `s` of the row the kernel body
writes for object `i`. -/
theorem fillRows_slot (sh : SpatialHashConfig) (cd : collide) (spheres : List sphere)
    (i s : Nat) (hi : i < spheres.length) (hs : s < 8) :
    (fillRows sh cd spheres)[8 * i + s]? = (fillObject sh cd i (sphereAt spheres i))[s]? := by
  unfold fillRows
  exact flatMap_chunk_getElem? _ 8 (fun j => fillObject_length sh cd j _) _ i s hi hs

/-- The fill stage writes the keys of all records at the start of `cellArrayKey`. -/
theorem fill_keys (cd : collide) (mem : Memory) (g : SpatialPartitionField) :
    (g.beginFillHashCells cd mem).cellArrayKey.m_data.take (8 * g.spheres.length) =
      (fillRows g.spatialHashConfig cd g.spheres).map (fun c => c.cid) := by
  unfold SpatialPartitionField.beginFillHashCells
  by_cases h : g.cellArrayValue.m_size < 8 * g.spheres.length <;>
    simp only [h, if_true, if_false, DeviceBuffer.store] <;>
    rw [List.take_append_of_le_length (by rw [List.length_map, fillRows_length]),
      List.take_of_length_le (by rw [List.length_map, fillRows_length])]

theorem getElem?_of_take {α : Type} (l l' : List α) (n j : Nat) (h : l.take n = l')
    (hj : j < n) : l[j]? = l'[j]? := by
  rw [← h, List.getElem?_take_of_lt hj]

/-- The slots of object `i` in the two arrays after the fill stage. -/
theorem fill_slot (cd : collide) (mem : Memory) (g : SpatialPartitionField) (i s : Nat)
    (hi : i < g.spheres.length) (hs : s < 8) :
    (g.beginFillHashCells cd mem).cellArrayValue.m_data[8 * i + s]? =
        (fillObject g.spatialHashConfig cd i (sphereAt g.spheres i))[s]? ∧
      (g.beginFillHashCells cd mem).cellArrayKey.m_data[8 * i + s]? =
        ((fillObject g.spatialHashConfig cd i (sphereAt g.spheres i))[s]?).map
          (fun c => c.cid) := by
  constructor
  · rw [getElem?_of_take _ _ _ _ (fill_rows cd mem g) (by omega)]
    exact fillRows_slot _ cd _ i s hi hs
  · rw [getElem?_of_take _ _ _ _ (fill_keys cd mem g) (by omega), List.getElem?_map,
      fillRows_slot _ cd _ i s hi hs]

/-- The row of an object, slot by slot: the home record, `k ≤ 7` phantom records, unused
slots. -/
theorem fillObject_slots (sh : SpatialHashConfig) (cd : collide) (n : Nat) (s : sphere) :
    ∃ home phantoms,
      fillObject sh cd n s =
        home :: phantoms ++ List.replicate (7 - phantoms.length) (Cell invalid invalid) ∧
      phantoms.length ≤ 7 ∧
      (fillObject sh cd n s)[0]? = some home ∧
      (∀ t, 1 ≤ t → t ≤ phantoms.length →
        ∃ r, (fillObject sh cd n s)[t]? = some r ∧ r ∈ phantoms) ∧
      (∀ t, phantoms.length < t → t < 8 →
        (fillObject sh cd n s)[t]? = some (Cell invalid invalid)) ∧
      (home.ijk = sh.cell s.o ∧ home.pass = passType (sh.cell s.o) ∧
        home.home = passType (sh.cell s.o) ∧ home.cid = sh.hashCell (sh.cell s.o) ∧
        home.oid = n) ∧
      phantoms.map (fun r => r.ijk) =
        (neighbourCells (sh.cell s.o) (octant sh s)).filter
          (proxyOverlaps sh cd ⟨s.o, s.r * (3 / 2)⟩) ∧
      ∀ r ∈ phantoms, r.pass = passType r.ijk ∧ r.home = passType (sh.cell s.o) ∧
        r.cid = sh.hashCell r.ijk ∧ r.oid = n ∧ r.pass ≠ r.home := by
  obtain ⟨home, phantoms, hrow, hh, -, hmap, hph⟩ := fillObject_spec sh cd n s
  obtain ⟨o1, o2, o3⟩ := octant_cases sh s
  have hk : phantoms.length ≤ 7 := by
    have h := congrArg List.length hmap
    rw [List.length_map] at h
    rw [h]
    refine le_trans (List.length_filter_le _ _) ?_
    simp [neighbourCells]
  refine ⟨home, phantoms, hrow, hk, ?_, ?_, ?_, hh, hmap, ?_⟩
  · rw [hrow, List.cons_append, List.getElem?_cons_zero]
  · intro t t1 t2
    refine ⟨phantoms[t - 1], ?_, List.getElem_mem _⟩
    rw [hrow]
    obtain ⟨u, rfl⟩ : ∃ u, t = u + 1 := ⟨t - 1, by omega⟩
    rw [List.cons_append, List.getElem?_cons_succ, List.getElem?_append_left (by omega)]
    simp
  · intro t t1 t2
    rw [hrow]
    obtain ⟨u, rfl⟩ : ∃ u, t = u + 1 := ⟨t - 1, by omega⟩
    rw [List.cons_append, List.getElem?_cons_succ, List.getElem?_append_right (by omega)]
    rw [List.getElem?_replicate]
    simp
    omega
  · intro r hr
    obtain ⟨e1, e2, e3, e4, -, -, -⟩ := hph r hr
    refine ⟨e1, e2, e3, e4, ?_⟩
    have hmem : r.ijk ∈ (neighbourCells (sh.cell s.o) (octant sh s)).filter
        (proxyOverlaps sh cd ⟨s.o, s.r * (3 / 2)⟩) := by
      rw [← hmap]
      exact List.mem_map_of_mem _ hr
    rw [e1, e2]
    exact neighbourCells_passType_ne o1 o2 o3 (List.mem_filter.1 hmem).1

/-! ## The overlap masks -/

/-- The overlap mask of each phantom record the neighbour loop writes: the mask of the home
record when the loop starts, extended by the pass types of the overlapped cells up to and
including the cell of the record. -/
theorem fillStep_foldl_masks (sh : SpatialHashConfig) (cd : collide) (proxy : sphere)
    (ijk : ivec3) (oid : Nat) (cs : List ivec3) (st : FillState) :
    ∃ new, (cs.foldl (fillStep sh cd proxy ijk oid) st).phantoms = st.phantoms ++ new ∧
      ∀ r ∈ new, ∃ pre post, cs = pre ++ r.ijk :: post ∧
        ∀ q, r.overlap.testBit q = true ↔
          (st.homeCell.overlap.testBit q = true ∨
            ∃ c ∈ pre ++ [r.ijk], proxyOverlaps sh cd proxy c = true ∧ passType c = q) := by
  induction cs generalizing st with
  | nil => exact ⟨[], by simp, by simp⟩
  | cons c cs ih =>
    simp only [List.foldl_cons]
    by_cases hc : proxyOverlaps sh cd proxy c = true
    · have hstep : fillStep sh cd proxy ijk oid st c =
          ⟨st.homeCell.setOverlap c, st.phantoms ++
            [phantomRecord sh ijk oid c (st.homeCell.setOverlap c).overlap]⟩ := by
        unfold fillStep
        unfold proxyOverlaps at hc
        simp only [hc, if_true]
      rw [hstep]
      obtain ⟨new, hnew, hrec⟩ := ih
        ⟨st.homeCell.setOverlap c, st.phantoms ++
            [phantomRecord sh ijk oid c (st.homeCell.setOverlap c).overlap]⟩
      have hset : ∀ q, (st.homeCell.setOverlap c).overlap.testBit q = true ↔
          (st.homeCell.overlap.testBit q = true ∨ passType c = q) := by
        intro q
        simp only [setOverlap, testBit_setBit, Bool.or_eq_true, decide_eq_true_eq]
      refine ⟨phantomRecord sh ijk oid c (st.homeCell.setOverlap c).overlap :: new, ?_, ?_⟩
      · rw [hnew]
        simp
      · intro r hr
        rcases List.mem_cons.1 hr with rfl | hr
        · obtain ⟨e1, -, -, -, -, e6⟩ :=
            phantomRecord_fields sh ijk oid c (st.homeCell.setOverlap c).overlap
          refine ⟨[], cs, by rw [e1]; rfl, ?_⟩
          intro q
          rw [e6, e1, hset q]
          simp only [List.nil_append, List.mem_singleton, exists_eq_left]
          constructor
          · rintro (h | h)
            · exact Or.inl h
            · exact Or.inr ⟨hc, h⟩
          · rintro (h | ⟨-, h⟩)
            · exact Or.inl h
            · exact Or.inr h
        · obtain ⟨pre, post, hcs, hq⟩ := hrec r hr
          refine ⟨c :: pre, post, by rw [hcs]; rfl, ?_⟩
          intro q
          rw [hq q]
          simp only [hset q, List.cons_append, List.mem_cons, exists_eq_or_imp]
          constructor
          · rintro ((h | h) | h)
            · exact Or.inl h
            · exact Or.inr (Or.inl ⟨hc, h⟩)
            · exact Or.inr (Or.inr h)
          · rintro (h | ⟨-, h⟩ | h)
            · exact Or.inl (Or.inl h)
            · exact Or.inl (Or.inr h)
            · exact Or.inr h
    · have hstep : fillStep sh cd proxy ijk oid st c = st := by
        unfold fillStep
        unfold proxyOverlaps at hc
        simp only [hc, Bool.false_eq_true, if_false]
      rw [hstep]
      obtain ⟨new, hnew, hrec⟩ := ih st
      refine ⟨new, hnew, ?_⟩
      intro r hr
      obtain ⟨pre, post, hcs, hq⟩ := hrec r hr
      refine ⟨c :: pre, post, by rw [hcs]; rfl, ?_⟩
      intro q
      rw [hq q]
      simp only [List.cons_append, List.mem_cons, exists_eq_or_imp]
      constructor
      · rintro (h | h)
        · exact Or.inl h
        · exact Or.inr (Or.inr h)
      · rintro (h | ⟨h, -⟩ | h)
        · exact Or.inl h
        · exact absurd h hc
        · exact Or.inr h

/-- The overlap masks of the records of a row. -/
theorem fillObject_masks (sh : SpatialHashConfig) (cd : collide) (n : Nat) (s : sphere) :
    ∃ home phantoms,
      fillObject sh cd n s =
        home :: phantoms ++ List.replicate (7 - phantoms.length) (Cell invalid invalid) ∧
      home.pass = home.home ∧
      (∀ q, home.overlap.testBit q = true ↔
        (passType (sh.cell s.o) = q ∨
          ∃ c ∈ neighbourCells (sh.cell s.o) (octant sh s),
            proxyOverlaps sh cd ⟨s.o, s.r * (3 / 2)⟩ c = true ∧ passType c = q)) ∧
      ∀ r ∈ phantoms, ∃ pre post,
        neighbourCells (sh.cell s.o) (octant sh s) = pre ++ r.ijk :: post ∧
        ∀ q, r.overlap.testBit q = true ↔
          (passType (sh.cell s.o) = q ∨
            ∃ c ∈ pre ++ [r.ijk],
              proxyOverlaps sh cd ⟨s.o, s.r * (3 / 2)⟩ c = true ∧ passType c = q) := by
  have hfill : fillObject sh cd n s =
      ((neighbourCells (sh.cell s.o) (octant sh s)).foldl
        (fillStep sh cd ⟨s.o, s.r * (3 / 2)⟩ (sh.cell s.o) n)
        ⟨{ (Cell (sh.hashCell (sh.cell s.o)) n).setAsHome (sh.cell s.o) with
            ijk := sh.cell s.o }, []⟩).homeCell ::
      ((neighbourCells (sh.cell s.o) (octant sh s)).foldl
        (fillStep sh cd ⟨s.o, s.r * (3 / 2)⟩ (sh.cell s.o) n)
        ⟨{ (Cell (sh.hashCell (sh.cell s.o)) n).setAsHome (sh.cell s.o) with
            ijk := sh.cell s.o }, []⟩).phantoms ++
      List.replicate (7 - ((neighbourCells (sh.cell s.o) (octant sh s)).foldl
        (fillStep sh cd ⟨s.o, s.r * (3 / 2)⟩ (sh.cell s.o) n)
        ⟨{ (Cell (sh.hashCell (sh.cell s.o)) n).setAsHome (sh.cell s.o) with
            ijk := sh.cell s.o }, []⟩).phantoms.length) (Cell invalid invalid) := rfl
  obtain ⟨⟨hp1, hp2, -, -, -⟩, hbits, -⟩ :=
    fillStep_foldl sh cd ⟨s.o, s.r * (3 / 2)⟩ (sh.cell s.o) n
      (neighbourCells (sh.cell s.o) (octant sh s))
      ⟨{ (Cell (sh.hashCell (sh.cell s.o)) n).setAsHome (sh.cell s.o) with ijk := sh.cell s.o }, []⟩
  obtain ⟨new, hnew, hrec⟩ :=
    fillStep_foldl_masks sh cd ⟨s.o, s.r * (3 / 2)⟩ (sh.cell s.o) n
      (neighbourCells (sh.cell s.o) (octant sh s))
      ⟨{ (Cell (sh.hashCell (sh.cell s.o)) n).setAsHome (sh.cell s.o) with ijk := sh.cell s.o }, []⟩
  have hb : ∀ q, (({ (Cell (sh.hashCell (sh.cell s.o)) n).setAsHome (sh.cell s.o) with
      ijk := sh.cell s.o } : SpatialPartitionCell).overlap.testBit q = true) ↔
      passType (sh.cell s.o) = q := by
    intro q
    show (0 ||| (1 <<< passType (sh.cell s.o))).testBit q = true ↔ _
    rw [testBit_setBit]
    simp
  rw [hfill]
  generalize (neighbourCells (sh.cell s.o) (octant sh s)).foldl
        (fillStep sh cd ⟨s.o, s.r * (3 / 2)⟩ (sh.cell s.o) n)
        ⟨{ (Cell (sh.hashCell (sh.cell s.o)) n).setAsHome (sh.cell s.o) with
            ijk := sh.cell s.o }, []⟩ = st at *
  refine ⟨st.homeCell, st.phantoms, rfl, by rw [hp1, hp2]; rfl, ?_, ?_⟩
  · intro q
    rw [hbits q, hb q]
  · intro r hr
    rw [hnew, List.nil_append] at hr
    obtain ⟨pre, post, hcs, hq⟩ := hrec r hr
    refine ⟨pre, post, hcs, ?_⟩
    intro q
    rw [hq q, hb q]

/-! ## The tables of the two passes -/

/-- The loop of `writesInCell` over a list of index pairs. -/
theorem foldl_collect_eq {α β : Type} (p : α → Bool) (mk : α → β) (off : Nat) (l : List α)
    (acc : List (Nat × β)) (k : Nat) :
    l.foldl (fun (st : List (Nat × β) × Nat) x =>
        if p x then (st.1 ++ [(off + st.2, mk x)], st.2 + 1) else st) (acc, k) =
      (acc ++ (List.range' (off + k) (l.filter p).length).zip ((l.filter p).map mk),
        k + (l.filter p).length) := by
  induction l generalizing acc k with
  | nil => simp
  | cons x l ih =>
    simp only [List.foldl_cons, List.filter_cons]
    by_cases h : p x = true
    · simp only [h, if_true]
      rw [ih]
      simp only [List.length_cons, List.map_cons, List.range'_succ, List.zip_cons_cons,
        List.append_assoc, List.singleton_append, Prod.mk.injEq]
      refine ⟨?_, by omega⟩
      rfl
    · simp only [h, if_false, Bool.false_eq_true]
      rw [ih]

/-- The writes of pass B for one bucket: the accepted pairs of the bucket, at consecutive
positions starting at the offset of the bucket. -/
theorem writesInCell_eq (cd : collide) (f : SpatialPartitionField) (cell : Nat) :
    writesInCell cd f cell =
      (List.range' (f.collisionPairPrefixSum.m_data.getD cell 0)
        (acceptedPairs cd f.spheres f.cellArrayValueSorted.m_data
          (f.objCountInCellPrefixSum.m_data.getD cell 0)
          (f.objCountInCell.m_data.getD cell 0)).length).zip
        (acceptedPairs cd f.spheres f.cellArrayValueSorted.m_data
          (f.objCountInCellPrefixSum.m_data.getD cell 0)
          (f.objCountInCell.m_data.getD cell 0)) := by
  unfold writesInCell acceptedPairs
  simp only [forEachPair_eq_foldl, List.length_map]
  rw [foldl_collect_eq (fun p : Nat × Nat => acceptPair cd f.spheres f.cellArrayValueSorted.m_data
      (f.objCountInCellPrefixSum.m_data.getD cell 0) p.1 p.2)
    (fun p : Nat × Nat => pairOf f.cellArrayValueSorted.m_data
      (f.objCountInCellPrefixSum.m_data.getD cell 0) p.1 p.2)]
  simp

/-- The writes of `writesInCell` are the ones `writePairsInCell` performs. -/
theorem writePairsInCell_writes (cd : collide) (f : SpatialPartitionField)
    (d : List CollisionPair) (cell : Nat) :
    SpatialPartitionField.writePairsInCell cd f d cell =
      (writesInCell cd f cell).foldl (fun data w => data.set w.1 w.2) d := by
  unfold SpatialPartitionField.writePairsInCell writesInCell
  simp only [forEachPair_eq_foldl]
  generalize pairIndices (f.objCountInCell.m_data.getD cell 0) = l
  have key : ∀ (l : List (Nat × Nat)) (d0 : List CollisionPair) (ws : List (Nat × CollisionPair))
      (k : Nat),
      (l.foldl (fun (st : List CollisionPair × Nat) p =>
          if acceptPair cd f.spheres f.cellArrayValueSorted.m_data
              (f.objCountInCellPrefixSum.m_data.getD cell 0) p.1 p.2 = true then
            (st.1.set (f.collisionPairPrefixSum.m_data.getD cell 0 + st.2)
              (pairOf f.cellArrayValueSorted.m_data
                (f.objCountInCellPrefixSum.m_data.getD cell 0) p.1 p.2), st.2 + 1)
          else st) (ws.foldl (fun data w => data.set w.1 w.2) d0, k)).1 =
        (l.foldl (fun (st : List (Nat × CollisionPair) × Nat) p =>
          if acceptPair cd f.spheres f.cellArrayValueSorted.m_data
              (f.objCountInCellPrefixSum.m_data.getD cell 0) p.1 p.2 = true then
            (st.1 ++ [(f.collisionPairPrefixSum.m_data.getD cell 0 + st.2,
              pairOf f.cellArrayValueSorted.m_data
                (f.objCountInCellPrefixSum.m_data.getD cell 0) p.1 p.2)], st.2 + 1)
          else st) (ws, k)).1.foldl (fun data w => data.set w.1 w.2) d0 := by
    intro l
    induction l with
    | nil => intro d0 ws k; rfl
    | cons x l ih =>
      intro d0 ws k
      simp only [List.foldl_cons]
      by_cases h : acceptPair cd f.spheres f.cellArrayValueSorted.m_data
          (f.objCountInCellPrefixSum.m_data.getD cell 0) x.1 x.2 = true
      · simp only [h, if_true]
        have := ih d0 (ws ++ [(f.collisionPairPrefixSum.m_data.getD cell 0 + k,
          pairOf f.cellArrayValueSorted.m_data
            (f.objCountInCellPrefixSum.m_data.getD cell 0) x.1 x.2)]) (k + 1)
        rw [List.foldl_append] at this
        exact this
      · simp only [h, if_false, Bool.false_eq_true]
        exact ih d0 ws k
  exact key l d [] 0

theorem sum_take_eq_sum_getD (l : List Nat) (n : Nat) (h : n ≤ l.length) :
    (l.take n).sum = ((List.range n).map (fun b => l.getD b 0)).sum := by
  induction n with
  | zero => simp
  | succ n ih =>
    rw [List.range_succ, List.map_append, List.sum_append, ← ih (by omega),
      List.take_succ, List.sum_append]
    congr 1
    simp [List.getD_eq_getElem?_getD, List.getElem?_eq_getElem (show n < l.length by omega)]

/-- The value the host reads back after the scan between the passes: the sum of the first
`uniqueKeyCount - 1` entries of `collisionPairCount`. -/
theorem scan_readBack (g : SpatialPartitionField) (hm : g.uniqueKeyCount ≠ 0)
    (hlen : g.uniqueKeyCount ≤ g.collisionPairCount.m_data.length) :
    SpatialPartitionField.readBack g.scanPairCount.collisionPairPrefixSum.m_data
        ((g.uniqueKeyCount : Int) - 1) =
      some ((g.collisionPairCount.m_data.take (g.uniqueKeyCount - 1)).sum) := by
  unfold SpatialPartitionField.readBack SpatialPartitionField.scanPairCount
  have hneg : ¬ ((g.uniqueKeyCount : Int) - 1 < 0) := by omega
  have hidx : ((g.uniqueKeyCount : Int) - 1).toNat = g.uniqueKeyCount - 1 := by omega
  have hl : (List.take g.uniqueKeyCount g.collisionPairCount.m_data).length =
      g.uniqueKeyCount := by
    rw [List.length_take]
    omega
  simp only [hneg, if_false, hidx, DeviceBuffer.store]
  rw [List.get?_eq_getElem?, List.getElem?_append_left (by rw [ExclusiveSum_length, hl]; omega),
    ExclusiveSum_getElem? _ _ (by rw [hl]; omega), List.take_take,
    Nat.min_eq_left (by omega)]

/-- What pass A writes: the number of accepted pairs of every bucket but the last. -/
theorem countPass_data (cd : collide) (f : SpatialPartitionField)
    (hlen : f.validCellCount.toNat ≤ f.collisionPairCount.m_data.length) :
    (f.countPass cd).collisionPairCount.m_data =
      (List.range f.validCellCount.toNat).map (fun b =>
        (acceptedPairs cd f.spheres f.cellArrayValueSorted.m_data
          (f.objCountInCellPrefixSum.m_data.getD b 0)
          (f.objCountInCell.m_data.getD b 0)).length) ++
        f.collisionPairCount.m_data.drop f.validCellCount.toNat := by
  unfold SpatialPartitionField.countPass
  simp only
  rw [foldl_set_range _ _ _ hlen]
  congr 1
  apply List.map_congr_left
  intro b _
  rw [countPairsInCell_eq]

/-- The counts and offsets of the buckets that the passes of a run on a default-constructed
field read. -/
theorem setupOf_tables (cd : collide) (mem : Memory) (hash_func : ivec3 → Nat)
    (cellSize : Option ℚ) (coordMin : vec3) (spheres : List sphere) (b : Nat)
    (hb : b < (bucketRuns (runConfig hash_func cellSize coordMin spheres) cd spheres).length) :
    (setupOf cd mem hash_func cellSize coordMin spheres).objCountInCell.m_data.getD b 0 =
        bucketCount (runConfig hash_func cellSize coordMin spheres) cd spheres b ∧
      (setupOf cd mem hash_func cellSize coordMin spheres).objCountInCellPrefixSum.m_data.getD b 0 =
        bucketOffset (runConfig hash_func cellSize coordMin spheres) cd spheres b := by
  obtain ⟨-, -, s3, s4, -, -, -, -⟩ := setup_fresh cd mem hash_func cellSize coordMin spheres
  unfold setupOf
  constructor
  · rw [s3, getD_append_left' _ _ _ _ (by rw [List.length_map]; exact hb)]
    rfl
  · rw [s4, getD_append_left' _ _ _ _ (by rw [ExclusiveSum_length, List.length_map]; exact hb),
      List.getD_eq_getElem?_getD, ExclusiveSum_getElem? _ b (by rw [List.length_map]; exact hb)]
    rfl

/-- The tables of the two passes of a run on a default-constructed field with a non-empty
list: what pass A leaves in `collisionPairCount`, what the scan leaves in
`collisionPairPrefixSum`, and the total the host reads back. -/
theorem fresh_pass_tables (cd : collide) (mem : Memory) (hash_func : ivec3 → Nat)
    (cellSize : Option ℚ) (coordMin : vec3) (spheres : List sphere) (hs : spheres ≠ []) :
    (setupOf cd mem hash_func cellSize coordMin spheres).uniqueKeyCount =
        (bucketRuns (runConfig hash_func cellSize coordMin spheres) cd spheres).length ∧
      (setupOf cd mem hash_func cellSize coordMin spheres).validCellCount.toNat =
        (bucketRuns (runConfig hash_func cellSize coordMin spheres) cd spheres).length - 1 ∧
      (bucketRuns (runConfig hash_func cellSize coordMin spheres) cd spheres).length ≤
        ((setupOf cd mem hash_func cellSize coordMin spheres).countPass
          cd).collisionPairCount.m_data.length ∧
      (∀ b, b + 1 < (bucketRuns (runConfig hash_func cellSize coordMin spheres) cd spheres).length →
        ((setupOf cd mem hash_func cellSize coordMin spheres).countPass
          cd).collisionPairCount.m_data.getD b 0 =
          (bucketPairs (runConfig hash_func cellSize coordMin spheres) cd spheres b).length) ∧
      (∀ b, b < (bucketRuns (runConfig hash_func cellSize coordMin spheres) cd spheres).length →
        ((setupOf cd mem hash_func cellSize coordMin spheres).countPass
          cd).scanPairCount.collisionPairPrefixSum.m_data.getD b 0 =
          ((List.range b).map (fun c =>
            (bucketPairs (runConfig hash_func cellSize coordMin spheres) cd spheres
              c).length)).sum) := by
  obtain ⟨s1, s2, -, -, s5, -, s7, s8⟩ :=
    setup_fresh cd mem hash_func cellSize coordMin spheres
  have hne := bucketRuns_ne_nil (runConfig hash_func cellSize coordMin spheres) cd hs
  have hle := bucketRuns_length_le (runConfig hash_func cellSize coordMin spheres) cd spheres
  have htab := setupOf_tables cd mem hash_func cellSize coordMin spheres
  have e1 : (setupOf cd mem hash_func cellSize coordMin spheres).spheres = spheres := s1
  have e2 : (setupOf cd mem hash_func cellSize coordMin spheres).cellArrayValueSorted.m_data =
      sortedCells (runConfig hash_func cellSize coordMin spheres) cd spheres := s2
  have e5 : (setupOf cd mem hash_func cellSize coordMin spheres).collisionPairCount.m_data.length
      = 8 * spheres.length := by
    unfold setupOf
    rw [s5, alloc_length]
  have e7 : (setupOf cd mem hash_func cellSize coordMin spheres).uniqueKeyCount =
      (bucketRuns (runConfig hash_func cellSize coordMin spheres) cd spheres).length := s7
  have e8 : (setupOf cd mem hash_func cellSize coordMin spheres).validCellCount.toNat =
      (bucketRuns (runConfig hash_func cellSize coordMin spheres) cd spheres).length - 1 := by
    unfold setupOf
    rw [s8]
    omega
  generalize setupOf cd mem hash_func cellSize coordMin spheres = S at *
  generalize hh : (bucketRuns (runConfig hash_func cellSize coordMin spheres) cd spheres).length
    = h at *
  have hA := countPass_data cd S (by omega)
  have hAlen : (S.countPass cd).collisionPairCount.m_data.length = 8 * spheres.length := by
    rw [hA]
    simp only [List.length_append, List.length_map, List.length_range, List.length_drop]
    omega
  have hcount : ∀ b, b + 1 < h → (S.countPass cd).collisionPairCount.m_data.getD b 0 =
      (bucketPairs (runConfig hash_func cellSize coordMin spheres) cd spheres b).length := by
    intro b hb
    rw [hA, getD_append_left' _ _ _ _ (by simp; omega), List.getD_eq_getElem?_getD,
      List.getElem?_map, List.getElem?_range (by omega)]
    simp only [Option.map_some', Option.getD_some]
    rw [(htab b (by omega)).1, (htab b (by omega)).2, e1, e2]
    unfold bucketPairs
    rfl
  refine ⟨e7, e8, by omega, hcount, ?_⟩
  intro b hb
  have hu : (S.countPass cd).uniqueKeyCount = h := e7
  unfold SpatialPartitionField.scanPairCount
  simp only [DeviceBuffer.store, hu]
  have hl : (List.take h (S.countPass cd).collisionPairCount.m_data).length = h := by
    rw [List.length_take]
    omega
  rw [getD_append_left' _ _ _ _ (by rw [ExclusiveSum_length, hl]; exact hb),
    List.getD_eq_getElem?_getD, ExclusiveSum_getElem? _ b (by rw [hl]; exact hb)]
  simp only [Option.getD_some]
  have ht : List.take b (List.take h (S.countPass cd).collisionPairCount.m_data) =
      List.take b (S.countPass cd).collisionPairCount.m_data := by
    rw [List.take_take, Nat.min_eq_left (by omega)]
  rw [ht, sum_take_eq_sum_getD (S.countPass cd).collisionPairCount.m_data b (by omega)]
  refine congrArg List.sum (List.map_congr_left ?_)
  intro c hc
  rw [List.mem_range] at hc
  exact hcount c (by omega)

theorem take_set_self {α : Type} (l : List α) (n : Nat) (a : α) :
    (l.set n a).take n = l.take n := by
  apply List.ext_getElem?
  intro i
  rw [List.getElem?_take, List.getElem?_take]
  split
  · rw [List.getElem?_set_ne (by omega)]
  · rfl

theorem flatMap_range'_offsets (k : Nat → Nat) (n : Nat) :
    (List.range n).flatMap (fun b => List.range' (((List.range b).map k).sum) (k b)) =
      List.range (((List.range n).map k).sum) := by
  induction n with
  | zero => simp
  | succ n ih =>
    rw [List.range_succ, List.flatMap_append, ih, List.map_append, List.sum_append]
    simp only [List.flatMap_cons, List.flatMap_nil, List.append_nil, List.map_cons, List.map_nil,
      List.sum_cons, List.sum_nil, Nat.add_zero]
    rw [List.range_add, List.range'_eq_map_range]

/-- The writes of pass B of a run on a default-constructed field with a non-empty list, bucket
by bucket. -/
theorem fresh_writes (cd : collide) (mem : Memory) (hash_func : ivec3 → Nat)
    (cellSize : Option ℚ) (coordMin : vec3) (spheres : List sphere) (hs : spheres ≠ []) (b : Nat)
    (hb : b + 1 < (bucketRuns (runConfig hash_func cellSize coordMin spheres) cd spheres).length) :
    writesInCell cd ((setupOf cd mem hash_func cellSize coordMin spheres).countPass
        cd).scanPairCount b =
      (List.range'
        (((List.range b).map (fun c =>
          (bucketPairs (runConfig hash_func cellSize coordMin spheres) cd spheres c).length)).sum)
        (bucketPairs (runConfig hash_func cellSize coordMin spheres) cd spheres b).length).zip
        (bucketPairs (runConfig hash_func cellSize coordMin spheres) cd spheres b) := by
  obtain ⟨s1, s2, -, -, -, -, -, -⟩ := setup_fresh cd mem hash_func cellSize coordMin spheres
  obtain ⟨-, -, -, -, hpre⟩ := fresh_pass_tables cd mem hash_func cellSize coordMin spheres hs
  obtain ⟨t1, t2⟩ := setupOf_tables cd mem hash_func cellSize coordMin spheres b (by omega)
  have e1 : (setupOf cd mem hash_func cellSize coordMin spheres).spheres = spheres := s1
  have e2 : (setupOf cd mem hash_func cellSize coordMin spheres).cellArrayValueSorted.m_data =
      sortedCells (runConfig hash_func cellSize coordMin spheres) cd spheres := s2
  have hp := hpre b (by omega)
  generalize setupOf cd mem hash_func cellSize coordMin spheres = S at *
  rw [writesInCell_eq, hp]
  have q1 : ((S.countPass cd).scanPairCount).spheres = S.spheres := rfl
  have q2 : ((S.countPass cd).scanPairCount).cellArrayValueSorted = S.cellArrayValueSorted := rfl
  have q3 : ((S.countPass cd).scanPairCount).objCountInCell = S.objCountInCell := rfl
  have q4 : ((S.countPass cd).scanPairCount).objCountInCellPrefixSum =
      S.objCountInCellPrefixSum := rfl
  rw [q1, q2, q3, q4, t1, t2, e1, e2]
  rfl

/-- The total that sizes the output of a run on a default-constructed field with a non-empty
list: the value read back, as a sum of the counts of pass A and as the length of the pair list,
and its independence of the last entry of `collisionPairCount`. -/
theorem run_total (cd : collide) (mem : Memory) (hash_func : ivec3 → Nat)
    (cellSize : Option ℚ) (coordMin : vec3) (spheres : List sphere) (hs : spheres ≠ []) :
    ∃ total out,
      SpatialPartitionField.readBack
          ((setupOf cd mem hash_func cellSize coordMin spheres).countPass
            cd).scanPairCount.collisionPairPrefixSum.m_data
          (((setupOf cd mem hash_func cellSize coordMin spheres).uniqueKeyCount : Int) - 1) =
        some total ∧
      total =
        ((List.range (setupOf cd mem hash_func cellSize coordMin spheres).validCellCount.toNat).map
          (fun b => ((setupOf cd mem hash_func cellSize coordMin spheres).countPass
            cd).collisionPairCount.m_data.getD b 0)).sum ∧
      collisionPairsOf cd mem hash_func cellSize coordMin spheres = some out ∧
      out.length = total ∧
      ∀ v : Nat,
        SpatialPartitionField.readBack
          (SpatialPartitionField.scanPairCount
            { (setupOf cd mem hash_func cellSize coordMin spheres).countPass cd with
              collisionPairCount :=
                { ((setupOf cd mem hash_func cellSize coordMin spheres).countPass
                    cd).collisionPairCount with
                  m_data := ((setupOf cd mem hash_func cellSize coordMin spheres).countPass
                    cd).collisionPairCount.m_data.set
                      ((setupOf cd mem hash_func cellSize coordMin spheres).uniqueKeyCount - 1)
                      v } }).collisionPairPrefixSum.m_data
          (((setupOf cd mem hash_func cellSize coordMin spheres).uniqueKeyCount : Int) - 1) =
        some total := by
  obtain ⟨e7, e8, hlen, hcount, -⟩ :=
    fresh_pass_tables cd mem hash_func cellSize coordMin spheres hs
  have hne := bucketRuns_ne_nil (runConfig hash_func cellSize coordMin spheres) cd hs
  have hout := collisionPairsOf_eq cd mem hash_func cellSize coordMin spheres
  rw [if_neg hne] at hout
  generalize setupOf cd mem hash_func cellSize coordMin spheres = S at *
  generalize hh : (bucketRuns (runConfig hash_func cellSize coordMin spheres) cd spheres).length
    = h at *
  have hu : (S.countPass cd).uniqueKeyCount = S.uniqueKeyCount := rfl
  have hrb := scan_readBack (S.countPass cd) (by rw [hu, e7]; exact hne) (by rw [hu, e7]; exact hlen)
  rw [hu] at hrb
  have hsum : ((S.countPass cd).collisionPairCount.m_data.take (S.uniqueKeyCount - 1)).sum =
      ((List.range S.validCellCount.toNat).map
        (fun b => (S.countPass cd).collisionPairCount.m_data.getD b 0)).sum := by
    rw [e8, e7, sum_take_eq_sum_getD _ _ (by omega)]
  refine ⟨_, _, hrb, hsum, hout, ?_, ?_⟩
  · rw [List.length_flatMap, hsum, e8]
    refine congrArg List.sum (List.map_congr_left ?_)
    intro b hb
    rw [List.mem_range] at hb
    exact (hcount b (by omega)).symm
  · intro v
    have hrb2 := scan_readBack
      { S.countPass cd with
        collisionPairCount :=
          { (S.countPass cd).collisionPairCount with
            m_data := (S.countPass cd).collisionPairCount.m_data.set (S.uniqueKeyCount - 1) v } }
      (by show S.uniqueKeyCount ≠ 0; rw [e7]; exact hne)
      (by show S.uniqueKeyCount ≤ ((S.countPass cd).collisionPairCount.m_data.set _ _).length
          rw [List.length_set, e7]; exact hlen)
    refine hrb2.trans ?_
    show some (List.take (S.uniqueKeyCount - 1)
      ((S.countPass cd).collisionPairCount.m_data.set (S.uniqueKeyCount - 1) v)).sum = _
    rw [take_set_self]

/-! ## Capacities of the per-slot arrays -/

theorem resizeIgnore_m_size {α : Type} (junk : Nat → α) (b : DeviceBuffer α) (n : Nat) :
    (b.resizeIgnore junk n).m_size = n := by
  unfold DeviceBuffer.resizeIgnore
  by_cases h1 : n ≤ b.m_size <;> by_cases h2 : n ≤ b.m_capacity <;> simp [h1, h2]

theorem resizeIgnore_capacity_mono {α : Type} (junk : Nat → α) (b : DeviceBuffer α) (n : Nat) :
    b.m_capacity ≤ (b.resizeIgnore junk n).m_capacity := by
  unfold DeviceBuffer.resizeIgnore
  by_cases h1 : n ≤ b.m_size <;> by_cases h2 : n ≤ b.m_capacity <;> simp [h1, h2]
  omega

theorem resizeIgnore_capacity_ge {α : Type} (junk : Nat → α) (b : DeviceBuffer α) (n : Nat)
    (hb : b.m_size ≤ b.m_capacity) : n ≤ (b.resizeIgnore junk n).m_capacity := by
  unfold DeviceBuffer.resizeIgnore
  by_cases h1 : n ≤ b.m_size <;> by_cases h2 : n ≤ b.m_capacity <;> simp [h1, h2]
  omega

theorem resize_capacity_mono {α : Type} (junk : Nat → α) (zero : α) (b : DeviceBuffer α)
    (n : Nat) : b.m_capacity ≤ (b.resize junk zero n).m_capacity := by
  unfold DeviceBuffer.resize
  by_cases h1 : n ≤ b.m_size <;> by_cases h2 : n ≤ b.m_capacity <;> simp [h1, h2]
  omega

theorem resize_capacity_ge {α : Type} (junk : Nat → α) (zero : α) (b : DeviceBuffer α) (n : Nat)
    (hb : b.m_size ≤ b.m_capacity) : n ≤ (b.resize junk zero n).m_capacity := by
  unfold DeviceBuffer.resize
  by_cases h1 : n ≤ b.m_size <;> by_cases h2 : n ≤ b.m_capacity <;> simp [h1, h2]
  omega

/-- The sizes and capacities of the nine arrays after the fill stage. -/
theorem fill_slots (cd : collide) (mem : Memory) (g : SpatialPartitionField) :
    List.Forall₂ (fun a b => a ≤ b) (perSlotCapacities g)
        (perSlotCapacities (g.beginFillHashCells cd mem)) ∧
      (SlotsConsistent g →
        SlotsConsistent (g.beginFillHashCells cd mem) ∧
          ∀ c ∈ perSlotCapacities (g.beginFillHashCells cd mem), 8 * g.spheres.length ≤ c) := by
  unfold SlotsConsistent
  by_cases h : g.cellArrayValue.m_size < 8 * g.spheres.length
  · have hfill : g.beginFillHashCells cd mem =
        { spheres := g.spheres
          cellArrayValue := (g.cellArrayValue.resizeIgnore mem.cells (8 * g.spheres.length)).store
            (fillRows g.spatialHashConfig cd g.spheres)
          cellArrayValueSorted := g.cellArrayValueSorted.resizeIgnore mem.cells (8 * g.spheres.length)
          cellArrayKey := (g.cellArrayKey.resizeIgnore mem.ints (8 * g.spheres.length)).store
            ((fillRows g.spatialHashConfig cd g.spheres).map (fun c => c.cid))
          cellArrayKeySorted := g.cellArrayKeySorted.resizeIgnore mem.ints (8 * g.spheres.length)
          uniqueKey := g.uniqueKey.resizeIgnore mem.ints (8 * g.spheres.length)
          uniqueKeyCount := g.uniqueKeyCount
          validCellCount := g.validCellCount
          objCountInCell := g.objCountInCell.resizeIgnore mem.ints (8 * g.spheres.length)
          objCountInCellPrefixSum :=
            g.objCountInCellPrefixSum.resizeIgnore mem.ints (8 * g.spheres.length)
          collisionPairCount := g.collisionPairCount.resizeIgnore mem.ints (8 * g.spheres.length)
          collisionPairPrefixSum :=
            g.collisionPairPrefixSum.resizeIgnore mem.ints (8 * g.spheres.length)
          spatialHashConfig := g.spatialHashConfig } := by
      unfold SpatialPartitionField.beginFillHashCells
      simp only [h, if_true]
    rw [hfill]
    simp only [perSlotCapacities, perSlotSizes, DeviceBuffer.store, List.forall₂_cons,
      List.forall₂_nil_left_iff, and_true, List.mem_cons, List.mem_singleton, List.not_mem_nil,
      or_false, forall_eq_or_imp, forall_eq, resizeIgnore_m_size]
    refine ⟨⟨resizeIgnore_capacity_mono _ _ _, resizeIgnore_capacity_mono _ _ _,
      resizeIgnore_capacity_mono _ _ _, resizeIgnore_capacity_mono _ _ _,
      resizeIgnore_capacity_mono _ _ _, resizeIgnore_capacity_mono _ _ _,
      resizeIgnore_capacity_mono _ _ _, resizeIgnore_capacity_mono _ _ _,
      resizeIgnore_capacity_mono _ _ _⟩, ?_⟩
    rintro ⟨⟨a1, a2, a3, a4, a5, a6, a7, a8, a9⟩, -⟩
    have c1 := resizeIgnore_capacity_ge mem.cells g.cellArrayValue (8 * g.spheres.length) a1
    have c2 := resizeIgnore_capacity_ge mem.ints g.cellArrayKey (8 * g.spheres.length) a2
    have c3 := resizeIgnore_capacity_ge mem.cells g.cellArrayValueSorted (8 * g.spheres.length) a3
    have c4 := resizeIgnore_capacity_ge mem.ints g.cellArrayKeySorted (8 * g.spheres.length) a4
    have c5 := resizeIgnore_capacity_ge mem.ints g.uniqueKey (8 * g.spheres.length) a5
    have c6 := resizeIgnore_capacity_ge mem.ints g.objCountInCell (8 * g.spheres.length) a6
    have c7 := resizeIgnore_capacity_ge mem.ints g.objCountInCellPrefixSum
      (8 * g.spheres.length) a7
    have c8 := resizeIgnore_capacity_ge mem.ints g.collisionPairCount (8 * g.spheres.length) a8
    have c9 := resizeIgnore_capacity_ge mem.ints g.collisionPairPrefixSum
      (8 * g.spheres.length) a9
    exact ⟨⟨⟨c1, c2, c3, c4, c5, c6, c7, c8, c9⟩, c1, c2, c3, c4, c5, c6, c7, c8, c9⟩,
      c1, c2, c3, c4, c5, c6, c7, c8, c9⟩
  · rw [fill_keep cd mem g h]
    simp only [perSlotCapacities, perSlotSizes, DeviceBuffer.store, List.forall₂_cons,
      List.forall₂_nil_left_iff, and_true, List.mem_cons, List.mem_singleton, List.not_mem_nil,
      or_false, forall_eq_or_imp, forall_eq, le_refl, and_self, true_and]
    rintro ⟨ha, b1, b2, b3, b4, b5, b6, b7, b8, b9⟩
    refine ⟨⟨ha, b1, b2, b3, b4, b5, b6, b7, b8, b9⟩, ?_⟩
    refine ⟨?_, ?_, ?_, ?_, ?_, ?_, ?_, ?_, ?_⟩ <;> omega
/-- The stages before the fill stage leave the nine arrays alone. -/
theorem prepared_slots (f : SpatialPartitionField) (cellSize : Option ℚ) (coordMin : vec3)
    (spheres : List sphere) (P : SpatialPartitionField → Prop)
    (hP : ∀ g : SpatialPartitionField, g.spheres = spheres →
      perSlotCapacities g = perSlotCapacities f → perSlotSizes g = perSlotSizes f →
      g.cellArrayValue.m_size = f.cellArrayValue.m_size → P g) :
    P (if ((match cellSize with
          | some c => f.setCellSize c
          | none => f).configSpatialHash coordMin).spatialHashConfig.cellSize ≤ 0 then
        ({ (match cellSize with
            | some c => f.setCellSize c
            | none => f).configSpatialHash coordMin with spheres := spheres } :
          SpatialPartitionField).beginCalculateCellSize
      else { (match cellSize with
            | some c => f.setCellSize c
            | none => f).configSpatialHash coordMin with spheres := spheres }) := by
  cases cellSize <;> split_ifs <;> exact hP _ rfl rfl rfl rfl

/-- The sort stage leaves the sizes and capacities of the nine arrays alone. -/
theorem sort_slots (g : SpatialPartitionField) :
    perSlotCapacities g.beginSortHashCells = perSlotCapacities g ∧
      perSlotSizes g.beginSortHashCells = perSlotSizes g :=
  ⟨rfl, rfl⟩

/-- The passes of `beginCreateCollisionPairList` leave the sizes and capacities of the nine
arrays alone. -/
theorem created_slots (cd : collide) (g : SpatialPartitionField) :
    perSlotCapacities (g.countPass cd).scanPairCount = perSlotCapacities g ∧
      perSlotSizes (g.countPass cd).scanPairCount = perSlotSizes g :=
  ⟨rfl, rfl⟩

/-- The nine arrays after the count stage. -/
theorem count_buffers (mem : Memory) (g : SpatialPartitionField) :
    ∃ (n : Nat) (K O P : List Nat),
      (g.beginCountCollisionPerCell mem).cellArrayValue = g.cellArrayValue ∧
      (g.beginCountCollisionPerCell mem).cellArrayKey = g.cellArrayKey ∧
      (g.beginCountCollisionPerCell mem).cellArrayValueSorted = g.cellArrayValueSorted ∧
      (g.beginCountCollisionPerCell mem).cellArrayKeySorted = g.cellArrayKeySorted ∧
      (g.beginCountCollisionPerCell mem).uniqueKey = (g.uniqueKey.store K).resize mem.ints 0 n ∧
      (g.beginCountCollisionPerCell mem).objCountInCell =
        (g.objCountInCell.store O).resize mem.ints 0 n ∧
      (g.beginCountCollisionPerCell mem).objCountInCellPrefixSum =
        (g.objCountInCellPrefixSum.resize mem.ints 0 n).store P ∧
      (g.beginCountCollisionPerCell mem).collisionPairCount =
        g.collisionPairCount.resize mem.ints 0 n ∧
      (g.beginCountCollisionPerCell mem).collisionPairPrefixSum =
        g.collisionPairPrefixSum.resize mem.ints 0 n :=
  ⟨_, _, _, _, rfl, rfl, rfl, rfl, rfl, rfl, rfl, rfl, rfl⟩

/-- The sizes and capacities of the nine arrays after the count stage. -/
theorem count_slots (mem : Memory) (g : SpatialPartitionField) :
    List.Forall₂ (fun a b => a ≤ b) (perSlotCapacities g)
        (perSlotCapacities (g.beginCountCollisionPerCell mem)) ∧
      (SlotsConsistent g → SlotsConsistent (g.beginCountCollisionPerCell mem)) := by
  obtain ⟨n, K, O, P, k1, k2, k3, k4, k5, k6, k7, k8, k9⟩ := count_buffers mem g
  generalize g.beginCountCollisionPerCell mem = g2 at *
  unfold SlotsConsistent
  have m5 := resize_capacity_mono mem.ints 0 (g.uniqueKey.store K) n
  have m6 := resize_capacity_mono mem.ints 0 (g.objCountInCell.store O) n
  have m7 := resize_capacity_mono mem.ints 0 g.objCountInCellPrefixSum n
  have m8 := resize_capacity_mono mem.ints 0 g.collisionPairCount n
  have m9 := resize_capacity_mono mem.ints 0 g.collisionPairPrefixSum n
  have e5 : (g.uniqueKey.store K).m_capacity = g.uniqueKey.m_capacity := rfl
  have e6 : (g.objCountInCell.store O).m_capacity = g.objCountInCell.m_capacity := rfl
  have s5 : (g.uniqueKey.store K).m_size = g.uniqueKey.m_size := rfl
  have s6 : (g.objCountInCell.store O).m_size = g.objCountInCell.m_size := rfl
  rw [e5] at m5
  rw [e6] at m6
  simp only [perSlotCapacities, perSlotSizes, List.forall₂_cons,
    List.forall₂_nil_left_iff, and_true, List.mem_cons, List.mem_singleton, List.not_mem_nil,
    or_false, forall_eq_or_imp, forall_eq, k1, k2, k3, k4, k5, k6, k7, k8, k9,
    DeviceBuffer.store, resize_m_size]
  refine ⟨⟨le_refl _, le_refl _, le_refl _, le_refl _, m5, m6, m7, m8, m9⟩, ?_⟩
  rintro ⟨⟨a1, a2, a3, a4, a5, a6, a7, a8, a9⟩, b1, b2, b3, b4, b5, b6, b7, b8, b9⟩
  have c5 := resize_capacity_ge mem.ints 0 (g.uniqueKey.store K) n (by rw [e5, s5]; exact a5)
  have c6 := resize_capacity_ge mem.ints 0 (g.objCountInCell.store O) n
    (by rw [e6, s6]; exact a6)
  have c7 := resize_capacity_ge mem.ints 0 g.objCountInCellPrefixSum n a7
  have c8 := resize_capacity_ge mem.ints 0 g.collisionPairCount n a8
  have c9 := resize_capacity_ge mem.ints 0 g.collisionPairPrefixSum n a9
  exact ⟨⟨a1, a2, a3, a4, c5, c6, c7, c8, c9⟩, b1, b2, b3, b4, le_trans b5 m5, le_trans b6 m6,
    le_trans b7 m7, le_trans b8 m8, le_trans b9 m9⟩
theorem forall₂_le_trans {a b c : List Nat} (h1 : List.Forall₂ (fun x y => x ≤ y) a b)
    (h2 : List.Forall₂ (fun x y => x ≤ y) b c) : List.Forall₂ (fun x y => x ≤ y) a c := by
  induction h1 generalizing c with
  | nil => cases h2; exact List.Forall₂.nil
  | cons hxy _ ih =>
    cases h2 with
    | cons hyz h2 => exact List.Forall₂.cons (le_trans hxy hyz) (ih h2)

theorem forall₂_le_refl (a : List Nat) : List.Forall₂ (fun x y => x ≤ y) a a := by
  induction a with
  | nil => exact List.Forall₂.nil
  | cons x xs ih => exact List.Forall₂.cons (le_refl x) ih

/-- The field a run of the usage sequence returns is the field after the fill stage taken
through the sort stage, the count stage and the two passes. -/
theorem launcher_field (cd : collide) (mem : Memory) (f : SpatialPartitionField)
    (cellSize : Option ℚ) (coordMin : vec3) (spheres : List sphere)
    (res : DeviceBuffer CollisionPair) (r : SpatialPartitionField × DeviceBuffer CollisionPair)
    (h : SpatialPartitionLauncher cd mem f cellSize coordMin spheres res = some r) :
    r.1 = (SpatialPartitionField.countPass cd
      (SpatialPartitionField.beginCountCollisionPerCell mem
        (SpatialPartitionField.beginSortHashCells
          (filledField cd mem f cellSize coordMin spheres)))).scanPairCount := by
  have h2 : SpatialPartitionField.beginCreateCollisionPairList cd mem
      (SpatialPartitionField.beginCountCollisionPerCell mem
        (SpatialPartitionField.beginSortHashCells
          (filledField cd mem f cellSize coordMin spheres))) res = some r := by
    rw [launcher_stages] at h
    exact h
  generalize SpatialPartitionField.beginCountCollisionPerCell mem
    (SpatialPartitionField.beginSortHashCells
      (filledField cd mem f cellSize coordMin spheres)) = g at h2 ⊢
  unfold SpatialPartitionField.beginCreateCollisionPairList at h2
  simp only at h2
  split at h2
  · exact absurd h2 (by simp)
  · simp only [Option.some.injEq] at h2
    rw [← h2]

/-- The nine arrays over one run of the usage sequence. -/
theorem run_slots (cd : collide) (mem : Memory) (f : SpatialPartitionField)
    (cellSize : Option ℚ) (coordMin : vec3) (spheres : List sphere) :
    List.Forall₂ (fun a b => a ≤ b) (perSlotCapacities f)
        (perSlotCapacities (filledField cd mem f cellSize coordMin spheres)) ∧
      (SlotsConsistent f →
        ∀ c ∈ perSlotCapacities (filledField cd mem f cellSize coordMin spheres),
          8 * spheres.length ≤ c) ∧
      ∀ (res : DeviceBuffer CollisionPair)
        (r : SpatialPartitionField × DeviceBuffer CollisionPair),
        SpatialPartitionLauncher cd mem f cellSize coordMin spheres res = some r →
          List.Forall₂ (fun a b => a ≤ b)
            (perSlotCapacities (filledField cd mem f cellSize coordMin spheres))
            (perSlotCapacities r.1) ∧
          (SlotsConsistent f → SlotsConsistent r.1) := by
  have hfill : List.Forall₂ (fun a b => a ≤ b) (perSlotCapacities f)
        (perSlotCapacities (filledField cd mem f cellSize coordMin spheres)) ∧
      (SlotsConsistent f →
        SlotsConsistent (filledField cd mem f cellSize coordMin spheres) ∧
        ∀ c ∈ perSlotCapacities (filledField cd mem f cellSize coordMin spheres),
          8 * spheres.length ≤ c) := by
    unfold filledField
    refine prepared_slots f cellSize coordMin spheres
      (fun g => List.Forall₂ (fun a b => a ≤ b) (perSlotCapacities f)
        (perSlotCapacities (SpatialPartitionField.beginFillHashCells cd mem g)) ∧
      (SlotsConsistent f →
        SlotsConsistent (SpatialPartitionField.beginFillHashCells cd mem g) ∧
        ∀ c ∈ perSlotCapacities (SpatialPartitionField.beginFillHashCells cd mem g),
          8 * spheres.length ≤ c)) ?_
    intro g hs hc hz hv
    have hg := fill_slots cd mem g
    rw [hs, hc] at hg
    refine ⟨hg.1, fun hf => hg.2 ?_⟩
    unfold SlotsConsistent at hf ⊢
    rw [hc, hz, hv]
    exact hf
  refine ⟨hfill.1, fun hf => (hfill.2 hf).2, ?_⟩
  intro res r hr
  rw [launcher_field cd mem f cellSize coordMin spheres res r hr]
  generalize filledField cd mem f cellSize coordMin spheres = F at hfill ⊢
  have h1 := sort_slots F
  have h2 := count_slots mem F.beginSortHashCells
  have h3 := created_slots cd (SpatialPartitionField.beginCountCollisionPerCell mem
    F.beginSortHashCells)
  generalize SpatialPartitionField.beginCountCollisionPerCell mem F.beginSortHashCells = G
    at h2 h3 ⊢
  generalize (SpatialPartitionField.countPass cd G).scanPairCount = H at h3 ⊢
  have e3 : H.cellArrayValue.m_size = G.cellArrayValue.m_size := by
    have := h3.2
    simp only [perSlotSizes, List.cons.injEq] at this
    exact this.1
  have e1 : F.beginSortHashCells.cellArrayValue.m_size = F.cellArrayValue.m_size := rfl
  generalize F.beginSortHashCells = F2 at h1 h2 e1
  constructor
  · rw [h3.1, ← h1.1]
    exact h2.1
  · intro hf
    have hF := (hfill.2 hf).1
    have hF2 : SlotsConsistent F2 := by
      unfold SlotsConsistent at hF ⊢
      rw [h1.1, h1.2, e1]
      exact hF
    have hG := h2.2 hF2
    unfold SlotsConsistent at hG ⊢
    rw [h3.1, h3.2, e3]
    exact hG

theorem fresh_consistent (hash_func : ivec3 → Nat) :
    SlotsConsistent (SpatialPartitionField.fresh hash_func) := by
  unfold SlotsConsistent
  simp [perSlotCapacities, perSlotSizes, SpatialPartitionField.fresh, DeviceBuffer.empty]

/-- Successive runs extended by one more run. -/
theorem successiveRuns_append (cd : collide) (mem : Memory) (hash_func : ivec3 → Nat)
    (cellSize : Option ℚ) (coordMin : vec3) (lists : List (List sphere))
    (spheres : List sphere) (r : SpatialPartitionField × DeviceBuffer CollisionPair)
    (h : successiveRuns cd mem hash_func cellSize coordMin lists = some r) :
    successiveRuns cd mem hash_func cellSize coordMin (lists ++ [spheres]) =
      SpatialPartitionLauncher cd mem r.1 cellSize coordMin spheres r.2 := by
  unfold successiveRuns at h ⊢
  rw [List.foldl_append, h]
  rfl

/-- Every field successive runs from a default-constructed field reach keeps the sizes of the
nine arrays within their capacities. -/
theorem reachable_consistent (cd : collide) (mem : Memory) (hash_func : ivec3 → Nat)
    (cellSize : Option ℚ) (coordMin : vec3) (lists : List (List sphere)) :
    ∀ r, successiveRuns cd mem hash_func cellSize coordMin lists = some r →
      SlotsConsistent r.1 := by
  induction lists using List.reverseRecOn with
  | nil =>
    intro r h
    have : r = (SpatialPartitionField.fresh hash_func, DeviceBuffer.empty) := by
      unfold successiveRuns at h
      simp only [List.foldl_nil, Option.some.injEq] at h
      exact h.symm
    rw [this]
    exact fresh_consistent hash_func
  | append_singleton ls l ih =>
    intro r h
    cases hp : successiveRuns cd mem hash_func cellSize coordMin ls with
    | none =>
      unfold successiveRuns at h hp
      rw [List.foldl_append, hp] at h
      exact absurd h (by simp)
    | some p =>
      rw [successiveRuns_append cd mem hash_func cellSize coordMin ls l p hp] at h
      exact ((run_slots cd mem p.1 cellSize coordMin l).2.2 p.2 r h).2 (ih p hp)

/-- The capacities of the nine arrays over the runs of a field. -/
theorem capacities_over_runs (cd : collide) (mem : Memory) (hash_func : ivec3 → Nat)
    (cellSize : Option ℚ) (coordMin : vec3) (lists : List (List sphere))
    (spheres : List sphere) (f : SpatialPartitionField) (res : DeviceBuffer CollisionPair)
    (h : successiveRuns cd mem hash_func cellSize coordMin lists = some (f, res)) :
    (perSlotCapacities (filledField cd mem f cellSize coordMin spheres)).length = 9 ∧
      (∀ c ∈ perSlotCapacities (filledField cd mem f cellSize coordMin spheres),
        8 * spheres.length ≤ c) ∧
      List.Forall₂ (fun a b => a ≤ b) (perSlotCapacities f)
        (perSlotCapacities (filledField cd mem f cellSize coordMin spheres)) ∧
      ∀ r, successiveRuns cd mem hash_func cellSize coordMin (lists ++ [spheres]) = some r →
        List.Forall₂ (fun a b => a ≤ b)
          (perSlotCapacities (filledField cd mem f cellSize coordMin spheres))
          (perSlotCapacities r.1) ∧
        List.Forall₂ (fun a b => a ≤ b) (perSlotCapacities f) (perSlotCapacities r.1) := by
  have hc := reachable_consistent cd mem hash_func cellSize coordMin lists (f, res) h
  have hr := run_slots cd mem f cellSize coordMin spheres
  refine ⟨rfl, hr.2.1 hc, hr.1, ?_⟩
  intro r h2
  rw [successiveRuns_append cd mem hash_func cellSize coordMin lists spheres (f, res) h] at h2
  have h3 := (hr.2.2 res r h2).1
  exact ⟨h3, forall₂_le_trans hr.1 h3⟩

/-- The first of the successive runs, on a non-empty list, returns. -/
theorem first_run_returns (cd : collide) (mem : Memory) (hash_func : ivec3 → Nat)
    (cellSize : Option ℚ) (coordMin : vec3) (spheres : List sphere) (hs : spheres ≠ []) :
    ∃ f res, successiveRuns cd mem hash_func cellSize coordMin [spheres] = some (f, res) := by
  obtain ⟨out, h, -⟩ := run_fresh cd mem hash_func cellSize coordMin spheres DeviceBuffer.empty
    wellFormed_empty (bucketRuns_ne_nil _ cd hs)
  have h0 : successiveRuns cd mem hash_func cellSize coordMin [] =
      some (SpatialPartitionField.fresh hash_func, DeviceBuffer.empty) := rfl
  have h1 := successiveRuns_append cd mem hash_func cellSize coordMin [] spheres _ h0
  rw [List.nil_append] at h1
  simp only at h1
  exact ⟨_, out, h1.trans h⟩

/-! ## Sizes, capacities and elements of a resized buffer -/

theorem resizeOp_ignore {α : Type} (junk : Nat → α) (v : α) (b : DeviceBuffer α) (n : Nat) :
    b.resizeOp junk v n BufferOperation.ignore = b.resizeIgnore junk n := by
  unfold DeviceBuffer.resizeOp DeviceBuffer.resizeIgnore
  by_cases h1 : n ≤ b.m_size <;> by_cases h2 : n ≤ b.m_capacity <;> simp [h1, h2]

theorem resizeOp_size_capacity {α : Type} (junk : Nat → α) (v : α) (b : DeviceBuffer α) (n : Nat)
    (op : BufferOperation) (hb : b.m_size ≤ b.m_capacity) :
    (b.resizeOp junk v n op).m_size = n ∧
      (b.resizeOp junk v n op).m_capacity = max b.m_capacity n := by
  unfold DeviceBuffer.resizeOp
  by_cases h1 : n ≤ b.m_size <;> by_cases h2 : n ≤ b.m_capacity <;> cases op <;>
    simp [h1, h2] <;> omega

theorem resize_size_capacity {α : Type} (junk : Nat → α) (zero : α) (b : DeviceBuffer α) (n : Nat)
    (hb : b.m_size ≤ b.m_capacity) :
    (b.resize junk zero n).m_size = n ∧
      (b.resize junk zero n).m_capacity = max b.m_capacity n := by
  unfold DeviceBuffer.resize
  by_cases h1 : n ≤ b.m_size <;> by_cases h2 : n ≤ b.m_capacity <;>
    simp [h1, h2] <;> omega

theorem resizeValue_size_capacity {α : Type} (junk : Nat → α) (b : DeviceBuffer α) (n : Nat)
    (value : α) :
    (b.resizeValue junk n value).m_size = n ∧
      (b.resizeValue junk n value).m_capacity = max b.m_capacity n := by
  unfold DeviceBuffer.resizeValue
  by_cases h2 : n ≤ b.m_capacity
  · simp [h2]
  · simp only [h2, if_false, true_and]
    omega

theorem shrink_size_capacity {α : Type} (junk : Nat → α) (b : DeviceBuffer α)
    (hb : b.m_size ≤ b.m_capacity) :
    (b.shrink_to_fit junk).m_size = b.m_size ∧
      (b.shrink_to_fit junk).m_capacity = b.m_size := by
  unfold DeviceBuffer.shrink_to_fit
  by_cases h : b.m_size < b.m_capacity <;> simp [h]
  omega

theorem store_wellFormed {α : Type} (b : DeviceBuffer α) (vals : List α) (hb : b.WellFormed)
    (hv : vals.length ≤ b.m_capacity) : (b.store vals).WellFormed := by
  obtain ⟨h1, h2⟩ := hb
  unfold DeviceBuffer.WellFormed DeviceBuffer.store
  simp only [List.length_append, List.length_drop]
  omega

/-- The elements after `resize(n)`. -/
theorem resize_elements {α : Type} (junk : Nat → α) (zero : α) (b : DeviceBuffer α) (n : Nat)
    (hb : b.WellFormed) :
    (∀ i, i < min b.m_size n → (b.resize junk zero n).m_data[i]? = b.m_data[i]?) ∧
      ∀ i, b.m_size ≤ i → i < n → (b.resize junk zero n).m_data[i]? = some zero := by
  obtain ⟨h1, h2⟩ := hb
  unfold DeviceBuffer.resize
  by_cases c1 : n ≤ b.m_size
  · simp only [c1, if_true]
    exact ⟨fun _ _ => trivial, fun i hi hn => by omega⟩
  · by_cases c2 : n ≤ b.m_capacity
    · simp only [c1, c2, if_true, if_false, DeviceBuffer.memset]
      constructor
      · intro i hi
        rw [List.append_assoc, List.getElem?_append_left (by rw [List.length_take]; omega)]
        rw [List.getElem?_take_of_lt (by omega)]
      · intro i hi hn
        rw [List.append_assoc, List.getElem?_append_right (by rw [List.length_take]; omega)]
        rw [List.length_take, Nat.min_eq_left (by omega),
          List.getElem?_append_left (by rw [List.length_replicate]; omega)]
        rw [List.getElem?_replicate]
        simp only [ite_eq_left_iff]
        intro h
        omega
    · simp only [c1, c2, if_false, DeviceBuffer.memset]
      have hlen : (if b.m_data.isEmpty = true then DeviceBuffer.alloc junk n
          else DeviceBuffer.memcpy (DeviceBuffer.alloc junk n) b.m_data b.m_size).length = n := by
        split
        · exact alloc_length _ _
        · unfold DeviceBuffer.memcpy
          rw [List.length_append, List.length_take, List.length_drop, alloc_length]
          omega
      constructor
      · intro i hi
        rw [List.append_assoc, List.getElem?_append_left (by rw [List.length_take, hlen]; omega)]
        rw [List.getElem?_take_of_lt (by omega)]
        have hne : b.m_data.isEmpty = false := by
          cases hd : b.m_data with
          | nil =>
            rw [hd] at h1
            simp only [List.length_nil] at h1
            omega
          | cons x xs => rfl
        simp only [hne, Bool.false_eq_true, if_false, DeviceBuffer.memcpy]
        rw [List.getElem?_append_left (by rw [List.length_take]; omega)]
        rw [List.getElem?_take_of_lt (by omega)]
      · intro i hi hn
        rw [List.append_assoc, List.getElem?_append_right (by rw [List.length_take, hlen]; omega)]
        rw [List.length_take, hlen, Nat.min_eq_left (by omega),
          List.getElem?_append_left (by rw [List.length_replicate]; omega)]
        rw [List.getElem?_replicate]
        simp only [ite_eq_left_iff]
        intro h
        omega

/-! ## Home and phantom records under the ownership predicate -/

/-- Two home records of one pass type are never ignorable. -/
theorem allowIgnore_home_home {l r : SpatialPartitionCell} (hl : l.isHome = true)
    (hr : r.isHome = true) (hp : l.pass = r.pass) : allowIgnore l r = false := by
  unfold isHome at hl hr
  simp only [beq_iff_eq] at hl hr
  cases h : allowIgnore l r with
  | false => rfl
  | true =>
    rw [allowIgnore_true_iff] at h
    rcases h with ⟨h1, -⟩ | ⟨h1, -⟩ | ⟨h1, -⟩
    · exact absurd hl h1
    · omega
    · omega

/-- Two phantom records are always ignorable. -/
theorem allowIgnore_phantom_phantom {l r : SpatialPartitionCell} (hl : l.isPhantom = true)
    (hr : r.isPhantom = true) : allowIgnore l r = true := by
  unfold isPhantom at hl hr
  simp only [bne_iff_ne, ne_eq] at hl hr
  rw [allowIgnore_true_iff]
  exact Or.inl ⟨hl, hr⟩

/-- The decision on a home record and, after it, a record whose mask has the bit of its own
home type. -/
theorem allowIgnore_home_other {h p : SpatialPartitionCell} (hh : h.isHome = true)
    (hbit : p.overlap.testBit p.home = true) :
    allowIgnore h p = (decide (p.home < h.pass) && h.overlap.testBit p.home) := by
  unfold isHome at hh
  simp only [beq_iff_eq] at hh
  rw [Bool.eq_iff_iff, allowIgnore_true_iff]
  simp only [Nat.testBit_land, Bool.and_eq_true, decide_eq_true_eq, hbit, and_true]
  constructor
  · rintro (⟨h1, -⟩ | ⟨h1, -⟩ | ⟨h1, h2⟩)
    · exact absurd hh h1
    · omega
    · exact ⟨h1, h2⟩
  · rintro ⟨h1, h2⟩
    exact Or.inr (Or.inr ⟨h1, h2⟩)

/-- A used record of the fill stage is a home record exactly in the home cell of its object. -/
theorem record_isHome_iff {sh : SpatialHashConfig} {cd : collide} {spheres : List sphere}
    {n : Nat} {r : SpatialPartitionCell} (h : IsRecordOf sh cd spheres n r) :
    (r.isHome = true ↔ r.ijk = homeCellOf sh spheres n) ∧
      (r.isPhantom = true ↔ r.ijk ≠ homeCellOf sh spheres n) := by
  obtain ⟨-, b2, b3, -, -, -, b7⟩ := record_basic h
  unfold isHome isPhantom
  simp only [beq_iff_eq, bne_iff_ne, ne_eq]
  have key : r.home = r.pass ↔ r.ijk = homeCellOf sh spheres n := by
    constructor
    · intro e
      exact b7 e.symm
    · intro e
      rw [b2, b3, e]
  exact ⟨key, not_congr key⟩

/-- The decisions in the cells two objects share when each has a record in the home cell of the
other and the home cells differ. -/
theorem mutual_decisions {sh : SpatialHashConfig} {cd : collide} {spheres : List sphere}
    {a b : Nat} (hne : homeCellOf sh spheres a ≠ homeCellOf sh spheres b)
    (hab : HasRecordIn sh cd spheres a (homeCellOf sh spheres b))
    (hba : HasRecordIn sh cd spheres b (homeCellOf sh spheres a)) :
    passType (homeCellOf sh spheres a) ≠ passType (homeCellOf sh spheres b) ∧
      ∀ ra rb, IsRecordOf sh cd spheres a ra → IsRecordOf sh cd spheres b rb → ra.ijk = rb.ijk →
        allowIgnore rb ra = allowIgnore ra rb ∧
        (ra.ijk = homeCellOf sh spheres a →
          (allowIgnore ra rb = false ↔
            passType (homeCellOf sh spheres a) < passType (homeCellOf sh spheres b))) ∧
        (ra.ijk = homeCellOf sh spheres b →
          (allowIgnore ra rb = false ↔
            passType (homeCellOf sh spheres b) < passType (homeCellOf sh spheres a))) ∧
        (ra.ijk ≠ homeCellOf sh spheres a → ra.ijk ≠ homeCellOf sh spheres b →
          allowIgnore ra rb = true) := by
  obtain ⟨xa, hxa, exa⟩ := hab
  obtain ⟨xb, hxb, exb⟩ := hba
  obtain ⟨-, pa2, pa3, -, -, -, -⟩ := record_basic hxa
  obtain ⟨-, pb2, pb3, -, -, -, -⟩ := record_basic hxb
  have hpt : passType (homeCellOf sh spheres a) ≠ passType (homeCellOf sh spheres b) := by
    intro e
    have hph := ((record_isHome_iff hxa).2).2 (by rw [exa]; exact fun h => hne h.symm)
    unfold isPhantom at hph
    simp only [bne_iff_ne, ne_eq] at hph
    apply hph
    rw [pa3, pa2, exa, e]
  refine ⟨hpt, ?_⟩
  intro ra rb hra hrb hc
  obtain ⟨-, a2, a3, -, a5, -, -⟩ := record_basic hra
  obtain ⟨-, b2, b3, -, b5, -, -⟩ := record_basic hrb
  have hpass : ra.pass = rb.pass := by rw [a2, b2, hc]
  refine ⟨allowIgnore_comm hpass.symm, ?_, ?_, ?_⟩
  · intro e
    have hh : ra.isHome = true := (record_isHome_iff hra).1.2 e
    have hm : ra.overlap.testBit rb.home = true := by
      have := home_record_mask hra (by rw [a2, a3, e]) hxa
      rw [pa2, exa] at this
      rw [b3]
      exact this
    rw [allowIgnore_home_other hh b5, hm, a2, b3, e]
    simp only [Bool.and_true, decide_eq_false_iff_not, not_lt]
    constructor
    · intro h
      exact lt_of_le_of_ne h hpt
    · intro h
      exact le_of_lt h
  · intro e
    have hh : rb.isHome = true := (record_isHome_iff hrb).1.2 (by rw [← hc]; exact e)
    have hm : rb.overlap.testBit ra.home = true := by
      have := home_record_mask hrb (by rw [b2, b3, ← hc, e]) hxb
      rw [pb2, exb] at this
      rw [a3]
      exact this
    rw [allowIgnore_comm hpass, allowIgnore_home_other hh a5, hm, b2, a3, ← hc, e]
    simp only [Bool.and_true, decide_eq_false_iff_not, not_lt]
    constructor
    · intro h
      exact lt_of_le_of_ne h (fun x => hpt x.symm)
    · intro h
      exact le_of_lt h
  · intro e1 e2
    exact allowIgnore_phantom_phantom ((record_isHome_iff hra).2.2 e1)
      ((record_isHome_iff hrb).2.2 (by rw [← hc]; exact e2))

/-! ## The counts of pass A and the slices of the buckets -/

/-- The number of pairs bucket `b` contributes in a run on a default-constructed field, on the
arrays of the field. -/
theorem fresh_bucket_count (cd : collide) (mem : Memory) (hash_func : ivec3 → Nat)
    (cellSize : Option ℚ) (coordMin : vec3) (spheres : List sphere) (hs : spheres ≠ []) (b : Nat)
    (hb : (b : Int) < (setupOf cd mem hash_func cellSize coordMin spheres).validCellCount) :
    ((setupOf cd mem hash_func cellSize coordMin spheres).countPass
        cd).collisionPairCount.m_data.getD b 0 =
      ((pairIndices
        ((setupOf cd mem hash_func cellSize coordMin spheres).objCountInCell.m_data.getD
          b 0)).filter
        (fun p =>
          !allowIgnore
            (cellAt (setupOf cd mem hash_func cellSize coordMin spheres).cellArrayValueSorted.m_data
              ((setupOf cd mem hash_func cellSize coordMin
                spheres).objCountInCellPrefixSum.m_data.getD b 0 + p.1))
            (cellAt (setupOf cd mem hash_func cellSize coordMin spheres).cellArrayValueSorted.m_data
              ((setupOf cd mem hash_func cellSize coordMin
                spheres).objCountInCellPrefixSum.m_data.getD b 0 + p.2)) &&
          cd.detect
            (sphereAt spheres
              (cellAt
                (setupOf cd mem hash_func cellSize coordMin spheres).cellArrayValueSorted.m_data
                ((setupOf cd mem hash_func cellSize coordMin
                  spheres).objCountInCellPrefixSum.m_data.getD b 0 + p.1)).oid)
            (sphereAt spheres
              (cellAt
                (setupOf cd mem hash_func cellSize coordMin spheres).cellArrayValueSorted.m_data
                ((setupOf cd mem hash_func cellSize coordMin
                  spheres).objCountInCellPrefixSum.m_data.getD b 0 + p.2)).oid))).length ∧
      (writesInCell cd ((setupOf cd mem hash_func cellSize coordMin spheres).countPass
        cd).scanPairCount b).length =
        ((setupOf cd mem hash_func cellSize coordMin spheres).countPass
          cd).collisionPairCount.m_data.getD b 0 := by
  obtain ⟨-, s2, -, -, -, -, -, s8⟩ := setup_fresh cd mem hash_func cellSize coordMin spheres
  obtain ⟨-, -, -, hcount, -⟩ := fresh_pass_tables cd mem hash_func cellSize coordMin spheres hs
  have e2 : (setupOf cd mem hash_func cellSize coordMin spheres).cellArrayValueSorted.m_data =
      sortedCells (runConfig hash_func cellSize coordMin spheres) cd spheres := s2
  have e8 : (setupOf cd mem hash_func cellSize coordMin spheres).validCellCount =
      ((bucketRuns (runConfig hash_func cellSize coordMin spheres) cd spheres).length : Int)
        - 1 := s8
  have hb' : b + 1 < (bucketRuns (runConfig hash_func cellSize coordMin spheres) cd
      spheres).length := by
    rw [e8] at hb
    omega
  obtain ⟨t1, t2⟩ := setupOf_tables cd mem hash_func cellSize coordMin spheres b (by omega)
  have hw := fresh_writes cd mem hash_func cellSize coordMin spheres hs b hb'
  have hc := hcount b hb'
  generalize setupOf cd mem hash_func cellSize coordMin spheres = S at *
  rw [hc, hw, t1, t2, e2]
  constructor
  · unfold bucketPairs acceptedPairs
    rw [List.length_map]
    rfl
  · rw [List.length_zip, List.length_range', Nat.min_self]

/-- The stable sort keeps the order of the pairs of one key. -/
theorem filter_orderedInsert_key {α : Type} (a : Nat × α) (L : List (Nat × α)) (k : Nat) :
    (List.orderedInsert (fun a b : Nat × α => a.1 ≤ b.1) a L).filter (fun x => decide (x.1 = k)) =
      (if a.1 = k then [a] else []) ++ L.filter (fun x => decide (x.1 = k)) := by
  rw [List.orderedInsert_eq_take_drop]
  have hL := List.takeWhile_append_dropWhile (fun b : Nat × α => decide ¬ a.1 ≤ b.1) L
  by_cases hk : a.1 = k
  · have hnil : (List.takeWhile (fun b : Nat × α => decide ¬ a.1 ≤ b.1) L).filter
        (fun x => decide (x.1 = k)) = [] := by
      rw [List.filter_eq_nil_iff]
      intro x hx
      have := List.mem_takeWhile_imp hx
      simp only [decide_eq_true_eq] at this ⊢
      omega
    rw [List.filter_append, hnil, List.nil_append, List.filter_cons_of_pos (by simpa using hk),
      if_pos hk]
    nth_rewrite 2 [← hL]
    rw [List.filter_append, hnil, List.nil_append]
    rfl
  · rw [List.filter_append, List.filter_cons_of_neg (by simpa using hk), ← List.filter_append,
      hL, if_neg hk, List.nil_append]

theorem filter_insertionSort_key {α : Type} (l : List (Nat × α)) (k : Nat) :
    (List.insertionSort (fun a b : Nat × α => a.1 ≤ b.1) l).filter (fun x => decide (x.1 = k)) =
      l.filter (fun x => decide (x.1 = k)) := by
  induction l with
  | nil => rfl
  | cons a l ih =>
    rw [List.insertionSort, filter_orderedInsert_key, ih]
    by_cases hk : a.1 = k
    · rw [if_pos hk, List.filter_cons_of_pos (by simpa using hk)]
      rfl
    · rw [if_neg hk, List.filter_cons_of_neg (by simpa using hk), List.nil_append]

/-- The records of one key are in the sorted array in the order in which the fill stage wrote
them. -/
theorem sortedCells_filter (sh : SpatialHashConfig) (cd : collide) (spheres : List sphere)
    (k : Nat) :
    (sortedCells sh cd spheres).filter (fun r => decide (r.cid = k)) =
      (fillRows sh cd spheres).filter (fun r => decide (r.cid = k)) := by
  have hmem : ∀ x ∈ sortedRows sh cd spheres, x.1 = x.2.cid := by
    intro x hx
    have hx' := (sortedRows_perm sh cd spheres).mem_iff.1 hx
    rw [List.mem_map] at hx'
    obtain ⟨a, -, rfl⟩ := hx'
    rfl
  have h1 : (sortedCells sh cd spheres).filter (fun r => decide (r.cid = k)) =
      ((sortedRows sh cd spheres).filter (fun x => decide (x.1 = k))).map Prod.snd := by
    unfold sortedCells
    rw [List.filter_map]
    congr 1
    apply List.filter_congr
    intro x hx
    simp only [Function.comp_apply, hmem x hx]
  rw [h1]
  unfold sortedRows SortPairs
  rw [filter_insertionSort_key, zip_map_self, List.filter_map, List.map_map]
  have h2 : (Prod.snd ∘ fun a : SpatialPartitionCell => (a.cid, a)) = id := rfl
  rw [h2, List.map_id]
  rfl

/-- A part of a list that holds exactly the positions at which `p` is true is the list of the
elements at which `p` is true. -/
theorem slice_eq_filter {α : Type} (L : List α) (p : α → Bool) (a c : Nat)
    (hle : a + c ≤ L.length)
    (hin : ∀ i (h : i < L.length), a ≤ i → i < a + c → p L[i] = true)
    (hout : ∀ i (h : i < L.length), p L[i] = true → a ≤ i ∧ i < a + c) :
    (L.drop a).take c = L.filter p := by
  have hsplit : L = L.take a ++ ((L.drop a).take c ++ (L.drop a).drop c) := by
    rw [List.take_append_drop, List.take_append_drop]
  have h1 : (L.take a).filter p = [] := by
    rw [List.filter_eq_nil_iff]
    intro x hx
    obtain ⟨i, hi, rfl⟩ := List.mem_iff_getElem.1 hx
    rw [List.length_take] at hi
    rw [List.getElem_take]
    intro hp
    have := hout i (by omega) hp
    omega
  have h2 : ((L.drop a).drop c).filter p = [] := by
    rw [List.filter_eq_nil_iff]
    intro x hx
    obtain ⟨i, hi, rfl⟩ := List.mem_iff_getElem.1 hx
    simp only [List.length_drop] at hi
    simp only [List.getElem_drop]
    intro hp
    have := hout (a + (c + i)) (by omega) hp
    omega
  have h3 : ((L.drop a).take c).filter p = (L.drop a).take c := by
    rw [List.filter_eq_self]
    intro x hx
    obtain ⟨i, hi, rfl⟩ := List.mem_iff_getElem.1 hx
    simp only [List.length_take, List.length_drop] at hi
    simp only [List.getElem_take, List.getElem_drop]
    exact hin (a + i) (by omega) (by omega) (by omega)
  conv_rhs => rw [hsplit]
  rw [List.filter_append, List.filter_append, h1, h2, h3, List.nil_append, List.append_nil]

/-- The slice of bucket `b` in the sorted array holds the records of the fill stage whose key
is the key of the bucket, in the order in which the fill stage wrote them. -/
theorem bucket_slice (sh : SpatialHashConfig) (cd : collide) (spheres : List sphere)
    (b k c : Nat) (hb : (bucketRuns sh cd spheres)[b]? = some (k, c)) :
    bucketOffset sh cd spheres b + c ≤ 8 * spheres.length ∧
      ((sortedCells sh cd spheres).drop (bucketOffset sh cd spheres b)).take c =
        (fillRows sh cd spheres).filter (fun r => decide (r.cid = k)) := by
  have hflat : (bucketRuns sh cd spheres).flatMap (fun p => List.replicate p.2 p.1) =
      (sortedCells sh cd spheres).map (fun c => c.cid) := by
    unfold bucketRuns
    rw [Encode_flatten, sortedRows_keys]
  have hmemb : (k, c) ∈ bucketRuns sh cd spheres := by
    obtain ⟨h1, e1⟩ := List.getElem?_eq_some_iff.1 hb
    rw [← e1]
    exact List.getElem_mem _
  have hpos : 0 < c := Encode_pos _ (k, c) hmemb
  have hle : bucketOffset sh cd spheres b + c ≤ (sortedCells sh cd spheres).length := by
    have := (bucket_record sh cd spheres b (c - 1) k c hb (by omega)).1
    omega
  refine ⟨by rw [← sortedCells_length sh cd spheres]; exact hle, ?_⟩
  rw [← sortedCells_filter]
  apply slice_eq_filter _ _ _ _ hle
  · intro i hi h1 h2
    obtain ⟨-, -, h3⟩ := bucket_record sh cd spheres b (i - bucketOffset sh cd spheres b) k c hb
      (by omega)
    have e : bucketOffset sh cd spheres b + (i - bucketOffset sh cd spheres b) = i := by omega
    rw [e] at h3
    unfold cellAt at h3
    rw [List.getD_eq_getElem _ _ hi] at h3
    simpa using h3
  · intro i hi hp
    simp only [decide_eq_true_eq] at hp
    obtain ⟨b', k', c', j, hb', hj, hpe⟩ := chunk_decomp (bucketRuns sh cd spheres) i
      (by rw [hflat, List.length_map]; exact hi)
    obtain ⟨-, -, h3⟩ := bucket_record sh cd spheres b' j k' c' hb' hj
    have e : bucketOffset sh cd spheres b' + j = i := hpe.symm
    rw [e] at h3
    unfold cellAt at h3
    rw [List.getD_eq_getElem _ _ hi, hp] at h3
    subst h3
    have hbb := same_key_same_bucket sh cd spheres b b' k c c' hb hb'
    subst hbb
    rw [hb] at hb'
    have hcc : c = c' := (Prod.mk.inj (Option.some.inj hb')).2
    subst hcc
    have : bucketOffset sh cd spheres b = ((List.map Prod.snd (bucketRuns sh cd spheres)).take
        b).sum := rfl
    omega

/-- When no two used records of one object carry the same key, the records of one real key
appear in the rows of the fill stage with strictly increasing object index. -/
theorem fillRows_filter_oid (sh : SpatialHashConfig) (cd : collide) (spheres : List sphere)
    (k : Nat) (hk : k ≠ invalid)
    (hkey : ∀ (n : Nat) (r r' : SpatialPartitionCell), IsRecordOf sh cd spheres n r →
      IsRecordOf sh cd spheres n r' → r.cid = r'.cid → r = r') :
    ((fillRows sh cd spheres).filter (fun r => decide (r.cid = k))).Pairwise
      (fun r r' => r.oid < r'.oid) := by
  unfold fillRows
  rw [List.filter_flatMap, List.pairwise_flatMap]
  have hrec : ∀ a ∈ List.range spheres.length,
      ∀ x ∈ (fillObject sh cd a (sphereAt spheres a)).filter (fun r => decide (r.cid = k)),
        IsRecordOf sh cd spheres a x ∧ x.cid = k := by
    intro a ha x hx
    rw [List.mem_filter] at hx
    have hc : x.cid = k := by simpa using hx.2
    exact ⟨⟨List.mem_range.1 ha, hx.1, by unfold IsUsed; rw [hc]; exact hk⟩, hc⟩
  constructor
  · intro a ha
    have hlen : ((fillObject sh cd a (sphereAt spheres a)).filter
        (fun r => decide (r.cid = k))).length ≤ 1 := by
      cases hl : (fillObject sh cd a (sphereAt spheres a)).filter (fun r => decide (r.cid = k)) with
      | nil => simp
      | cons x t =>
        cases t with
        | nil => simp
        | cons y t =>
          exfalso
          have hx := hrec a ha x (by rw [hl]; exact List.mem_cons_self _ _)
          have hy := hrec a ha y (by rw [hl]; exact List.mem_cons_of_mem _ (List.mem_cons_self _ _))
          have hxy : x = y := hkey a x y hx.1 hy.1 (by rw [hx.2, hy.2])
          subst hxy
          have hc := fillObject_count sh cd a (sphereAt spheres a) x hx.1.2.2
          have hsub : (x :: x :: t).count x ≤
              (fillObject sh cd a (sphereAt spheres a)).count x := by
            rw [← hl]
            exact (List.filter_sublist _).count_le _
          simp only [List.count_cons_self] at hsub
          omega
    cases hl : (fillObject sh cd a (sphereAt spheres a)).filter (fun r => decide (r.cid = k)) with
    | nil => exact List.Pairwise.nil
    | cons x t =>
      rw [hl] at hlen
      cases t with
      | nil => exact List.pairwise_singleton _ _
      | cons y t =>
        simp only [List.length_cons] at hlen
        omega
  · refine List.Pairwise.imp_of_mem ?_ (List.pairwise_lt_range spheres.length)
    intro a b ha hb hab x hx y hy
    have h1 := (record_basic (hrec a ha x hx).1).1
    have h2 := (record_basic (hrec b hb y hy).1).1
    omega

/-- In a bucket `b < validCellCount` the records stand in the sorted array with strictly
increasing object index, when no two used records of one object carry the same key. -/
theorem bucket_oid_increasing (sh : SpatialHashConfig) (cd : collide) (spheres : List sphere)
    (hkey : ∀ (n : Nat) (r r' : SpatialPartitionCell), IsRecordOf sh cd spheres n r →
      IsRecordOf sh cd spheres n r' → r.cid = r'.cid → r = r')
    (b i j : Nat) (hb : b + 1 < (bucketRuns sh cd spheres).length) (hij : i < j)
    (hj : j < bucketCount sh cd spheres b) :
    (cellAt (sortedCells sh cd spheres) (bucketOffset sh cd spheres b + i)).oid <
      (cellAt (sortedCells sh cd spheres) (bucketOffset sh cd spheres b + j)).oid := by
  obtain ⟨k, hk⟩ := bucketRuns_getElem? sh cd spheres b (by omega)
  have hne := valid_bucket_key sh cd spheres b k _ hk hb
  obtain ⟨hle, hslice⟩ := bucket_slice sh cd spheres b k _ hk
  have hpw := fillRows_filter_oid sh cd spheres k hne hkey
  rw [← hslice, List.pairwise_iff_getElem] at hpw
  have hlen : (((sortedCells sh cd spheres).drop (bucketOffset sh cd spheres b)).take
      (bucketCount sh cd spheres b)).length = bucketCount sh cd spheres b := by
    rw [List.length_take, List.length_drop, sortedCells_length]
    omega
  have h := hpw i j (by rw [hlen]; omega) (by rw [hlen]; exact hj) hij
  simp only [List.getElem_take, List.getElem_drop] at h
  have hl := sortedCells_length sh cd spheres
  unfold cellAt
  rw [List.getD_eq_getElem _ _ (by omega), List.getD_eq_getElem _ _ (by omega)]
  exact h

/-- The entries of the output of a run on a default-constructed field have the smaller object
index first, when no two used records of one object carry the same key. -/
theorem output_ids_increasing {cd : collide} {mem : Memory} {hash_func : ivec3 → Nat}
    {cellSize : Option ℚ} {coordMin : vec3} {spheres : List sphere} {out : List CollisionPair}
    (hN : spheres.length ≤ 2147483648)
    (hkey : ∀ (n : Nat) (r r' : SpatialPartitionCell),
      IsRecordOf (runConfig hash_func cellSize coordMin spheres) cd spheres n r →
      IsRecordOf (runConfig hash_func cellSize coordMin spheres) cd spheres n r' →
      r.cid = r'.cid → r = r')
    (h : collisionPairsOf cd mem hash_func cellSize coordMin spheres = some out)
    {p : CollisionPair} (hmem : p ∈ out) : p.id0 < p.id1 := by
  obtain ⟨b, i, j, hb, hij, hj, hacc, rfl⟩ := (mem_collisionPairs h p).1 hmem
  obtain ⟨nA, nB, hA, hB, -, -, -, hpair⟩ := accepted_records hb hij hj hacc
  have hlt := bucket_oid_increasing _ cd spheres hkey b i j hb hij hj
  rw [(record_basic hA).1, (record_basic hB).1] at hlt
  have lB : nB < spheres.length := hB.1
  rw [hpair, u32ToInt_of_lt (by omega), u32ToInt_of_lt (by omega)]
  show (nA : Int) < (nB : Int)
  omega

/-- Under a parity-respecting hash no two used records of one object carry the same key. -/
theorem record_key_inj {sh : SpatialHashConfig} {cd : collide} {spheres : List sphere}
    (hp : ParityRespecting sh.hash_func) (n : Nat) (r r' : SpatialPartitionCell)
    (h : IsRecordOf sh cd spheres n r) (h' : IsRecordOf sh cd spheres n r')
    (hc : r.cid = r'.cid) : r = r' :=
  record_pass_inj h h' (same_bucket_pass hp h h' hc)

/-- The sort of the model is stable: the pairs of one key keep their order. -/
theorem SortPairs_stable {α : Type} (keys : List Nat) (values : List α) (k : Nat) :
    (SortPairs keys values).filter (fun x => decide (x.1 = k)) =
      (keys.zip values).filter (fun x => decide (x.1 = k)) :=
  filter_insertionSort_key _ k

/-! ## A run on any field state -/

theorem resizeIgnore_wellFormed {α : Type} (junk : Nat → α) (b : DeviceBuffer α) (n : Nat)
    (hb : b.WellFormed) : (b.resizeIgnore junk n).WellFormed := by
  obtain ⟨h1, h2⟩ := hb
  unfold DeviceBuffer.resizeIgnore DeviceBuffer.WellFormed
  by_cases c1 : n ≤ b.m_size
  · simp only [c1, if_true]
    exact ⟨h1, by omega⟩
  · by_cases c2 : n ≤ b.m_capacity
    · simp only [c1, c2, if_true, if_false]
      exact ⟨h1, trivial⟩
    · simp only [c1, c2, if_false]
      exact ⟨alloc_length _ _, le_refl _⟩

/-- `beginCreateCollisionPairList` returns when there is at least one bucket and
`collisionPairCount` holds an entry for every bucket. -/
theorem create_returns (cd : collide) (mem : Memory) (g : SpatialPartitionField)
    (res : DeviceBuffer CollisionPair) (hm : g.uniqueKeyCount ≠ 0)
    (hlen : g.uniqueKeyCount ≤ g.collisionPairCount.m_data.length) :
    ∃ out, g.beginCreateCollisionPairList cd mem res =
      some ((g.countPass cd).scanPairCount, out) := by
  have hu : (g.countPass cd).uniqueKeyCount = g.uniqueKeyCount := rfl
  have hl : (g.countPass cd).collisionPairCount.m_data.length =
      g.collisionPairCount.m_data.length := by
    unfold SpatialPartitionField.countPass
    simp only
    rw [foldl_set_length]
  have hrb := scan_readBack (g.countPass cd) (by rw [hu]; exact hm) (by rw [hu, hl]; exact hlen)
  rw [hu] at hrb
  unfold SpatialPartitionField.beginCreateCollisionPairList
  simp only [hrb]
  exact ⟨_, rfl⟩

/-- The fill, sort and count stages on any field with a non-empty list whose
`collisionPairCount` is well formed: there is at least one bucket, and `collisionPairCount` is
well formed again and holds an entry for every bucket. -/
theorem stages_leave_buckets (cd : collide) (mem : Memory) (g : SpatialPartitionField)
    (hs : g.spheres ≠ []) (hw : g.collisionPairCount.WellFormed) :
    (SpatialPartitionField.beginCountCollisionPerCell mem
        (SpatialPartitionField.beginSortHashCells
          (SpatialPartitionField.beginFillHashCells cd mem g))).uniqueKeyCount ≠ 0 ∧
      (SpatialPartitionField.beginCountCollisionPerCell mem
        (SpatialPartitionField.beginSortHashCells
          (SpatialPartitionField.beginFillHashCells cd mem g))).uniqueKeyCount ≤
        (SpatialPartitionField.beginCountCollisionPerCell mem
          (SpatialPartitionField.beginSortHashCells
            (SpatialPartitionField.beginFillHashCells cd mem g))).collisionPairCount.m_data.length ∧
      (SpatialPartitionField.beginCountCollisionPerCell mem
        (SpatialPartitionField.beginSortHashCells
          (SpatialPartitionField.beginFillHashCells cd mem g))).collisionPairCount.WellFormed := by
  have hN : 0 < g.spheres.length := List.length_pos.2 hs
  have hcomm : g.spheres.length * 8 = 8 * g.spheres.length := Nat.mul_comm _ _
  have hrows := fill_rows cd mem g
  have hkeys := fill_keys cd mem g
  have hsph := fill_spheres cd mem g
  have hwF : (SpatialPartitionField.beginFillHashCells cd mem g).collisionPairCount.WellFormed := by
    unfold SpatialPartitionField.beginFillHashCells
    by_cases h : g.cellArrayValue.m_size < 8 * g.spheres.length
    · simp only [h, if_true]
      exact resizeIgnore_wellFormed _ _ _ hw
    · simp only [h, if_false]
      exact hw
  generalize SpatialPartitionField.beginFillHashCells cd mem g = F at *
  obtain ⟨hk, -⟩ := sort_spec F (fillRows g.spatialHashConfig cd g.spheres)
    (by rw [hsph, hcomm]; exact hkeys) (by rw [hsph, hcomm]; exact hrows)
  have g1 : F.beginSortHashCells.spheres = g.spheres := hsph
  have g2 : F.beginSortHashCells.collisionPairCount = F.collisionPairCount := rfl
  have hlenS : (SortPairs ((fillRows g.spatialHashConfig cd g.spheres).map (fun c => c.cid))
      (fillRows g.spatialHashConfig cd g.spheres)).length = 8 * g.spheres.length := by
    rw [(SortPairs_perm _ _).length_eq]
    simp [fillRows_length]
  generalize F.beginSortHashCells = G at *
  have c1 : (SpatialPartitionField.beginCountCollisionPerCell mem G).uniqueKeyCount =
      (Encode (G.cellArrayKeySorted.m_data.take (G.spheres.length * 8))).length := rfl
  have c2 : (SpatialPartitionField.beginCountCollisionPerCell mem G).collisionPairCount =
      G.collisionPairCount.resize mem.ints 0
        (SpatialPartitionField.beginCountCollisionPerCell mem G).uniqueKeyCount := rfl
  have hne : G.cellArrayKeySorted.m_data.take (G.spheres.length * 8) ≠ [] := by
    rw [hk, g1]
    intro h0
    have := congrArg List.length h0
    simp only [List.length_take, List.length_append, List.length_map, hlenS,
      List.length_nil] at this
    omega
  have hwG : (SpatialPartitionField.beginCountCollisionPerCell mem G).collisionPairCount.WellFormed := by
    rw [c2]
    apply resize_wellFormed
    rw [g2]
    exact hwF
  refine ⟨?_, ?_, hwG⟩
  · rw [c1]
    exact fun h0 => Encode_ne_nil hne (List.length_eq_zero.1 h0)
  · have hsz : (SpatialPartitionField.beginCountCollisionPerCell mem G).collisionPairCount.m_size =
        (SpatialPartitionField.beginCountCollisionPerCell mem G).uniqueKeyCount := by
      rw [c2, resize_m_size]
    obtain ⟨w1, w2⟩ := hwG
    omega

/-- The field on which the fill stage starts when `setCellSize` was given a non-positive
value: the cell size is the computed one, whatever the field held. -/
theorem prepared_nonpositive (f : SpatialPartitionField) (cellSize : Option ℚ) (c : ℚ)
    (coordMin : vec3) (spheres : List sphere) (h : cellSize = some c) (hc : c ≤ 0) :
    (if ((match cellSize with
          | some c => f.setCellSize c
          | none => f).configSpatialHash coordMin).spatialHashConfig.cellSize ≤ 0 then
        ({ (match cellSize with
            | some c => f.setCellSize c
            | none => f).configSpatialHash coordMin with spheres := spheres } :
          SpatialPartitionField).beginCalculateCellSize
      else { (match cellSize with
            | some c => f.setCellSize c
            | none => f).configSpatialHash coordMin with spheres := spheres }) =
      { f with
        spheres := spheres
        spatialHashConfig :=
          { hash_func := f.spatialHashConfig.hash_func
            cellSize := Max (spheres.map (fun s => s.r)) * (3 / 2) * (3 / 2)
            coordMin := coordMin } } := by
  subst h
  simp [SpatialPartitionField.configSpatialHash, SpatialPartitionField.setCellSize,
    SpatialPartitionField.beginCalculateCellSize, hc]

/-- A run after `setCellSize(c)` with `c ≤ 0`, on any field whose `collisionPairCount` is well
formed and with a non-empty list: the run returns, with the computed cell size. -/
theorem nonpositive_run (cd : collide) (mem : Memory) (f : SpatialPartitionField) (c : ℚ)
    (coordMin : vec3) (spheres : List sphere) (res : DeviceBuffer CollisionPair) (hc : c ≤ 0)
    (hs : spheres ≠ []) (hf : f.collisionPairCount.WellFormed) :
    ∃ f' out,
      SpatialPartitionLauncher cd mem f (some c) coordMin spheres res = some (f', out) ∧
      f'.spatialHashConfig.cellSize = Max (spheres.map (fun s => s.r)) * (3 / 2) * (3 / 2) ∧
      f'.cellArrayValue.m_data.take (8 * spheres.length) =
        fillRows
          { hash_func := f.spatialHashConfig.hash_func
            cellSize := Max (spheres.map (fun s => s.r)) * (3 / 2) * (3 / 2)
            coordMin := coordMin } cd spheres ∧
      f'.collisionPairCount.WellFormed := by
  rw [launcher_stages, prepared_nonpositive f (some c) c coordMin spheres rfl hc]
  have hrows := fill_rows cd mem
    { f with
      spheres := spheres
      spatialHashConfig :=
        { hash_func := f.spatialHashConfig.hash_func
          cellSize := Max (spheres.map (fun s => s.r)) * (3 / 2) * (3 / 2)
          coordMin := coordMin } }
  have hcfg := fill_config cd mem
    { f with
      spheres := spheres
      spatialHashConfig :=
        { hash_func := f.spatialHashConfig.hash_func
          cellSize := Max (spheres.map (fun s => s.r)) * (3 / 2) * (3 / 2)
          coordMin := coordMin } }
  obtain ⟨b1, b2, b3⟩ := stages_leave_buckets cd mem
    { f with
      spheres := spheres
      spatialHashConfig :=
        { hash_func := f.spatialHashConfig.hash_func
          cellSize := Max (spheres.map (fun s => s.r)) * (3 / 2) * (3 / 2)
          coordMin := coordMin } } hs hf
  generalize SpatialPartitionField.beginFillHashCells cd mem
    { f with
      spheres := spheres
      spatialHashConfig :=
        { hash_func := f.spatialHashConfig.hash_func
          cellSize := Max (spheres.map (fun s => s.r)) * (3 / 2) * (3 / 2)
          coordMin := coordMin } } = F at *
  have e1 : (SpatialPartitionField.beginCountCollisionPerCell mem
      F.beginSortHashCells).spatialHashConfig = F.spatialHashConfig := rfl
  have e2 : (SpatialPartitionField.beginCountCollisionPerCell mem
      F.beginSortHashCells).cellArrayValue = F.cellArrayValue := rfl
  generalize SpatialPartitionField.beginCountCollisionPerCell mem F.beginSortHashCells = G at *
  obtain ⟨out, hout⟩ := create_returns cd mem G res b1 b2
  obtain ⟨k1, k2, -, -, -, k6, k7⟩ := created_field cd G
  refine ⟨_, out, hout, ?_, ?_, ?_⟩
  · rw [k1, e1, hcfg]
  · rw [k2, e2]
    exact hrows
  · obtain ⟨w1, w2⟩ := b3
    have k8 : (G.countPass cd).scanPairCount.collisionPairCount.m_capacity =
        G.collisionPairCount.m_capacity := rfl
    exact ⟨by rw [k7, k8]; exact w1, by rw [k6, k8]; exact w2⟩

/-! ## The cell of a position in single-precision arithmetic -/

/-- The conversion `float → int` on a value in the range of `int`: the floor of a value that is
not negative, the ceiling of one that is not positive. -/
theorem floatToIntChecked_of_range (q : ℚ) (h : -2147483649 < q ∧ q < 2147483648) :
    floatToIntChecked q = some (if 0 ≤ q then ⌊q⌋ else ⌈q⌉) := by
  unfold floatToIntChecked
  rw [if_pos h]
  by_cases h0 : 0 ≤ q
  · rw [if_pos h0, floatToInt_of_nonneg h0]
  · rw [if_neg h0, floatToInt_of_nonpos (le_of_lt (not_le.1 h0))]

/-- The cell of a position whose three rounded quotients are in the range of `int`. -/
theorem cellRounded_of_range (fl : ℚ → ℚ) (sh : SpatialHashConfig) (p : vec3)
    (hx : -2147483649 < fl (fl (p.x - sh.coordMin.x) / sh.cellSize) ∧
      fl (fl (p.x - sh.coordMin.x) / sh.cellSize) < 2147483648)
    (hy : -2147483649 < fl (fl (p.y - sh.coordMin.y) / sh.cellSize) ∧
      fl (fl (p.y - sh.coordMin.y) / sh.cellSize) < 2147483648)
    (hz : -2147483649 < fl (fl (p.z - sh.coordMin.z) / sh.cellSize) ∧
      fl (fl (p.z - sh.coordMin.z) / sh.cellSize) < 2147483648) :
    sh.cellRounded fl p =
      some ⟨if 0 ≤ fl (fl (p.x - sh.coordMin.x) / sh.cellSize) then
            ⌊fl (fl (p.x - sh.coordMin.x) / sh.cellSize)⌋
          else ⌈fl (fl (p.x - sh.coordMin.x) / sh.cellSize)⌉,
        if 0 ≤ fl (fl (p.y - sh.coordMin.y) / sh.cellSize) then
            ⌊fl (fl (p.y - sh.coordMin.y) / sh.cellSize)⌋
          else ⌈fl (fl (p.y - sh.coordMin.y) / sh.cellSize)⌉,
        if 0 ≤ fl (fl (p.z - sh.coordMin.z) / sh.cellSize) then
            ⌊fl (fl (p.z - sh.coordMin.z) / sh.cellSize)⌋
          else ⌈fl (fl (p.z - sh.coordMin.z) / sh.cellSize)⌉⟩ := by
  unfold SpatialHashConfig.cellRounded
  rw [floatToIntChecked_of_range _ hx, floatToIntChecked_of_range _ hy,
    floatToIntChecked_of_range _ hz]

/-- A component that is not below the origin and whose quotient is computed without rounding:
the index is the floor of the exact quotient and the component lies in the half-open interval
of that index. -/
theorem exact_component_floor (fl : ℚ → ℚ) (a m c : ℚ) (hc : 0 < c) (h1 : fl (a - m) = a - m)
    (h2 : fl ((a - m) / c) = (a - m) / c) (hm : m ≤ a) :
    (if 0 ≤ fl (fl (a - m) / c) then ⌊fl (fl (a - m) / c)⌋ else ⌈fl (fl (a - m) / c)⌉) =
        ⌊(a - m) / c⌋ ∧
      m + (⌊(a - m) / c⌋ : ℚ) * c ≤ a ∧ a < m + ((⌊(a - m) / c⌋ : ℚ) + 1) * c := by
  rw [h1, h2, if_pos (div_nonneg (by linarith) hc.le)]
  have f1 := Int.floor_le ((a - m) / c)
  have f2 := Int.lt_floor_add_one ((a - m) / c)
  rw [le_div_iff₀ hc] at f1
  rw [div_lt_iff₀ hc] at f2
  exact ⟨rfl, by linarith, by linarith⟩

/-- Without rounding, and in the range of `int`, `cellRounded` is `cell`. -/
theorem cellRounded_exact (sh : SpatialHashConfig) (p : vec3) (fl : ℚ → ℚ) (hfl : ∀ q, fl q = q)
    (hx : -2147483649 < fl (fl (p.x - sh.coordMin.x) / sh.cellSize) ∧
      fl (fl (p.x - sh.coordMin.x) / sh.cellSize) < 2147483648)
    (hy : -2147483649 < fl (fl (p.y - sh.coordMin.y) / sh.cellSize) ∧
      fl (fl (p.y - sh.coordMin.y) / sh.cellSize) < 2147483648)
    (hz : -2147483649 < fl (fl (p.z - sh.coordMin.z) / sh.cellSize) ∧
      fl (fl (p.z - sh.coordMin.z) / sh.cellSize) < 2147483648) :
    sh.cellRounded fl p = some (sh.cell p) := by
  unfold SpatialHashConfig.cellRounded floatToIntChecked SpatialHashConfig.cell
  rw [if_pos hx, if_pos hy, if_pos hz]
  simp only [hfl]

/-- The fill, sort and count stages and the two passes keep `collisionPairCount` well
formed. -/
theorem stages_keep_wellFormed (cd : collide) (mem : Memory) (g : SpatialPartitionField)
    (hw : g.collisionPairCount.WellFormed) :
    (SpatialPartitionField.countPass cd
      (SpatialPartitionField.beginCountCollisionPerCell mem
        (SpatialPartitionField.beginSortHashCells
          (SpatialPartitionField.beginFillHashCells cd mem
            g)))).scanPairCount.collisionPairCount.WellFormed := by
  have hwF : (SpatialPartitionField.beginFillHashCells cd mem g).collisionPairCount.WellFormed := by
    unfold SpatialPartitionField.beginFillHashCells
    by_cases h : g.cellArrayValue.m_size < 8 * g.spheres.length
    · simp only [h, if_true]
      exact resizeIgnore_wellFormed _ _ _ hw
    · simp only [h, if_false]
      exact hw
  generalize SpatialPartitionField.beginFillHashCells cd mem g = F at *
  have g2 : F.beginSortHashCells.collisionPairCount = F.collisionPairCount := rfl
  generalize F.beginSortHashCells = G at *
  have c2 : (SpatialPartitionField.beginCountCollisionPerCell mem G).collisionPairCount =
      G.collisionPairCount.resize mem.ints 0
        (SpatialPartitionField.beginCountCollisionPerCell mem G).uniqueKeyCount := rfl
  have hwG : (SpatialPartitionField.beginCountCollisionPerCell mem G).collisionPairCount.WellFormed := by
    rw [c2]
    apply resize_wellFormed
    rw [g2]
    exact hwF
  generalize SpatialPartitionField.beginCountCollisionPerCell mem G = H at *
  obtain ⟨-, -, -, -, -, k6, k7⟩ := created_field cd H
  have k8 : (H.countPass cd).scanPairCount.collisionPairCount.m_capacity =
      H.collisionPairCount.m_capacity := rfl
  obtain ⟨w1, w2⟩ := hwG
  exact ⟨by rw [k7, k8]; exact w1, by rw [k6, k8]; exact w2⟩

/-- Every run of the usage sequence, with any cell-size setting, keeps `collisionPairCount`
well formed. -/
theorem run_keeps_wellFormed (cd : collide) (mem : Memory) (f : SpatialPartitionField)
    (cellSize : Option ℚ) (coordMin : vec3) (spheres : List sphere)
    (res : DeviceBuffer CollisionPair) (r : SpatialPartitionField × DeviceBuffer CollisionPair)
    (hf : f.collisionPairCount.WellFormed)
    (h : SpatialPartitionLauncher cd mem f cellSize coordMin spheres res = some r) :
    r.1.collisionPairCount.WellFormed := by
  rw [launcher_field cd mem f cellSize coordMin spheres res r h]
  unfold filledField
  apply stages_keep_wellFormed
  cases cellSize <;> split_ifs <;> exact hf

/-! ## The claims of the specification -/

/-- C1 (counterexample): on `pairDiagonal`, with the computed cell size and origin `(0, 0, 0)`,
the two spheres pass the exact overlap test but the run returns an empty output: the
overlapping pair `{0, 1}` is missing.  The two objects meet only in the cells `(2, 1, 0)` and
`(2, 1, 1)`, where both are phantom. -/
theorem completeness_fails_on_pairDiagonal :
    exactCollide.detect (sphereAt pairDiagonal 0) (sphereAt pairDiagonal 1) = true ∧
      SomeSlotUnused (runConfig morton none ⟨0, 0, 0⟩ pairDiagonal) exactCollide pairDiagonal ∧
      collisionPairsOf exactCollide someMemory morton none ⟨0, 0, 0⟩ pairDiagonal = some [] := by
  refine ⟨by decide!, ?_, by decide!⟩
  unfold SomeSlotUnused
  decide!

/-- C1 (amended): for every list of spheres that leaves at least one slot unused (and whose
`8 * N` slots fit an `int`), the run yields an output; every entry of it is a pair of two
different valid object indices whose spheres pass the exact overlap test (no other pair is
present), and every pair of different objects that have a record in each other's home cell and
whose spheres pass the exact test (in both argument orders) is present. -/
theorem output_sound_and_complete_for_mutual_pairs (cd : collide) (mem : Memory)
    (cellSize : Option ℚ) (coordMin : vec3) (spheres : List sphere)
    (hN : 8 * spheres.length < 2147483648)
    (hs : SomeSlotUnused (runConfig morton cellSize coordMin spheres) cd spheres) :
    ∃ out, collisionPairsOf cd mem morton cellSize coordMin spheres = some out ∧
      (∀ p ∈ out, ∃ a b : Nat, p = ⟨(a : Int), (b : Int)⟩ ∧ a < spheres.length ∧
        b < spheres.length ∧ a ≠ b ∧ cd.detect (sphereAt spheres a) (sphereAt spheres b) = true) ∧
      (∀ a b : Nat, a < spheres.length → b < spheres.length → a ≠ b →
        HasRecordIn (runConfig morton cellSize coordMin spheres) cd spheres b
          (homeCellOf (runConfig morton cellSize coordMin spheres) spheres a) →
        HasRecordIn (runConfig morton cellSize coordMin spheres) cd spheres a
          (homeCellOf (runConfig morton cellSize coordMin spheres) spheres b) →
        cd.detect (sphereAt spheres a) (sphereAt spheres b) = true →
        cd.detect (sphereAt spheres b) (sphereAt spheres a) = true →
        (⟨(a : Int), (b : Int)⟩ : CollisionPair) ∈ out ∨
          (⟨(b : Int), (a : Int)⟩ : CollisionPair) ∈ out) := by
  have hne : spheres ≠ [] := by
    rintro rfl
    obtain ⟨r, hr, -⟩ := hs
    simp [fillRows] at hr
  have hsome := collisionPairsOf_eq cd mem morton cellSize coordMin spheres
  rw [if_neg (bucketRuns_ne_nil _ cd hne)] at hsome
  refine ⟨_, hsome, ?_, ?_⟩
  · intro p hp
    exact output_entry_sound morton_parityRespecting hN hsome hp
  · intro a b ha hb hab h1 h2 hd hd'
    exact mutual_pair_reported hN hs hsome ha hb hab h1 h2 hd hd'

/-- C1 (witness): the amended statement applied to `pairSameOctant`, whose output is the single
pair `(0, 1)`. -/
theorem output_sound_and_complete_witness :
    8 * pairSameOctant.length < 2147483648 ∧
      SomeSlotUnused (runConfig morton none ⟨0, 0, 0⟩ pairSameOctant) exactCollide pairSameOctant ∧
      ∃ out, collisionPairsOf exactCollide someMemory morton none ⟨0, 0, 0⟩ pairSameOctant
          = some out ∧
        (∀ p ∈ out, ∃ a b : Nat, p = ⟨(a : Int), (b : Int)⟩ ∧ a < pairSameOctant.length ∧
          b < pairSameOctant.length ∧ a ≠ b ∧
          exactCollide.detect (sphereAt pairSameOctant a) (sphereAt pairSameOctant b) = true) ∧
        (∀ a b : Nat, a < pairSameOctant.length → b < pairSameOctant.length → a ≠ b →
          HasRecordIn (runConfig morton none ⟨0, 0, 0⟩ pairSameOctant) exactCollide pairSameOctant b
            (homeCellOf (runConfig morton none ⟨0, 0, 0⟩ pairSameOctant) pairSameOctant a) →
          HasRecordIn (runConfig morton none ⟨0, 0, 0⟩ pairSameOctant) exactCollide pairSameOctant a
            (homeCellOf (runConfig morton none ⟨0, 0, 0⟩ pairSameOctant) pairSameOctant b) →
          exactCollide.detect (sphereAt pairSameOctant a) (sphereAt pairSameOctant b) = true →
          exactCollide.detect (sphereAt pairSameOctant b) (sphereAt pairSameOctant a) = true →
          (⟨(a : Int), (b : Int)⟩ : CollisionPair) ∈ out ∨
            (⟨(b : Int), (a : Int)⟩ : CollisionPair) ∈ out) :=
  ⟨by decide, by unfold SomeSlotUnused; decide!,
    output_sound_and_complete_for_mutual_pairs exactCollide someMemory none ⟨0, 0, 0⟩
      pairSameOctant (by decide) (by unfold SomeSlotUnused; decide!)⟩

/-- C2: for every list of spheres (whose `8 * N` slots fit an `int`), no unordered pair of
object ids occurs at two different positions of the output array written by
`beginCreateCollisionPairList`: two positions `x`, `y` whose entries carry the same two ids, in
the same or in the opposite order, coincide.  This holds however many cells the two objects
share. -/
theorem no_pair_at_two_positions (cd : collide) (mem : Memory) (cellSize : Option ℚ)
    (coordMin : vec3) (spheres : List sphere) (out : List CollisionPair)
    (hN : 8 * spheres.length < 2147483648)
    (h : collisionPairsOf cd mem morton cellSize coordMin spheres = some out)
    (x y : Nat) (hx : x < out.length) (hy : y < out.length)
    (hsame : (out[x].id0 = out[y].id0 ∧ out[x].id1 = out[y].id1) ∨
      (out[x].id0 = out[y].id1 ∧ out[x].id1 = out[y].id0)) : x = y := by
  have hnd := output_nodup morton_parityRespecting hN h
  have hx' : x < (out.map (fun p => s(p.id0, p.id1))).length := by simpa using hx
  have hy' : y < (out.map (fun p => s(p.id0, p.id1))).length := by simpa using hy
  have hinj : (out.map (fun p => s(p.id0, p.id1)))[x] = (out.map (fun p => s(p.id0, p.id1)))[y] →
      x = y := (List.Nodup.getElem_inj_iff hnd).1
  apply hinj
  simp only [List.getElem_map, Sym2.eq_iff]
  exact hsame

/-- C2 (witness): on `pairSameOctant` the two objects have records in seven common cells, and
the output holds the pair `(0, 1)` once. -/
theorem no_pair_at_two_positions_witness :
    8 * pairSameOctant.length < 2147483648 ∧
      collisionPairsOf exactCollide someMemory morton none ⟨0, 0, 0⟩ pairSameOctant =
        some [⟨0, 1⟩] ∧ (0 : Nat) = 0 :=
  ⟨by decide, by decide!,
    no_pair_at_two_positions exactCollide someMemory none ⟨0, 0, 0⟩ pairSameOctant [⟨0, 1⟩]
      (by decide) (by decide!) 0 0 (by decide) (by decide) (Or.inl ⟨rfl, rfl⟩)⟩

/-- C3: for every list of `N` spheres (whose `8 * N` slots fit an `int`), every
`CollisionPair (a, b)` written to the output satisfies `0 ≤ a < N`, `0 ≤ b < N`, `a ≠ b`, and the
exact sphere-sphere overlap test on `spheres[a]`, `spheres[b]` is true. -/
theorem output_pairs_overlap (cd : collide) (mem : Memory) (cellSize : Option ℚ)
    (coordMin : vec3) (spheres : List sphere) (out : List CollisionPair)
    (hN : 8 * spheres.length < 2147483648)
    (h : collisionPairsOf cd mem morton cellSize coordMin spheres = some out)
    (p : CollisionPair) (hp : p ∈ out) :
    0 ≤ p.id0 ∧ p.id0 < spheres.length ∧ 0 ≤ p.id1 ∧ p.id1 < spheres.length ∧ p.id0 ≠ p.id1 ∧
      cd.detect (sphereAt spheres p.id0.toNat) (sphereAt spheres p.id1.toNat) = true := by
  obtain ⟨a, b, rfl, ha, hb, hab, hd⟩ := output_entry_sound morton_parityRespecting hN h hp
  refine ⟨by simp, by simpa using ha, by simp, by simpa using hb, ?_, by simpa using hd⟩
  simp only [ne_eq, Nat.cast_inj]
  exact hab

/-- C3 (witness): the entry `(0, 1)` of the output on `pairSameOctant`. -/
theorem output_pairs_overlap_witness :
    8 * pairSameOctant.length < 2147483648 ∧
      collisionPairsOf exactCollide someMemory morton none ⟨0, 0, 0⟩ pairSameOctant =
        some [⟨0, 1⟩] ∧
      ((0 : Int) ≤ 0 ∧ (0 : Int) < pairSameOctant.length ∧ (0 : Int) ≤ 1 ∧
        (1 : Int) < pairSameOctant.length ∧ (0 : Int) ≠ 1 ∧
        exactCollide.detect (sphereAt pairSameOctant (0 : Int).toNat)
          (sphereAt pairSameOctant (1 : Int).toNat) = true) :=
  ⟨by decide, by decide!,
    output_pairs_overlap exactCollide someMemory none ⟨0, 0, 0⟩ pairSameOctant [⟨0, 1⟩]
      (by decide) (by decide!) ⟨0, 1⟩ (List.mem_singleton.2 rfl)⟩

/-- C4 (counterexample): the two objects of `pairApart` have records in common cells, for
instance in `(2, 1, 1)`, but `allowIgnore` is true on their records in every common cell: no
cell reports the pair. -/
theorem no_owner_on_pairApart :
    (HasRecordIn (runConfig morton none ⟨0, 0, 0⟩ pairApart) exactCollide pairApart 0 ⟨2, 1, 1⟩ ∧
      HasRecordIn (runConfig morton none ⟨0, 0, 0⟩ pairApart) exactCollide pairApart 1 ⟨2, 1, 1⟩) ∧
      ¬ ∃ c, NotIgnoredIn (runConfig morton none ⟨0, 0, 0⟩ pairApart) exactCollide pairApart
        0 1 c := by
  refine ⟨⟨⟨⟨3, 7, 136, 14, 0, ⟨2, 1, 1⟩⟩, ⟨by decide, by decide!, by decide⟩, rfl⟩,
    ⟨⟨3, 7, 136, 14, 1, ⟨2, 1, 1⟩⟩, ⟨by decide, by decide!, by decide⟩, rfl⟩⟩, ?_⟩
  rintro ⟨c, ra, rb, ha, hb, ea, eb, hig⟩
  have hall : ∀ r0 ∈ fillObject (runConfig morton none ⟨0, 0, 0⟩ pairApart) exactCollide 0
      (sphereAt pairApart 0),
      ∀ r1 ∈ fillObject (runConfig morton none ⟨0, 0, 0⟩ pairApart) exactCollide 1
        (sphereAt pairApart 1),
      r0.cid ≠ invalid → r1.cid ≠ invalid → r0.ijk = r1.ijk → allowIgnore r0 r1 = true := by
    decide!
  have := hall ra ha.2.1 rb hb.2.1 ha.2.2 hb.2.2 (ea.trans eb.symm)
  rw [hig] at this
  exact Bool.noConfusion this

/-- C4 (amended): for every list of spheres and every two objects, there is at most one common
cell in which `allowIgnore` applied to their two records returns false, and there is exactly
one when each of the two objects has a record in the home cell of the other (in particular when
they have the same home cell). -/
theorem at_most_one_owner_cell (sh : SpatialHashConfig) (cd : collide) (spheres : List sphere)
    (a b : Nat) :
    (∀ c c', NotIgnoredIn sh cd spheres a b c → NotIgnoredIn sh cd spheres a b c' → c = c') ∧
      (a < spheres.length → b < spheres.length →
        HasRecordIn sh cd spheres b (homeCellOf sh spheres a) →
        HasRecordIn sh cd spheres a (homeCellOf sh spheres b) →
        ∃ c, NotIgnoredIn sh cd spheres a b c ∧
          ∀ c', NotIgnoredIn sh cd spheres a b c' → c' = c) := by
  refine ⟨fun c c' h h' => notIgnoredIn_unique h h', ?_⟩
  intro ha hb hba hab
  obtain ⟨c, hc⟩ := notIgnoredIn_exists ha hb hba hab
  exact ⟨c, hc, fun c' hc' => notIgnoredIn_unique hc' hc⟩

/-- C4 (witness): the two objects of `pairSameOctant` have the home cell `(1, 1, 1)`, which is
the one cell that reports them. -/
theorem at_most_one_owner_cell_witness :
    (0 < pairSameOctant.length ∧ 1 < pairSameOctant.length ∧
      HasRecordIn (runConfig morton none ⟨0, 0, 0⟩ pairSameOctant) exactCollide pairSameOctant 1
        (homeCellOf (runConfig morton none ⟨0, 0, 0⟩ pairSameOctant) pairSameOctant 0) ∧
      HasRecordIn (runConfig morton none ⟨0, 0, 0⟩ pairSameOctant) exactCollide pairSameOctant 0
        (homeCellOf (runConfig morton none ⟨0, 0, 0⟩ pairSameOctant) pairSameOctant 1)) ∧
      ∃ c, NotIgnoredIn (runConfig morton none ⟨0, 0, 0⟩ pairSameOctant) exactCollide pairSameOctant
          0 1 c ∧
        ∀ c', NotIgnoredIn (runConfig morton none ⟨0, 0, 0⟩ pairSameOctant) exactCollide
          pairSameOctant 0 1 c' → c' = c :=
  have h1 : HasRecordIn (runConfig morton none ⟨0, 0, 0⟩ pairSameOctant) exactCollide pairSameOctant 1
      (homeCellOf (runConfig morton none ⟨0, 0, 0⟩ pairSameOctant) pairSameOctant 0) :=
    ⟨⟨7, 7, 255, 7, 1, ⟨1, 1, 1⟩⟩, ⟨by decide, by decide!, by decide⟩, by decide!⟩
  have h0 : HasRecordIn (runConfig morton none ⟨0, 0, 0⟩ pairSameOctant) exactCollide pairSameOctant 0
      (homeCellOf (runConfig morton none ⟨0, 0, 0⟩ pairSameOctant) pairSameOctant 1) :=
    ⟨⟨7, 7, 254, 7, 0, ⟨1, 1, 1⟩⟩, ⟨by decide, by decide!, by decide⟩, by decide!⟩
  ⟨⟨by decide, by decide, h1, h0⟩,
    (at_most_one_owner_cell (runConfig morton none ⟨0, 0, 0⟩ pairSameOctant) exactCollide
      pairSameOctant 0 1).2 (by decide) (by decide) h1 h0⟩

/-- C5 (counterexample): the spheres of `pairInLine` overlap.  In the cell `(3, 1, 1)`, the
home cell of object 1, `allowIgnore` is true on the phantom record of object 0 and the home
record of object 1 (object 0 has `home = 3 < 7 = pass` and bit 3 is set in both masks, in the
mask of object 1 because its proxy sphere reaches the cell `(4, 1, 1)` of pass type 3), yet no
common cell has `allowIgnore` false: object 1 has no record in `(2, 1, 1)`, the home cell of
object 0. -/
theorem ignored_without_owner_on_pairInLine :
    exactCollide.detect (sphereAt pairInLine 0) (sphereAt pairInLine 1) = true ∧
      (IsRecordOf (runConfig morton none ⟨0, 0, 0⟩ pairInLine) exactCollide pairInLine 0
          ⟨7, 3, 136, 15, 0, ⟨3, 1, 1⟩⟩ ∧
        IsRecordOf (runConfig morton none ⟨0, 0, 0⟩ pairInLine) exactCollide pairInLine 1
          ⟨7, 7, 254, 15, 1, ⟨3, 1, 1⟩⟩ ∧
        allowIgnore ⟨7, 3, 136, 15, 0, ⟨3, 1, 1⟩⟩ ⟨7, 7, 254, 15, 1, ⟨3, 1, 1⟩⟩ = true) ∧
      ¬ ∃ c, NotIgnoredIn (runConfig morton none ⟨0, 0, 0⟩ pairInLine) exactCollide pairInLine
        0 1 c := by
  refine ⟨by decide!, ⟨⟨by decide, by decide!, by decide⟩, ⟨by decide, by decide!, by decide⟩,
    by decide⟩, ?_⟩
  rintro ⟨c, ra, rb, ha, hb, ea, eb, hig⟩
  have hall : ∀ r0 ∈ fillObject (runConfig morton none ⟨0, 0, 0⟩ pairInLine) exactCollide 0
      (sphereAt pairInLine 0),
      ∀ r1 ∈ fillObject (runConfig morton none ⟨0, 0, 0⟩ pairInLine) exactCollide 1
        (sphereAt pairInLine 1),
      r0.cid ≠ invalid → r1.cid ≠ invalid → r0.ijk = r1.ijk → allowIgnore r0 r1 = true := by
    decide!
  have := hall ra ha.2.1 rb hb.2.1 ha.2.2 hb.2.2 (ea.trans eb.symm)
  rw [hig] at this
  exact Bool.noConfusion this

/-- C5 (amended): for every list of spheres and every two objects each of which has a record in
the home cell of the other: whenever `allowIgnore` returns true for their two records in some
common cell, there is a different common cell in which both objects have records and
`allowIgnore` returns false for them. -/
theorem ignored_pair_has_owner (sh : SpatialHashConfig) (cd : collide) (spheres : List sphere)
    (a b : Nat) (ha : a < spheres.length) (hb : b < spheres.length)
    (hba : HasRecordIn sh cd spheres b (homeCellOf sh spheres a))
    (hab : HasRecordIn sh cd spheres a (homeCellOf sh spheres b))
    (ra rb : SpatialPartitionCell) (hra : IsRecordOf sh cd spheres a ra)
    (hrb : IsRecordOf sh cd spheres b rb) (hc : ra.ijk = rb.ijk)
    (hig : allowIgnore ra rb = true) :
    ∃ c, c ≠ ra.ijk ∧ NotIgnoredIn sh cd spheres a b c :=
  ignored_has_owner ha hb hba hab hra hrb hc hig

/-- C5 (witness): on `pairSameOctant` the pair is ignored in the cell `(0, 1, 1)`, where both
objects are phantom, and owned by another cell. -/
theorem ignored_pair_has_owner_witness :
    (0 < pairSameOctant.length ∧ 1 < pairSameOctant.length ∧
      HasRecordIn (runConfig morton none ⟨0, 0, 0⟩ pairSameOctant) exactCollide pairSameOctant 1
        (homeCellOf (runConfig morton none ⟨0, 0, 0⟩ pairSameOctant) pairSameOctant 0) ∧
      HasRecordIn (runConfig morton none ⟨0, 0, 0⟩ pairSameOctant) exactCollide pairSameOctant 0
        (homeCellOf (runConfig morton none ⟨0, 0, 0⟩ pairSameOctant) pairSameOctant 1) ∧
      IsRecordOf (runConfig morton none ⟨0, 0, 0⟩ pairSameOctant) exactCollide pairSameOctant 0
        ⟨3, 7, 136, 6, 0, ⟨0, 1, 1⟩⟩ ∧
      IsRecordOf (runConfig morton none ⟨0, 0, 0⟩ pairSameOctant) exactCollide pairSameOctant 1
        ⟨3, 7, 136, 6, 1, ⟨0, 1, 1⟩⟩ ∧
      allowIgnore ⟨3, 7, 136, 6, 0, ⟨0, 1, 1⟩⟩ ⟨3, 7, 136, 6, 1, ⟨0, 1, 1⟩⟩ = true) ∧
      ∃ c, c ≠ (⟨0, 1, 1⟩ : ivec3) ∧
        NotIgnoredIn (runConfig morton none ⟨0, 0, 0⟩ pairSameOctant) exactCollide pairSameOctant
          0 1 c :=
  have h1 : HasRecordIn (runConfig morton none ⟨0, 0, 0⟩ pairSameOctant) exactCollide
      pairSameOctant 1
      (homeCellOf (runConfig morton none ⟨0, 0, 0⟩ pairSameOctant) pairSameOctant 0) :=
    ⟨⟨7, 7, 255, 7, 1, ⟨1, 1, 1⟩⟩, ⟨by decide, by decide!, by decide⟩, by decide!⟩
  have h0 : HasRecordIn (runConfig morton none ⟨0, 0, 0⟩ pairSameOctant) exactCollide
      pairSameOctant 0
      (homeCellOf (runConfig morton none ⟨0, 0, 0⟩ pairSameOctant) pairSameOctant 1) :=
    ⟨⟨7, 7, 254, 7, 0, ⟨1, 1, 1⟩⟩, ⟨by decide, by decide!, by decide⟩, by decide!⟩
  have r0 : IsRecordOf (runConfig morton none ⟨0, 0, 0⟩ pairSameOctant) exactCollide
      pairSameOctant 0 ⟨3, 7, 136, 6, 0, ⟨0, 1, 1⟩⟩ := ⟨by decide, by decide!, by decide⟩
  have r1 : IsRecordOf (runConfig morton none ⟨0, 0, 0⟩ pairSameOctant) exactCollide
      pairSameOctant 1 ⟨3, 7, 136, 6, 1, ⟨0, 1, 1⟩⟩ := ⟨by decide, by decide!, by decide⟩
  ⟨⟨by decide, by decide, h1, h0, r0, r1, by decide⟩,
    ignored_pair_has_owner (runConfig morton none ⟨0, 0, 0⟩ pairSameOctant) exactCollide
      pairSameOctant 0 1 (by decide) (by decide) h1 h0 _ _ r0 r1 rfl (by decide)⟩

/-- C6: `allowIgnore a b` holds exactly when both records are phantom (`home ≠ pass` for each)
or one of the two records has `home < a.pass` with bit `home` set in `a.overlap & b.overlap`;
it is false in every other case. -/
theorem allowIgnore_iff (a b : SpatialPartitionCell) :
    allowIgnore a b = true ↔
      ((a.home ≠ a.pass ∧ b.home ≠ b.pass) ∨
        (a.home < a.pass ∧ (a.overlap &&& b.overlap).testBit a.home = true) ∨
        (b.home < a.pass ∧ (a.overlap &&& b.overlap).testBit b.home = true)) :=
  allowIgnore_true_iff a b

/-- C7: for every list of `N` spheres, every record read by pass A and pass B of
`beginCreateCollisionPairList` (sorted position `offset_b + i` with `b < validCellCount` and
`i < count_b`) lies inside the `8 * N` sorted slots, is not an unused slot and carries the index
of an object, `oid < N`: the bucket of the unused slots contributes no candidate pair and no
sphere lookup is out of range. -/
theorem pass_reads_used_records (cd : collide) (mem : Memory) (hash_func : ivec3 → Nat)
    (cellSize : Option ℚ) (coordMin : vec3) (spheres : List sphere) (b i : Nat)
    (hb : (b : Int) < (setupOf cd mem hash_func cellSize coordMin spheres).validCellCount)
    (hi : i < (setupOf cd mem hash_func cellSize coordMin spheres).objCountInCell.m_data.getD b 0) :
    (setupOf cd mem hash_func cellSize coordMin spheres).objCountInCellPrefixSum.m_data.getD b 0 + i
        < 8 * spheres.length ∧
      (cellAt (setupOf cd mem hash_func cellSize coordMin spheres).cellArrayValueSorted.m_data
        ((setupOf cd mem hash_func cellSize coordMin spheres).objCountInCellPrefixSum.m_data.getD
          b 0 + i)).cid ≠ invalid ∧
      (cellAt (setupOf cd mem hash_func cellSize coordMin spheres).cellArrayValueSorted.m_data
        ((setupOf cd mem hash_func cellSize coordMin spheres).objCountInCellPrefixSum.m_data.getD
          b 0 + i)).oid < spheres.length := by
  obtain ⟨-, s2, s3, s4, -, -, -, s8⟩ := setup_fresh cd mem hash_func cellSize coordMin spheres
  unfold setupOf at hb hi ⊢
  rw [s8] at hb
  have hb' : b + 1 < (bucketRuns (runConfig hash_func cellSize coordMin spheres) cd spheres).length := by
    omega
  have hcount : (List.map Prod.snd (bucketRuns (runConfig hash_func cellSize coordMin spheres) cd
      spheres) ++ List.drop (bucketRuns (runConfig hash_func cellSize coordMin spheres) cd
      spheres).length (DeviceBuffer.alloc mem.ints (8 * spheres.length))).getD b 0 =
      bucketCount (runConfig hash_func cellSize coordMin spheres) cd spheres b := by
    rw [getD_append_left' _ _ _ _ (by rw [List.length_map]; omega)]
    rfl
  have hoff : (ExclusiveSum (List.map Prod.snd (bucketRuns (runConfig hash_func cellSize coordMin
      spheres) cd spheres)) ++ List.drop (bucketRuns (runConfig hash_func cellSize coordMin spheres)
      cd spheres).length (DeviceBuffer.alloc mem.ints (8 * spheres.length))).getD b 0 =
      bucketOffset (runConfig hash_func cellSize coordMin spheres) cd spheres b := by
    rw [getD_append_left' _ _ _ _ (by rw [ExclusiveSum_length, List.length_map]; omega),
      List.getD_eq_getElem?_getD, ExclusiveSum_getElem? _ b (by rw [List.length_map]; omega)]
    rfl
  rw [s3, hcount] at hi
  rw [s2, s4, hoff]
  obtain ⟨h1, n, hn⟩ := valid_bucket_record _ cd spheres b i hb' hi
  rw [sortedCells_length] at h1
  refine ⟨h1, hn.2.2, ?_⟩
  rw [(record_basic hn).1]
  exact hn.1

/-- C7 (witness): on `pairSameOctant`, bucket 7 (the home cell of both objects) and its second
record, at sorted position `13 + 1`. -/
theorem pass_reads_used_records_witness :
    ((7 : Nat) : Int) <
        (setupOf exactCollide someMemory morton none ⟨0, 0, 0⟩ pairSameOctant).validCellCount ∧
      1 < (setupOf exactCollide someMemory morton none ⟨0, 0, 0⟩
        pairSameOctant).objCountInCell.m_data.getD 7 0 ∧
      ((setupOf exactCollide someMemory morton none ⟨0, 0, 0⟩
          pairSameOctant).objCountInCellPrefixSum.m_data.getD 7 0 + 1 < 8 * pairSameOctant.length ∧
        (cellAt (setupOf exactCollide someMemory morton none ⟨0, 0, 0⟩
            pairSameOctant).cellArrayValueSorted.m_data
          ((setupOf exactCollide someMemory morton none ⟨0, 0, 0⟩
            pairSameOctant).objCountInCellPrefixSum.m_data.getD 7 0 + 1)).cid ≠ invalid ∧
        (cellAt (setupOf exactCollide someMemory morton none ⟨0, 0, 0⟩
            pairSameOctant).cellArrayValueSorted.m_data
          ((setupOf exactCollide someMemory morton none ⟨0, 0, 0⟩
            pairSameOctant).objCountInCellPrefixSum.m_data.getD 7 0 + 1)).oid
          < pairSameOctant.length) :=
  ⟨by decide!, by decide!,
    pass_reads_used_records exactCollide someMemory morton none ⟨0, 0, 0⟩ pairSameOctant 7 1
      (by decide!) (by decide!)⟩

/-- C8 (the code at the failing input): on `pairAtCorner` every one of the 16 slots holds a
used record, so no bucket has the key `0xFFFFFFFF`: the unique keys are `0 .. 7`,
`validCellCount = uniqueKeyCount - 1 = 7`, and the excluded last bucket (key 7, offset 14, two
records) holds the home records of objects 0 and 1.  The spheres overlap and the output is
empty. -/
theorem last_bucket_is_real_on_pairAtCorner :
    (setupOf exactCollide someMemory morton none ⟨0, 0, 0⟩ pairAtCorner).uniqueKey.toList =
        [0, 1, 2, 3, 4, 5, 6, 7] ∧
      (setupOf exactCollide someMemory morton none ⟨0, 0, 0⟩ pairAtCorner).uniqueKeyCount = 8 ∧
      (setupOf exactCollide someMemory morton none ⟨0, 0, 0⟩ pairAtCorner).validCellCount = 7 ∧
      (setupOf exactCollide someMemory morton none ⟨0, 0, 0⟩
        pairAtCorner).objCountInCell.m_data.getD 7 0 = 2 ∧
      (setupOf exactCollide someMemory morton none ⟨0, 0, 0⟩
        pairAtCorner).objCountInCellPrefixSum.m_data.getD 7 0 = 14 ∧
      cellAt (setupOf exactCollide someMemory morton none ⟨0, 0, 0⟩
        pairAtCorner).cellArrayValueSorted.m_data 14 = ⟨7, 7, 255, 7, 0, ⟨1, 1, 1⟩⟩ ∧
      cellAt (setupOf exactCollide someMemory morton none ⟨0, 0, 0⟩
        pairAtCorner).cellArrayValueSorted.m_data 15 = ⟨7, 7, 255, 7, 1, ⟨1, 1, 1⟩⟩ ∧
      allowIgnore ⟨7, 7, 255, 7, 0, ⟨1, 1, 1⟩⟩ ⟨7, 7, 255, 7, 1, ⟨1, 1, 1⟩⟩ = false ∧
      exactCollide.detect (sphereAt pairAtCorner 0) (sphereAt pairAtCorner 1) = true ∧
      collisionPairsOf exactCollide someMemory morton none ⟨0, 0, 0⟩ pairAtCorner = some [] := by
  refine ⟨by decide!, by decide!, by decide!, by decide!, by decide!, by decide!, by decide!,
    by decide, by decide!, by decide!⟩

/-- C9 (the code on the empty list): for every hash, cell size and origin, the count stage
leaves `uniqueKeyCount = 0` and `validCellCount = -1`; nothing short-circuits, the read-back of
the total is at index `uniqueKeyCount - 1 = -1`, in front of the array, and the run has no
defined output. -/
theorem empty_list_reads_out_of_range (cd : collide) (mem : Memory) (hash_func : ivec3 → Nat)
    (cellSize : Option ℚ) (coordMin : vec3) :
    (setupOf cd mem hash_func cellSize coordMin []).uniqueKeyCount = 0 ∧
      (setupOf cd mem hash_func cellSize coordMin []).validCellCount = -1 ∧
      SpatialPartitionField.readBack
        (((setupOf cd mem hash_func cellSize coordMin []).countPass
          cd).scanPairCount.collisionPairPrefixSum.m_data)
        (((setupOf cd mem hash_func cellSize coordMin []).uniqueKeyCount : Int) - 1) = none ∧
      collisionPairsOf cd mem hash_func cellSize coordMin [] = none := by
  obtain ⟨-, -, -, -, -, -, s7, s8⟩ := setup_fresh cd mem hash_func cellSize coordMin []
  have hlen : (bucketRuns (runConfig hash_func cellSize coordMin []) cd []).length = 0 := by
    have := bucketRuns_length_le (runConfig hash_func cellSize coordMin []) cd []
    simpa using this
  have h7 : (setupOf cd mem hash_func cellSize coordMin []).uniqueKeyCount = 0 := by
    unfold setupOf
    rw [s7, hlen]
  refine ⟨h7, ?_, ?_, ?_⟩
  · unfold setupOf
    rw [s8, hlen]
    rfl
  · rw [h7]
    rfl
  · rw [collisionPairsOf_eq, if_pos hlen]

/-- C10: for every list containing exactly one sphere (any centre, radius, cell size and
origin), the run yields an output and the output array of `beginCreateCollisionPairList` is
empty. -/
theorem single_sphere_output_empty (cd : collide) (mem : Memory) (cellSize : Option ℚ)
    (coordMin : vec3) (s : sphere) :
    collisionPairsOf cd mem morton cellSize coordMin [s] = some [] := by
  have hsome := collisionPairsOf_eq cd mem morton cellSize coordMin [s]
  rw [if_neg (bucketRuns_ne_nil _ cd (List.cons_ne_nil s []))] at hsome
  rw [hsome]
  congr 1
  rw [List.eq_nil_iff_forall_not_mem]
  intro p hp
  obtain ⟨a, b, -, ha, hb, hab, -⟩ :=
    output_entry_sound morton_parityRespecting (by simp) hsome hp
  simp only [List.length_singleton] at ha hb
  omega

/-- C11: for the three spheres of radius 1 centred at `(0, 0, 0)`, `(0.5, 0, 0)` and
`(10, 10, 10)`, with cell size 1 and origin `(0, 0, 0)`, the output is the one pair `(0, 1)`; no
entry involves object 2.  This holds whatever new memory contains. -/
theorem three_spheres_scenario (mem : Memory) :
    collisionPairsOf exactCollide mem morton (some 1) ⟨0, 0, 0⟩ threeSpheres = some [⟨0, 1⟩] := by
  rw [collisionPairsOf_eq]
  decide!

/-- C12: for every non-empty list of spheres, the usage sequence on a default-constructed
field returns a pair list, and running it a second time on the same list (same cell-size
setting and origin, whatever new memory contains and whatever well-formed result buffer
is passed), either on another default-constructed field or on the field the first run left
behind, returns the same pair list, entry by entry. -/
theorem rerun_same_pairs (cd : collide) (mem mem2 : Memory) (hash_func : ivec3 → Nat)
    (cellSize : Option ℚ) (coordMin : vec3) (spheres : List sphere)
    (res0 : DeviceBuffer CollisionPair) (hs : spheres ≠ []) (h0 : res0.WellFormed) :
    ∃ f1 out1,
      SpatialPartitionLauncher cd mem (SpatialPartitionField.fresh hash_func) cellSize coordMin
        spheres res0 = some (f1, out1) ∧
      out1.WellFormed ∧
      ∀ res : DeviceBuffer CollisionPair, res.WellFormed →
        (∃ r, SpatialPartitionLauncher cd mem2 (SpatialPartitionField.fresh hash_func) cellSize
            coordMin spheres res = some r ∧ r.2.toList = out1.toList) ∧
        (∃ r, SpatialPartitionLauncher cd mem2 f1 cellSize coordMin spheres res = some r ∧
            r.2.toList = out1.toList) := by
  have hne := bucketRuns_ne_nil (runConfig hash_func cellSize coordMin spheres) cd hs
  obtain ⟨out1, e1, w1, l1⟩ :=
    run_fresh cd mem hash_func cellSize coordMin spheres res0 h0 hne
  refine ⟨_, out1, e1, w1, ?_⟩
  intro res hres
  constructor
  · obtain ⟨out2, e2, -, l2⟩ :=
      run_fresh cd mem2 hash_func cellSize coordMin spheres res hres hne
    exact ⟨_, e2, l2.trans l1.symm⟩
  · obtain ⟨r, e2, -, l2⟩ :=
      run_reused cd mem mem2 hash_func cellSize coordMin spheres res hres hne
    exact ⟨r, e2, l2.trans l1.symm⟩

/-- C12 (witness): two runs on `pairSameOctant`. -/
theorem rerun_same_pairs_witness :
    pairSameOctant ≠ [] ∧ (DeviceBuffer.empty : DeviceBuffer CollisionPair).WellFormed ∧
      ∃ f1 out1,
        SpatialPartitionLauncher exactCollide someMemory (SpatialPartitionField.fresh morton) none
          ⟨0, 0, 0⟩ pairSameOctant DeviceBuffer.empty = some (f1, out1) ∧
        out1.WellFormed ∧
        ∀ res : DeviceBuffer CollisionPair, res.WellFormed →
          (∃ r, SpatialPartitionLauncher exactCollide someMemory
              (SpatialPartitionField.fresh morton) none ⟨0, 0, 0⟩ pairSameOctant res = some r ∧
            r.2.toList = out1.toList) ∧
          (∃ r, SpatialPartitionLauncher exactCollide someMemory f1 none ⟨0, 0, 0⟩
              pairSameOctant res = some r ∧ r.2.toList = out1.toList) :=
  ⟨by decide, wellFormed_empty,
    rerun_same_pairs exactCollide someMemory someMemory morton none ⟨0, 0, 0⟩ pairSameOctant
      DeviceBuffer.empty (by decide) wellFormed_empty⟩

/-- C13 (the code at the failing input): with cell size 9 and origin `(0, 0, 0)`, a run on
`pairSameOctant` with a default-constructed field reports the pair `(0, 1)`.  On the field left
by a run on `pairInMiddle` (two buckets, so `objCountInCell` has logical size 2) the count stage
of the run on `pairSameOctant` encodes nine buckets and then regrows the buffer from size 2 to
size 9, which zero-fills the counts of buckets `2 .. 8`; the home bucket 7 is read as empty and
the output has no pair.  One more run on `pairSameOctant` with the same field, whose buffers now
have size 9, reports the pair again. -/
theorem reused_field_loses_buckets :
    collisionPairsOf exactCollide someMemory morton (some 9) ⟨0, 0, 0⟩ pairSameOctant =
        some [⟨0, 1⟩] ∧
      (setupOf exactCollide someMemory morton (some 9) ⟨0, 0, 0⟩
        pairInMiddle).objCountInCell.m_size = 2 ∧
      (setupOf exactCollide someMemory morton (some 9) ⟨0, 0, 0⟩
        pairSameOctant).objCountInCell.toList = [1, 2, 2, 2, 2, 2, 2, 2, 1] ∧
      (reusedSetupOf exactCollide someMemory morton (some 9) ⟨0, 0, 0⟩ pairInMiddle
        pairSameOctant).map (fun f => f.objCountInCell.toList) =
          some [1, 2, 0, 0, 0, 0, 0, 0, 0] ∧
      reusedPairsOf exactCollide someMemory morton (some 9) ⟨0, 0, 0⟩
        [pairInMiddle, pairSameOctant] = some [] ∧
      reusedPairsOf exactCollide someMemory morton (some 9) ⟨0, 0, 0⟩
        [pairInMiddle, pairSameOctant, pairSameOctant] = some [⟨0, 1⟩] := by
  refine ⟨by decide!, by decide!, by decide!, by decide!, by decide!, by decide!⟩

/-- C14 (the code at the failing input): without `setCellSize`, the first invocation on
`pairSameOctant` (largest radius 4) computes the cell size 9 and stores it in the
configuration.  The second invocation on the same field with `pairInMiddle` (largest radius 1)
finds a positive cell size, skips the calculation and fills the cells with cell size 9, not
with `1 * 1.5 * 1.5 = 9 / 4`, the size a default-constructed field uses for that list. -/
theorem stale_cell_size_on_reused_field :
    (setupOf exactCollide someMemory morton none ⟨0, 0, 0⟩
        pairSameOctant).spatialHashConfig.cellSize = 9 ∧
      Max (pairInMiddle.map (fun s => s.r)) * (3 / 2) * (3 / 2) = 9 / 4 ∧
      (setupOf exactCollide someMemory morton none ⟨0, 0, 0⟩
        pairInMiddle).spatialHashConfig.cellSize = 9 / 4 ∧
      (reusedSetupOf exactCollide someMemory morton none ⟨0, 0, 0⟩ pairSameOctant
        pairInMiddle).map (fun f => f.spatialHashConfig.cellSize) = some 9 ∧
      (reusedSetupOf exactCollide someMemory morton none ⟨0, 0, 0⟩ pairSameOctant
        pairInMiddle).map (fun f => f.cellArrayValue.m_data.take 16) =
          some (fillRows ⟨morton, 9, ⟨0, 0, 0⟩⟩ exactCollide pairInMiddle) := by
  refine ⟨by decide!, by decide!, by decide!, by decide!, by decide!⟩

/-- C15: for every field and every value `c` passed to `setCellSize` before a run, the run
fills the cells with cell size `c` when `c > 0` (the calculation does not run) and with
`max radius * 1.5 * 1.5` when `c ≤ 0`; a default-constructed field on which `setCellSize` was
not called uses the computed cell size as well. -/
theorem setCellSize_used_iff_positive (cd : collide) (mem : Memory) (f : SpatialPartitionField)
    (c : ℚ) (coordMin : vec3) (spheres : List sphere) (hash_func : ivec3 → Nat) :
    (((f.setCellSize c).configSpatialHash coordMin).beginSetupSpatialDataStructure cd mem
        spheres).spatialHashConfig.cellSize =
        (if 0 < c then c else Max (spheres.map (fun s => s.r)) * (3 / 2) * (3 / 2)) ∧
      (((f.setCellSize c).configSpatialHash coordMin).beginSetupSpatialDataStructure cd mem
        spheres).cellArrayValue.m_data.take (8 * spheres.length) =
        fillRows
          { hash_func := f.spatialHashConfig.hash_func
            cellSize := if 0 < c then c else Max (spheres.map (fun s => s.r)) * (3 / 2) * (3 / 2)
            coordMin := coordMin } cd spheres ∧
      (((SpatialPartitionField.fresh hash_func).configSpatialHash
        coordMin).beginSetupSpatialDataStructure cd mem spheres).spatialHashConfig.cellSize =
        Max (spheres.map (fun s => s.r)) * (3 / 2) * (3 / 2) := by
  have hcfg : (((f.setCellSize c).configSpatialHash coordMin).beginSetupSpatialDataStructure cd
      mem spheres).spatialHashConfig =
      { hash_func := f.spatialHashConfig.hash_func
        cellSize := if 0 < c then c else Max (spheres.map (fun s => s.r)) * (3 / 2) * (3 / 2)
        coordMin := coordMin } := by
    rw [setup_config]
    by_cases hc : 0 < c
    · have hn : ¬ c ≤ 0 := not_le.2 hc
      simp [SpatialPartitionField.setCellSize, SpatialPartitionField.configSpatialHash, hc, hn]
    · have hn : c ≤ 0 := not_lt.1 hc
      simp [SpatialPartitionField.setCellSize, SpatialPartitionField.configSpatialHash, hc, hn]
  refine ⟨by rw [hcfg], ?_, ?_⟩
  · rw [setup_rows, hcfg]
  · rw [setup_config]
    simp [SpatialPartitionField.fresh, SpatialPartitionField.configSpatialHash]

/-- C16 (counterexample): with `setCellSize(-1)` the run on `pairSameOctant` does not fail: the
cell size is replaced by the computed one, 9, and the run returns the pair list `[(0, 1)]`. -/
theorem nonpositive_cell_size_is_replaced :
    (setupOf exactCollide someMemory morton (some (-1)) ⟨0, 0, 0⟩
        pairSameOctant).spatialHashConfig.cellSize = 9 ∧
      collisionPairsOf exactCollide someMemory morton (some (-1)) ⟨0, 0, 0⟩ pairSameOctant =
        some [⟨0, 1⟩] := by
  refine ⟨by decide!, by decide!⟩

/-- C16 (amended): after `setCellSize(c)` with `c ≤ 0` the usage sequence does not fail.  On
every field state in which `collisionPairCount` is a well-formed buffer (any contents, sizes and
stored cell size), with every non-empty list and every result buffer, the run returns a field
and a pair list; the cell size of the returned field is the computed one,
`max radius * 1.5 * 1.5` over the spheres of this run, and the records of the fill stage are
those of that cell size.  The condition on `collisionPairCount` holds on a default-constructed
field and is kept by every run, whatever its cell-size setting, so it holds on every field that
runs have reached. -/
theorem nonpositive_cell_size_run_returns (cd : collide) (mem : Memory)
    (f : SpatialPartitionField) (c : ℚ) (coordMin : vec3) (spheres : List sphere)
    (res : DeviceBuffer CollisionPair) (hc : c ≤ 0) (hs : spheres ≠ [])
    (hf : f.collisionPairCount.WellFormed) :
    (∃ f' out,
      SpatialPartitionLauncher cd mem f (some c) coordMin spheres res = some (f', out) ∧
      f'.spatialHashConfig.cellSize = Max (spheres.map (fun s => s.r)) * (3 / 2) * (3 / 2) ∧
      f'.cellArrayValue.m_data.take (8 * spheres.length) =
        fillRows
          { hash_func := f.spatialHashConfig.hash_func
            cellSize := Max (spheres.map (fun s => s.r)) * (3 / 2) * (3 / 2)
            coordMin := coordMin } cd spheres ∧
      f'.collisionPairCount.WellFormed) ∧
      (∀ hash_func : ivec3 → Nat,
        (SpatialPartitionField.fresh hash_func).collisionPairCount.WellFormed) ∧
      ∀ (g : SpatialPartitionField) (cellSize : Option ℚ) (origin : vec3) (l : List sphere)
        (r0 : DeviceBuffer CollisionPair)
        (r : SpatialPartitionField × DeviceBuffer CollisionPair),
        g.collisionPairCount.WellFormed →
        SpatialPartitionLauncher cd mem g cellSize origin l r0 = some r →
        r.1.collisionPairCount.WellFormed :=
  ⟨nonpositive_run cd mem f c coordMin spheres res hc hs hf, fun _ => wellFormed_empty,
    fun g cellSize origin l r0 r hg hr =>
      run_keeps_wellFormed cd mem g cellSize origin l r0 r hg hr⟩

/-- C16 (witness): `setCellSize(-1)` and a run on `pairSameOctant` with a default-constructed
field. -/
theorem nonpositive_cell_size_run_returns_witness :
    (-1 : ℚ) ≤ 0 ∧ pairSameOctant ≠ [] ∧
      (SpatialPartitionField.fresh morton).collisionPairCount.WellFormed ∧
      ∃ f' out,
        SpatialPartitionLauncher exactCollide someMemory (SpatialPartitionField.fresh morton)
          (some (-1)) ⟨0, 0, 0⟩ pairSameOctant DeviceBuffer.empty = some (f', out) ∧
        f'.spatialHashConfig.cellSize =
          Max (pairSameOctant.map (fun s => s.r)) * (3 / 2) * (3 / 2) :=
  ⟨by norm_num, by decide, wellFormed_empty,
    (nonpositive_cell_size_run_returns exactCollide someMemory (SpatialPartitionField.fresh morton)
      (-1) ⟨0, 0, 0⟩ pairSameOctant DeviceBuffer.empty (by norm_num) (by decide)
      wellFormed_empty).1.imp fun _ h => h.imp fun _ h => ⟨h.1, h.2.1⟩⟩

/-- C17 (the code): in automatic mode, for every list whose largest radius `rmax` is positive,
the computed cell size is `rmax * 1.5 * 1.5 = 2.25 * rmax`.  It is smaller than the diameter
`2 * 1.5 * rmax` of the proxy sphere of the largest object, hence not at least 1.5 times that
diameter. -/
theorem computed_cell_size_below_proxy_diameter (cd : collide) (mem : Memory)
    (hash_func : ivec3 → Nat) (coordMin : vec3) (spheres : List sphere) (rmax : ℚ)
    (hmem : ∃ s ∈ spheres, s.r = rmax) (hmax : ∀ s ∈ spheres, s.r ≤ rmax) (hpos : 0 < rmax) :
    (setupOf cd mem hash_func none coordMin spheres).spatialHashConfig.cellSize =
        rmax * (3 / 2) * (3 / 2) ∧
      (setupOf cd mem hash_func none coordMin spheres).spatialHashConfig.cellSize <
        2 * (3 / 2 * rmax) ∧
      ¬ 3 / 2 * (2 * (3 / 2 * rmax)) ≤
        (setupOf cd mem hash_func none coordMin spheres).spatialHashConfig.cellSize := by
  have hM : Max (spheres.map (fun s => s.r)) = rmax := by
    apply Max_eq _ _ _ _ hpos
    · obtain ⟨s, hs, e⟩ := hmem
      exact List.mem_map.2 ⟨s, hs, e⟩
    · intro x hx
      obtain ⟨s, hs, rfl⟩ := List.mem_map.1 hx
      exact hmax s hs
  have hsize : (setupOf cd mem hash_func none coordMin spheres).spatialHashConfig.cellSize =
      rmax * (3 / 2) * (3 / 2) := by
    unfold setupOf
    rw [setup_config, configured_config, hM]
    simp
  rw [hsize]
  refine ⟨rfl, by linarith, by linarith⟩

/-- C17 (witness): `pairSameOctant`, largest radius 4: cell size 9, proxy diameter 12. -/
theorem computed_cell_size_below_proxy_diameter_witness :
    (∃ s ∈ pairSameOctant, s.r = 4) ∧ (∀ s ∈ pairSameOctant, s.r ≤ 4) ∧ (0 : ℚ) < 4 ∧
      ((setupOf exactCollide someMemory morton none ⟨0, 0, 0⟩
          pairSameOctant).spatialHashConfig.cellSize = 4 * (3 / 2) * (3 / 2) ∧
        (setupOf exactCollide someMemory morton none ⟨0, 0, 0⟩
          pairSameOctant).spatialHashConfig.cellSize < 2 * (3 / 2 * 4) ∧
        ¬ 3 / 2 * (2 * (3 / 2 * 4)) ≤
          (setupOf exactCollide someMemory morton none ⟨0, 0, 0⟩
            pairSameOctant).spatialHashConfig.cellSize) :=
  ⟨by decide!, by decide!, by norm_num,
    computed_cell_size_below_proxy_diameter exactCollide someMemory morton ⟨0, 0, 0⟩
      pairSameOctant 4 (by decide!) (by decide!) (by norm_num)⟩

/-- C18 (counterexample): a component of `cell(p)` is not `floor((p - origin) / cellSize)`.
Below the origin: with cell size 1 and origin `(0, 0, 0)` the position `(-0.5, 0.5, 0.5)` is put
into the cell `(0, 0, 0)`, in exact and in single-precision arithmetic alike, while
`floor(-0.5) = -1`, and the position is not in the box `[0, 1)` of that cell along x.  Above the
origin: with the cell size `0.1f` and the position `(0.7f, 0.3f, 0.5f)` (the `float` values
nearest to `0.1`, `0.7`, `0.3`) the rounded quotients are `7`, `3`, `5` and the cell is
`(7, 3, 5)`, while the floors of the exact quotients are `6`, `3`, `4`. -/
theorem cell_not_floor :
    (SpatialHashConfig.cell ⟨morton, 1, ⟨0, 0, 0⟩⟩ ⟨-1 / 2, 1 / 2, 1 / 2⟩ = ⟨0, 0, 0⟩ ∧
      SpatialHashConfig.cellRounded roundSingle ⟨morton, 1, ⟨0, 0, 0⟩⟩ ⟨-1 / 2, 1 / 2, 1 / 2⟩ =
        some ⟨0, 0, 0⟩ ∧
      ⌊((-1 / 2 : ℚ) - 0) / 1⌋ = -1 ∧
      (-1 / 2 : ℚ) < (SpatialHashConfig.coord ⟨morton, 1, ⟨0, 0, 0⟩⟩
        (SpatialHashConfig.cell ⟨morton, 1, ⟨0, 0, 0⟩⟩ ⟨-1 / 2, 1 / 2, 1 / 2⟩)).x) ∧
      (roundSingle (1 / 10) = 13421773 / 134217728 ∧
        roundSingle (7 / 10) = 11744051 / 16777216 ∧
        roundSingle (3 / 10) = 5033165 / 16777216 ∧
        SpatialHashConfig.cellRounded roundSingle ⟨morton, 13421773 / 134217728, ⟨0, 0, 0⟩⟩
          ⟨11744051 / 16777216, 5033165 / 16777216, 1 / 2⟩ = some ⟨7, 3, 5⟩ ∧
        ⌊((11744051 / 16777216 : ℚ) - 0) / (13421773 / 134217728)⌋ = 6 ∧
        ⌊((5033165 / 16777216 : ℚ) - 0) / (13421773 / 134217728)⌋ = 3 ∧
        ⌊((1 / 2 : ℚ) - 0) / (13421773 / 134217728)⌋ = 4) := by
  refine ⟨⟨by decide!, by decide!, ?_, by decide!⟩, by decide!, by decide!, by decide!,
    by decide!, ?_, ?_, ?_⟩
  · rw [Int.floor_eq_iff]
    norm_num
  · rw [Int.floor_eq_iff]
    norm_num
  · rw [Int.floor_eq_iff]
    norm_num
  · rw [Int.floor_eq_iff]
    norm_num

/-- C18 (amended): for every cell size `> 0`, origin and position `p`, and whatever the rounding
`fl` of the single-precision operations is: each component of `cell(p)` is the quotient
`q = fl (fl (p - origin) / cellSize)`, computed with the subtraction and the division each
rounded, converted to `int` by truncation toward zero; for `q` in the range of `int` it is
`floor(q)` when `q ≥ 0` and `ceil(q)` when `q < 0`.  When a component of `p` is not below the
origin and its subtraction and division are exact, the component of the cell is
`floor((p - origin) / cellSize)` and `origin + i * cellSize ≤ p < origin + (i + 1) * cellSize`
for that index `i`.  When no operation rounds, the cell is the one `cell` gives. -/
theorem cell_truncates_rounded_quotient (fl : ℚ → ℚ) (sh : SpatialHashConfig) (p : vec3)
    (hc : 0 < sh.cellSize)
    (hx : -2147483649 < fl (fl (p.x - sh.coordMin.x) / sh.cellSize) ∧
      fl (fl (p.x - sh.coordMin.x) / sh.cellSize) < 2147483648)
    (hy : -2147483649 < fl (fl (p.y - sh.coordMin.y) / sh.cellSize) ∧
      fl (fl (p.y - sh.coordMin.y) / sh.cellSize) < 2147483648)
    (hz : -2147483649 < fl (fl (p.z - sh.coordMin.z) / sh.cellSize) ∧
      fl (fl (p.z - sh.coordMin.z) / sh.cellSize) < 2147483648) :
    sh.cellRounded fl p =
        some ⟨if 0 ≤ fl (fl (p.x - sh.coordMin.x) / sh.cellSize) then
              ⌊fl (fl (p.x - sh.coordMin.x) / sh.cellSize)⌋
            else ⌈fl (fl (p.x - sh.coordMin.x) / sh.cellSize)⌉,
          if 0 ≤ fl (fl (p.y - sh.coordMin.y) / sh.cellSize) then
              ⌊fl (fl (p.y - sh.coordMin.y) / sh.cellSize)⌋
            else ⌈fl (fl (p.y - sh.coordMin.y) / sh.cellSize)⌉,
          if 0 ≤ fl (fl (p.z - sh.coordMin.z) / sh.cellSize) then
              ⌊fl (fl (p.z - sh.coordMin.z) / sh.cellSize)⌋
            else ⌈fl (fl (p.z - sh.coordMin.z) / sh.cellSize)⌉⟩ ∧
      (fl (p.x - sh.coordMin.x) = p.x - sh.coordMin.x →
        fl ((p.x - sh.coordMin.x) / sh.cellSize) = (p.x - sh.coordMin.x) / sh.cellSize →
        sh.coordMin.x ≤ p.x →
        (if 0 ≤ fl (fl (p.x - sh.coordMin.x) / sh.cellSize) then
            ⌊fl (fl (p.x - sh.coordMin.x) / sh.cellSize)⌋
          else ⌈fl (fl (p.x - sh.coordMin.x) / sh.cellSize)⌉) =
            ⌊(p.x - sh.coordMin.x) / sh.cellSize⌋ ∧
          sh.coordMin.x + (⌊(p.x - sh.coordMin.x) / sh.cellSize⌋ : ℚ) * sh.cellSize ≤ p.x ∧
          p.x < sh.coordMin.x +
            ((⌊(p.x - sh.coordMin.x) / sh.cellSize⌋ : ℚ) + 1) * sh.cellSize) ∧
      (fl (p.y - sh.coordMin.y) = p.y - sh.coordMin.y →
        fl ((p.y - sh.coordMin.y) / sh.cellSize) = (p.y - sh.coordMin.y) / sh.cellSize →
        sh.coordMin.y ≤ p.y →
        (if 0 ≤ fl (fl (p.y - sh.coordMin.y) / sh.cellSize) then
            ⌊fl (fl (p.y - sh.coordMin.y) / sh.cellSize)⌋
          else ⌈fl (fl (p.y - sh.coordMin.y) / sh.cellSize)⌉) =
            ⌊(p.y - sh.coordMin.y) / sh.cellSize⌋ ∧
          sh.coordMin.y + (⌊(p.y - sh.coordMin.y) / sh.cellSize⌋ : ℚ) * sh.cellSize ≤ p.y ∧
          p.y < sh.coordMin.y +
            ((⌊(p.y - sh.coordMin.y) / sh.cellSize⌋ : ℚ) + 1) * sh.cellSize) ∧
      (fl (p.z - sh.coordMin.z) = p.z - sh.coordMin.z →
        fl ((p.z - sh.coordMin.z) / sh.cellSize) = (p.z - sh.coordMin.z) / sh.cellSize →
        sh.coordMin.z ≤ p.z →
        (if 0 ≤ fl (fl (p.z - sh.coordMin.z) / sh.cellSize) then
            ⌊fl (fl (p.z - sh.coordMin.z) / sh.cellSize)⌋
          else ⌈fl (fl (p.z - sh.coordMin.z) / sh.cellSize)⌉) =
            ⌊(p.z - sh.coordMin.z) / sh.cellSize⌋ ∧
          sh.coordMin.z + (⌊(p.z - sh.coordMin.z) / sh.cellSize⌋ : ℚ) * sh.cellSize ≤ p.z ∧
          p.z < sh.coordMin.z +
            ((⌊(p.z - sh.coordMin.z) / sh.cellSize⌋ : ℚ) + 1) * sh.cellSize) ∧
      ((∀ q, fl q = q) → sh.cellRounded fl p = some (sh.cell p)) :=
  ⟨cellRounded_of_range fl sh p hx hy hz,
    fun h1 h2 hm => exact_component_floor fl _ _ _ hc h1 h2 hm,
    fun h1 h2 hm => exact_component_floor fl _ _ _ hc h1 h2 hm,
    fun h1 h2 hm => exact_component_floor fl _ _ _ hc h1 h2 hm,
    fun hfl => cellRounded_exact sh p fl hfl hx hy hz⟩

/-- C18 (witness): single-precision arithmetic, cell size 9, origin `(0, 0, 0)`, position
`(13, 13, 13)`: the rounded quotient is the `float` nearest to `13 / 9`, in the cell
`(1, 1, 1)`. -/
theorem cell_truncates_rounded_quotient_witness :
    (0 : ℚ) < (⟨morton, 9, ⟨0, 0, 0⟩⟩ : SpatialHashConfig).cellSize ∧
      (-2147483649 < roundSingle (roundSingle ((13 : ℚ) - 0) / 9) ∧
        roundSingle (roundSingle ((13 : ℚ) - 0) / 9) < 2147483648) ∧
      SpatialHashConfig.cellRounded roundSingle ⟨morton, 9, ⟨0, 0, 0⟩⟩ ⟨13, 13, 13⟩ =
        some ⟨if 0 ≤ roundSingle (roundSingle ((13 : ℚ) - 0) / 9) then
              ⌊roundSingle (roundSingle ((13 : ℚ) - 0) / 9)⌋
            else ⌈roundSingle (roundSingle ((13 : ℚ) - 0) / 9)⌉,
          if 0 ≤ roundSingle (roundSingle ((13 : ℚ) - 0) / 9) then
              ⌊roundSingle (roundSingle ((13 : ℚ) - 0) / 9)⌋
            else ⌈roundSingle (roundSingle ((13 : ℚ) - 0) / 9)⌉,
          if 0 ≤ roundSingle (roundSingle ((13 : ℚ) - 0) / 9) then
              ⌊roundSingle (roundSingle ((13 : ℚ) - 0) / 9)⌋
            else ⌈roundSingle (roundSingle ((13 : ℚ) - 0) / 9)⌉⟩ :=
  ⟨by norm_num, by decide!,
    (cell_truncates_rounded_quotient roundSingle ⟨morton, 9, ⟨0, 0, 0⟩⟩ ⟨13, 13, 13⟩
      (by norm_num) (by decide!) (by decide!) (by decide!)).1⟩

/-- C19: for every hash functor and every cell coordinate, negative components included,
`hashCell` returns the hash modulo `2^30`, a value below `2^30`, which is not the key
`0xFFFFFFFF` of an unused slot and is smaller than it as an unsigned key. -/
theorem hashCell_below_sentinel (sh : SpatialHashConfig) (ijk : ivec3) :
    sh.hashCell ijk = sh.hash_func ijk % 2 ^ 30 ∧ sh.hashCell ijk < 2 ^ 30 ∧
      sh.hashCell ijk ≠ invalid ∧ sh.hashCell ijk < invalid := by
  have h := hashCell_lt sh ijk
  refine ⟨rfl, by norm_num; exact h, hashCell_ne_invalid sh ijk, ?_⟩
  unfold invalid
  omega

/-- C20: for every cell coordinate, negative components included, `passType` is
`((i mod 2) << 2) | ((j mod 2) << 1) | (k mod 2)` with the non-negative remainder; it is below 8,
and two cells have the same pass type exactly when their coordinates agree in parity on every
axis. -/
theorem passType_parity (c c' : ivec3) :
    passType c = (((c.i % 2).toNat <<< 2) ||| ((c.j % 2).toNat <<< 1) ||| (c.k % 2).toNat) ∧
      (0 ≤ c.i % 2 ∧ 0 ≤ c.j % 2 ∧ 0 ≤ c.k % 2) ∧
      passType c < 8 ∧
      (passType c = passType c' ↔
        (c.i % 2 = c'.i % 2 ∧ c.j % 2 = c'.j % 2 ∧ c.k % 2 = c'.k % 2)) := by
  refine ⟨?_, ⟨by omega, by omega, by omega⟩, passType_lt c, passType_inj, ?_⟩
  · unfold passType
    rw [u32_mod_two, u32_mod_two, u32_mod_two, Nat.shiftLeft_zero]
  · rintro ⟨h1, h2, h3⟩
    rw [passType_eq, passType_eq, h1, h2, h3]

/-- C21: for every object `n` and cell `c`, the fill kernel emits a used (non-sentinel) record
of object `n` in the cell `c` exactly when `c` is the home cell `cell(centre)` or `c` is one of
the seven candidate neighbour cells and the sphere-AABB test of the proxy sphere (same centre,
radius `* 1.5`) against the box `[coord(c), coord(c) + cellSize]` is true; every such record has
`oid = n`, `ijk = c`, `cid = hashCell(c)`, `pass = passType(c)` and `home = passType(home cell)`,
and there is one such record only. -/
theorem record_emitted_iff (sh : SpatialHashConfig) (cd : collide) (spheres : List sphere)
    (n : Nat) (c : ivec3) (hn : n < spheres.length) :
    (HasRecordIn sh cd spheres n c ↔
      (c = sh.cell (sphereAt spheres n).o ∨
        (c ∈ neighbourCells (sh.cell (sphereAt spheres n).o) (octant sh (sphereAt spheres n)) ∧
          cd.detectAABB ⟨(sphereAt spheres n).o, (sphereAt spheres n).r * (3 / 2)⟩
            ⟨sh.coord c, (sh.coord c).add ⟨sh.cellSize, sh.cellSize, sh.cellSize⟩⟩ = true))) ∧
      (∀ r, IsRecordOf sh cd spheres n r → r.ijk = c →
        r.oid = n ∧ r.cid = sh.hashCell c ∧ r.pass = passType c ∧
          r.home = passType (sh.cell (sphereAt spheres n).o)) ∧
      (∀ r r', IsRecordOf sh cd spheres n r → IsRecordOf sh cd spheres n r' → r.ijk = c →
        r'.ijk = c → r = r') := by
  obtain ⟨home, phantoms, hrow, hk, h0, hslots, -, ⟨a1, a2, a3, a4, a5⟩, hmap, hph⟩ :=
    fillObject_slots sh cd n (sphereAt spheres n)
  refine ⟨⟨?_, ?_⟩, ?_, ?_⟩
  · rintro ⟨r, ⟨-, hr, hu⟩, rfl⟩
    rw [hrow] at hr
    rcases used_mem_row hr hu with rfl | hr
    · exact Or.inl a1
    · have hmem : r.ijk ∈ (neighbourCells (sh.cell (sphereAt spheres n).o)
          (octant sh (sphereAt spheres n))).filter
            (proxyOverlaps sh cd ⟨(sphereAt spheres n).o, (sphereAt spheres n).r * (3 / 2)⟩) := by
        rw [← hmap]
        exact List.mem_map_of_mem _ hr
      exact Or.inr ⟨(List.mem_filter.1 hmem).1, (List.mem_filter.1 hmem).2⟩
  · rintro (rfl | ⟨hc, hd⟩)
    · obtain ⟨r, hr, e, -⟩ := home_record_exists sh cd hn
      exact ⟨r, hr, e⟩
    · have hmem : c ∈ phantoms.map (fun r => r.ijk) := by
        rw [hmap]
        exact List.mem_filter.2 ⟨hc, hd⟩
      obtain ⟨r, hr, rfl⟩ := List.mem_map.1 hmem
      refine ⟨r, ⟨hn, ?_, ?_⟩, rfl⟩
      · rw [hrow]
        exact List.mem_cons_of_mem _ (List.mem_append_left _ hr)
      · unfold IsUsed
        rw [(hph r hr).2.2.1]
        exact hashCell_ne_invalid _ _
  · rintro r hr rfl
    obtain ⟨b1, b2, b3, b4, -, -, -⟩ := record_basic hr
    exact ⟨b1, b4, b2, b3⟩
  · intro r r' hr hr' e e'
    exact record_ijk_inj hr hr' (e.trans e'.symm)

/-- C21 (witness): object 0 of `pairSameOctant`, with home cell `(1, 1, 1)`, has a record in the
neighbour cell `(0, 1, 1)`. -/
theorem record_emitted_iff_witness :
    0 < pairSameOctant.length ∧
      (HasRecordIn (runConfig morton none ⟨0, 0, 0⟩ pairSameOctant) exactCollide pairSameOctant 0
          ⟨0, 1, 1⟩ ↔
        ((⟨0, 1, 1⟩ : ivec3) = (runConfig morton none ⟨0, 0, 0⟩ pairSameOctant).cell
            (sphereAt pairSameOctant 0).o ∨
          ((⟨0, 1, 1⟩ : ivec3) ∈ neighbourCells
              ((runConfig morton none ⟨0, 0, 0⟩ pairSameOctant).cell (sphereAt pairSameOctant 0).o)
              (octant (runConfig morton none ⟨0, 0, 0⟩ pairSameOctant)
                (sphereAt pairSameOctant 0)) ∧
            exactCollide.detectAABB
              ⟨(sphereAt pairSameOctant 0).o, (sphereAt pairSameOctant 0).r * (3 / 2)⟩
              ⟨(runConfig morton none ⟨0, 0, 0⟩ pairSameOctant).coord ⟨0, 1, 1⟩,
                ((runConfig morton none ⟨0, 0, 0⟩ pairSameOctant).coord ⟨0, 1, 1⟩).add
                  ⟨(runConfig morton none ⟨0, 0, 0⟩ pairSameOctant).cellSize,
                    (runConfig morton none ⟨0, 0, 0⟩ pairSameOctant).cellSize,
                    (runConfig morton none ⟨0, 0, 0⟩ pairSameOctant).cellSize⟩⟩ = true))) :=
  ⟨by decide,
    (record_emitted_iff (runConfig morton none ⟨0, 0, 0⟩ pairSameOctant) exactCollide
      pairSameOctant 0 ⟨0, 1, 1⟩ (by decide)).1⟩

/-- C22: for every object `i`, its eight slots after the fill stage are the slots of the row
the kernel body writes, and the key slots hold the `cid` of the record slots.  The row has the
home record in slot 0, then `k ≤ 7` used phantom records in slots `1 .. k`, then unused records
(`cid = oid = 0xFFFFFFFF`) in slots `k + 1 .. 7`, and its used records have pairwise distinct
cell coordinates. -/
theorem slots_of_object (cd : collide) (mem : Memory) (g : SpatialPartitionField) (i : Nat)
    (hi : i < g.spheres.length) :
    (∀ s, s < 8 →
      (g.beginFillHashCells cd mem).cellArrayValue.m_data[8 * i + s]? =
          (fillObject g.spatialHashConfig cd i (sphereAt g.spheres i))[s]? ∧
        (g.beginFillHashCells cd mem).cellArrayKey.m_data[8 * i + s]? =
          ((g.beginFillHashCells cd mem).cellArrayValue.m_data[8 * i + s]?).map
            (fun c => c.cid)) ∧
      (fillObject g.spatialHashConfig cd i (sphereAt g.spheres i)).length = 8 ∧
      ∃ k, k ≤ 7 ∧
        (∃ r, (fillObject g.spatialHashConfig cd i (sphereAt g.spheres i))[0]? = some r ∧
          IsUsed r ∧ r.isHome = true ∧ r.ijk = g.spatialHashConfig.cell (sphereAt g.spheres i).o) ∧
        (∀ s, 1 ≤ s → s ≤ k →
          ∃ r, (fillObject g.spatialHashConfig cd i (sphereAt g.spheres i))[s]? = some r ∧
            IsUsed r ∧ r.isPhantom = true) ∧
        (∀ s, k < s → s < 8 →
          ∃ r, (fillObject g.spatialHashConfig cd i (sphereAt g.spheres i))[s]? = some r ∧
            r.cid = invalid ∧ r.oid = invalid) ∧
        (((fillObject g.spatialHashConfig cd i (sphereAt g.spheres i)).filter
          (fun r => decide (IsUsed r))).map (fun r => r.ijk)).Nodup := by
  obtain ⟨home, phantoms, hrow, hk, h0, hslots, hrest, ⟨a1, a2, a3, a4, a5⟩, hmap, hph⟩ :=
    fillObject_slots g.spatialHashConfig cd i (sphereAt g.spheres i)
  obtain ⟨o1, o2, o3⟩ := octant_cases g.spatialHashConfig (sphereAt g.spheres i)
  have hused : ∀ r ∈ phantoms, IsUsed r := by
    intro r hr
    unfold IsUsed
    rw [(hph r hr).2.2.1]
    exact hashCell_ne_invalid _ _
  have hhome : IsUsed home := by
    unfold IsUsed
    rw [a4]
    exact hashCell_ne_invalid _ _
  refine ⟨?_, fillObject_length _ cd i _, phantoms.length, hk, ?_, ?_, ?_, ?_⟩
  · intro s hs
    obtain ⟨e1, e2⟩ := fill_slot cd mem g i s hi hs
    exact ⟨e1, by rw [e2, e1]⟩
  · refine ⟨home, h0, hhome, ?_, a1⟩
    unfold isHome
    rw [a2, a3]
    simp
  · intro s s1 s2
    obtain ⟨r, hr, hm⟩ := hslots s s1 s2
    refine ⟨r, hr, hused r hm, ?_⟩
    unfold isPhantom
    have := (hph r hm).2.2.2.2
    simp only [bne_iff_ne, ne_eq]
    exact fun h => this h.symm
  · intro s s1 s2
    exact ⟨_, hrest s s1 s2, rfl, rfl⟩
  · have hf : (fillObject g.spatialHashConfig cd i (sphereAt g.spheres i)).filter
        (fun r => decide (IsUsed r)) = home :: phantoms := by
      rw [hrow, List.cons_append, List.filter_cons_of_pos (by simpa using hhome),
        List.filter_append]
      rw [List.filter_eq_self.2 (fun r hr => by simpa using hused r hr)]
      rw [List.filter_eq_nil_iff.2 (fun r hr => by
        rw [List.mem_replicate] at hr
        rw [hr.2]
        simp [IsUsed, Cell])]
      simp
    rw [hf, List.map_cons, List.nodup_cons]
    constructor
    · intro hm
      rw [hmap, a1] at hm
      have hc := (List.mem_filter.1 hm).1
      exact neighbourCells_passType_ne o1 o2 o3 hc rfl
    · rw [hmap]
      exact (neighbourCells_nodup o1 o2 o3).filter _

/-- C22 (witness): the slots of object 0 of `pairSameOctant` on a default-constructed field. -/
theorem slots_of_object_witness :
    0 < ({ (SpatialPartitionField.fresh morton).setCellSize 9 with spheres := pairSameOctant } :
        SpatialPartitionField).spheres.length ∧
      (fillObject ({ (SpatialPartitionField.fresh morton).setCellSize 9 with spheres := pairSameOctant } :
        SpatialPartitionField).spatialHashConfig exactCollide 0
          (sphereAt ({ (SpatialPartitionField.fresh morton).setCellSize 9 with spheres := pairSameOctant } :
            SpatialPartitionField).spheres 0)).length = 8 :=
  ⟨by decide,
    (slots_of_object exactCollide someMemory
      { (SpatialPartitionField.fresh morton).setCellSize 9 with spheres := pairSameOctant } 0 (by decide)).2.1⟩

/-- C23 (counterexample): the phantom record of object 0 of `pairSameOctant` in the cell
`(0, 1, 1)` has the mask `136` (bits 3 and 7).  The proxy sphere of the object overlaps the
neighbour cell `(1, 0, 1)`, of pass type 5, which comes later in `cells[7]`, and bit 5 of the
mask of the record is not set. -/
theorem phantom_mask_lacks_later_cells :
    IsRecordOf (runConfig morton none ⟨0, 0, 0⟩ pairSameOctant) exactCollide pairSameOctant 0
        ⟨3, 7, 136, 6, 0, ⟨0, 1, 1⟩⟩ ∧
      (⟨1, 0, 1⟩ : ivec3) ∈ neighbourCells
        ((runConfig morton none ⟨0, 0, 0⟩ pairSameOctant).cell (sphereAt pairSameOctant 0).o)
        (octant (runConfig morton none ⟨0, 0, 0⟩ pairSameOctant) (sphereAt pairSameOctant 0)) ∧
      proxyOverlaps (runConfig morton none ⟨0, 0, 0⟩ pairSameOctant) exactCollide
        ⟨(sphereAt pairSameOctant 0).o, (sphereAt pairSameOctant 0).r * (3 / 2)⟩ ⟨1, 0, 1⟩ = true ∧
      passType ⟨1, 0, 1⟩ = 5 ∧
      (136 : Nat).testBit 5 = false := by
  refine ⟨⟨by decide, by decide!, by decide⟩, by decide!, by decide!, by decide, by decide⟩

/-- C23 (amended): for every used record of object `n`, with `cells` the seven candidate
neighbour cells in the order of `cells[7]`: bit `q` of the mask of the home record is set
exactly when `q` is the pass type of the home cell or of a cell of `cells` that the proxy sphere
overlaps; bit `q` of the mask of a phantom record is set exactly when `q` is the pass type of the
home cell or of an overlapped cell of `cells` that is the cell of the record or comes before
it. -/
theorem overlap_mask_bits (sh : SpatialHashConfig) (cd : collide) (spheres : List sphere)
    (n : Nat) (r : SpatialPartitionCell) (h : IsRecordOf sh cd spheres n r) :
    (r.isHome = true → ∀ q, r.overlap.testBit q = true ↔
        (q = passType (sh.cell (sphereAt spheres n).o) ∨
          ∃ c ∈ neighbourCells (sh.cell (sphereAt spheres n).o) (octant sh (sphereAt spheres n)),
            proxyOverlaps sh cd ⟨(sphereAt spheres n).o, (sphereAt spheres n).r * (3 / 2)⟩ c
              = true ∧ passType c = q)) ∧
      (r.isPhantom = true → ∃ pre post,
        neighbourCells (sh.cell (sphereAt spheres n).o) (octant sh (sphereAt spheres n)) =
          pre ++ r.ijk :: post ∧
        ∀ q, r.overlap.testBit q = true ↔
          (q = passType (sh.cell (sphereAt spheres n).o) ∨
            ∃ c ∈ pre ++ [r.ijk],
              proxyOverlaps sh cd ⟨(sphereAt spheres n).o, (sphereAt spheres n).r * (3 / 2)⟩ c
                = true ∧ passType c = q)) := by
  obtain ⟨b1, b2, b3, -, -, -, b7⟩ := record_basic h
  obtain ⟨-, hr, hu⟩ := h
  obtain ⟨home, phantoms, hrow, hhome, hbits, hph⟩ :=
    fillObject_masks sh cd n (sphereAt spheres n)
  obtain ⟨o1, o2, o3⟩ := octant_cases sh (sphereAt spheres n)
  rw [hrow] at hr
  rcases used_mem_row hr hu with rfl | hr
  · constructor
    · intro _ q
      rw [hbits q]
      constructor
      · rintro (e | e)
        · exact Or.inl e.symm
        · exact Or.inr e
      · rintro (e | e)
        · exact Or.inl e.symm
        · exact Or.inr e
    · intro hp
      exfalso
      unfold isPhantom at hp
      simp only [bne_iff_ne, ne_eq] at hp
      exact hp hhome.symm
  · obtain ⟨pre, post, hcs, hq⟩ := hph r hr
    have hmem : r.ijk ∈ neighbourCells (sh.cell (sphereAt spheres n).o)
        (octant sh (sphereAt spheres n)) := by
      rw [hcs]
      simp
    constructor
    · intro hh
      exfalso
      unfold isHome at hh
      simp only [beq_iff_eq] at hh
      have e := b7 hh.symm
      apply neighbourCells_passType_ne o1 o2 o3 hmem
      rw [e]
      rfl
    · intro _
      refine ⟨pre, post, hcs, ?_⟩
      intro q
      rw [hq q]
      constructor
      · rintro (e | e)
        · exact Or.inl e.symm
        · exact Or.inr e
      · rintro (e | e)
        · exact Or.inl e.symm
        · exact Or.inr e

/-- C23 (witness): the home record of object 0 of `pairSameOctant`, with mask `254`. -/
theorem overlap_mask_bits_witness :
    IsRecordOf (runConfig morton none ⟨0, 0, 0⟩ pairSameOctant) exactCollide pairSameOctant 0
        ⟨7, 7, 254, 7, 0, ⟨1, 1, 1⟩⟩ ∧
      ((⟨7, 7, 254, 7, 0, ⟨1, 1, 1⟩⟩ : SpatialPartitionCell).isHome = true →
        ∀ q, (254 : Nat).testBit q = true ↔
          (q = passType ((runConfig morton none ⟨0, 0, 0⟩ pairSameOctant).cell
              (sphereAt pairSameOctant 0).o) ∨
            ∃ c ∈ neighbourCells
                ((runConfig morton none ⟨0, 0, 0⟩ pairSameOctant).cell (sphereAt pairSameOctant 0).o)
                (octant (runConfig morton none ⟨0, 0, 0⟩ pairSameOctant)
                  (sphereAt pairSameOctant 0)),
              proxyOverlaps (runConfig morton none ⟨0, 0, 0⟩ pairSameOctant) exactCollide
                ⟨(sphereAt pairSameOctant 0).o, (sphereAt pairSameOctant 0).r * (3 / 2)⟩ c
                  = true ∧ passType c = q)) :=
  ⟨⟨by decide, by decide!, by decide⟩,
    (overlap_mask_bits (runConfig morton none ⟨0, 0, 0⟩ pairSameOctant) exactCollide
      pairSameOctant 0 ⟨7, 7, 254, 7, 0, ⟨1, 1, 1⟩⟩ ⟨by decide, by decide!, by decide⟩).1⟩

/-- C24: `operator<` of `CollisionPair` is a strict total order consistent with `operator==`:
it is irreflexive and transitive, exactly one of `l < r`, `l == r`, `r < l` holds, `l == r` holds
exactly when both ids are equal, and `l < r` is the lexicographic order on `(id[0], id[1])`. -/
theorem operatorLt_strict_total_order (l r s : CollisionPair) :
    l.operatorLt l = false ∧
      (l.operatorLt r = true → r.operatorLt s = true → l.operatorLt s = true) ∧
      ((l.operatorLt r = true ∧ l.operatorEq r = false ∧ r.operatorLt l = false) ∨
        (l.operatorLt r = false ∧ l.operatorEq r = true ∧ r.operatorLt l = false) ∨
        (l.operatorLt r = false ∧ l.operatorEq r = false ∧ r.operatorLt l = true)) ∧
      (l.operatorEq r = true ↔ l = r) ∧
      (l.operatorLt r = true ↔ (l.id0 < r.id0 ∨ (l.id0 = r.id0 ∧ l.id1 < r.id1))) := by
  rcases l with ⟨a0, a1⟩
  rcases r with ⟨b0, b1⟩
  rcases s with ⟨c0, c1⟩
  simp only [CollisionPair.operatorLt, CollisionPair.operatorEq, Bool.or_eq_true,
    Bool.and_eq_true, decide_eq_true_eq, Bool.or_eq_false_iff, Bool.and_eq_false_iff,
    decide_eq_false_iff_not, CollisionPair.mk.injEq]
  refine ⟨by omega, by omega, by omega, trivial, trivial⟩

/-- C25: for every non-empty list of spheres, on a default-constructed field, the value read
back from `collisionPairPrefixSum` at index `uniqueKeyCount - 1`, to which the output array is
resized, is the sum of `collisionPairCount[b]` over `b < validCellCount`; it is the length of the
pair list of the run, and it stays the same when the entry `collisionPairCount[uniqueKeyCount - 1]`,
which pass A does not write, is replaced by any value. -/
theorem output_length_is_sum (cd : collide) (mem : Memory) (hash_func : ivec3 → Nat)
    (cellSize : Option ℚ) (coordMin : vec3) (spheres : List sphere) (hs : spheres ≠ []) :
    ∃ total out,
      SpatialPartitionField.readBack
          ((setupOf cd mem hash_func cellSize coordMin spheres).countPass
            cd).scanPairCount.collisionPairPrefixSum.m_data
          (((setupOf cd mem hash_func cellSize coordMin spheres).uniqueKeyCount : Int) - 1) =
        some total ∧
      total =
        ((List.range (setupOf cd mem hash_func cellSize coordMin spheres).validCellCount.toNat).map
          (fun b => ((setupOf cd mem hash_func cellSize coordMin spheres).countPass
            cd).collisionPairCount.m_data.getD b 0)).sum ∧
      collisionPairsOf cd mem hash_func cellSize coordMin spheres = some out ∧
      out.length = total ∧
      ∀ v : Nat,
        SpatialPartitionField.readBack
          (SpatialPartitionField.scanPairCount
            { (setupOf cd mem hash_func cellSize coordMin spheres).countPass cd with
              collisionPairCount :=
                { ((setupOf cd mem hash_func cellSize coordMin spheres).countPass
                    cd).collisionPairCount with
                  m_data := ((setupOf cd mem hash_func cellSize coordMin spheres).countPass
                    cd).collisionPairCount.m_data.set
                      ((setupOf cd mem hash_func cellSize coordMin spheres).uniqueKeyCount - 1)
                      v } }).collisionPairPrefixSum.m_data
          (((setupOf cd mem hash_func cellSize coordMin spheres).uniqueKeyCount : Int) - 1) =
        some total :=
  run_total cd mem hash_func cellSize coordMin spheres hs

/-- C25 (witness): the run on `pairSameOctant`. -/
theorem output_length_is_sum_witness :
    pairSameOctant ≠ [] ∧
      ∃ total out,
        SpatialPartitionField.readBack
            ((setupOf exactCollide someMemory morton none ⟨0, 0, 0⟩ pairSameOctant).countPass
              exactCollide).scanPairCount.collisionPairPrefixSum.m_data
            (((setupOf exactCollide someMemory morton none ⟨0, 0, 0⟩
              pairSameOctant).uniqueKeyCount : Int) - 1) = some total ∧
        total =
          ((List.range (setupOf exactCollide someMemory morton none ⟨0, 0, 0⟩
            pairSameOctant).validCellCount.toNat).map
            (fun b => ((setupOf exactCollide someMemory morton none ⟨0, 0, 0⟩
              pairSameOctant).countPass exactCollide).collisionPairCount.m_data.getD b 0)).sum ∧
        collisionPairsOf exactCollide someMemory morton none ⟨0, 0, 0⟩ pairSameOctant = some out ∧
        out.length = total :=
  ⟨by decide,
    (output_length_is_sum exactCollide someMemory morton none ⟨0, 0, 0⟩ pairSameOctant
      (by decide)).imp fun _ h => h.imp fun _ h => ⟨h.1, h.2.1, h.2.2.1, h.2.2.2.1⟩⟩

/-- C26: for every non-empty list of spheres, on a default-constructed field, the writes of pass
B are those listed by `writesInCell`; bucket `b < validCellCount` writes the positions
`collisionPairPrefixSum[b] .. collisionPairPrefixSum[b] + collisionPairCount[b] - 1`, one after
the other, and the positions written by all buckets, bucket after bucket, are `0, 1, ..,
total - 1`, where `total` is the length of the output array: every index of the output is
written exactly once and no write is at or beyond its length. -/
theorem pass_B_writes_each_index_once (cd : collide) (mem : Memory) (hash_func : ivec3 → Nat)
    (cellSize : Option ℚ) (coordMin : vec3) (spheres : List sphere) (hs : spheres ≠ []) :
    (∀ (d : List CollisionPair) (b : Nat),
      SpatialPartitionField.writePairsInCell cd
          ((setupOf cd mem hash_func cellSize coordMin spheres).countPass cd).scanPairCount d b =
        (writesInCell cd
          ((setupOf cd mem hash_func cellSize coordMin spheres).countPass cd).scanPairCount
            b).foldl (fun data w => data.set w.1 w.2) d) ∧
      (∀ b : Nat, (b : Int) < (setupOf cd mem hash_func cellSize coordMin spheres).validCellCount →
        (writesInCell cd
          ((setupOf cd mem hash_func cellSize coordMin spheres).countPass cd).scanPairCount
            b).map Prod.fst =
          List.range'
            (((setupOf cd mem hash_func cellSize coordMin spheres).countPass
              cd).scanPairCount.collisionPairPrefixSum.m_data.getD b 0)
            (((setupOf cd mem hash_func cellSize coordMin spheres).countPass
              cd).scanPairCount.collisionPairCount.m_data.getD b 0)) ∧
      ∃ total,
        SpatialPartitionField.readBack
            ((setupOf cd mem hash_func cellSize coordMin spheres).countPass
              cd).scanPairCount.collisionPairPrefixSum.m_data
            (((setupOf cd mem hash_func cellSize coordMin spheres).uniqueKeyCount : Int) - 1) =
          some total ∧
        (List.range (setupOf cd mem hash_func cellSize coordMin spheres).validCellCount.toNat).flatMap
            (fun b => (writesInCell cd
              ((setupOf cd mem hash_func cellSize coordMin spheres).countPass cd).scanPairCount
                b).map Prod.fst) =
          List.range total := by
  obtain ⟨e7, e8, hlen, hcount, hpre⟩ :=
    fresh_pass_tables cd mem hash_func cellSize coordMin spheres hs
  have hne := bucketRuns_ne_nil (runConfig hash_func cellSize coordMin spheres) cd hs
  have hw := fresh_writes cd mem hash_func cellSize coordMin spheres hs
  obtain ⟨total, out, r1, r2, -, -, -⟩ :=
    run_total cd mem hash_func cellSize coordMin spheres hs
  generalize setupOf cd mem hash_func cellSize coordMin spheres = S at *
  generalize hh : (bucketRuns (runConfig hash_func cellSize coordMin spheres) cd spheres).length
    = h at *
  generalize hP : (S.countPass cd).scanPairCount = P at *
  have hc2 : ∀ b, b + 1 < h → P.collisionPairCount.m_data.getD b 0 =
      (bucketPairs (runConfig hash_func cellSize coordMin spheres) cd spheres b).length := by
    intro b hb
    rw [← hP]
    exact hcount b hb
  have hidx : ∀ b, b + 1 < h →
      (writesInCell cd P b).map Prod.fst =
        List.range' (((List.range b).map (fun c =>
          (bucketPairs (runConfig hash_func cellSize coordMin spheres) cd spheres c).length)).sum)
          (bucketPairs (runConfig hash_func cellSize coordMin spheres) cd spheres b).length := by
    intro b hb
    rw [hw b hb, List.map_fst_zip]
    rw [List.length_range']
  refine ⟨fun d b => writePairsInCell_writes cd P d b, ?_, total, r1, ?_⟩
  · intro b hb
    have hb2 : b + 1 < h := by omega
    rw [hidx b hb2, hpre b (by omega), hc2 b hb2]
  · have hf : (List.range S.validCellCount.toNat).flatMap
        (fun b => (writesInCell cd P b).map Prod.fst) =
        (List.range S.validCellCount.toNat).flatMap
        (fun b => List.range' (((List.range b).map (fun c =>
          (bucketPairs (runConfig hash_func cellSize coordMin spheres) cd spheres c).length)).sum)
          (bucketPairs (runConfig hash_func cellSize coordMin spheres) cd spheres b).length) := by
      apply List.flatMap_congr
      intro b hb
      rw [List.mem_range] at hb
      exact hidx b (by omega)
    rw [hf, flatMap_range'_offsets (fun c =>
      (bucketPairs (runConfig hash_func cellSize coordMin spheres) cd spheres c).length), r2]
    refine congrArg List.range (congrArg List.sum (List.map_congr_left ?_))
    intro b hb
    rw [List.mem_range] at hb
    exact (hcount b (by omega)).symm

/-- C26 (witness): the run on `pairSameOctant`. -/
theorem pass_B_writes_each_index_once_witness :
    pairSameOctant ≠ [] ∧
      ∃ total,
        SpatialPartitionField.readBack
            ((setupOf exactCollide someMemory morton none ⟨0, 0, 0⟩ pairSameOctant).countPass
              exactCollide).scanPairCount.collisionPairPrefixSum.m_data
            (((setupOf exactCollide someMemory morton none ⟨0, 0, 0⟩
              pairSameOctant).uniqueKeyCount : Int) - 1) = some total ∧
        (List.range (setupOf exactCollide someMemory morton none ⟨0, 0, 0⟩
            pairSameOctant).validCellCount.toNat).flatMap
            (fun b => (writesInCell exactCollide
              ((setupOf exactCollide someMemory morton none ⟨0, 0, 0⟩ pairSameOctant).countPass
                exactCollide).scanPairCount b).map Prod.fst) =
          List.range total :=
  ⟨by decide,
    (pass_B_writes_each_index_once exactCollide someMemory morton none ⟨0, 0, 0⟩ pairSameOctant
      (by decide)).2.2⟩

/-- C27: the nine per-slot arrays (`cellArrayValue`, `cellArrayKey`, their sorted copies,
`uniqueKey`, `objCountInCell`, `objCountInCellPrefixSum`, `collisionPairCount`,
`collisionPairPrefixSum`) never lose capacity, and after the fill stage of a run with `N`
objects each has capacity at least `8 * N`.  For a field `f` that successive runs of the usage
sequence from a default-constructed field have reached, and one more run on `spheres`: every
capacity after the fill stage of that run is at least `8 * spheres.length`; no capacity after
the fill stage is below the capacity `f` has; and when the run returns, no capacity of the field
it returns is below the capacity after the fill stage, nor below the capacity `f` has. -/
theorem capacities_never_decrease (cd : collide) (mem : Memory) (hash_func : ivec3 → Nat)
    (cellSize : Option ℚ) (coordMin : vec3) (lists : List (List sphere))
    (spheres : List sphere) (f : SpatialPartitionField) (res : DeviceBuffer CollisionPair)
    (h : successiveRuns cd mem hash_func cellSize coordMin lists = some (f, res)) :
    (perSlotCapacities (filledField cd mem f cellSize coordMin spheres)).length = 9 ∧
      (∀ c ∈ perSlotCapacities (filledField cd mem f cellSize coordMin spheres),
        8 * spheres.length ≤ c) ∧
      List.Forall₂ (fun a b => a ≤ b) (perSlotCapacities f)
        (perSlotCapacities (filledField cd mem f cellSize coordMin spheres)) ∧
      ∀ r, successiveRuns cd mem hash_func cellSize coordMin (lists ++ [spheres]) = some r →
        List.Forall₂ (fun a b => a ≤ b)
          (perSlotCapacities (filledField cd mem f cellSize coordMin spheres))
          (perSlotCapacities r.1) ∧
        List.Forall₂ (fun a b => a ≤ b) (perSlotCapacities f) (perSlotCapacities r.1) :=
  capacities_over_runs cd mem hash_func cellSize coordMin lists spheres f res h

/-- C27 (witness): the field a run on `pairSameOctant` leaves, and one more run on
`threeSpheres`. -/
theorem capacities_never_decrease_witness :
    ∃ f res,
      successiveRuns exactCollide someMemory morton none ⟨0, 0, 0⟩ [pairSameOctant] =
        some (f, res) ∧
      (perSlotCapacities
        (filledField exactCollide someMemory f none ⟨0, 0, 0⟩ threeSpheres)).length = 9 ∧
      (∀ c ∈ perSlotCapacities
          (filledField exactCollide someMemory f none ⟨0, 0, 0⟩ threeSpheres),
        8 * threeSpheres.length ≤ c) ∧
      List.Forall₂ (fun a b => a ≤ b) (perSlotCapacities f)
        (perSlotCapacities (filledField exactCollide someMemory f none ⟨0, 0, 0⟩ threeSpheres)) ∧
      ∀ r, successiveRuns exactCollide someMemory morton none ⟨0, 0, 0⟩
          ([pairSameOctant] ++ [threeSpheres]) = some r →
        List.Forall₂ (fun a b => a ≤ b)
          (perSlotCapacities (filledField exactCollide someMemory f none ⟨0, 0, 0⟩ threeSpheres))
          (perSlotCapacities r.1) ∧
        List.Forall₂ (fun a b => a ≤ b) (perSlotCapacities f) (perSlotCapacities r.1) :=
  (first_run_returns exactCollide someMemory morton none ⟨0, 0, 0⟩ pairSameOctant
    (by decide)).imp fun f hf => hf.imp fun res hr =>
      ⟨hr, capacities_never_decrease exactCollide someMemory morton none ⟨0, 0, 0⟩
        [pairSameOctant] threeSpheres f res hr⟩

/-- C28: for every CSR view and every row whose two row pointers `lo`, `hi` delimit a part of
the column and value arrays in which no column index is repeated, `operator()(row, col)` returns
the entry of the dense matrix: `values[i]` for the index `i` in `[lo, hi)` with
`colIdx[i] == col` if there is one, and `0` otherwise. -/
theorem operatorCall_dense {α : Type} [Zero α] (m : csr α) (row col lo hi : Int)
    (hlo : csr.readAt m.rowPtr row = some lo) (hhi : csr.readAt m.rowPtr (row + 1) = some hi)
    (h0 : 0 ≤ lo) (hle : lo ≤ hi) (hc : hi ≤ m.colIdx.length) (hv : hi ≤ m.values.length)
    (hrep : ∀ i j, lo ≤ i → i < hi → lo ≤ j → j < hi →
      csr.readAt m.colIdx i = csr.readAt m.colIdx j → i = j) :
    ∃ v, m.operatorCall row col = some v ∧
      (∀ i, lo ≤ i → i < hi → csr.readAt m.colIdx i = some col →
        csr.readAt m.values i = some v) ∧
      ((∀ i, lo ≤ i → i < hi → csr.readAt m.colIdx i ≠ some col) → v = 0) := by
  have hn : lo + ((hi - lo).toNat : Int) = hi := by omega
  obtain ⟨v, hs, hcase⟩ := scanRow_spec m col (hi - lo).toNat lo h0 (by rw [hn]; exact hc)
    (by rw [hn]; exact hv)
  rw [hn] at hcase
  refine ⟨v, ?_, ?_, ?_⟩
  · simp only [csr.operatorCall, hlo, hhi, hs]
  · intro i i1 i2 i3
    rcases hcase with ⟨j, j1, j2, j3, j4, -⟩ | ⟨hno, -⟩
    · have : i = j := hrep i j i1 i2 j1 j2 (by rw [i3, j3])
      rw [this]
      exact j4
    · exact absurd i3 (hno i i1 i2)
  · intro hno
    rcases hcase with ⟨j, j1, j2, j3, -, -⟩ | ⟨-, hz⟩
    · exact absurd j3 (hno j j1 j2)
    · exact hz

/-- C28 (witness): the view of the matrix `[[5, 0, 7], [0, 9, 0]]`, row 0. -/
theorem operatorCall_dense_witness :
    ∃ v, (⟨[0, 2, 3], [0, 2, 1], [5, 7, 9], 2, 3, 3⟩ : csr Int).operatorCall 0 2 = some v ∧
      (∀ i, (0 : Int) ≤ i → i < 2 → csr.readAt [(0 : Int), 2, 1] i = some 2 →
        csr.readAt [(5 : Int), 7, 9] i = some v) ∧
      ((∀ i, (0 : Int) ≤ i → i < 2 → csr.readAt [(0 : Int), 2, 1] i ≠ some 2) → v = 0) :=
  operatorCall_dense (⟨[0, 2, 3], [0, 2, 1], [5, 7, 9], 2, 3, 3⟩ : csr Int) 0 2 0 2 rfl rfl
    (by decide) (by decide) (by decide) (by decide)
    (by
      intro i j i1 i2 j1 j2 h
      have hi : i = 0 ∨ i = 1 := by omega
      have hj : j = 0 ∨ j = 1 := by omega
      rcases hi with rfl | rfl <;> rcases hj with rfl | rfl <;>
        first | rfl | (exfalso; revert h; decide))

/-- C29: for every sphere, the seven candidate neighbour cells the fill kernel tests are the
cells `home + (s_x * d_x, s_y * d_y, s_z * d_z)` for the seven non-zero `s` in `{0, 1}^3`, where
`d` is `+1` on an axis when the centre coordinate is strictly greater than the coordinate of the
centre of the home cell and `-1` otherwise; together with the home cell they have eight pairwise
distinct pass types. -/
theorem candidate_cells (sh : SpatialHashConfig) (cd : collide) (n : Nat) (s : sphere) :
    fillObject sh cd n s =
      ((neighbourCells (sh.cell s.o) (octant sh s)).foldl
        (fillStep sh cd ⟨s.o, s.r * (3 / 2)⟩ (sh.cell s.o) n)
        ⟨{ (Cell (sh.hashCell (sh.cell s.o)) n).setAsHome (sh.cell s.o) with
            ijk := sh.cell s.o }, []⟩).homeCell ::
      ((neighbourCells (sh.cell s.o) (octant sh s)).foldl
        (fillStep sh cd ⟨s.o, s.r * (3 / 2)⟩ (sh.cell s.o) n)
        ⟨{ (Cell (sh.hashCell (sh.cell s.o)) n).setAsHome (sh.cell s.o) with
            ijk := sh.cell s.o }, []⟩).phantoms ++
      List.replicate (7 - ((neighbourCells (sh.cell s.o) (octant sh s)).foldl
        (fillStep sh cd ⟨s.o, s.r * (3 / 2)⟩ (sh.cell s.o) n)
        ⟨{ (Cell (sh.hashCell (sh.cell s.o)) n).setAsHome (sh.cell s.o) with
            ijk := sh.cell s.o }, []⟩).phantoms.length) (Cell invalid invalid) ∧
      octant sh s =
        ⟨if s.o.x > (sh.cellCenterCoord (sh.cell s.o)).x then 1 else -1,
         if s.o.y > (sh.cellCenterCoord (sh.cell s.o)).y then 1 else -1,
         if s.o.z > (sh.cellCenterCoord (sh.cell s.o)).z then 1 else -1⟩ ∧
      (neighbourCells (sh.cell s.o) (octant sh s)).length = 7 ∧
      (∀ c, c ∈ neighbourCells (sh.cell s.o) (octant sh s) ↔
        ∃ sx sy sz : Int, (sx = 0 ∨ sx = 1) ∧ (sy = 0 ∨ sy = 1) ∧ (sz = 0 ∨ sz = 1) ∧
          ¬ (sx = 0 ∧ sy = 0 ∧ sz = 0) ∧
          c = (sh.cell s.o).add
            ⟨sx * (octant sh s).i, sy * (octant sh s).j, sz * (octant sh s).k⟩) ∧
      ((sh.cell s.o :: neighbourCells (sh.cell s.o) (octant sh s)).map passType).Nodup := by
  obtain ⟨o1, o2, o3⟩ := octant_cases sh s
  refine ⟨rfl, rfl, rfl, ?_, ?_⟩
  · intro c
    simp only [neighbourCells, List.mem_cons, List.mem_singleton, List.not_mem_nil, or_false]
    constructor
    · rintro (h | h | h | h | h | h | h)
      · exact ⟨1, 0, 0, by simp, by simp, by simp, by simp, by rw [h]; simp⟩
      · exact ⟨0, 1, 0, by simp, by simp, by simp, by simp, by rw [h]; simp⟩
      · exact ⟨0, 0, 1, by simp, by simp, by simp, by simp, by rw [h]; simp⟩
      · exact ⟨0, 1, 1, by simp, by simp, by simp, by simp, by rw [h]; simp⟩
      · exact ⟨1, 0, 1, by simp, by simp, by simp, by simp, by rw [h]; simp⟩
      · exact ⟨1, 1, 0, by simp, by simp, by simp, by simp, by rw [h]; simp⟩
      · exact ⟨1, 1, 1, by simp, by simp, by simp, by simp, by rw [h]; simp⟩
    · rintro ⟨sx, sy, sz, hx, hy, hz, hne, rfl⟩
      rcases hx with rfl | rfl <;> rcases hy with rfl | rfl <;> rcases hz with rfl | rfl <;>
        simp at hne ⊢
  · rw [List.map_cons, List.nodup_cons]
    constructor
    · intro hm
      obtain ⟨c, hc, he⟩ := List.mem_map.1 hm
      exact neighbourCells_passType_ne o1 o2 o3 hc he
    · refine List.Nodup.map_on ?_ (neighbourCells_nodup o1 o2 o3)
      intro a ha b hb h
      exact neighbourCells_passType_inj o1 o2 o3 ha hb h

/-- C30: for every object, the record the fill stage stores in slot 0 satisfies `isHome`
(`pass == home`) and every used record it stores in slots `1 .. 7` satisfies `isPhantom`
(`pass != home`); for every record exactly one of `isHome` and `isPhantom` holds. -/
theorem home_slot_and_phantom_slots (cd : collide) (mem : Memory) (g : SpatialPartitionField)
    (i : Nat) (hi : i < g.spheres.length) :
    (∃ r, (g.beginFillHashCells cd mem).cellArrayValue.m_data[8 * i]? = some r ∧
        r.isHome = true) ∧
      (∀ s r, 1 ≤ s → s < 8 →
        (g.beginFillHashCells cd mem).cellArrayValue.m_data[8 * i + s]? = some r → IsUsed r →
        r.isPhantom = true) ∧
      (∀ r : SpatialPartitionCell,
        (r.isHome = true ∧ r.isPhantom = false) ∨ (r.isHome = false ∧ r.isPhantom = true)) := by
  obtain ⟨home, phantoms, hrow, hk, h0, hslots, hrest, ⟨a1, a2, a3, a4, a5⟩, hmap, hph⟩ :=
    fillObject_slots g.spatialHashConfig cd i (sphereAt g.spheres i)
  refine ⟨⟨home, ?_, ?_⟩, ?_, ?_⟩
  · have := (fill_slot cd mem g i 0 hi (by omega)).1
    rw [Nat.add_zero] at this
    rw [this, h0]
  · unfold isHome
    rw [a2, a3]
    simp
  · intro s r s1 s2 hr hu
    rw [(fill_slot cd mem g i s hi s2).1] at hr
    by_cases hs : s ≤ phantoms.length
    · obtain ⟨r', hr', hm⟩ := hslots s s1 hs
      rw [hr] at hr'
      have e : r = r' := Option.some.inj hr'
      subst e
      unfold isPhantom
      have := (hph r hm).2.2.2.2
      simp only [bne_iff_ne, ne_eq]
      exact fun h => this h.symm
    · exfalso
      have := hrest s (by omega) s2
      rw [hr] at this
      have e : r = Cell invalid invalid := Option.some.inj this
      rw [e] at hu
      exact hu rfl
  · intro r
    unfold isHome isPhantom
    by_cases h : r.home = r.pass <;> simp [h]

/-- C30 (witness): slot 0 of object 0 of `pairSameOctant` on a default-constructed field. -/
theorem home_slot_and_phantom_slots_witness :
    0 < ({ (SpatialPartitionField.fresh morton).setCellSize 9 with spheres := pairSameOctant } :
        SpatialPartitionField).spheres.length ∧
      ∃ r, (SpatialPartitionField.beginFillHashCells exactCollide someMemory
          { (SpatialPartitionField.fresh morton).setCellSize 9 with spheres := pairSameOctant }).cellArrayValue.m_data[8 * 0]?
            = some r ∧ r.isHome = true :=
  ⟨by decide,
    (home_slot_and_phantom_slots exactCollide someMemory
      { (SpatialPartitionField.fresh morton).setCellSize 9 with spheres := pairSameOctant } 0 (by decide)).1⟩

/-- C32: for every non-empty list of spheres, on a default-constructed field, and every bucket
`b < validCellCount`, after pass A `collisionPairCount[b]` is the number of position pairs
`(i, j)`, `i < j < count_b` (the entries of `pairIndices count_b`, which has each such pair
once), for which `allowIgnore` on the records at `offset_b + i` and `offset_b + j` of the sorted
array is false and the exact test `detect` on the spheres of their objects is true; pass B
performs exactly that many writes for bucket `b`. -/
theorem pass_A_counts_accepted_pairs (cd : collide) (mem : Memory) (hash_func : ivec3 → Nat)
    (cellSize : Option ℚ) (coordMin : vec3) (spheres : List sphere) (hs : spheres ≠ []) (b : Nat)
    (hb : (b : Int) < (setupOf cd mem hash_func cellSize coordMin spheres).validCellCount) :
    ((setupOf cd mem hash_func cellSize coordMin spheres).countPass
        cd).collisionPairCount.m_data.getD b 0 =
      ((pairIndices
        ((setupOf cd mem hash_func cellSize coordMin spheres).objCountInCell.m_data.getD
          b 0)).filter
        (fun p =>
          !allowIgnore
            (cellAt (setupOf cd mem hash_func cellSize coordMin spheres).cellArrayValueSorted.m_data
              ((setupOf cd mem hash_func cellSize coordMin
                spheres).objCountInCellPrefixSum.m_data.getD b 0 + p.1))
            (cellAt (setupOf cd mem hash_func cellSize coordMin spheres).cellArrayValueSorted.m_data
              ((setupOf cd mem hash_func cellSize coordMin
                spheres).objCountInCellPrefixSum.m_data.getD b 0 + p.2)) &&
          cd.detect
            (sphereAt spheres
              (cellAt
                (setupOf cd mem hash_func cellSize coordMin spheres).cellArrayValueSorted.m_data
                ((setupOf cd mem hash_func cellSize coordMin
                  spheres).objCountInCellPrefixSum.m_data.getD b 0 + p.1)).oid)
            (sphereAt spheres
              (cellAt
                (setupOf cd mem hash_func cellSize coordMin spheres).cellArrayValueSorted.m_data
                ((setupOf cd mem hash_func cellSize coordMin
                  spheres).objCountInCellPrefixSum.m_data.getD b 0 + p.2)).oid))).length ∧
      (∀ n i j : Nat, (i, j) ∈ pairIndices n ↔ i < j ∧ j < n) ∧
      (∀ n : Nat, (pairIndices n).Nodup) ∧
      (writesInCell cd ((setupOf cd mem hash_func cellSize coordMin spheres).countPass
        cd).scanPairCount b).length =
        ((setupOf cd mem hash_func cellSize coordMin spheres).countPass
          cd).collisionPairCount.m_data.getD b 0 :=
  ⟨(fresh_bucket_count cd mem hash_func cellSize coordMin spheres hs b hb).1,
    pairIndices_mem, pairIndices_nodup,
    (fresh_bucket_count cd mem hash_func cellSize coordMin spheres hs b hb).2⟩

/-- C32 (witness): bucket 7 of the run on `pairSameOctant`, the bucket of the home cell of the
two objects. -/
theorem pass_A_counts_accepted_pairs_witness :
    pairSameOctant ≠ [] ∧
      ((7 : Nat) : Int) <
        (setupOf exactCollide someMemory morton none ⟨0, 0, 0⟩ pairSameOctant).validCellCount ∧
      (writesInCell exactCollide
        ((setupOf exactCollide someMemory morton none ⟨0, 0, 0⟩ pairSameOctant).countPass
          exactCollide).scanPairCount 7).length =
        ((setupOf exactCollide someMemory morton none ⟨0, 0, 0⟩ pairSameOctant).countPass
          exactCollide).collisionPairCount.m_data.getD 7 0 :=
  have hv : ((7 : Nat) : Int) <
      (setupOf exactCollide someMemory morton none ⟨0, 0, 0⟩ pairSameOctant).validCellCount := by
    have h := (setup_fresh exactCollide someMemory morton none ⟨0, 0, 0⟩
      pairSameOctant).2.2.2.2.2.2.2
    unfold setupOf
    rw [h]
    decide!
  ⟨by decide, hv,
    (pass_A_counts_accepted_pairs exactCollide someMemory morton none ⟨0, 0, 0⟩ pairSameOctant
      (by decide) 7 hv).2.2.2⟩

/-- C33: for all records `l` and `r` with `l.pass == r.pass`, `allowIgnore(l, r)` equals
`allowIgnore(r, l)`: the decision does not depend on the order of the two records. -/
theorem allowIgnore_symmetric (l r : SpatialPartitionCell) (h : l.pass = r.pass) :
    allowIgnore l r = allowIgnore r l :=
  allowIgnore_comm h

/-- C33 (witness): a home record and a phantom record of the cell `(2, 1, 1)`. -/
theorem allowIgnore_symmetric_witness :
    (⟨3, 3, 255, 14, 0, ⟨2, 1, 1⟩⟩ : SpatialPartitionCell).pass =
        (⟨3, 7, 136, 14, 1, ⟨2, 1, 1⟩⟩ : SpatialPartitionCell).pass ∧
      allowIgnore ⟨3, 3, 255, 14, 0, ⟨2, 1, 1⟩⟩ ⟨3, 7, 136, 14, 1, ⟨2, 1, 1⟩⟩ =
        allowIgnore ⟨3, 7, 136, 14, 1, ⟨2, 1, 1⟩⟩ ⟨3, 3, 255, 14, 0, ⟨2, 1, 1⟩⟩ :=
  ⟨rfl, allowIgnore_symmetric ⟨3, 3, 255, 14, 0, ⟨2, 1, 1⟩⟩ ⟨3, 7, 136, 14, 1, ⟨2, 1, 1⟩⟩ rfl⟩

/-- C34: for all home records `l`, `r` (`home == pass`) with `l.pass == r.pass`,
`allowIgnore(l, r)` is false whatever their masks.  Hence for two objects `a`, `b` with the same
home cell and used records `ra`, `rb` of the fill stage in a common cell: in the home cell the
two records are home records and `allowIgnore` is false, in every other cell both are phantom
records and `allowIgnore` is true. -/
theorem same_home_cell_decisions (sh : SpatialHashConfig) (cd : collide) (spheres : List sphere)
    (a b : Nat) (ra rb : SpatialPartitionCell) (ha : IsRecordOf sh cd spheres a ra)
    (hb : IsRecordOf sh cd spheres b rb)
    (hhome : homeCellOf sh spheres a = homeCellOf sh spheres b) (hc : ra.ijk = rb.ijk) :
    (∀ l r : SpatialPartitionCell, l.isHome = true → r.isHome = true → l.pass = r.pass →
        allowIgnore l r = false) ∧
      (ra.ijk = homeCellOf sh spheres a →
        ra.isHome = true ∧ rb.isHome = true ∧ allowIgnore ra rb = false) ∧
      (ra.ijk ≠ homeCellOf sh spheres a →
        ra.isPhantom = true ∧ rb.isPhantom = true ∧ allowIgnore ra rb = true) := by
  obtain ⟨-, a2, -⟩ := record_basic ha
  obtain ⟨-, b2, -⟩ := record_basic hb
  refine ⟨fun l r hl hr hp => allowIgnore_home_home hl hr hp, ?_, ?_⟩
  · intro e
    have h1 : ra.isHome = true := (record_isHome_iff ha).1.2 e
    have h2 : rb.isHome = true := (record_isHome_iff hb).1.2 (by rw [← hc, ← hhome]; exact e)
    exact ⟨h1, h2, allowIgnore_home_home h1 h2 (by rw [a2, b2, hc])⟩
  · intro e
    have h1 : ra.isPhantom = true := (record_isHome_iff ha).2.2 e
    have h2 : rb.isPhantom = true := (record_isHome_iff hb).2.2 (by rw [← hc, ← hhome]; exact e)
    exact ⟨h1, h2, allowIgnore_phantom_phantom h1 h2⟩

/-- C34 (witness): the two objects of `pairSameOctant` in their home cell `(1, 1, 1)`. -/
theorem same_home_cell_decisions_witness :
    IsRecordOf (runConfig morton none ⟨0, 0, 0⟩ pairSameOctant) exactCollide pairSameOctant 0
        ⟨7, 7, 254, 7, 0, ⟨1, 1, 1⟩⟩ ∧
      IsRecordOf (runConfig morton none ⟨0, 0, 0⟩ pairSameOctant) exactCollide pairSameOctant 1
        ⟨7, 7, 255, 7, 1, ⟨1, 1, 1⟩⟩ ∧
      homeCellOf (runConfig morton none ⟨0, 0, 0⟩ pairSameOctant) pairSameOctant 0 =
        homeCellOf (runConfig morton none ⟨0, 0, 0⟩ pairSameOctant) pairSameOctant 1 ∧
      allowIgnore ⟨7, 7, 254, 7, 0, ⟨1, 1, 1⟩⟩ ⟨7, 7, 255, 7, 1, ⟨1, 1, 1⟩⟩ = false :=
  ⟨⟨by decide, by decide!, by decide⟩, ⟨by decide, by decide!, by decide⟩, by decide!,
    ((same_home_cell_decisions (runConfig morton none ⟨0, 0, 0⟩ pairSameOctant) exactCollide
      pairSameOctant 0 1 ⟨7, 7, 254, 7, 0, ⟨1, 1, 1⟩⟩ ⟨7, 7, 255, 7, 1, ⟨1, 1, 1⟩⟩
      ⟨by decide, by decide!, by decide⟩ ⟨by decide, by decide!, by decide⟩ (by decide!)
      rfl).2.1 (by decide!)).2.2⟩

/-- C35: for two objects `a`, `b` with different home cells `hA`, `hB` such that `a` has a used
record in `hB` and `b` has one in `hA`: the pass types of `hA` and `hB` differ, and on the
records of the two objects in a common cell `allowIgnore` (in either order) is false in `hA`
exactly when `passType hA < passType hB`, false in `hB` exactly when
`passType hB < passType hA`, and true in every other cell.  So it is false in exactly one of the
two home cells, the one of the smaller pass type. -/
theorem mutual_neighbours_one_owner (sh : SpatialHashConfig) (cd : collide)
    (spheres : List sphere) (a b : Nat)
    (hne : homeCellOf sh spheres a ≠ homeCellOf sh spheres b)
    (hab : HasRecordIn sh cd spheres a (homeCellOf sh spheres b))
    (hba : HasRecordIn sh cd spheres b (homeCellOf sh spheres a)) :
    a ≠ b ∧ passType (homeCellOf sh spheres a) ≠ passType (homeCellOf sh spheres b) ∧
      ∀ ra rb, IsRecordOf sh cd spheres a ra → IsRecordOf sh cd spheres b rb → ra.ijk = rb.ijk →
        allowIgnore rb ra = allowIgnore ra rb ∧
        (ra.ijk = homeCellOf sh spheres a →
          (allowIgnore ra rb = false ↔
            passType (homeCellOf sh spheres a) < passType (homeCellOf sh spheres b))) ∧
        (ra.ijk = homeCellOf sh spheres b →
          (allowIgnore ra rb = false ↔
            passType (homeCellOf sh spheres b) < passType (homeCellOf sh spheres a))) ∧
        (ra.ijk ≠ homeCellOf sh spheres a → ra.ijk ≠ homeCellOf sh spheres b →
          allowIgnore ra rb = true) :=
  ⟨fun e => hne (by rw [e]), mutual_decisions hne hab hba⟩

/-- C35 (witness): the two objects of `pairAcross`, with home cells `(2, 1, 1)` of pass type 3
and `(3, 1, 1)` of pass type 7. -/
theorem mutual_neighbours_one_owner_witness :
    homeCellOf (runConfig morton none ⟨0, 0, 0⟩ pairAcross) pairAcross 0 ≠
        homeCellOf (runConfig morton none ⟨0, 0, 0⟩ pairAcross) pairAcross 1 ∧
      HasRecordIn (runConfig morton none ⟨0, 0, 0⟩ pairAcross) exactCollide pairAcross 0
        (homeCellOf (runConfig morton none ⟨0, 0, 0⟩ pairAcross) pairAcross 1) ∧
      HasRecordIn (runConfig morton none ⟨0, 0, 0⟩ pairAcross) exactCollide pairAcross 1
        (homeCellOf (runConfig morton none ⟨0, 0, 0⟩ pairAcross) pairAcross 0) ∧
      passType (homeCellOf (runConfig morton none ⟨0, 0, 0⟩ pairAcross) pairAcross 0) ≠
        passType (homeCellOf (runConfig morton none ⟨0, 0, 0⟩ pairAcross) pairAcross 1) :=
  ⟨by decide!,
    ⟨⟨7, 3, 136, 15, 0, ⟨3, 1, 1⟩⟩, ⟨by decide, by decide!, by decide⟩, by decide!⟩,
    ⟨⟨3, 7, 136, 14, 1, ⟨2, 1, 1⟩⟩, ⟨by decide, by decide!, by decide⟩, by decide!⟩,
    (mutual_neighbours_one_owner (runConfig morton none ⟨0, 0, 0⟩ pairAcross) exactCollide
      pairAcross 0 1 (by decide!)
      ⟨⟨7, 3, 136, 15, 0, ⟨3, 1, 1⟩⟩, ⟨by decide, by decide!, by decide⟩, by decide!⟩
      ⟨⟨3, 7, 136, 14, 1, ⟨2, 1, 1⟩⟩, ⟨by decide, by decide!, by decide⟩, by decide!⟩).2.1⟩

/-- C36: for every home record `h` and every record `p` with `p.pass == h.pass` whose mask has
the bit of its own home type, `allowIgnore(h, p)` and `allowIgnore(p, h)` both equal
`p.home < h.pass` and bit `p.home` of `h.overlap`; with any other mask `m` that has bit `p.home`
in place of `p.overlap` the two decisions are the same.  Every used record of the fill stage has
the bit of its home type in its mask, and so has the home record of its object: the decisions
on a record with the mask it was given when it was emitted are those on the record with the
complete mask of the home record of its object. -/
theorem partial_mask_same_decision (h p : SpatialPartitionCell) (hh : h.isHome = true)
    (hpass : p.pass = h.pass) (hbit : p.overlap.testBit p.home = true) :
    allowIgnore h p = (decide (p.home < h.pass) && h.overlap.testBit p.home) ∧
      allowIgnore p h = (decide (p.home < h.pass) && h.overlap.testBit p.home) ∧
      (∀ m : Nat, m.testBit p.home = true →
        allowIgnore h { p with overlap := m } = allowIgnore h p ∧
          allowIgnore { p with overlap := m } h = allowIgnore p h) ∧
      (∀ (sh : SpatialHashConfig) (cd : collide) (spheres : List sphere) (n : Nat)
          (r : SpatialPartitionCell),
        IsRecordOf sh cd spheres n r → r.overlap.testBit r.home = true) ∧
      ∀ (sh : SpatialHashConfig) (cd : collide) (spheres : List sphere) (n : Nat)
          (full : SpatialPartitionCell),
        IsRecordOf sh cd spheres n p → IsRecordOf sh cd spheres n full → full.isHome = true →
          allowIgnore h { p with overlap := full.overlap } = allowIgnore h p ∧
            allowIgnore { p with overlap := full.overlap } h = allowIgnore p h := by
  have h1 := @allowIgnore_home_other h p hh hbit
  have h2 : allowIgnore p h = allowIgnore h p := allowIgnore_comm hpass
  have hm : ∀ m : Nat, m.testBit p.home = true →
      allowIgnore h { p with overlap := m } = allowIgnore h p ∧
        allowIgnore { p with overlap := m } h = allowIgnore p h := by
    intro m hmb
    have e1 : allowIgnore h { p with overlap := m } = allowIgnore h p := by
      rw [h1]
      exact @allowIgnore_home_other h { p with overlap := m } hh hmb
    refine ⟨e1, ?_⟩
    rw [h2, ← e1]
    exact @allowIgnore_comm { p with overlap := m } h hpass
  refine ⟨h1, h2.trans h1, hm, ?_, ?_⟩
  · intro sh cd spheres n r hr
    exact (record_basic hr).2.2.2.2.1
  · intro sh cd spheres n full hp hf hfh
    apply hm
    have e1 := (record_basic hp).2.2.1
    have e2 := (record_basic hf).2.2.1
    rw [e1, ← e2]
    exact (record_basic hf).2.2.2.2.1

/-- C36 (witness): the home record of object 0 of `pairAcross` and the phantom record of
object 1 in the cell `(2, 1, 1)`, whose mask `136` is a part of the complete mask `255`. -/
theorem partial_mask_same_decision_witness :
    (⟨3, 3, 255, 14, 0, ⟨2, 1, 1⟩⟩ : SpatialPartitionCell).isHome = true ∧
      (⟨3, 7, 136, 14, 1, ⟨2, 1, 1⟩⟩ : SpatialPartitionCell).pass =
        (⟨3, 3, 255, 14, 0, ⟨2, 1, 1⟩⟩ : SpatialPartitionCell).pass ∧
      (136 : Nat).testBit 7 = true ∧
      allowIgnore ⟨3, 3, 255, 14, 0, ⟨2, 1, 1⟩⟩ ⟨3, 7, 136, 14, 1, ⟨2, 1, 1⟩⟩ =
        (decide (7 < 3) && (255 : Nat).testBit 7) :=
  ⟨by decide, rfl, by decide,
    (partial_mask_same_decision ⟨3, 3, 255, 14, 0, ⟨2, 1, 1⟩⟩ ⟨3, 7, 136, 14, 1, ⟨2, 1, 1⟩⟩
      (by decide) rfl (by decide)).1⟩

/-- C37: the key sort of the model is stable (the pairs of one key keep their order).  When no
two used records of one object carry the same key, in a run on a default-constructed field with
at most `2^31` objects: in every bucket `b < validCellCount` the records stand with strictly
increasing object index, and every `CollisionPair` of the output has `id[0] < id[1]`, `id[0]`
being the object of the earlier record. -/
theorem pairs_have_smaller_id_first (cd : collide) (mem : Memory) (hash_func : ivec3 → Nat)
    (cellSize : Option ℚ) (coordMin : vec3) (spheres : List sphere) (out : List CollisionPair)
    (hN : spheres.length ≤ 2147483648)
    (hkey : ∀ (n : Nat) (r r' : SpatialPartitionCell),
      IsRecordOf (runConfig hash_func cellSize coordMin spheres) cd spheres n r →
      IsRecordOf (runConfig hash_func cellSize coordMin spheres) cd spheres n r' →
      r.cid = r'.cid → r = r')
    (h : collisionPairsOf cd mem hash_func cellSize coordMin spheres = some out) :
    (∀ (keys : List Nat) (values : List SpatialPartitionCell) (k : Nat),
        (SortPairs keys values).filter (fun x => decide (x.1 = k)) =
          (keys.zip values).filter (fun x => decide (x.1 = k))) ∧
      (∀ b i j : Nat,
        (b : Int) < (setupOf cd mem hash_func cellSize coordMin spheres).validCellCount →
        i < j →
        j < (setupOf cd mem hash_func cellSize coordMin spheres).objCountInCell.m_data.getD b 0 →
        (cellAt (setupOf cd mem hash_func cellSize coordMin spheres).cellArrayValueSorted.m_data
            ((setupOf cd mem hash_func cellSize coordMin
              spheres).objCountInCellPrefixSum.m_data.getD b 0 + i)).oid <
          (cellAt (setupOf cd mem hash_func cellSize coordMin spheres).cellArrayValueSorted.m_data
            ((setupOf cd mem hash_func cellSize coordMin
              spheres).objCountInCellPrefixSum.m_data.getD b 0 + j)).oid) ∧
      ∀ p ∈ out, p.id0 < p.id1 := by
  refine ⟨fun keys values k => SortPairs_stable keys values k, ?_,
    fun p hp => output_ids_increasing hN hkey h hp⟩
  intro b i j hb hij hj
  obtain ⟨-, s2, -, -, -, -, -, s8⟩ := setup_fresh cd mem hash_func cellSize coordMin spheres
  have e2 : (setupOf cd mem hash_func cellSize coordMin spheres).cellArrayValueSorted.m_data =
      sortedCells (runConfig hash_func cellSize coordMin spheres) cd spheres := s2
  have e8 : (setupOf cd mem hash_func cellSize coordMin spheres).validCellCount =
      ((bucketRuns (runConfig hash_func cellSize coordMin spheres) cd spheres).length : Int)
        - 1 := s8
  have hb' : b + 1 < (bucketRuns (runConfig hash_func cellSize coordMin spheres) cd
      spheres).length := by
    rw [e8] at hb
    omega
  obtain ⟨t1, t2⟩ := setupOf_tables cd mem hash_func cellSize coordMin spheres b (by omega)
  rw [t1] at hj
  rw [t2, e2]
  exact bucket_oid_increasing _ cd spheres hkey b i j hb' hij hj

/-- C37 (witness): the run on `pairSameOctant` with the hash `morton`, whose output is the pair
`(0, 1)`. -/
theorem pairs_have_smaller_id_first_witness :
    pairSameOctant.length ≤ 2147483648 ∧
      (∀ (n : Nat) (r r' : SpatialPartitionCell),
        IsRecordOf (runConfig morton none ⟨0, 0, 0⟩ pairSameOctant) exactCollide pairSameOctant
          n r →
        IsRecordOf (runConfig morton none ⟨0, 0, 0⟩ pairSameOctant) exactCollide pairSameOctant
          n r' →
        r.cid = r'.cid → r = r') ∧
      collisionPairsOf exactCollide someMemory morton none ⟨0, 0, 0⟩ pairSameOctant =
        some [⟨0, 1⟩] ∧
      ∀ p ∈ [(⟨0, 1⟩ : CollisionPair)], p.id0 < p.id1 :=
  ⟨by decide, record_key_inj morton_parityRespecting, by decide!,
    (pairs_have_smaller_id_first exactCollide someMemory morton none ⟨0, 0, 0⟩ pairSameOctant
      [⟨0, 1⟩] (by decide) (record_key_inj morton_parityRespecting) (by decide!)).2.2⟩

/-- C38: for every buffer with `m_size ≤ m_capacity` and every `n`, each overload of `resize`
(`resize(n)`, `resize(n, op, byte)` for every operation `op`, `resize(n, value)`) leaves
`m_size = n` and `m_capacity = max (old capacity) n`, so that `m_size ≤ m_capacity` still holds
and the capacity is not reduced; `shrink_to_fit` leaves `m_size` as it is and makes
`m_capacity` equal to it. -/
theorem resize_size_and_capacity {α : Type} (junk : Nat → α) (zero byteValue value : α)
    (b : DeviceBuffer α) (n : Nat) (op : BufferOperation) (hb : b.m_size ≤ b.m_capacity) :
    ((b.resize junk zero n).m_size = n ∧
        (b.resize junk zero n).m_capacity = max b.m_capacity n ∧
        (b.resize junk zero n).m_size ≤ (b.resize junk zero n).m_capacity ∧
        b.m_capacity ≤ (b.resize junk zero n).m_capacity) ∧
      ((b.resizeOp junk byteValue n op).m_size = n ∧
        (b.resizeOp junk byteValue n op).m_capacity = max b.m_capacity n ∧
        (b.resizeOp junk byteValue n op).m_size ≤ (b.resizeOp junk byteValue n op).m_capacity ∧
        b.m_capacity ≤ (b.resizeOp junk byteValue n op).m_capacity) ∧
      ((b.resizeValue junk n value).m_size = n ∧
        (b.resizeValue junk n value).m_capacity = max b.m_capacity n ∧
        (b.resizeValue junk n value).m_size ≤ (b.resizeValue junk n value).m_capacity ∧
        b.m_capacity ≤ (b.resizeValue junk n value).m_capacity) ∧
      (b.shrink_to_fit junk).m_size = b.m_size ∧
      (b.shrink_to_fit junk).m_capacity = b.m_size := by
  obtain ⟨a1, a2⟩ := resize_size_capacity junk zero b n hb
  obtain ⟨b1, b2⟩ := resizeOp_size_capacity junk byteValue b n op hb
  obtain ⟨c1, c2⟩ := resizeValue_size_capacity junk b n value
  obtain ⟨d1, d2⟩ := shrink_size_capacity junk b hb
  refine ⟨⟨a1, a2, ?_, ?_⟩, ⟨b1, b2, ?_, ?_⟩, ⟨c1, c2, ?_, ?_⟩, d1, d2⟩
  · rw [a1, a2]; exact le_max_right _ _
  · rw [a2]; exact le_max_left _ _
  · rw [b1, b2]; exact le_max_right _ _
  · rw [b2]; exact le_max_left _ _
  · rw [c1, c2]; exact le_max_right _ _
  · rw [c2]; exact le_max_left _ _

/-- C38 (witness): a buffer of size 2 and capacity 3 resized to 5 with the operation
`keep_set`. -/
theorem resize_size_and_capacity_witness :
    (⟨[1, 2, 3], 2, 3⟩ : DeviceBuffer Nat).m_size ≤
        (⟨[1, 2, 3], 2, 3⟩ : DeviceBuffer Nat).m_capacity ∧
      ((⟨[1, 2, 3], 2, 3⟩ : DeviceBuffer Nat).resizeOp (fun i => 1000 + i) 255 5
        BufferOperation.keep_set).m_size = 5 ∧
      ((⟨[1, 2, 3], 2, 3⟩ : DeviceBuffer Nat).resizeOp (fun i => 1000 + i) 255 5
        BufferOperation.keep_set).m_capacity = max 3 5 :=
  ⟨by decide,
    (resize_size_and_capacity (fun i => 1000 + i) 0 255 7 (⟨[1, 2, 3], 2, 3⟩ : DeviceBuffer Nat) 5
      BufferOperation.keep_set (by decide)).2.1.1,
    (resize_size_and_capacity (fun i => 1000 + i) 0 255 7 (⟨[1, 2, 3], 2, 3⟩ : DeviceBuffer Nat) 5
      BufferOperation.keep_set (by decide)).2.1.2.1⟩

/-- C39: for every buffer (allocation of `m_capacity` elements, of which `m = m_size` are in
use) and every `n`, after `resize(n)` element `i` has its previous value for every
`i < min m n` and is the all-zero value for every `m ≤ i < n`, whether the buffer grows within
its capacity or is reallocated; in particular values written past the old size through the raw
pointer before the call (`store`) are replaced by zeros. -/
theorem resize_keeps_and_zero_fills {α : Type} (junk : Nat → α) (zero : α)
    (b : DeviceBuffer α) (n : Nat) (hb : b.WellFormed) :
    (∀ i, i < min b.m_size n →
        (b.resize junk zero n).m_data[i]? = b.m_data[i]? ∧ b.m_data[i]?.isSome = true) ∧
      (∀ i, b.m_size ≤ i → i < n → (b.resize junk zero n).m_data[i]? = some zero) ∧
      ∀ vals : List α, vals.length ≤ b.m_capacity → ∀ i, b.m_size ≤ i → i < n →
        ((b.store vals).resize junk zero n).m_data[i]? = some zero := by
  obtain ⟨h1, h2⟩ := resize_elements junk zero b n hb
  refine ⟨fun i hi => ⟨h1 i hi, ?_⟩, h2, ?_⟩
  · obtain ⟨w1, w2⟩ := hb
    rw [List.getElem?_eq_getElem (by omega)]
    rfl
  · intro vals hv i hi hn
    exact (resize_elements junk zero (b.store vals) n (store_wellFormed b vals hb hv)).2 i hi hn

/-- C39 (witness): a buffer of size 2 and capacity 4 that holds `1, 2, 3, 4` is resized to 3
within its capacity; element 2, which held `3`, is zero afterwards. -/
theorem resize_keeps_and_zero_fills_witness :
    (⟨[1, 2, 3, 4], 2, 4⟩ : DeviceBuffer Nat).WellFormed ∧
      ((⟨[1, 2, 3, 4], 2, 4⟩ : DeviceBuffer Nat).resize (fun i => 1000 + i) 0 3).m_data[2]? =
        some 0 :=
  ⟨⟨rfl, by decide⟩,
    (resize_keeps_and_zero_fills (fun i => 1000 + i) 0 (⟨[1, 2, 3, 4], 2, 4⟩ : DeviceBuffer Nat) 3
      ⟨rfl, by decide⟩).2.1 2 (by decide) (by decide)⟩

end muda
